import Mathlib

/-!
# MetaSQL (OpenRPT): a shallow embedding of `src/MetaSQL/metasql.cpp`

The template engine of `metasql.cpp` is embedded as executable Lean definitions:

* `std::string` is `Str` (a list of `char`s); `std::size_t` is a natural number reduced modulo
  `2 ^ 64`, with `npos = 2 ^ 64 - 1`;
* an operation that throws `std::out_of_range` (`at`, `substr`) returns `none`;
* the node classes `MetaSQLString`, `MetaSQLComment`, `MetaSQLFunction`, `MetaSQLBlock` are the
  constructors of `MetaSQLOutput`; the virtual method `toString` is one recursive function;
* the out-parameters `int * nBreaks`, `bool * isContinue` are optional cells of the evaluation
  state (`none` is the null pointer);
* the `while` loop of `parse_query` is iterated with fuel; the tree under construction, reached in
  the source through the pointer stack `_blocks`, is kept as a stack of open blocks.
-/

set_option autoImplicit false
set_option maxRecDepth 100000

namespace MetaSQL

/-! ## Strings and `std::size_t` -/

/-- A `std::string`: the sequence of its `char`s. -/
abbrev Str := List Char

/-- The value `std::string::npos`, the largest `std::size_t`. -/
def npos : Nat := 18446744073709551615

/-- Arithmetic on `std::size_t` wraps around modulo `2 ^ 64`. -/
def sizeT (n : Nat) : Nat := n % 18446744073709551616

/-- The character `'` (code 39). -/
def squote : Char := Char.ofNat 39

/-- The character `"` (code 34). -/
def dquote : Char := Char.ofNat 34

/-- The character `\` (code 92). -/
def backslash : Char := Char.ofNat 92

/-- The predicate `std::isspace` of the C locale: space, `\t`, `\n`, `\v`, `\f`, `\r`. -/
def isspace (c : Char) : Bool := c.toNat == 32 || (9 ≤ c.toNat && c.toNat ≤ 13)

/-- The function `::tolower` of the C locale. -/
def tolower (c : Char) : Char :=
  if 65 ≤ c.toNat ∧ c.toNat ≤ 90 then Char.ofNat (c.toNat + 32) else c

/-- Lower case a string (`strlower`). -/
def strlower (cs : Str) : Str := cs.map tolower

/-- Trim from start (`ltrim`). -/
def ltrim (cs : Str) : Str := cs.dropWhile isspace

/-- Trim from end (`rtrim`). -/
def rtrim (cs : Str) : Str := (cs.reverse.dropWhile isspace).reverse

/-- Trim from both ends (`trim`). -/
def trim (s : Str) : Str := ltrim (rtrim s)

/-- The word characters `__wordchars`. -/
def wordchars : Str :=
  "abcdefghijklmnopqrstuvwxyzABCDEFGHIJKLMNOPQRSTUVWXYZ0123456789_".toList

/-- `s` begins with `pat`. -/
def startsWith : Str → Str → Bool
  | _, [] => true
  | [], _ :: _ => false
  | c :: cs, p :: ps => c == p && startsWith cs ps

/-- Position, counted from `i`, of the first character satisfying `p`; `npos` when there is none. -/
def findFrom (p : Char → Bool) : Str → Nat → Nat
  | [], _ => npos
  | c :: cs, i => if p c then i else findFrom p cs (i + 1)

/-- Position, counted from `i`, of the first occurrence of `pat`; `npos` when there is none. -/
def findStrFrom (pat : Str) : Str → Nat → Nat
  | [], i => if pat.isEmpty then i else npos
  | c :: cs, i => if startsWith (c :: cs) pat then i else findStrFrom pat cs (i + 1)

/-- The call `s.find_first_of(set, pos)`. -/
def find_first_of (s set : Str) (pos : Nat) : Nat :=
  if pos < s.length then findFrom (fun c => set.elem c) (s.drop pos) pos else npos

/-- The call `s.find_first_not_of(set)`. -/
def find_first_not_of (s set : Str) : Nat :=
  findFrom (fun c => !set.elem c) s 0

/-- The call `s.find(pat, pos)`. -/
def find (s pat : Str) (pos : Nat) : Nat :=
  if pos ≤ s.length then findStrFrom pat (s.drop pos) pos else npos

/-- The call `s.at(pos)`: `none` stands for the exception `std::out_of_range`. -/
def strAt (s : Str) (pos : Nat) : Option Char := s.get? pos

/-- The call `s.substr(pos, len)`: `none` stands for `std::out_of_range` (`pos > size()`). -/
def substr (s : Str) (pos len : Nat) : Option Str :=
  if pos ≤ s.length then some ((s.drop pos).take (min len (s.length - pos))) else none

/-- Decimal digits of `n`, most significant first, with recursion fuel. -/
def decDigits : Nat → Nat → Str
  | 0, _ => []
  | f + 1, n =>
    if n < 10 then [Nat.digitChar n] else decDigits f (n / 10) ++ [Nat.digitChar (n % 10)]

/-- What `operator<<` writes for a non-negative `int`. -/
def natToStr (n : Nat) : Str := decDigits (n + 1) n

/-- What `operator<<` writes for an `int`. -/
def intToStr : Int → Str
  | Int.ofNat n => natToStr n
  | Int.negSucc n => '-' :: natToStr (n + 1)

/-- Value of a run of decimal digits. -/
def decValue (s : Str) : Nat := s.foldl (fun acc c => acc * 10 + (c.toNat - 48)) 0

/-- Integer read from the leading `[+-]digits` of a string, `0` when there are no digits. -/
def parseInt (s : Str) : Int :=
  match ltrim s with
  | '-' :: r => - (decValue (r.takeWhile Char.isDigit) : Int)
  | '+' :: r => (decValue (r.takeWhile Char.isDigit) : Int)
  | r => (decValue (r.takeWhile Char.isDigit) : Int)

/-! ## Values and the parameter environment -/

/-- Modelled from the spec: `QVariant` is the dynamically-typed Value of the engine (the Qt class
is not among the sources): null, boolean, integer, string, string list, or list of Value. Any other
scalar type (floating point, dates) is `other`, given by the three coercions the engine applies. -/
inductive QVariant where
  | invalid
  | bool (b : Bool)
  | int (i : Int)
  | string (s : Str)
  | stringList (l : List Str)
  | list (l : List QVariant)
  | other (asString : Str) (asInt : Int) (asBool : Bool)

mutual
/-- Equality of values is decidable. -/
def QVariant.decEq : (a b : QVariant) → Decidable (a = b)
  | .invalid, .invalid => isTrue rfl
  | .bool x, .bool y =>
    if h : x = y then isTrue (by rw [h])
    else isFalse (by intro h'; injection h' with h1; exact h h1)
  | .int x, .int y =>
    if h : x = y then isTrue (by rw [h])
    else isFalse (by intro h'; injection h' with h1; exact h h1)
  | .string x, .string y =>
    if h : x = y then isTrue (by rw [h])
    else isFalse (by intro h'; injection h' with h1; exact h h1)
  | .stringList x, .stringList y =>
    if h : x = y then isTrue (by rw [h])
    else isFalse (by intro h'; injection h' with h1; exact h h1)
  | .list x, .list y =>
    match QVariant.decEqList x y with
    | isTrue h => isTrue (by rw [h])
    | isFalse h => isFalse (by intro h'; injection h' with h1; exact h h1)
  | .other s i b, .other s' i' b' =>
    if h : s = s' ∧ i = i' ∧ b = b' then isTrue (by rw [h.1, h.2.1, h.2.2])
    else isFalse (by intro h'; injection h' with h1 h2 h3; exact h ⟨h1, h2, h3⟩)
  | .invalid, .bool _ | .invalid, .int _ | .invalid, .string _ | .invalid, .stringList _ | .invalid, .list _ | .invalid, .other _ _ _
  | .bool _, .invalid | .bool _, .int _ | .bool _, .string _ | .bool _, .stringList _ | .bool _, .list _ | .bool _, .other _ _ _
  | .int _, .invalid | .int _, .bool _ | .int _, .string _ | .int _, .stringList _ | .int _, .list _ | .int _, .other _ _ _
  | .string _, .invalid | .string _, .bool _ | .string _, .int _ | .string _, .stringList _ | .string _, .list _ | .string _, .other _ _ _
  | .stringList _, .invalid | .stringList _, .bool _ | .stringList _, .int _ | .stringList _, .string _ | .stringList _, .list _ | .stringList _, .other _ _ _
  | .list _, .invalid | .list _, .bool _ | .list _, .int _ | .list _, .string _ | .list _, .stringList _ | .list _, .other _ _ _
  | .other _ _ _, .invalid | .other _ _ _, .bool _ | .other _ _ _, .int _ | .other _ _ _, .string _ | .other _ _ _, .stringList _ | .other _ _ _, .list _ =>
    isFalse (by intro h; cases h)

/-- Equality of lists of values is decidable. -/
def QVariant.decEqList : (a b : List QVariant) → Decidable (a = b)
  | [], [] => isTrue rfl
  | [], _ :: _ => isFalse (by intro h; cases h)
  | _ :: _, [] => isFalse (by intro h; cases h)
  | x :: xs, y :: ys =>
    match QVariant.decEq x y, QVariant.decEqList xs ys with
    | isTrue h1, isTrue h2 => isTrue (by rw [h1, h2])
    | isFalse h1, _ => isFalse (by intro h'; injection h' with h3 h4; exact h1 h3)
    | _, isFalse h2 => isFalse (by intro h'; injection h' with h3 h4; exact h2 h4)
end

instance : DecidableEq QVariant := QVariant.decEq

instance : Inhabited QVariant := ⟨QVariant.invalid⟩

namespace QVariant

/-- The test `type() == QVariant::List || type() == QVariant::StringList`. -/
def isList : QVariant → Bool
  | list _ => true
  | stringList _ => true
  | _ => false

/-- The coercion `toList()`: an empty list for a value that is not a list. -/
def toList : QVariant → List QVariant
  | list l => l
  | stringList l => l.map string
  | _ => []

/-- The coercion `toInt()`. -/
def toInt : QVariant → Int
  | int i => i
  | bool b => if b then 1 else 0
  | string s => parseInt s
  | other _ i _ => i
  | _ => 0

/-- The coercion `toBool()`. -/
def toBool : QVariant → Bool
  | bool b => b
  | int i => i != 0
  | string s => !(s.isEmpty || s == ['0'] || strlower s == "false".toList)
  | other _ _ b => b
  | _ => false

/-- The coercion `toString()`, total on all variants. -/
def toStr : QVariant → Str
  | bool b => if b then "true".toList else "false".toList
  | int i => intToStr i
  | string s => s
  | stringList [s] => s
  | other s _ _ => s
  | _ => []

end QVariant

/-- The constant `_trueVariant`. -/
def trueVariant : QVariant := QVariant.bool true

/-- The constant `_falseVariant`. -/
def falseVariant : QVariant := QVariant.bool false

/-- Modelled from the spec: `ParameterList` (`parameter.h` is not among the sources) is an ordered
mapping from name to Value, enumerated in insertion order. -/
abbrev ParameterList := List (Str × QVariant)

/-- Modelled from the spec: lookup by name returning the Value plus a found flag
(`ParameterList::value(name, &found)`); the first entry of that name is the one found. -/
def ParameterList.value : ParameterList → Str → QVariant × Bool
  | [], _ => (QVariant.invalid, false)
  | (n, v) :: rest, name => if n = name then (v, true) else ParameterList.value rest name

/-- The suffix `__FOREACH_POS__` of the position entry of a loop variable. -/
def foreachPos : Str := "__FOREACH_POS__".toList

/-! ## The evaluation record `MetaSQLInfo` -/

/-- A `std::map<std::string,QVariant>`: at most one entry per key. -/
abbrev PMap := List (Str × QVariant)

/-- The lookup `m.find(k)`. -/
def PMap.get : PMap → Str → Option QVariant
  | [], _ => none
  | (n, v) :: rest, k => if n = k then some v else PMap.get rest k

/-- The assignment `m[k] = v`: overwrite the entry of `k`, or add one. -/
def PMap.set : PMap → Str → QVariant → PMap
  | [], k, v => [(k, v)]
  | (n, w) :: rest, k, v => if n = k then (n, v) :: rest else (n, w) :: PMap.set rest k v

/-- The keys of the map. -/
def PMap.keys (m : PMap) : List Str := m.map Prod.fst

/-- The order `operator<` of `std::string`: character by character, a proper beginning of a
string coming before the string. -/
def strLess : Str → Str → Bool
  | _, [] => false
  | [], _ :: _ => true
  | a :: as, b :: bs => decide (a.toNat < b.toNat) || (a == b && strLess as bs)

/-- The entry `e` put into a map that is in the order of its keys. -/
def PMap.insertInOrder (e : Str × QVariant) : PMap → PMap
  | [] => [e]
  | x :: rest => if strLess x.1 e.1 then x :: PMap.insertInOrder e rest else e :: x :: rest

/-- The entries of the map in the order in which an iterator of `std::map` visits them: by
key. -/
def PMap.inKeyOrder : PMap → PMap
  | [] => []
  | e :: rest => PMap.insertInOrder e (PMap.inKeyOrder rest)

/-- The class `MetaSQLInfo`: the placeholder counter and the placeholder-to-value map. -/
structure MetaSQLInfo where
  paramCount : Nat
  pList : PMap
  deriving DecidableEq

/-- The constructor `MetaSQLInfo()`. -/
def MetaSQLInfo.new : MetaSQLInfo := ⟨0, []⟩

/-! ## Output nodes -/

/-- The enumeration `MetaSQLFunction::Function`. -/
inductive Function where
  | FunctionUnknown
  | FunctionValue
  | FunctionLiteral
  | FunctionExists
  | FunctionReExists
  | FunctionIsFirst
  | FunctionIsLast
  | FunctionContinue
  | FunctionBreak
  deriving DecidableEq

/-- The enumeration `MetaSQLBlock::Block`. -/
inductive Block where
  | BlockGeneric
  | BlockUnknown
  | BlockIf
  | BlockElseIf
  | BlockElse
  | BlockForEach
  deriving DecidableEq

open Function Block

/-- The data members of a `MetaSQLFunction`. -/
structure MetaSQLFunction where
  valid : Bool
  noOutput : Bool
  func : Function
  params : List Str
  nBreaks : Int
  deriving DecidableEq

/-- The data members of a `MetaSQLBlock` other than its children `_items` and its alternate
`_alt`. -/
structure BlockHead where
  valid : Bool
  block : Block
  loopVar : Str
  ifNot : Bool
  ifFunc : Option MetaSQLFunction
  deriving DecidableEq

/-- The class hierarchy under `MetaSQLOutput`: `MetaSQLString`, `MetaSQLComment`,
`MetaSQLFunction`, and `MetaSQLBlock` with its children and its alternate. -/
inductive MetaSQLOutput where
  | string (s : Str)
  | comment (s : Str)
  | function (f : MetaSQLFunction)
  | block (b : BlockHead) (items : List MetaSQLOutput) (alt : Option MetaSQLOutput)

mutual
/-- Equality of output nodes is decidable. -/
def MetaSQLOutput.decEq : (a b : MetaSQLOutput) → Decidable (a = b)
  | .string x, .string y =>
    if h : x = y then isTrue (by rw [h])
    else isFalse (by intro h'; injection h' with h1; exact h h1)
  | .comment x, .comment y =>
    if h : x = y then isTrue (by rw [h])
    else isFalse (by intro h'; injection h' with h1; exact h h1)
  | .function x, .function y =>
    if h : x = y then isTrue (by rw [h])
    else isFalse (by intro h'; injection h' with h1; exact h h1)
  | .block b items alt, .block b' items' alt' =>
    match MetaSQLOutput.decEqList items items', MetaSQLOutput.decEqOption alt alt' with
    | isTrue h1, isTrue h2 =>
      if h : b = b' then isTrue (by rw [h, h1, h2])
      else isFalse (by intro h'; injection h' with h3 h4 h5; exact h h3)
    | isFalse h1, _ => isFalse (by intro h'; injection h' with h3 h4 h5; exact h1 h4)
    | _, isFalse h2 => isFalse (by intro h'; injection h' with h3 h4 h5; exact h2 h5)
  | .string _, .comment _ | .string _, .function _ | .string _, .block _ _ _
  | .comment _, .string _ | .comment _, .function _ | .comment _, .block _ _ _
  | .function _, .string _ | .function _, .comment _ | .function _, .block _ _ _
  | .block _ _ _, .string _ | .block _ _ _, .comment _ | .block _ _ _, .function _ =>
    isFalse (by intro h; cases h)

/-- Equality of lists of output nodes is decidable. -/
def MetaSQLOutput.decEqList : (a b : List MetaSQLOutput) → Decidable (a = b)
  | [], [] => isTrue rfl
  | [], _ :: _ => isFalse (by intro h; cases h)
  | _ :: _, [] => isFalse (by intro h; cases h)
  | x :: xs, y :: ys =>
    match MetaSQLOutput.decEq x y, MetaSQLOutput.decEqList xs ys with
    | isTrue h1, isTrue h2 => isTrue (by rw [h1, h2])
    | isFalse h1, _ => isFalse (by intro h'; injection h' with h3 h4; exact h1 h3)
    | _, isFalse h2 => isFalse (by intro h'; injection h' with h3 h4; exact h2 h4)

/-- Equality of optional output nodes is decidable. -/
def MetaSQLOutput.decEqOption : (a b : Option MetaSQLOutput) → Decidable (a = b)
  | none, none => isTrue rfl
  | none, some _ => isFalse (by intro h; cases h)
  | some _, none => isFalse (by intro h; cases h)
  | some x, some y =>
    match MetaSQLOutput.decEq x y with
    | isTrue h => isTrue (by rw [h])
    | isFalse h => isFalse (by intro h'; injection h' with h1; exact h h1)
end

instance : DecidableEq MetaSQLOutput := MetaSQLOutput.decEq

instance : Inhabited MetaSQLOutput := ⟨MetaSQLOutput.string []⟩

/-- What a call of `toString` or `toVariant` can write: the `MetaSQLInfo`, the log of the owning
query (`_parent->_logger`), and the cells behind the pointers `nBreaks` and `isContinue` (`none`
for a null pointer). -/
structure EvalState where
  mif : MetaSQLInfo
  logger : Str
  nBreaks : Option Int
  isContinue : Option Bool
  deriving DecidableEq

/-- The text `_logger << ... << std::endl` appends. -/
def logLine (logger : Str) (msg : Str) : Str := logger ++ msg ++ ['\n']

/-- The digits at the start of `s`, and what follows them. -/
def spanDigits (s : Str) : Str × Str := (s.takeWhile Char.isDigit, s.dropWhile Char.isDigit)

/-- The exponent `e[+-]digits` at the start of `s`: `some 0` when `s` does not begin with `e` or
`E`, and `none` when no digit follows the `e` and its sign (the field is then not a number). -/
def readExponent (s : Str) : Option Int :=
  match s with
  | [] => some 0
  | c :: r =>
    if c = 'e' ∨ c = 'E' then
      match r with
      | '-' :: r2 =>
        if (spanDigits r2).1 = [] then none else some (- (decValue (spanDigits r2).1 : Int))
      | '+' :: r2 =>
        if (spanDigits r2).1 = [] then none else some (decValue (spanDigits r2).1 : Int)
      | r2 => if (spanDigits r2).1 = [] then none else some (decValue (spanDigits r2).1 : Int)
    else some 0

/-- The integer part of the `double` nearest to `num / den`. With `n` the integer part of
`num / den`, that `double` is `n + 1` when `num / den` is at most half a unit in the last place
below `n + 1` (a tie goes to `n + 1`, whose significand is even), and has the integer part `n`
otherwise; the unit in the last place below `2 ^ a` is `2 ^ (a - 53)`. Meant for values up to
`2 ^ 31`, where every integer is a `double`. -/
def truncDouble (num den : Nat) : Nat :=
  let n := num / den
  let a := Nat.log2 (n + 1)
  let h := if n + 1 = 2 ^ a then 54 - a else 53 - a
  if num * 2 ^ h ≥ ((n + 1) * 2 ^ h - 1) * den then n + 1 else n

/-- The conversion of a `double` of magnitude `v`, negative when `neg`, to `int`. A value
outside the range of `int` makes the conversion undefined; rendered is the result of the
conversion instruction of x86-64, which is `-2 ^ 31` for every such value. -/
def narrowToInt (neg : Bool) (v : Nat) : Int :=
  if neg then (if v ≤ 2147483648 then - (v : Int) else -2147483648)
  else (if v ≤ 2147483647 then (v : Int) else -2147483648)

/-- The conversion `_nBreaks = convertToDouble(params[0])` of a string to a `double`, narrowed to
`int`. The stream extraction `i >> x` is library code, rendered as the GNU C++ library reads a
field in the C locale: white space is skipped, then come an optional sign, digits with an
optional decimal point, and an optional exponent; the field is rounded to the nearest `double`.
The extraction fails, and `convertToDouble` gives `0.0`, when there is no digit, when an `e` is
not followed by a digit, and when the value is too large for a `double`. -/
def convertToDouble (s : Str) : Int :=
  let s1 := match ltrim s with
    | '-' :: r => r
    | '+' :: r => r
    | r => r
  let ip := (spanDigits s1).1
  let s2 := (spanDigits s1).2
  let fp := match s2 with
    | '.' :: r => (spanDigits r).1
    | _ => []
  let s3 := match s2 with
    | '.' :: r => (spanDigits r).2
    | r => r
  if ip = [] ∧ fp = [] then 0
  else
    match readExponent s3 with
    | none => 0
    | some e =>
      let m := decValue (ip ++ fp)
      let scale : Int := e - (fp.length : Int)
      let num := if 0 ≤ scale then m * 10 ^ scale.toNat else m
      let den := if 0 ≤ scale then 1 else 10 ^ (-scale).toNat
      if num ≥ (2 ^ 1024 - 2 ^ 970) * den then 0
      else narrowToInt ((ltrim s).head? = some '-') (truncDouble num den)

/-- The method `MetaSQLFunction::identifyFunction`, with the log. -/
def identifyFunction (logger : Str) (func : Str) : Function × Str :=
  let f := trim func
  if f = "value".toList then (FunctionValue, logger)
  else if f = "literal".toList then (FunctionLiteral, logger)
  else if f = "exists".toList then (FunctionExists, logger)
  else if f = "reexists".toList then (FunctionReExists, logger)
  else if f = "isfirst".toList then (FunctionIsFirst, logger)
  else if f = "islast".toList then (FunctionIsLast, logger)
  else if f = "continue".toList then (FunctionContinue, logger)
  else if f = "break".toList then (FunctionBreak, logger)
  else (FunctionUnknown,
    logLine logger ("Unable to identify function ".toList ++ [squote] ++ f ++ [squote, '!']))

/-- The constructor `MetaSQLFunction::MetaSQLFunction(parent, func, params)`, with the log. -/
def MetaSQLFunction.new (logger : Str) (func : Str) (params : List Str) :
    MetaSQLFunction × Str :=
  let (fn, logger) := identifyFunction logger func
  match fn with
  | FunctionUnknown => (⟨false, false, fn, params, 0⟩, logger)
  | FunctionContinue | FunctionBreak =>
    let n : Int := match params with
      | p :: _ => convertToDouble p
      | [] => 0
    (⟨true, true, fn, params, if n < 1 then 1 else n⟩, logger)
  | _ => (⟨decide (params.length ≥ 1), false, fn, params, 0⟩, logger)

/-- The printed form `(int)_func` of a function type. -/
def Function.toInt : Function → Nat
  | FunctionUnknown => 0
  | FunctionValue => 1
  | FunctionLiteral => 2
  | FunctionExists => 3
  | FunctionReExists => 4
  | FunctionIsFirst => 5
  | FunctionIsLast => 6
  | FunctionContinue => 7
  | FunctionBreak => 8

/-- The method `MetaSQLFunction::toVariant(params, nBreaks, isContinue)`.

`regexec pattern name` stands for `regcomp` followed by `regexec` of the bundled regex library:
`none` when the pattern does not compile, else whether `name` matches. The result `none` of
`toVariant` itself is an element access outside a `QList` (`operator[]`, `first()`) or outside
`_params`. -/
def MetaSQLFunction.toVariant (regexec : Str → Str → Option Bool) (f : MetaSQLFunction)
    (params : ParameterList) (st : EvalState) : Option (QVariant × EvalState) :=
  if f.valid then
    match f.func with
    | FunctionValue | FunctionLiteral =>
      match f.params with
      | [] => none
      | str :: _ =>
        let val := (params.value str).1
        if val.isList then
          let t := params.value (str ++ foreachPos)
          if t.2 then
            if 0 ≤ t.1.toInt then
              match val.toList.get? t.1.toInt.toNat with
              | some x => some (x, st)
              | none => none
            else none
          else
            match val.toList with
            | x :: _ => some (x, st)
            | [] => none
        else some (val, st)
    | FunctionExists =>
      match f.params with
      | [] => none
      | str :: _ => some (if (params.value str).2 then trueVariant else falseVariant, st)
    | FunctionReExists =>
      match f.params with
      | [] => none
      | r :: _ =>
        some (if params.any (fun p => regexec r p.1 == some true) then trueVariant
          else QVariant.invalid, st)
    | FunctionIsFirst | FunctionIsLast =>
      match f.params with
      | [] => none
      | str :: _ =>
        let t := params.value str
        if t.2 then
          if t.1.isList then
            let t2 := params.value (str ++ foreachPos)
            let pos : Int := if t2.2 then t2.1.toInt else 0
            let l := t.1.toList
            if l.length > 0 then
              if f.func = FunctionIsFirst ∧ pos = 0 then some (trueVariant, st)
              else if f.func = FunctionIsLast ∧ pos + 1 = l.length then some (trueVariant, st)
              else some (falseVariant, st)
            else some (falseVariant, st)
          else some (trueVariant, st)
        else some (falseVariant, st)
    | FunctionContinue | FunctionBreak =>
      match st.nBreaks, st.isContinue with
      | some _, some _ =>
        some (QVariant.invalid,
          { st with nBreaks := some f.nBreaks,
                    isContinue := some (decide (f.func = FunctionContinue)) })
      | _, _ => some (QVariant.invalid, st)
    | FunctionUnknown =>
      some (QVariant.invalid,
        { st with logger := (logLine st.logger
            ("MetaSQLFunction::toVariant() encountered unknown Function Type ".toList
              ++ natToStr f.func.toInt ++ ['!'])) })
  else some (QVariant.invalid, st)

/-- The name `_k_` of the placeholder of index `k`. -/
def placeholder (k : Nat) : Str := '_' :: natToStr k ++ ['_']

/-- The method `MetaSQLFunction::toString(mif, params, nBreaks, isContinue)`. -/
def MetaSQLFunction.toString (regexec : Str → Str → Option Bool) (f : MetaSQLFunction)
    (params : ParameterList) (st : EvalState) : Option (Str × EvalState) :=
  if f.noOutput then some ([], st)
  else
    match f.toVariant regexec params st with
    | none => none
    | some (v, st) =>
      if f.func = FunctionLiteral then some (v.toStr, st)
      else
        let count := st.mif.paramCount + 1
        let n := placeholder count
        some (n ++ [' '], { st with mif := ⟨count, st.mif.pList.set n v⟩ })

/-- The parameter list of one `foreach` iteration: the position entry of the loop variable first,
then every entry of `params` that is not such a position entry. -/
def foreachParams (str : Str) (ui : Nat) (params : ParameterList) : ParameterList :=
  (str, QVariant.int ui) :: params.filter (fun p => p.1 != str)

/-- The `for(ui = 0; ui < lc; ui++)` loop of a `foreach` block, entered at index `ui` with
`n = lc - ui` iterations left. `body` executes the children on the parameter list of the iteration,
with the cells `myBreaks` and `myContinue` in place of the caller's. -/
def forEachLoop (body : ParameterList → EvalState → Option (Str × EvalState))
    (str : Str) (params : ParameterList) :
    Nat → Nat → EvalState → Option (Str × EvalState)
  | 0, _, st => some ([], st)
  | n + 1, ui, st =>
    match body (foreachParams str ui params)
        { st with nBreaks := some 0, isContinue := some false } with
    | none => none
    | some (r, st1) =>
      let myBreaks : Int := st1.nBreaks.getD 0
      let myContinue : Bool := st1.isContinue.getD false
      let back : EvalState := { st1 with nBreaks := st.nBreaks, isContinue := st.isContinue }
      if myBreaks > 0 ∧ (myBreaks - 1 > 0 ∨ myContinue = false) then
        some (r, { back with nBreaks := st.nBreaks.map (fun _ => myBreaks - 1),
                             isContinue := st.isContinue.map (fun _ => myContinue) })
      else
        match forEachLoop body str params n (ui + 1) back with
        | none => none
        | some (r2, st2) => some (r ++ r2, st2)

/-- The printed form `(int)_block` of a block type. -/
def Block.toInt : Block → Int
  | BlockGeneric => -1
  | BlockUnknown => 0
  | BlockIf => 1
  | BlockElseIf => 2
  | BlockElse => 3
  | BlockForEach => 4

mutual
/-- The virtual method `toString(mif, params, nBreaks, isContinue)` of the four node classes. -/
def MetaSQLOutput.toString (regexec : Str → Str → Option Bool) :
    MetaSQLOutput → ParameterList → EvalState → Option (Str × EvalState)
  | .string s, _, st => some (s, st)
  | .comment _, _, st => some ([' '], st)
  | .function f, params, st => f.toString regexec params st
  | .block b items alt, params, st =>
    match b.block with
    | BlockIf | BlockElseIf =>
      match b.ifFunc with
      | none => none
      | some f =>
        match f.toVariant regexec params st with
        | none => none
        | some (v, st1) =>
          if (if b.ifNot then !v.toBool else v.toBool) then
            toStringItems regexec items params st1
          else toStringAlt regexec alt params st1
    | BlockForEach =>
      let v := params.value b.loopVar
      if v.2 then
        forEachLoop (fun pList s => toStringItems regexec items pList s)
          (b.loopVar ++ foreachPos) params v.1.toList.length 0 st
      else some ([], st)
    | BlockElse | BlockGeneric => toStringItems regexec items params st
    | BlockUnknown =>
      some ([], { st with logger := (logLine st.logger
        ("Encountered unknown Block type ".toList ++ intToStr b.block.toInt ++ ['.'])) })

/-- The loop `for(ui = 0; ui < _items.size(); ui++)` over the children of a block:
`results += output->toString(...); if(nBreaks && *nBreaks) break;`. -/
def toStringItems (regexec : Str → Str → Option Bool) :
    List MetaSQLOutput → ParameterList → EvalState → Option (Str × EvalState)
  | [], _, st => some ([], st)
  | output :: rest, params, st =>
    match output.toString regexec params st with
    | none => none
    | some (r, st1) =>
      if st1.nBreaks.getD 0 ≠ 0 then some (r, st1)
      else
        match toStringItems regexec rest params st1 with
        | none => none
        | some (r2, st2) => some (r ++ r2, st2)

/-- The branch `else if(_alt) results = _alt->toString(...)`. -/
def toStringAlt (regexec : Str → Str → Option Bool) :
    Option MetaSQLOutput → ParameterList → EvalState → Option (Str × EvalState)
  | none, _, st => some ([], st)
  | some a, params, st => a.toString regexec params st
end

/-! ## The query object and `populate` -/

/-- The data members of `MetaSQLQueryPrivate`. -/
structure MetaSQLQueryPrivate where
  valid : Bool
  top : Option MetaSQLOutput
  logger : Str
  deriving DecidableEq

/-- The constructor `MetaSQLQueryPrivate()`. -/
def MetaSQLQueryPrivate.new : MetaSQLQueryPrivate := ⟨false, none, []⟩

/-- The method `MetaSQLQueryPrivate::populate(params, mif)`: the text of the root block, trimmed,
with the `MetaSQLInfo` and the log it leaves. The root is evaluated with null `nBreaks` and
`isContinue`. -/
def MetaSQLQueryPrivate.populate (regexec : Str → Str → Option Bool) (d : MetaSQLQueryPrivate)
    (params : ParameterList) (mif : MetaSQLInfo) : Option (Str × MetaSQLInfo × Str) :=
  match d.top with
  | none => some ([], mif, d.logger)
  | some top =>
    match top.toString regexec params ⟨mif, d.logger, none, none⟩ with
    | none => none
    | some (r, st) => some (trim r, st.mif, st.logger)

/-! ## Block construction -/

/-- The method `MetaSQLBlock::identifyBlock`, with the log. -/
def identifyBlock (logger : Str) (block : Str) : Block × Str :=
  if block = "generic".toList then (BlockGeneric, logger)
  else if block = "if".toList then (BlockIf, logger)
  else if block = "elseif".toList then (BlockElseIf, logger)
  else if block = "else".toList then (BlockElse, logger)
  else if block = "foreach".toList then (BlockForEach, logger)
  else (BlockUnknown,
    logLine logger ("Unable to identify block ".toList ++ [squote] ++ block ++ [squote, '!']))

/-- Split at the first character that is not a word character:
`i = s.find_first_not_of(__wordchars)`, `cmd = s.substr(0, i)`, `options = s.substr(i)`. -/
def splitCommand (s : Str) : Str × Str :=
  let i := find_first_not_of s wordchars
  if i = npos then (s, []) else (s.take i, s.drop i)

/-- The `for(p = 0; p < options.size(); p++)` loop that parses an argument list, on the characters
from `p` on. It returns `wip` and `plist` as the loop leaves them; `none` is the exception of
`options.at(++p)` after a backslash that ends the options. -/
def argLoop (enclosed : Bool) :
    Str → Bool → Bool → Char → Str → List Str → Option (Str × List Str)
  | [], _, _, _, wip, plist => some (wip, plist)
  | qc :: rest, working, in_string, string_starter, wip, plist =>
    if !working && enclosed && qc == '(' then
      argLoop enclosed rest true in_string string_starter wip plist
    else if in_string then
      if qc == backslash then
        match rest with
        | [] => none
        | c :: rest2 => argLoop enclosed rest2 working in_string string_starter (wip ++ [c]) plist
      else if qc == string_starter then
        argLoop enclosed rest working false string_starter wip plist
      else argLoop enclosed rest working in_string string_starter (wip ++ [qc]) plist
    else
      if qc == ',' then argLoop enclosed rest working in_string string_starter [] (plist ++ [wip])
      else if isspace qc then argLoop enclosed rest working in_string string_starter wip plist
      else if qc == squote || qc == dquote then argLoop enclosed rest working true qc wip plist
      else if enclosed && qc == ')' then some (wip, plist)
      else argLoop enclosed rest working in_string string_starter (wip ++ [qc]) plist

/-- The parameters of a function, parsed from its (trimmed) options. -/
def parseParams (options : Str) : Option (List Str) :=
  match options with
  | [] => some []
  | qc :: _ =>
    let enclosed := qc == '('
    match argLoop enclosed options (!enclosed) false dquote [] [] with
    | none => none
    | some (wip, plist) => some (if wip.isEmpty then plist else plist ++ [wip])

/-- The `for(p = 0; p < tmp.size(); p++)` loop that reads the loop variable of a `foreach`; `none`
is the exception of `tmp.at(++p)`. -/
def loopVarLoop : Str → Bool → Int → Char → Str → Option Str
  | [], _, _, _, wip => some wip
  | qc :: rest, in_string, in_list, string_starter, wip =>
    if in_string then
      if qc == backslash then
        match rest with
        | [] => none
        | c :: rest2 => loopVarLoop rest2 in_string in_list string_starter (wip ++ [c])
      else if qc == string_starter then loopVarLoop rest false in_list string_starter wip
      else loopVarLoop rest in_string in_list string_starter (wip ++ [qc])
    else
      if qc == '(' then loopVarLoop rest in_string (in_list + 1) string_starter wip
      else if qc == ')' then
        if in_list - 1 < 1 then some wip
        else loopVarLoop rest in_string (in_list - 1) string_starter wip
      else if qc == squote || qc == dquote then loopVarLoop rest true in_list qc wip
      else if qc == ',' then some wip
      else loopVarLoop rest in_string in_list string_starter wip

/-- The constructor `MetaSQLBlock::MetaSQLBlock(parent, pCmd, pOptions)`, with the log; `none` is
an exception thrown while the options are parsed. -/
def MetaSQLBlock.new (logger : Str) (pCmd pOptions : Str) : Option (BlockHead × Str) :=
  let (block, logger) := identifyBlock logger pCmd
  match block with
  | BlockGeneric | BlockElse => some (⟨true, block, [], false, none⟩, logger)
  | BlockIf | BlockElseIf =>
    let wip := trim pOptions
    let if_not := strlower (wip.take 4) == "not ".toList
    let wip := if if_not then wip.drop 4 else wip
    let (cmd, options) := splitCommand wip
    let cmd := strlower cmd
    let options := trim options
    match parseParams options with
    | none => none
    | some plist =>
      let (if_func, logger) := MetaSQLFunction.new logger cmd plist
      if !if_func.valid then
        some (⟨false, block, [], if_not, none⟩,
          logLine logger ("Failed to create new ".toList ++ cmd ++ " function in if/elseif.".toList))
      else some (⟨true, block, [], if_not, some if_func⟩, logger)
  | BlockForEach =>
    match loopVarLoop (trim pOptions) false 0 dquote [] with
    | none => none
    | some wip =>
      if !wip.isEmpty then some (⟨true, block, wip, false, none⟩, logger)
      else some (⟨false, block, [], false, none⟩, logger)
  | BlockUnknown =>
    some (⟨false, block, [], false, none⟩,
      logLine logger ("MetaSQLBlock::MetaSQLBlock() encountered unknown Block Type ".toList
        ++ intToStr block.toInt ++ ['!']))

/-! ## The stack of open blocks

In the source every block is linked into the tree when it is created and is filled afterwards
through the pointer `_current`; `_blocks` holds the open blocks. Here an open block carries its
children so far and the earlier blocks of its `if` chain, whose alternate it is; it is linked into
its parent when the tree is read off (`closeAll`). Only the innermost open block ever changes, so
the tree read off is the tree the pointers of the source reach from `_top`. -/

/-- An element of `_blocks`: an open block, its children so far, and the blocks of the same chain
that precede it (nearest first), each with its children. -/
structure OpenBlock where
  head : BlockHead
  items : List MetaSQLOutput
  chain : List (BlockHead × List MetaSQLOutput)
  deriving DecidableEq

/-- The node an open block stands for: the first block of its chain, each block of the chain having
the next as `_alt`. -/
def OpenBlock.close (b : OpenBlock) : MetaSQLOutput :=
  b.chain.foldl (fun acc p => MetaSQLOutput.block p.1 p.2 (some acc))
    (MetaSQLOutput.block b.head b.items none)

/-- The method `MetaSQLBlock::append` applied to an open block. -/
def OpenBlock.append (b : OpenBlock) (mso : MetaSQLOutput) : OpenBlock :=
  { b with items := b.items ++ [mso] }

/-- The tree with `child` as last child of the innermost block of `blocks`. -/
def closeInto (child : MetaSQLOutput) : List OpenBlock → MetaSQLOutput
  | [] => child
  | b :: rest => closeInto (b.append child).close rest

/-- The tree `_top` points to, given the open blocks (innermost first). -/
def closeAll : List OpenBlock → Option MetaSQLOutput
  | [] => none
  | b :: rest => some (closeInto b.close rest)

/-- The statement `_current->append(mso)`. -/
def appendCurrent (blocks : List OpenBlock) (mso : MetaSQLOutput) : List OpenBlock :=
  match blocks with
  | [] => []
  | b :: rest => b.append mso :: rest

/-- The type `_current->type()`. -/
def currentType (blocks : List OpenBlock) : Block :=
  match blocks with
  | [] => BlockUnknown
  | b :: _ => b.head.block

/-! ## `parse_query` -/

/-- How the handling of one directive ends: the tree builder goes on, or `parse_query` returns
`false` (after `_valid = false`), or an exception leaves `parse_query`. -/
inductive DirectiveResult where
  | ok (blocks : List OpenBlock) (logger : Str)
  | failed (logger : Str)
  | thrown
  deriving DecidableEq

/-- The branches of `parse_query` on the command of a directive (`cmd` lower-cased, `options` the
rest of the directive). -/
def directive (cmd options : Str) (blocks : List OpenBlock) (logger : Str) : DirectiveResult :=
  if cmd = "endif".toList ∨ cmd = "endforeach".toList then
    let _block := currentType blocks
    if (cmd = "endif".toList ∧ (_block = BlockIf ∨ _block = BlockElseIf ∨ _block = BlockElse))
        ∨ (cmd = "endforeach".toList ∧ _block = BlockForEach) then
      match blocks with
      | b :: parent :: rest => DirectiveResult.ok (parent.append b.close :: rest) logger
      | _ => DirectiveResult.thrown
    else
      DirectiveResult.failed
        (logLine logger ("Encountered an unexpected ".toList ++ cmd ++ ['.']))
  else if cmd = "if".toList ∨ cmd = "foreach".toList then
    match MetaSQLBlock.new logger cmd options with
    | none => DirectiveResult.thrown
    | some (b, logger) =>
      if b.valid then DirectiveResult.ok (⟨b, [], []⟩ :: blocks) logger
      else
        DirectiveResult.failed
          (logLine logger ("Failed to create new ".toList ++ cmd ++ " block.".toList))
  else if cmd = "elseif".toList ∨ cmd = "else".toList then
    if currentType blocks = BlockElse then
      DirectiveResult.failed (logLine logger
        ("Encountered unexpected ".toList ++ cmd ++ " statement within else block.".toList))
    else if currentType blocks ≠ BlockIf ∧ currentType blocks ≠ BlockElseIf then
      DirectiveResult.failed (logLine logger
        ("Encountered unexpected ".toList ++ cmd
          ++ " statement outside of if/elseif block.".toList))
    else
      match MetaSQLBlock.new logger cmd options with
      | none => DirectiveResult.thrown
      | some (b, logger) =>
        if b.valid then
          match blocks with
          | cur :: rest =>
            DirectiveResult.ok (⟨b, [], (cur.head, cur.items) :: cur.chain⟩ :: rest) logger
          | [] => DirectiveResult.thrown
        else
          DirectiveResult.failed
            (logLine logger ("Failed to create new ".toList ++ cmd ++ " block.".toList))
  else
    match parseParams (trim options) with
    | none => DirectiveResult.thrown
    | some plist =>
      let (f, logger) := MetaSQLFunction.new logger cmd plist
      if f.valid then DirectiveResult.ok (appendCurrent blocks (MetaSQLOutput.function f)) logger
      else
        DirectiveResult.failed
          (logLine logger ("Failed to create new ".toList ++ cmd ++ " function.".toList))

/-- The local state of `parse_query` between two iterations of its `while` loop. -/
structure ParseState where
  lastPos : Nat
  currPos : Nat
  blocks : List OpenBlock
  logger : Str
  deriving DecidableEq

/-- How a call of `parse_query` ends: it returns a value, or `std::out_of_range` leaves it. The
query object is given as the call leaves it. -/
inductive ParseResult where
  | returned (value : Bool) (d : MetaSQLQueryPrivate)
  | thrown (d : MetaSQLQueryPrivate)
  deriving DecidableEq

/-- The `do ... while` loop that looks for the end of a quoted string:
`currPos += 2; currPos = query.find_first_of(needle, currPos);` repeated while the position found
holds a backslash. `none`: out of fuel. -/
def skipString (query needle : Str) : Nat → Nat → Option Nat
  | 0, _ => none
  | fuel + 1, currPos =>
    let currPos := find_first_of query needle (sizeT (currPos + 2))
    if currPos ≠ npos ∧ strAt query currPos = some backslash then skipString query needle fuel currPos
    else some currPos

/-- The `do ... while` loop that looks for the end of a block comment opened at `lastPos`:
a comment start found before the tracked end moves the end to the next `*/`. `none`: out of
fuel. -/
def commentEnd (query : Str) (lastPos : Nat) : Nat → Nat → Nat → Option Nat
  | 0, _, _ => none
  | fuel + 1, s2, currPos =>
    let s2 := find query "/*".toList (sizeT (s2 + 1))
    let currPos :=
      if s2 > lastPos ∧ s2 < currPos then find query "*/".toList (sizeT (currPos + 1)) else currPos
    if s2 > lastPos ∧ s2 < currPos then commentEnd query lastPos fuel s2 currPos
    else some currPos

/-- The classification `foundWhat` of the character at `currPos`: `1` for `--`, `2` for `/*`,
`3` for `<?`, `0` otherwise; `none` is the exception of `query.at(currPos+1)`. -/
def foundWhat (query : Str) (currPos : Nat) : Option Nat :=
  match strAt query currPos with
  | none => none
  | some c =>
    if c = '-' then
      match strAt query (sizeT (currPos + 1)) with
      | none => none
      | some d => some (if d = '-' then 1 else 0)
    else if c = '/' then
      match strAt query (sizeT (currPos + 1)) with
      | none => none
      | some d => some (if d = '*' then 2 else 0)
    else if c = '<' then
      match strAt query (sizeT (currPos + 1)) with
      | none => none
      | some d => some (if d = '?' then 3 else 0)
    else some 0

/-- The piece `query.substr(lastPos, (currPos==npos ? currPos : currPos-lastPos))`. -/
def piece (query : Str) (lastPos currPos : Nat) : Option Str :=
  substr query lastPos
    (if currPos = npos then currPos else sizeT (currPos + 18446744073709551616 - lastPos))

/-- How one iteration of the `while` loop of `parse_query` ends: at the loop test again, or with
the end of the call (`return false`, or an exception). -/
inductive Step where
  | next (st : ParseState)
  | done (r : ParseResult)
  deriving DecidableEq

/-- The branch of the loop body for a quote at `currPos`: the quoted string is jumped over and the
loop continues (`continue`). `none`: out of fuel. -/
def stepString (query : Str) (fuel : Nat) (st : ParseState) (currPos : Nat) : Option Step :=
  let needle := backslash :: (strAt query currPos).toList
  match skipString query needle fuel (sizeT (currPos + 18446744073709551615)) with
  | none => none
  | some currPos =>
    let currPos := if currPos ≠ npos then sizeT (currPos + 1) else currPos
    some (Step.next { st with currPos := currPos })

/-- The branch `foundWhat == 1` of the loop body, then `lastPos = currPos`: a line comment. -/
def stepLineComment (query : Str) (valid : Bool) (logger : Str) (blocks : List OpenBlock)
    (currPos : Nat) : Step :=
  let lastPos := currPos
  let currPos := find_first_of query ['\r', '\n'] lastPos
  match piece query lastPos currPos with
  | none => Step.done (ParseResult.thrown ⟨valid, closeAll blocks, logger⟩)
  | some c => Step.next ⟨currPos, currPos, appendCurrent blocks (MetaSQLOutput.comment c), logger⟩

/-- The branch `foundWhat == 2` of the loop body, then `lastPos = currPos`: a block comment.
`none`: out of fuel. -/
def stepBlockComment (query : Str) (valid : Bool) (fuel : Nat) (logger : Str)
    (blocks : List OpenBlock) (currPos : Nat) : Option Step :=
  let lastPos := currPos
  match commentEnd query lastPos fuel lastPos (find query "*/".toList lastPos) with
  | none => none
  | some currPos =>
    let currPos := if currPos ≠ npos then sizeT (currPos + 1) else currPos
    match piece query lastPos currPos with
    | none => some (Step.done (ParseResult.thrown ⟨valid, closeAll blocks, logger⟩))
    | some c =>
      let currPos := if currPos ≠ npos then sizeT (currPos + 1) else currPos
      some (Step.next ⟨currPos, currPos, appendCurrent blocks (MetaSQLOutput.comment c), logger⟩)

/-- The branch `foundWhat == 3` of the loop body, then `lastPos = currPos`: a directive. -/
def stepDirective (query : Str) (valid : Bool) (logger : Str) (blocks : List OpenBlock)
    (currPos : Nat) : Step :=
  let lastPos := sizeT (currPos + 2)
  let currPos := find query "?>".toList lastPos
  match piece query lastPos currPos with
  | none => Step.done (ParseResult.thrown ⟨valid, closeAll blocks, logger⟩)
  | some body =>
    let (cmd, options) := splitCommand (trim body)
    match directive (strlower cmd) options blocks logger with
    | DirectiveResult.thrown => Step.done (ParseResult.thrown ⟨valid, closeAll blocks, logger⟩)
    | DirectiveResult.failed logger =>
      Step.done (ParseResult.returned false ⟨false, closeAll blocks, logger⟩)
    | DirectiveResult.ok blocks logger =>
      let currPos := sizeT (currPos + 2)
      Step.next ⟨currPos, currPos, blocks, logger⟩

/-- The statement `if(lastPos != currPos) _current->append(new MetaSQLString(...))`; `none` is the
exception of `substr`. -/
def flushText (query : Str) (st : ParseState) (currPos : Nat) : Option (List OpenBlock) :=
  if st.lastPos ≠ currPos then
    (piece query st.lastPos currPos).map
      (fun s => appendCurrent st.blocks (MetaSQLOutput.string s))
  else some st.blocks

/-- The body of the `while` loop of `parse_query`. `valid` is the member `_valid`; `none`: out of
fuel in an inner loop. -/
def parseStep (query : Str) (valid : Bool) (fuel : Nat) (st : ParseState) : Option Step :=
  let currPos := find_first_of query [squote, dquote, '-', '/', '<'] st.currPos
  if currPos ≠ npos
      ∧ (strAt query currPos = some squote ∨ strAt query currPos = some dquote) then
    stepString query fuel st currPos
  else
    match (if currPos ≠ npos then foundWhat query currPos else some 0) with
    | none => some (Step.done (ParseResult.thrown ⟨valid, closeAll st.blocks, st.logger⟩))
    | some what =>
      if currPos ≠ npos ∧ what = 0 then
        some (Step.next { st with currPos := sizeT (currPos + 1) })
      else
        match flushText query st currPos with
        | none => some (Step.done (ParseResult.thrown ⟨valid, closeAll st.blocks, st.logger⟩))
        | some blocks =>
          if what = 1 then some (stepLineComment query valid st.logger blocks currPos)
          else if what = 2 then stepBlockComment query valid fuel st.logger blocks currPos
          else if what = 3 then some (stepDirective query valid st.logger blocks currPos)
          else some (Step.next ⟨currPos, currPos, blocks, st.logger⟩)

/-- The `while(currPos != std::string::npos)` loop of `parse_query` and the statements after it
(`_valid = true; return true;`). `none`: out of fuel. -/
def parseLoop (query : Str) (valid : Bool) : Nat → ParseState → Option ParseResult
  | 0, _ => none
  | fuel + 1, st =>
    if st.currPos = npos then
      some (ParseResult.returned true ⟨true, closeAll st.blocks, st.logger⟩)
    else
      match parseStep query valid fuel st with
      | none => none
      | some (Step.next st) => parseLoop query valid fuel st
      | some (Step.done r) => some r

/-- The open blocks at the start of `parse_query`: `_top = new MetaSQLBlock(this, "generic", "")`
alone. -/
def rootBlocks : List OpenBlock := [⟨⟨true, BlockGeneric, [], false, none⟩, [], []⟩]

/-- The method `MetaSQLQueryPrivate::parse_query(query)` called on the object `d`, the loop being
iterated at most `fuel` times; `none`: out of fuel. -/
def MetaSQLQueryPrivate.parse_query (fuel : Nat) (d : MetaSQLQueryPrivate) (query : Str) :
    Option ParseResult :=
  parseLoop query d.valid fuel ⟨0, 0, rootBlocks, d.logger⟩

/-! ## The public class `MetaSQLQuery` -/

/-- Modelled from the spec: the prepared-statement binder `XSqlQuery` (an external collaborator,
not among the sources) consumes the expanded string and the placeholder map. It is the record of
what it was handed: the statement given to `prepare`, the values bound, and whether `exec` ran. -/
structure XSqlQuery where
  prepared : Option Str
  bound : List (Str × QVariant)
  executed : Bool
  deriving DecidableEq

/-- The method `MetaSQLQuery::setQuery(query)` on the data `_data`: an earlier tree is deleted and
`_valid` reset, then the query is parsed. -/
def MetaSQLQuery.setQuery (fuel : Nat) (d : MetaSQLQueryPrivate) (query : Str) :
    Option ParseResult :=
  MetaSQLQueryPrivate.parse_query fuel
    (match d.top with
     | some _ => { d with top := none, valid := false }
     | none => d) query

/-- The method `MetaSQLQuery::toQuery(params, pDb, pExec)` on the data `_data`. `prepare` is the
answer of the database driver to `qry.prepare`; the values are bound in the order of the iterator
of `mif._pList`, which is the order of the keys; `none` is an undefined evaluation of the
template. -/
def MetaSQLQuery.toQuery (regexec : Str → Str → Option Bool) (prepare : Str → Bool)
    (d : MetaSQLQueryPrivate) (params : ParameterList) (pExec : Bool) : Option XSqlQuery :=
  if d.valid then
    match d.populate regexec params MetaSQLInfo.new with
    | none => none
    | some (sql, mif, _) =>
      if prepare sql then some ⟨some sql, mif.pList.inKeyOrder, pExec⟩
      else some ⟨some sql, [], false⟩
  else some ⟨none, [], false⟩

/-! ## Templates and trees used in the statements -/

/-- The root block `new MetaSQLBlock(this, "generic", "")` with the children `items`. -/
def rootOf (items : List MetaSQLOutput) : MetaSQLOutput :=
  MetaSQLOutput.block ⟨true, BlockGeneric, [], false, none⟩ items none

/-- A template without directive or comment in which a quote is opened and not closed. -/
def unclosedQuoteTemplate : Str := "SELECT 'x".toList

/-- A template without directive or comment that ends in `<`. -/
def trailingLessTemplate : Str := "SELECT 1 <".toList

/-- The template `<? foreach("xs") ?>A<? break ?>B<? endforeach ?>`. -/
def breakTemplate : Str := "<? foreach(\"xs\") ?>A<? break ?>B<? endforeach ?>".toList

/-- The template `<? foreach("xs") ?>A<? continue ?>B<? endforeach ?>`. -/
def continueTemplate : Str := "<? foreach(\"xs\") ?>A<? continue ?>B<? endforeach ?>".toList

/-- The children of the `foreach` block of `breakTemplate` (`fn` is `FunctionBreak`) and of
`continueTemplate` (`fn` is `FunctionContinue`). -/
def loopBody (fn : Function) : List MetaSQLOutput :=
  [MetaSQLOutput.string ['A'], MetaSQLOutput.function ⟨true, true, fn, [], 1⟩,
    MetaSQLOutput.string ['B']]

/-- The tree of `breakTemplate` and of `continueTemplate`. -/
def loopTree (fn : Function) : MetaSQLOutput :=
  rootOf [MetaSQLOutput.block ⟨true, BlockForEach, "xs".toList, false, none⟩ (loopBody fn) none,
    MetaSQLOutput.string []]

/-- The text `AB` repeated `n` times. -/
def copiesAB : Nat → Str
  | 0 => []
  | n + 1 => 'A' :: 'B' :: copiesAB n

/-! ## Ghost counts, invariants and the spec of an `if` chain -/

/-- Ghost count for the loop of a `foreach` block (see `MetaSQLOutput.evalCount`): `count` counts
within one execution `body` of the children. -/
def forEachCount (body : ParameterList → EvalState → Option (Str × EvalState))
    (count : ParameterList → EvalState → Nat) (str : Str) (params : ParameterList) :
    Nat → Nat → EvalState → Nat
  | 0, _, _ => 0
  | n + 1, ui, st =>
    count (foreachParams str ui params) { st with nBreaks := some 0, isContinue := some false }
    + match body (foreachParams str ui params)
          { st with nBreaks := some 0, isContinue := some false } with
      | none => 0
      | some (_, st1) =>
        if st1.nBreaks.getD 0 > 0
            ∧ (st1.nBreaks.getD 0 - 1 > 0 ∨ st1.isContinue.getD false = false) then 0
        else
          forEachCount body count str params n (ui + 1)
            { st1 with nBreaks := st.nBreaks, isContinue := st.isContinue }

mutual
/-- Ghost count: the number of calls of `toVariant`, on functions that satisfy `p`, made while
`toString` evaluates a node from the state `st`: the calls made by `MetaSQLFunction::toString`
and, when `conds` is set, the calls that evaluate the condition of an `if` or `elseif` block. -/
def MetaSQLOutput.evalCount (regexec : Str → Str → Option Bool) (p : MetaSQLFunction → Bool)
    (conds : Bool) : MetaSQLOutput → ParameterList → EvalState → Nat
  | .string _, _, _ => 0
  | .comment _, _, _ => 0
  | .function f, _, _ => if !f.noOutput && p f then 1 else 0
  | .block b items alt, params, st =>
    match b.block with
    | BlockIf | BlockElseIf =>
      match b.ifFunc with
      | none => 0
      | some f =>
        (if conds && p f then 1 else 0)
        + match f.toVariant regexec params st with
          | none => 0
          | some (v, st1) =>
            if (if b.ifNot then !v.toBool else v.toBool) then
              evalCountItems regexec p conds items params st1
            else evalCountAlt regexec p conds alt params st1
    | BlockForEach =>
      if (params.value b.loopVar).2 then
        forEachCount (fun pList s => toStringItems regexec items pList s)
          (fun pList s => evalCountItems regexec p conds items pList s)
          (b.loopVar ++ foreachPos) params (params.value b.loopVar).1.toList.length 0 st
      else 0
    | BlockElse | BlockGeneric => evalCountItems regexec p conds items params st
    | BlockUnknown => 0

/-- Ghost count over the children of a block. -/
def evalCountItems (regexec : Str → Str → Option Bool) (p : MetaSQLFunction → Bool)
    (conds : Bool) : List MetaSQLOutput → ParameterList → EvalState → Nat
  | [], _, _ => 0
  | output :: rest, params, st =>
    output.evalCount regexec p conds params st
    + match output.toString regexec params st with
      | none => 0
      | some (_, st1) =>
        if st1.nBreaks.getD 0 ≠ 0 then 0 else evalCountItems regexec p conds rest params st1

/-- Ghost count over the alternate of a block. -/
def evalCountAlt (regexec : Str → Str → Option Bool) (p : MetaSQLFunction → Bool)
    (conds : Bool) : Option MetaSQLOutput → ParameterList → EvalState → Nat
  | none, _, _ => 0
  | some a, params, st => a.evalCount regexec p conds params st
end

/-- The functions whose evaluation by `MetaSQLFunction::toString` emits a placeholder: all but
`literal` (and `continue` and `break`, which have `_noOutput`). -/
def emitsPlaceholder (f : MetaSQLFunction) : Bool := f.func != FunctionLiteral

/-- The keys `_1_`, ..., `_c_` of a map are in the order of their creation, `c` being the
placeholder counter. -/
def MetaSQLInfo.Contiguous (mif : MetaSQLInfo) : Prop :=
  mif.pList.keys = (List.range' 1 mif.paramCount).map placeholder

/-- The info `m'` extends `m` by `n` placeholders, all of which occur in the text `r`: the counter
grows by `n`, and the bindings of `_c+1_`, ..., `_c+n_` are added after those of `m`. -/
def Grows (m : MetaSQLInfo) (r : Str) (m' : MetaSQLInfo) (n : Nat) : Prop :=
  m'.paramCount = m.paramCount + n
  ∧ (m.Contiguous →
      ∃ ext : PMap, m'.pList = m.pList ++ ext
        ∧ ext.keys = (List.range' (m.paramCount + 1) n).map placeholder
        ∧ ∀ key ∈ ext.keys, key <:+: r)

mutual
/-- The branch of an `if`/`elseif`/`else` chain that is taken, as the spec words it: the children
of the first block of the chain whose condition, negated when the block has `not`, is true; the
children of the `else` block when no condition holds; no children when there is no `else`. The
state is threaded through the conditions that are evaluated on the way. A node that is not an
`if`, `elseif` or `else` block is taken as it is. `none`: a condition has no value. -/
def chainBranch (regexec : Str → Str → Option Bool) :
    MetaSQLOutput → ParameterList → EvalState → Option (List MetaSQLOutput × EvalState)
  | .block b items alt, params, st =>
    match b.block with
    | BlockIf | BlockElseIf =>
      match b.ifFunc with
      | none => none
      | some f =>
        match f.toVariant regexec params st with
        | none => none
        | some (v, st1) =>
          if v.toBool ≠ b.ifNot then some (items, st1)
          else chainBranchAlt regexec alt params st1
    | BlockElse => some (items, st)
    | BlockForEach | BlockGeneric | BlockUnknown => some ([MetaSQLOutput.block b items alt], st)
  | .string s, _, st => some ([MetaSQLOutput.string s], st)
  | .comment s, _, st => some ([MetaSQLOutput.comment s], st)
  | .function f, _, st => some ([MetaSQLOutput.function f], st)

/-- The branch taken in the rest of a chain. -/
def chainBranchAlt (regexec : Str → Str → Option Bool) :
    Option MetaSQLOutput → ParameterList → EvalState → Option (List MetaSQLOutput × EvalState)
  | none, _, st => some ([], st)
  | some a, params, st => chainBranch regexec a params st
end

/-- The chain made of the `if`/`elseif` blocks `cs` (each with its children), in this order, and
of the last block `els` (the `else` block, when there is one): every block has the next one as
`_alt`. -/
def ifChain : List (BlockHead × List MetaSQLOutput) → Option MetaSQLOutput → Option MetaSQLOutput
  | [], els => els
  | (b, items) :: rest, els => some (MetaSQLOutput.block b items (ifChain rest els))

/-- The `else` block with the children `items`. -/
def elseBlock (items : List MetaSQLOutput) : MetaSQLOutput :=
  MetaSQLOutput.block ⟨true, BlockElse, [], false, none⟩ items none

/-- Whether the condition of an `if`/`elseif` block, negated when the block has `not`, is true. -/
def condHolds (regexec : Str → Str → Option Bool) (params : ParameterList) (st : EvalState)
    (b : BlockHead) : Bool :=
  match b.ifFunc with
  | none => false
  | some f =>
    match f.toVariant regexec params st with
    | none => false
    | some (v, _) => v.toBool != b.ifNot

/-- The children the spec selects in a chain: those of the first block whose condition is true,
else the children `elseItems` of the `else` block (none when there is no `else`). -/
def firstTrue (regexec : Str → Str → Option Bool) (params : ParameterList) (st : EvalState)
    (cs : List (BlockHead × List MetaSQLOutput)) (elseItems : List MetaSQLOutput) :
    List MetaSQLOutput :=
  match cs.find? (fun c => condHolds regexec params st c.1) with
  | some c => c.2
  | none => elseItems

/-- The function `value(name)`. -/
def valueOf (name : Str) : MetaSQLFunction := ⟨true, false, FunctionValue, [name], 0⟩

/-- The children of the `foreach` block of `foreachTemplate`. -/
def foreachBody : List MetaSQLOutput :=
  [MetaSQLOutput.function (valueOf "xs".toList), MetaSQLOutput.string [',']]

/-- The text `_k_ ,` for `k`, `k + 1`, ..., `k + n - 1`, concatenated. -/
def placeholdersText : Nat → Nat → Str
  | _, 0 => []
  | k, n + 1 => placeholder k ++ [' ', ','] ++ placeholdersText (k + 1) n

/-- The bindings `_k_ -> x0`, `_k+1_ -> x1`, ... of the values `x0, x1, ...`. -/
def bindFrom : Nat → List QVariant → PMap
  | _, [] => []
  | k, x :: xs => (placeholder k, x) :: bindFrom (k + 1) xs

/-- The template `<? foreach("xs") ?><? value("xs") ?>,<? endforeach ?>`. -/
def foreachTemplate : Str := "<? foreach(\"xs\") ?><? value(\"xs\") ?>,<? endforeach ?>".toList

/-- The tree of `foreachTemplate`. -/
def foreachTree : MetaSQLOutput :=
  rootOf [MetaSQLOutput.block ⟨true, BlockForEach, "xs".toList, false, none⟩ foreachBody none,
    MetaSQLOutput.string []]

/-- The template `SELECT <? value("a") ?>`. -/
def valueTemplate : Str := "SELECT <? value(\"a\") ?>".toList

/-- The tree of `valueTemplate`. -/
def valueTree : MetaSQLOutput :=
  rootOf [MetaSQLOutput.string "SELECT ".toList, MetaSQLOutput.function (valueOf ['a']),
    MetaSQLOutput.string []]

/-- The function `exists("x")`. -/
def existsX : MetaSQLFunction := ⟨true, false, FunctionExists, [['x']], 0⟩

/-- The template `<? if exists("x") ?>A<? else ?>B<? endif ?>`. -/
def ifElseTemplate : Str := "<? if exists(\"x\") ?>A<? else ?>B<? endif ?>".toList

/-- The tree of `ifElseTemplate`. -/
def ifElseTree : MetaSQLOutput :=
  rootOf [MetaSQLOutput.block ⟨true, BlockIf, [], false, some existsX⟩ [MetaSQLOutput.string ['A']]
      (some (MetaSQLOutput.block ⟨true, BlockElse, [], false, none⟩ [MetaSQLOutput.string ['B']]
        none)),
    MetaSQLOutput.string []]

/-- The template `<? if not exists("x") ?>none<? endif ?>`. -/
def ifNotTemplate : Str := "<? if not exists(\"x\") ?>none<? endif ?>".toList

/-- The tree of `ifNotTemplate`. -/
def ifNotTree : MetaSQLOutput :=
  rootOf [MetaSQLOutput.block ⟨true, BlockIf, [], true, some existsX⟩
      [MetaSQLOutput.string "none".toList] none,
    MetaSQLOutput.string []]

/-- The template `<? exists("x") ?>`: `exists` used as a directive, not as a condition. -/
def existsDirectiveTemplate : Str := "<? exists(\"x\") ?>".toList

/-- The tree of `existsDirectiveTemplate`. -/
def existsDirectiveTree : MetaSQLOutput :=
  rootOf [MetaSQLOutput.function existsX, MetaSQLOutput.string []]

/-- The template `<? if value("x") ?>A<? endif ?>`: `value` used as a condition. -/
def ifValueTemplate : Str := "<? if value(\"x\") ?>A<? endif ?>".toList

/-- The tree of `ifValueTemplate`. -/
def ifValueTree : MetaSQLOutput :=
  rootOf [MetaSQLOutput.block ⟨true, BlockIf, [], false, some (valueOf ['x'])⟩
      [MetaSQLOutput.string ['A']] none,
    MetaSQLOutput.string []]

/-- The template `_1_`: text that looks like a placeholder. -/
def placeholderTextTemplate : Str := "_1_".toList

/-- The `value` functions: what the spec counts as value evaluations. -/
def isValueFunction (f : MetaSQLFunction) : Bool := f.func == FunctionValue

/-- A regex library in which no pattern compiles (no template below uses `reexists`). -/
def noRegex : Str → Str → Option Bool := fun _ _ => none

/-- The evaluation state at the start of `populate` for the query object `d`. -/
def startState (d : MetaSQLQueryPrivate) : EvalState := ⟨MetaSQLInfo.new, d.logger, none, none⟩

/-- A template the tokenizer reads as a single run of text: it has no quote, and every `-`, `/`
and `<` is followed by a character, which is not `-`, `*` and `?` respectively (so there is no
`--`, `/*` or `<?`, and the template does not end in `-`, `/` or `<`). -/
def PlainText (query : Str) : Prop :=
  ∀ (i : Nat) (c : Char), query[i]? = some c →
    c ≠ squote ∧ c ≠ dquote
    ∧ (c = '-' → ∃ d, query[i + 1]? = some d ∧ d ≠ '-')
    ∧ (c = '/' → ∃ d, query[i + 1]? = some d ∧ d ≠ '*')
    ∧ (c = '<' → ∃ d, query[i + 1]? = some d ∧ d ≠ '?')

/-- The characters the scan of `parse_query` stops at: `'`, `"`, `-`, `/`, `<`. -/
def scanStops : Str := [squote, dquote, '-', '/', '<']

/-- Text without any of the characters `'`, `"`, `-`, `/`, `<`. -/
def Plain (s : Str) : Prop := ∀ c ∈ s, c ∉ scanStops

/-- The text node the flush of a pending range `s` appends to the root: none when the range is
empty (`lastPos == currPos`). -/
def textNode (s : Str) : List MetaSQLOutput := if s = [] then [] else [MetaSQLOutput.string s]

/-- The text of a block comment as the claim means it: it does not begin with `/`, it does not
contain `*/`, and no `/*` begins in it. -/
def CommentText (body : Str) : Prop :=
  body.head? ≠ some '/' ∧ ¬ ['*', '/'] <:+: body ∧ ¬ ['/', '*'] <:+: body ++ ['*']

/-- The template `x<? value(a)`: text, then a directive that is not terminated. -/
def unterminatedTemplate : Str := "x<? value(a)".toList

/-- The template `<? value("a")`: a directive that is not terminated, at the start. -/
def unterminatedValueTemplate : Str := "<? value(\"a\")".toList

/-- The template `/* a */ /* b /* c`: a closed comment, then a comment that is not closed and
contains a further `/*`. -/
def reopenedCommentTemplate : Str := "/* a */ /* b /* c".toList

/-- The template `a/*/ x */b`: a block comment whose text begins with `/`. -/
def slashCommentTemplate : Str := "a/*/ x */b".toList

/-! ## Ghost state and invariants of the tree builder -/

/-- Ghost: the local state in which the `while` loop of `parse_query` is left through its test
(`currPos == npos`), with the stack `_blocks` as it is then; `none` when the call ends otherwise
or the fuel runs out. -/
def finalState (query : Str) (valid : Bool) : Nat → ParseState → Option ParseState
  | 0, _ => none
  | fuel + 1, st =>
    if st.currPos = npos then some st
    else
      match parseStep query valid fuel st with
      | some (Step.next st) => finalState query valid fuel st
      | _ => none

/-- The template `<? if exists("x") ?>A`: an `if` that is never closed. -/
def unclosedIfTemplate : Str := "<? if exists(\"x\") ?>A".toList

/-- The template `<? foreach("xs") ?>A`: a `foreach` that is never closed. -/
def unclosedForeachTemplate : Str := "<? foreach(\"xs\") ?>A".toList

mutual
/-- In the tree under a node no `else` block has an alternate: every `else` block is the last
block of its chain. -/
def MetaSQLOutput.elseLast : MetaSQLOutput → Bool
  | .block b items alt =>
    (b.block != BlockElse || alt.isNone) && elseLastItems items && elseLastAlt alt
  | .string _ => true
  | .comment _ => true
  | .function _ => true

/-- The property `elseLast` of every child of a block. -/
def elseLastItems : List MetaSQLOutput → Bool
  | [] => true
  | x :: xs => x.elseLast && elseLastItems xs

/-- The property `elseLast` of the alternate of a block, when it has one. -/
def elseLastAlt : Option MetaSQLOutput → Bool
  | none => true
  | some a => a.elseLast
end

/-- Invariant of an open block: its children so far have the property `elseLast`, and the earlier
blocks of its chain are not `else` blocks and have children with the property. -/
def OpenBlock.ElseLast (b : OpenBlock) : Prop :=
  elseLastItems b.items = true
  ∧ ∀ c ∈ b.chain, c.1.block ≠ BlockElse ∧ elseLastItems c.2 = true

/-! ## The spec of function directives, `isfirst` and `islast` -/

/-- The block keywords. -/
def blockKeywords : List Str :=
  ["if".toList, "elseif".toList, "else".toList, "endif".toList, "foreach".toList,
    "endforeach".toList]

/-- The names of the functions that take at least one argument. -/
def valueFunctions : List Str :=
  ["value".toList, "literal".toList, "exists".toList, "reexists".toList, "isfirst".toList,
    "islast".toList]

/-- The names of the functions that need no argument. -/
def controlFunctions : List Str := ["continue".toList, "break".toList]

/-- The function directives that compile, as the spec words it: the command is one of the six
functions that take an argument and there is at least one argument, or it is `continue` or
`break`. -/
def acceptedCall (cmd : Str) (plist : List Str) : Bool :=
  (valueFunctions.elem cmd && decide (plist.length ≥ 1)) || controlFunctions.elem cmd

/-- The current position of the list `name`: the entry `name__FOREACH_POS__` of the parameter
list as an integer, `0` when there is no such entry. -/
def currentPos (params : ParameterList) (name : Str) : Int :=
  if (params.value (name ++ foreachPos)).2 then (params.value (name ++ foreachPos)).1.toInt else 0

/-- The value of `isfirst(name)` as the spec words it: false when `name` is absent, true when it
is present and not a list, and for a list true exactly when the current position is 0 or unset. -/
def isfirstSpec (params : ParameterList) (name : Str) : Bool :=
  if (params.value name).2 then
    if (params.value name).1.isList then decide (currentPos params name = 0) else true
  else false

/-- The value of `islast(name)` as the spec words it: true exactly when `name` is present and is a
scalar, or `name` is a list and the current position equals `len(list) - 1`. -/
def islastSpec (params : ParameterList) (name : Str) : Bool :=
  ((params.value name).2 && !(params.value name).1.isList)
  || ((params.value name).1.isList
      && decide (currentPos params name = ((params.value name).1.toList.length : Int) - 1))

/-- The function `isfirst("xs")`. -/
def isfirstXs : MetaSQLFunction := ⟨true, false, FunctionIsFirst, ["xs".toList], 0⟩

/-- The template `<? if isfirst("xs") ?>A<? endif ?>`. -/
def ifFirstTemplate : Str := "<? if isfirst(\"xs\") ?>A<? endif ?>".toList

/-- The tree of `ifFirstTemplate`. -/
def ifFirstTree : MetaSQLOutput :=
  rootOf [MetaSQLOutput.block ⟨true, BlockIf, [], false, some isfirstXs⟩
      [MetaSQLOutput.string ['A']] none,
    MetaSQLOutput.string []]

/-- The function `islast("xs")`. -/
def islastXs : MetaSQLFunction := ⟨true, false, FunctionIsLast, ["xs".toList], 0⟩

/-- The template `<? if islast("xs") ?>A<? endif ?>`. -/
def ifLastTemplate : Str := "<? if islast(\"xs\") ?>A<? endif ?>".toList

/-- The tree of `ifLastTemplate`. -/
def ifLastTree : MetaSQLOutput :=
  rootOf [MetaSQLOutput.block ⟨true, BlockIf, [], false, some islastXs⟩
      [MetaSQLOutput.string ['A']] none,
    MetaSQLOutput.string []]

/-- The function `islast("v")`. -/
def islastV : MetaSQLFunction := ⟨true, false, FunctionIsLast, [['v']], 0⟩

/-- The template `<? foreach("v") ?>x<? if not islast("v") ?>,<? endif ?><? endforeach ?>`. -/
def separatorTemplate : Str :=
  "<? foreach(\"v\") ?>x<? if not islast(\"v\") ?>,<? endif ?><? endforeach ?>".toList

/-- The children of the `foreach` block of `separatorTemplate`. -/
def separatorBody : List MetaSQLOutput :=
  [MetaSQLOutput.string ['x'],
    MetaSQLOutput.block ⟨true, BlockIf, [], true, some islastV⟩ [MetaSQLOutput.string [',']] none]

/-- The tree of `separatorTemplate`. -/
def separatorTree : MetaSQLOutput :=
  rootOf [MetaSQLOutput.block ⟨true, BlockForEach, ['v'], false, none⟩ separatorBody none,
    MetaSQLOutput.string []]

/-- The text of `n` copies of `x` separated by `n - 1` commas. -/
def separated : Nat → Str
  | 0 => []
  | n + 1 => 'x' :: (if n = 0 then [] else ',' :: separated n)

/-! ## Loops, list elements and nested loops -/

/-- Ghost: the number of times the children of a `foreach` block are evaluated by
`MetaSQLBlock::toString`, that is the number of iterations of its `for` loop. -/
def foreachIterations (regexec : Str → Str → Option Bool) (b : BlockHead)
    (items : List MetaSQLOutput) (params : ParameterList) (st : EvalState) : Nat :=
  if (params.value b.loopVar).2 then
    forEachCount (fun pList s => toStringItems regexec items pList s) (fun _ _ => 1)
      (b.loopVar ++ foreachPos) params (params.value b.loopVar).1.toList.length 0 st
  else 0

/-- The template `<? foreach("xs") ?>A<? endforeach ?>`. -/
def foreachATemplate : Str := "<? foreach(\"xs\") ?>A<? endforeach ?>".toList

/-- The tree of `foreachATemplate`. -/
def foreachATree : MetaSQLOutput :=
  rootOf [MetaSQLOutput.block ⟨true, BlockForEach, "xs".toList, false, none⟩
      [MetaSQLOutput.string ['A']] none,
    MetaSQLOutput.string []]

/-- The template `<? value("xs") ?>`. -/
def valueXsTemplate : Str := "<? value(\"xs\") ?>".toList

/-- The tree of `valueXsTemplate`. -/
def valueXsTree : MetaSQLOutput :=
  rootOf [MetaSQLOutput.function (valueOf "xs".toList), MetaSQLOutput.string []]

/-- The name `b__FOREACH_POS__`: the position entry of the loop variable `b`. -/
def posOfB : Str := "b".toList ++ foreachPos

/-- The template of a loop over `b` nested in a loop over `a`, with `value(a)` inside. -/
def nestedTemplate (a b : Str) : Str :=
  "<? foreach(\"".toList ++ a ++ "\") ?><? foreach(\"".toList ++ b ++ "\") ?><? value(\"".toList
    ++ a ++ "\") ?><? endforeach ?><? endforeach ?>".toList

/-- The tree of `nestedTemplate a b`. -/
def nestedTree (a b : Str) : MetaSQLOutput :=
  rootOf [MetaSQLOutput.block ⟨true, BlockForEach, a, false, none⟩
      [MetaSQLOutput.block ⟨true, BlockForEach, b, false, none⟩
        [MetaSQLOutput.function (valueOf a)] none] none,
    MetaSQLOutput.string []]

/-- The environment of the nested loops: the list `[10, 20]` under the name `a`, and the list
`[7]` under the name `b`. -/
def nestedParams (a : Str) : ParameterList :=
  [(a, QVariant.list [QVariant.int 10, QVariant.int 20]),
    ("b".toList, QVariant.list [QVariant.int 7])]

/-! ## Argument lists and loop variables -/

/-- A quoted argument: `s` between two quote characters `q`. -/
def quoted (q : Char) (s : Str) : Str := q :: s ++ [q]

/-- The arguments `"a1", "a2", ..., "an"` of a call, separated by a comma and a blank. -/
def argList : List Str → Str
  | [] => []
  | [a] => quoted dquote a
  | a :: b :: rest => quoted dquote a ++ ',' :: ' ' :: argList (b :: rest)

/-- The options `("a1", "a2", ..., "an")` of a call. -/
def callOptions (args : List Str) : Str := '(' :: argList args ++ [')']

/-- No quote character and no backslash occurs in `s`. -/
def Unquoted (s : Str) : Prop := ∀ c ∈ s, c ≠ squote ∧ c ≠ dquote ∧ c ≠ backslash

/-! ## The stack of open blocks during `parse_query` -/

/-- The types of the blocks that a directive opens. -/
def Block.opened (b : Block) : Prop :=
  b = BlockIf ∨ b = BlockElseIf ∨ b = BlockElse ∨ b = BlockForEach

/-- The stack of open blocks has the root generic block as its bottom element, never replaced
(its chain is empty), below blocks opened by directives. -/
def OpenStack (blocks : List OpenBlock) : Prop :=
  ∃ upper root, blocks = upper ++ [root]
    ∧ root.head = ⟨true, BlockGeneric, [], false, none⟩ ∧ root.chain = []
    ∧ ∀ b ∈ upper, b.head.block.opened

/-- Ghost: the state of the loop of `parse_query` (`parseLoop` with `fuel`) after `k` iterations,
when it has not ended before. -/
def stateAfter (query : Str) (valid : Bool) : Nat → Nat → ParseState → Option ParseState
  | _, 0, st => some st
  | 0, _ + 1, _ => none
  | fuel + 1, k + 1, st =>
    if st.currPos = npos then none
    else
      match parseStep query valid fuel st with
      | some (Step.next st) => stateAfter query valid fuel k st
      | _ => none

/-- Ghost: the local variables `_blocks` (last element first) and `_current` of `parse_query`, as
the addresses of the blocks, and the member `_top`. -/
structure Pointers where
  blocks : List Nat
  current : Nat
  top : Nat
  deriving DecidableEq

/-- The statements `_top = new MetaSQLBlock(...); _blocks.push_back(_top); _current = _top;`. -/
def Pointers.start (top : Nat) : Pointers := ⟨[top], top, top⟩

/-- The statements `_blocks.pop_back(); _current = _blocks.back();`; `none` when the vector is
empty at `pop_back()` or at `back()`. -/
def Pointers.pop (p : Pointers) : Option Pointers :=
  match p.blocks with
  | _ :: back :: rest => some ⟨back :: rest, back, p.top⟩
  | _ => none

/-- The statements `_blocks.push_back(b); _current = b;`. -/
def Pointers.push (p : Pointers) (b : Nat) : Pointers := ⟨b :: p.blocks, b, p.top⟩

/-- The statements `_blocks.pop_back(); _blocks.push_back(b); _current = b;`; `none` when the
vector is empty at `pop_back()`. -/
def Pointers.replace (p : Pointers) (b : Nat) : Option Pointers :=
  match p.blocks with
  | _ :: rest => some ⟨b :: rest, b, p.top⟩
  | [] => none

/-- The assignments to `_blocks` and `_current` made for a directive `cmd` that does not end
`parse_query`, `b` being the address of the block it creates. -/
def Pointers.step (p : Pointers) (cmd : Str) (b : Nat) : Option Pointers :=
  if cmd = "endif".toList ∨ cmd = "endforeach".toList then p.pop
  else if cmd = "if".toList ∨ cmd = "foreach".toList then some (p.push b)
  else if cmd = "elseif".toList ∨ cmd = "else".toList then p.replace b
  else some p

/-- The pointers agree with the open blocks: as many elements, `_current` is the last element of
`_blocks`, and `_top` is its first. -/
def Pointers.Agree (p : Pointers) (blocks : List OpenBlock) : Prop :=
  p.blocks.length = blocks.length ∧ p.blocks.head? = some p.current
    ∧ p.blocks.getLast? = some p.top

/-! ## Quoted strings -/

/-- Some occurrence of the quote `q` in `body` is not escaped: read from the left, a backslash
escapes the character after it. -/
def unescapedQuote (q : Char) : Str → Bool
  | [] => false
  | [c] => c != backslash && c == q
  | c :: d :: rest =>
    if c == backslash then unescapedQuote q rest
    else if c == q then true
    else unescapedQuote q (d :: rest)

/-- The last character of `body` is a backslash that is not itself escaped: it escapes the
character that follows `body`. -/
def danglingBackslash : Str → Bool
  | [] => false
  | [c] => c == backslash
  | c :: d :: rest =>
    if c == backslash then danglingBackslash rest else danglingBackslash (d :: rest)

/-- The contents of a quoted string: a backslash stands for the character after it. -/
def unescape : Str → Str
  | [] => []
  | [c] => [c]
  | c :: d :: rest => if c == backslash then d :: unescape rest else c :: unescape (d :: rest)

/-- The body of the `do ... while` loop of `skipString` from the statement
`currPos = query.find_first_of(needle, currPos)` on, `start` being the position searched from. -/
def skipFrom (query needle : Str) (fuel : Nat) (start : Nat) : Option Nat :=
  if find_first_of query needle start ≠ npos
      ∧ strAt query (find_first_of query needle start) = some backslash then
    skipString query needle fuel (find_first_of query needle start)
  else some (find_first_of query needle start)

/-! ## The options of a `foreach`, as quoted strings and characters outside quotes -/

/-- A lexical unit of the options of a `foreach`: a string in quotes, given by its quote character
and the text between the quotes, or one character outside quotes. -/
inductive OptToken where
  | quotedString (q : Char) (content : Str)
  | outside (c : Char)
  deriving DecidableEq

/-- The text of a lexical unit. -/
def OptToken.text : OptToken → Str
  | OptToken.quotedString q s => quoted q s
  | OptToken.outside c => [c]

/-- The text of a sequence of lexical units. -/
def optionsText (ts : List OptToken) : Str := (ts.map OptToken.text).flatten

/-- A quoted string is in single or double quotes, every quote of that kind in it is escaped and
it does not end in an escaping backslash; a character outside quotes is not a quote. -/
def OptToken.WellFormed : OptToken → Prop
  | OptToken.quotedString q s =>
    (q = squote ∨ q = dquote) ∧ unescapedQuote q s = false ∧ danglingBackslash s = false
  | OptToken.outside c => c ≠ squote ∧ c ≠ dquote

/-- The parenthesis depth behind the character `c` outside quotes, `d` being the depth before
it. -/
def depthAfter (d : Int) (c : Char) : Int :=
  if c == '(' then d + 1 else if c == ')' then d - 1 else d

/-- A character outside quotes that ends the loop variable: a `,` at any parenthesis depth, or a
`)` that leaves no parenthesis open. -/
def stopsAtAnyComma (d : Int) (c : Char) : Bool :=
  c == ',' || (c == ')' && decide (d - 1 < 1))

/-- A character outside quotes that ends the loop variable when only a top-level `,` counts: a
`,` inside at most one parenthesis, or a `)` that leaves no parenthesis open. -/
def stopsAtTopLevelComma (d : Int) (c : Char) : Bool :=
  (c == ',' && decide (d ≤ 1)) || (c == ')' && decide (d - 1 < 1))

/-- The lexical units before the first character outside quotes that `stops` selects, `d` being
the parenthesis depth at the start. -/
def scanned (stops : Int → Char → Bool) : Int → List OptToken → List OptToken
  | _, [] => []
  | d, OptToken.quotedString q s :: ts => OptToken.quotedString q s :: scanned stops d ts
  | d, OptToken.outside c :: ts =>
    if stops d c then [] else OptToken.outside c :: scanned stops (depthAfter d c) ts

/-- The contents of the quoted strings of a sequence of lexical units, unescaped and
concatenated; the characters outside quotes are left out. -/
def quotedContents : List OptToken → Str
  | [] => []
  | OptToken.quotedString _ s :: ts => unescape s ++ quotedContents ts
  | OptToken.outside _ :: ts => quotedContents ts

/-- Some `,` outside quotes stands inside more than one parenthesis, before the first top-level
`,` and before the `)` that leaves no parenthesis open. -/
def nestedComma : Int → List OptToken → Bool
  | _, [] => false
  | d, OptToken.quotedString _ _ :: ts => nestedComma d ts
  | d, OptToken.outside c :: ts =>
    if stopsAtTopLevelComma d c then false else c == ',' || nestedComma (depthAfter d c) ts

/-- The lexical units of the options `((, "a"))`. -/
def nestedCommaOptions : List OptToken :=
  [OptToken.outside '(', OptToken.outside '(', OptToken.outside ',', OptToken.outside ' ',
    OptToken.quotedString dquote ['a'], OptToken.outside ')', OptToken.outside ')']

/-- The lexical units of the options `(("a") "b")`. -/
def nestedParenOptions : List OptToken :=
  [OptToken.outside '(', OptToken.outside '(', OptToken.quotedString dquote ['a'],
    OptToken.outside ')', OptToken.outside ' ', OptToken.quotedString dquote ['b'],
    OptToken.outside ')']

/-! ## Nested block comments -/

/-- The text of a sequence of comment delimiters, each followed by a text: `(true, X)` is `/*`
followed by `X`, and `(false, X)` is `*/` followed by `X`. -/
def delimText : List (Bool × Str) → Str
  | [] => []
  | (true, X) :: rest => '/' :: '*' :: (X ++ delimText rest)
  | (false, X) :: rest => '*' :: '/' :: (X ++ delimText rest)

/-- The delimiters are properly nested pairs, `depth` comments being open before them. -/
def nestedPairs : List (Bool × Str) → Nat → Bool
  | [], depth => depth == 0
  | (true, _) :: rest, depth => nestedPairs rest (depth + 1)
  | (false, _) :: rest, depth + 1 => nestedPairs rest depth
  | (false, _) :: _, 0 => false

/-- The positions `found` are those that `find` returns one after the other, each search starting
behind the position found before; `stop` holds of what the search returns after the last one. -/
def ChainFrom (query pat : Str) (stop : Nat → Prop) : Nat → List Nat → Prop
  | start, [] => stop (find query pat start)
  | start, o :: rest => find query pat start = o ∧ ChainFrom query pat stop (o + 1) rest

/-- Each position of the first list is less than the position of the same rank in the second. -/
def Before : List Nat → List Nat → Prop
  | [], _ => True
  | _ :: _, [] => False
  | o :: os, c :: cs => o < c ∧ Before os cs

/-- The position of the `*/` that closes a comment, the text `s` behind its `/` beginning at
position `k` with `depth` inner comments open: read from the left, every `/*` opens an inner
comment and every `*/` closes one, or the comment itself when none is open. Every occurrence
counts, also one that shares a character with the delimiter before it. -/
def matchingClose : Str → Nat → Nat → Option Nat
  | [], _, _ => none
  | c :: rest, depth, k =>
    if startsWith (c :: rest) ['*', '/'] then
      if depth = 0 then some k else matchingClose rest (depth - 1) (k + 1)
    else if startsWith (c :: rest) ['/', '*'] then matchingClose rest (depth + 1) (k + 1)
    else matchingClose rest depth (k + 1)

/-- The last character of a delimiter: `*` for `/*` (`true`), `/` for `*/` (`false`). -/
def lastOf (isOpen : Bool) : Char := if isOpen then '*' else '/'

/-- The first character of a delimiter: `/` for `/*` (`true`), `*` for `*/` (`false`). -/
def firstOf (isOpen : Bool) : Char := if isOpen then '/' else '*'

/-- The text `X` between two delimiters holds no `/*` and no `*/`, and none is formed across its
ends: `a` is the last character of the delimiter before `X` and `b` the first character of the
delimiter behind it. -/
def Apart (a : Char) (X : Str) (b : Char) : Prop :=
  ¬ ['/', '*'] <:+: a :: X ++ [b] ∧ ¬ ['*', '/'] <:+: a :: X ++ [b]

/-- Every text of a comment is apart from the delimiters around it: the text `X` behind a
delimiter (`/*` when `isOpen`), then `items`, then the closing `*/`. -/
def delimsApart : Bool → Str → List (Bool × Str) → Prop
  | isOpen, X, [] => Apart (lastOf isOpen) X '*'
  | isOpen, X, (b, Y) :: rest => Apart (lastOf isOpen) X (firstOf b) ∧ delimsApart b Y rest

/-- The template `<? value("a1", "a2", ..., "an") ?>`. -/
def callTemplate (args : List Str) : Str :=
  '<' :: '?' :: (" value".toList ++ callOptions args ++ [' ']) ++ ['?', '>']

/-! ## Decimal numerals and placeholder names -/

theorem digitChar_toNat (n : Nat) (h : n < 10) : (Nat.digitChar n).toNat - 48 = n := by
  interval_cases n <;> rfl

theorem decValue_append (s : Str) (c : Char) :
    decValue (s ++ [c]) = decValue s * 10 + (c.toNat - 48) := by
  simp [decValue]

theorem decValue_decDigits (f n : Nat) (h : n < f) : decValue (decDigits f n) = n := by
  induction f generalizing n with
  | zero => omega
  | succ f ih =>
    unfold decDigits
    split
    · next hlt => simp [decValue, digitChar_toNat n hlt]
    · next hge =>
      rw [decValue_append, ih (n / 10) (by omega), digitChar_toNat _ (Nat.mod_lt _ (by decide))]
      omega

theorem decValue_natToStr (n : Nat) : decValue (natToStr n) = n :=
  decValue_decDigits (n + 1) n (Nat.lt_succ_self n)

theorem natToStr_injective : Function.Injective natToStr := by
  intro a b h
  have := congrArg decValue h
  rwa [decValue_natToStr, decValue_natToStr] at this

theorem placeholder_injective : Function.Injective placeholder := by
  intro a b h
  unfold placeholder at h
  have h1 := List.cons.inj h
  have h2 := List.append_cancel_right h1.2
  exact natToStr_injective h2

/-! ## Unfolding the evaluator -/

theorem rootOf_toString (regexec : Str → Str → Option Bool) (items : List MetaSQLOutput)
    (params : ParameterList) (st : EvalState) :
    (rootOf items).toString regexec params st = toStringItems regexec items params st := by
  rw [rootOf, MetaSQLOutput.toString]

theorem toStringItems_cons (regexec : Str → Str → Option Bool) (output : MetaSQLOutput)
    (rest : List MetaSQLOutput) (params : ParameterList) (st : EvalState) :
    toStringItems regexec (output :: rest) params st
      = match output.toString regexec params st with
        | none => none
        | some (r, st1) =>
          if st1.nBreaks.getD 0 ≠ 0 then some (r, st1)
          else
            match toStringItems regexec rest params st1 with
            | none => none
            | some (r2, st2) => some (r ++ r2, st2) := by
  rw [toStringItems]

/-! ## `parse_query`: the value returned and the flag `_valid` -/

theorem stepDirective_returned (query : Str) (valid : Bool) (logger : Str)
    (blocks : List OpenBlock) (currPos : Nat) (b : Bool) (d : MetaSQLQueryPrivate)
    (h : stepDirective query valid logger blocks currPos
      = Step.done (ParseResult.returned b d)) : d.valid = b ∧ b = false := by
  unfold stepDirective at h
  dsimp only at h
  split at h
  · simp at h
  · split at h
    · simp at h
    · simp only [Step.done.injEq, ParseResult.returned.injEq] at h
      obtain ⟨h1, h2⟩ := h
      subst h1; subst h2; exact ⟨rfl, rfl⟩
    · simp at h

theorem parseStep_returned (query : Str) (valid : Bool) (fuel : Nat) (st : ParseState)
    (b : Bool) (d : MetaSQLQueryPrivate)
    (h : parseStep query valid fuel st = some (Step.done (ParseResult.returned b d))) :
    d.valid = b ∧ b = false := by
  unfold parseStep at h
  simp only at h
  split at h
  · unfold stepString at h
    dsimp only at h
    split at h <;> simp at h
  · split at h
    · simp at h
    · split at h
      · simp at h
      · split at h
        · simp at h
        · split at h
          · unfold stepLineComment at h
            dsimp only at h
            split at h <;> simp at h
          · split at h
            · unfold stepBlockComment at h
              dsimp only at h
              split at h
              · simp at h
              · split at h <;> simp at h
            · split at h
              · simp only [Option.some.injEq] at h
                exact stepDirective_returned _ _ _ _ _ _ _ h
              · simp at h

theorem parseLoop_returned (query : Str) (valid : Bool) (fuel : Nat) :
    ∀ (st : ParseState) (b : Bool) (d : MetaSQLQueryPrivate),
      parseLoop query valid fuel st = some (ParseResult.returned b d) → d.valid = b := by
  induction fuel with
  | zero => intro st b d h; simp [parseLoop] at h
  | succ fuel ih =>
    intro st b d h
    unfold parseLoop at h
    split at h
    · simp only [Option.some.injEq, ParseResult.returned.injEq] at h
      obtain ⟨h1, h2⟩ := h
      subst h1; subst h2; rfl
    · split at h
      · simp at h
      · exact ih _ _ _ h
      · next r hstep =>
        simp only [Option.some.injEq] at h
        subst h
        exact (parseStep_returned _ _ _ _ _ _ hstep).1

theorem directive_unexpected_end (cmd options : Str) (blocks : List OpenBlock) (logger : Str)
    (h : (cmd = "endif".toList ∧ currentType blocks ≠ BlockIf
            ∧ currentType blocks ≠ BlockElseIf ∧ currentType blocks ≠ BlockElse)
          ∨ (cmd = "endforeach".toList ∧ currentType blocks ≠ BlockForEach)) :
    directive cmd options blocks logger
      = DirectiveResult.failed
          (logLine logger ("Encountered an unexpected ".toList ++ cmd ++ ['.'])) := by
  rcases h with ⟨hc, h1, h2, h3⟩ | ⟨hc, h1⟩
  · subst hc
    simp [directive, h1, h2, h3]
  · subst hc
    simp [directive, h1]

theorem foundWhat_directive (query : Str) (p : Nat) (h : foundWhat query p = some 3) :
    strAt query p = some '<' := by
  unfold foundWhat at h
  split at h
  · simp at h
  · next c hc =>
    rw [hc]
    by_cases h1 : c = '-'
    · rw [if_pos h1] at h
      split at h
      · simp at h
      · simp only [Option.some.injEq] at h
        split at h <;> omega
    · rw [if_neg h1] at h
      by_cases h2 : c = '/'
      · rw [if_pos h2] at h
        split at h
        · simp at h
        · simp only [Option.some.injEq] at h
          split at h <;> omega
      · rw [if_neg h2] at h
        by_cases h3 : c = '<'
        · rw [h3]
        · rw [if_neg h3] at h
          simp at h

/-! ## `break` and `continue` as directives -/

theorem parse_breakTemplate :
    MetaSQLQueryPrivate.parse_query 100 MetaSQLQueryPrivate.new breakTemplate
      = some (ParseResult.returned true ⟨true, some (loopTree FunctionBreak), []⟩) := by
  decide!

theorem parse_continueTemplate :
    MetaSQLQueryPrivate.parse_query 100 MetaSQLQueryPrivate.new continueTemplate
      = some (ParseResult.returned true ⟨true, some (loopTree FunctionContinue), []⟩) := by
  decide!

theorem noOutput_toString (regexec : Str → Str → Option Bool) (f : MetaSQLFunction)
    (params : ParameterList) (st : EvalState) (h : f.noOutput = true) :
    f.toString regexec params st = some ([], st) := by
  simp [MetaSQLFunction.toString, h]

theorem loopBody_toString (regexec : Str → Str → Option Bool) (fn : Function)
    (params : ParameterList) (st : EvalState) (h : st.nBreaks = some 0) :
    toStringItems regexec (loopBody fn) params st = some (['A', 'B'], st) := by
  simp [loopBody, toStringItems, MetaSQLOutput.toString, MetaSQLFunction.toString, h]

theorem loop_forEach (regexec : Str → Str → Option Bool) (fn : Function) (str : Str)
    (params : ParameterList) (n : Nat) :
    ∀ (ui : Nat) (st : EvalState),
      forEachLoop (fun pList s => toStringItems regexec (loopBody fn) pList s) str params n ui st
        = some (copiesAB n, st) := by
  induction n with
  | zero => intro ui st; rfl
  | succ n ih =>
    intro ui st
    simp [forEachLoop, loopBody_toString, ih, copiesAB]

theorem loopBlock_toString (regexec : Str → Str → Option Bool) (fn : Function)
    (xs : List QVariant) (st : EvalState) :
    (MetaSQLOutput.block ⟨true, BlockForEach, "xs".toList, false, none⟩ (loopBody fn)
        none).toString regexec [("xs".toList, QVariant.list xs)] st
      = some (copiesAB xs.length, st) := by
  rw [MetaSQLOutput.toString]
  simp only [ParameterList.value, if_true, QVariant.toList]
  exact loop_forEach regexec fn _ _ _ 0 st

theorem loopTree_populate (regexec : Str → Str → Option Bool) (fn : Function)
    (xs : List QVariant) :
    (MetaSQLQueryPrivate.mk true (some (loopTree fn)) []).populate regexec
        [("xs".toList, QVariant.list xs)] MetaSQLInfo.new
      = some (trim (copiesAB xs.length), MetaSQLInfo.new, []) := by
  unfold MetaSQLQueryPrivate.populate loopTree
  dsimp only
  rw [rootOf_toString, toStringItems_cons, loopBlock_toString]
  simp [toStringItems, MetaSQLOutput.toString]

theorem PMap.keys_append (m e : PMap) : PMap.keys (m ++ e) = m.keys ++ e.keys := by
  simp [PMap.keys]

theorem PMap.set_fresh (m : PMap) (k : Str) (v : QVariant) (h : k ∉ m.keys) :
    m.set k v = m ++ [(k, v)] := by
  induction m with
  | nil => rfl
  | cons p m ih =>
    obtain ⟨n, w⟩ := p
    simp only [PMap.keys, List.map_cons, List.mem_cons, not_or] at h
    have hne : ¬ n = k := fun e => h.1 e.symm
    simp only [PMap.set, hne, if_false, List.cons_append, List.cons.injEq, true_and]
    exact ih h.2

theorem Contiguous.fresh (m : MetaSQLInfo) (h : m.Contiguous) :
    placeholder (m.paramCount + 1) ∉ m.pList.keys := by
  rw [h]
  intro hmem
  obtain ⟨k, hk, he⟩ := List.mem_map.mp hmem
  have := placeholder_injective he
  rw [List.mem_range'_1] at hk
  omega

theorem Grows.same (m : MetaSQLInfo) (r : Str) : Grows m r m 0 :=
  ⟨rfl, fun _ => ⟨[], by simp, by simp [PMap.keys], by simp [PMap.keys]⟩⟩

theorem Grows.contiguous {m m' : MetaSQLInfo} {r : Str} {n : Nat} (h : Grows m r m' n)
    (hm : m.Contiguous) : m'.Contiguous := by
  obtain ⟨hc, hext⟩ := h
  obtain ⟨ext, he, hk, _⟩ := hext hm
  unfold MetaSQLInfo.Contiguous at *
  rw [he, PMap.keys_append, hm, hk, hc, ← List.map_append]
  congr 1
  rw [Nat.add_comm m.paramCount 1, List.range'_append_1, Nat.add_comm]

theorem Grows.trans {m m1 m2 : MetaSQLInfo} {r1 r2 : Str} {n1 n2 : Nat}
    (h1 : Grows m r1 m1 n1) (h2 : Grows m1 r2 m2 n2) : Grows m (r1 ++ r2) m2 (n1 + n2) := by
  refine ⟨by rw [h2.1, h1.1]; omega, fun hm => ?_⟩
  obtain ⟨e1, he1, hk1, hi1⟩ := h1.2 hm
  obtain ⟨e2, he2, hk2, hi2⟩ := h2.2 (h1.contiguous hm)
  refine ⟨e1 ++ e2, by rw [he2, he1, List.append_assoc], ?_, ?_⟩
  · rw [PMap.keys_append, hk1, hk2, h1.1, ← List.map_append]
    congr 1
    rw [Nat.add_assoc, Nat.add_comm n1 1, ← Nat.add_assoc, List.range'_append_1,
      Nat.add_comm n2 n1]
  · intro key hkey
    rw [PMap.keys_append, List.mem_append] at hkey
    rcases hkey with hk | hk
    · exact List.IsInfix.trans (hi1 key hk) (List.infix_append' [] r1 r2 |>.trans (by simp))
    · exact (hi2 key hk).trans (List.infix_append r1 r2 []|>.trans (by simp))

theorem Grows.emit (m : MetaSQLInfo) (v : QVariant) :
    Grows m (placeholder (m.paramCount + 1) ++ [' '])
      ⟨m.paramCount + 1, m.pList.set (placeholder (m.paramCount + 1)) v⟩ 1 := by
  refine ⟨rfl, fun hm => ⟨[(placeholder (m.paramCount + 1), v)], ?_, ?_, ?_⟩⟩
  · exact PMap.set_fresh _ _ _ (Contiguous.fresh m hm)
  · simp [PMap.keys]
  · intro key hkey
    simp only [PMap.keys, List.map_cons, List.map_nil, List.mem_singleton] at hkey
    subst hkey
    exact List.infix_append' [] _ _

theorem toVariant_mif (regexec : Str → Str → Option Bool) (f : MetaSQLFunction)
    (params : ParameterList) (st st1 : EvalState) (v : QVariant)
    (h : f.toVariant regexec params st = some (v, st1)) : st1.mif = st.mif := by
  unfold MetaSQLFunction.toVariant at h
  repeat' first | split at h | (dsimp only at h; split at h)
  all_goals first
    | (simp only [Option.some.injEq, Prod.mk.injEq] at h; obtain ⟨_, h2⟩ := h; subst h2; rfl)
    | simp at h

theorem function_grows (regexec : Str → Str → Option Bool) (f : MetaSQLFunction)
    (params : ParameterList) (st st' : EvalState) (r : Str)
    (h : f.toString regexec params st = some (r, st')) :
    Grows st.mif r st'.mif (if !f.noOutput && emitsPlaceholder f then 1 else 0) := by
  unfold MetaSQLFunction.toString at h
  split at h
  · next hno =>
    simp only [Option.some.injEq, Prod.mk.injEq] at h
    obtain ⟨_, h2⟩ := h
    subst h2
    simp only [hno, Bool.not_true, Bool.false_and]
    exact Grows.same _ _
  · next hno =>
    split at h
    · simp at h
    · next v st1 hv =>
      have hmif := toVariant_mif _ _ _ _ _ _ hv
      split at h
      · next hlit =>
        simp only [Option.some.injEq, Prod.mk.injEq] at h
        obtain ⟨_, h2⟩ := h
        subst h2
        simp only [emitsPlaceholder, hlit, bne_self_eq_false, Bool.and_false]
        rw [hmif]
        exact Grows.same _ _
      · next hlit =>
        simp only [Option.some.injEq, Prod.mk.injEq] at h
        obtain ⟨h1, h2⟩ := h
        subst h1; subst h2
        have : (!f.noOutput && emitsPlaceholder f) = true := by
          simp [emitsPlaceholder, hno, hlit]
        simp only [this, if_true]
        rw [hmif]
        exact Grows.emit _ _

theorem forEachLoop_grows (body : ParameterList → EvalState → Option (Str × EvalState))
    (count : ParameterList → EvalState → Nat) (str : Str) (params : ParameterList)
    (hbody : ∀ pl s r s', body pl s = some (r, s') → Grows s.mif r s'.mif (count pl s))
    (n : Nat) :
    ∀ (ui : Nat) (st st' : EvalState) (r : Str),
      forEachLoop body str params n ui st = some (r, st') →
        Grows st.mif r st'.mif (forEachCount body count str params n ui st) := by
  induction n with
  | zero =>
    intro ui st st' r h
    simp only [forEachLoop, Option.some.injEq, Prod.mk.injEq] at h
    obtain ⟨h1, h2⟩ := h
    subst h1; subst h2
    exact Grows.same _ _
  | succ n ih =>
    intro ui st st' r h
    unfold forEachLoop at h
    unfold forEachCount
    split at h
    · simp at h
    · next r1 st1 hb =>
      have hg := hbody _ _ _ _ hb
      try rw [hb]
      try dsimp only at h
      try dsimp only
      split at h
      · next hbrk =>
        simp only [Option.some.injEq, Prod.mk.injEq] at h
        obtain ⟨h1, h2⟩ := h
        subst h1; subst h2
        rw [if_pos hbrk]
        exact hg
      · next hbrk =>
        rw [if_neg hbrk]
        split at h
        · simp at h
        · next r2 st2 hrec =>
          simp only [Option.some.injEq, Prod.mk.injEq] at h
          obtain ⟨h1, h2⟩ := h
          subst h1; subst h2
          exact hg.trans (ih _ _ _ _ hrec)

mutual
theorem toString_grows (regexec : Str → Str → Option Bool) :
    ∀ (node : MetaSQLOutput) (params : ParameterList) (st st' : EvalState) (r : Str),
      node.toString regexec params st = some (r, st') →
        Grows st.mif r st'.mif (node.evalCount regexec emitsPlaceholder false params st)
  | .string s, params, st, st', r, h => by
    simp only [MetaSQLOutput.toString, Option.some.injEq, Prod.mk.injEq] at h
    obtain ⟨h1, h2⟩ := h
    subst h1; subst h2
    exact Grows.same _ _
  | .comment s, params, st, st', r, h => by
    simp only [MetaSQLOutput.toString, Option.some.injEq, Prod.mk.injEq] at h
    obtain ⟨h1, h2⟩ := h
    subst h1; subst h2
    exact Grows.same _ _
  | .function f, params, st, st', r, h => by
    simp only [MetaSQLOutput.toString] at h
    simp only [MetaSQLOutput.evalCount]
    exact function_grows _ _ _ _ _ _ h
  | .block ⟨valid, BlockIf, loopVar, ifNot, ifFunc⟩ items alt, params, st, st', r, h => by
    rw [MetaSQLOutput.toString] at h
    rw [MetaSQLOutput.evalCount]
    dsimp only at h ⊢
    split at h
    · simp at h
    · next f hf =>
      split at h
      · simp at h
      · next v st1 hv =>
        have hmif := toVariant_mif _ _ _ _ _ _ hv
        simp only [hv, Bool.false_and, Bool.false_eq_true, if_false, Nat.zero_add]
        rw [← hmif]
        by_cases hc : (if ifNot = true then !v.toBool else v.toBool) = true
        · rw [if_pos hc] at h ⊢
          exact toStringItems_grows regexec items _ _ _ _ h
        · rw [if_neg hc] at h ⊢
          exact toStringAlt_grows regexec alt _ _ _ _ h
  | .block ⟨valid, BlockElseIf, loopVar, ifNot, ifFunc⟩ items alt, params, st, st', r, h => by
    rw [MetaSQLOutput.toString] at h
    rw [MetaSQLOutput.evalCount]
    dsimp only at h ⊢
    split at h
    · simp at h
    · next f hf =>
      split at h
      · simp at h
      · next v st1 hv =>
        have hmif := toVariant_mif _ _ _ _ _ _ hv
        simp only [hv, Bool.false_and, Bool.false_eq_true, if_false, Nat.zero_add]
        rw [← hmif]
        by_cases hc : (if ifNot = true then !v.toBool else v.toBool) = true
        · rw [if_pos hc] at h ⊢
          exact toStringItems_grows regexec items _ _ _ _ h
        · rw [if_neg hc] at h ⊢
          exact toStringAlt_grows regexec alt _ _ _ _ h
  | .block ⟨valid, BlockForEach, loopVar, ifNot, ifFunc⟩ items alt, params, st, st', r, h => by
    rw [MetaSQLOutput.toString] at h
    rw [MetaSQLOutput.evalCount]
    dsimp only at h ⊢
    split at h
    · next hfound =>
      rw [if_pos hfound]
      exact forEachLoop_grows _ _ _ _
        (fun pl s r s' hb => toStringItems_grows regexec items pl s s' r hb) _ _ _ _ _ h
    · next hfound =>
      rw [if_neg hfound]
      simp only [Option.some.injEq, Prod.mk.injEq] at h
      obtain ⟨h1, h2⟩ := h
      subst h1; subst h2
      exact Grows.same _ _
  | .block ⟨valid, BlockElse, loopVar, ifNot, ifFunc⟩ items alt, params, st, st', r, h => by
    rw [MetaSQLOutput.toString] at h
    rw [MetaSQLOutput.evalCount]
    exact toStringItems_grows regexec items _ _ _ _ h
  | .block ⟨valid, BlockGeneric, loopVar, ifNot, ifFunc⟩ items alt, params, st, st', r, h => by
    rw [MetaSQLOutput.toString] at h
    rw [MetaSQLOutput.evalCount]
    exact toStringItems_grows regexec items _ _ _ _ h
  | .block ⟨valid, BlockUnknown, loopVar, ifNot, ifFunc⟩ items alt, params, st, st', r, h => by
    rw [MetaSQLOutput.toString] at h
    rw [MetaSQLOutput.evalCount]
    simp only [Option.some.injEq, Prod.mk.injEq] at h
    obtain ⟨h1, h2⟩ := h
    subst h1; subst h2
    exact Grows.same _ _

theorem toStringItems_grows (regexec : Str → Str → Option Bool) :
    ∀ (items : List MetaSQLOutput) (params : ParameterList) (st st' : EvalState) (r : Str),
      toStringItems regexec items params st = some (r, st') →
        Grows st.mif r st'.mif (evalCountItems regexec emitsPlaceholder false items params st)
  | [], params, st, st', r, h => by
    simp only [toStringItems, Option.some.injEq, Prod.mk.injEq] at h
    obtain ⟨h1, h2⟩ := h
    subst h1; subst h2
    exact Grows.same _ _
  | output :: rest, params, st, st', r, h => by
    rw [toStringItems] at h
    rw [evalCountItems]
    split at h
    · simp at h
    · next r1 st1 ho =>
      have hg := toString_grows regexec output _ _ _ _ ho
      try rw [ho]
      try dsimp only at h
      try dsimp only
      split at h
      · next hbrk =>
        simp only [Option.some.injEq, Prod.mk.injEq] at h
        obtain ⟨h1, h2⟩ := h
        subst h1; subst h2
        rw [if_pos hbrk]
        exact hg
      · next hbrk =>
        rw [if_neg hbrk]
        split at h
        · simp at h
        · next r2 st2 hrec =>
          simp only [Option.some.injEq, Prod.mk.injEq] at h
          obtain ⟨h1, h2⟩ := h
          subst h1; subst h2
          exact hg.trans (toStringItems_grows regexec rest _ _ _ _ hrec)

theorem toStringAlt_grows (regexec : Str → Str → Option Bool) :
    ∀ (alt : Option MetaSQLOutput) (params : ParameterList) (st st' : EvalState) (r : Str),
      toStringAlt regexec alt params st = some (r, st') →
        Grows st.mif r st'.mif (evalCountAlt regexec emitsPlaceholder false alt params st)
  | none, params, st, st', r, h => by
    simp only [toStringAlt, Option.some.injEq, Prod.mk.injEq] at h
    obtain ⟨h1, h2⟩ := h
    subst h1; subst h2
    exact Grows.same _ _
  | some a, params, st, st', r, h => by
    rw [toStringAlt] at h
    rw [evalCountAlt]
    exact toString_grows regexec a _ _ _ _ h
end

theorem toStringItems_single (regexec : Str → Str → Option Bool) (node : MetaSQLOutput)
    (params : ParameterList) (st : EvalState) :
    toStringItems regexec [node] params st = node.toString regexec params st := by
  rw [toStringItems]
  cases h : node.toString regexec params st with
  | none => rfl
  | some p =>
    obtain ⟨r, st1⟩ := p
    simp [toStringItems]

mutual
theorem toString_chainBranch (regexec : Str → Str → Option Bool) :
    ∀ (node : MetaSQLOutput) (params : ParameterList) (st : EvalState),
      node.toString regexec params st
        = match chainBranch regexec node params st with
          | none => none
          | some (items, st1) => toStringItems regexec items params st1
  | .block ⟨valid, BlockIf, loopVar, ifNot, ifFunc⟩ items alt, params, st => by
    rw [MetaSQLOutput.toString, chainBranch]
    dsimp only
    cases ifFunc with
    | none => rfl
    | some f =>
      dsimp only
      cases hv : f.toVariant regexec params st with
      | none => rfl
      | some p =>
        obtain ⟨v, st1⟩ := p
        dsimp only
        cases ifNot <;> cases hb : v.toBool <;>
          simp [toStringAlt_chainBranch regexec alt params st1]
  | .block ⟨valid, BlockElseIf, loopVar, ifNot, ifFunc⟩ items alt, params, st => by
    rw [MetaSQLOutput.toString, chainBranch]
    dsimp only
    cases ifFunc with
    | none => rfl
    | some f =>
      dsimp only
      cases hv : f.toVariant regexec params st with
      | none => rfl
      | some p =>
        obtain ⟨v, st1⟩ := p
        dsimp only
        cases ifNot <;> cases hb : v.toBool <;>
          simp [toStringAlt_chainBranch regexec alt params st1]
  | .block ⟨valid, BlockElse, loopVar, ifNot, ifFunc⟩ items alt, params, st => by
    rw [MetaSQLOutput.toString, chainBranch]
  | .block ⟨valid, BlockForEach, loopVar, ifNot, ifFunc⟩ items alt, params, st => by
    rw [chainBranch]
    exact (toStringItems_single _ _ _ _).symm
  | .block ⟨valid, BlockGeneric, loopVar, ifNot, ifFunc⟩ items alt, params, st => by
    rw [chainBranch]
    exact (toStringItems_single _ _ _ _).symm
  | .block ⟨valid, BlockUnknown, loopVar, ifNot, ifFunc⟩ items alt, params, st => by
    rw [chainBranch]
    exact (toStringItems_single _ _ _ _).symm
  | .string s, params, st => by
    rw [chainBranch]
    exact (toStringItems_single _ _ _ _).symm
  | .comment s, params, st => by
    rw [chainBranch]
    exact (toStringItems_single _ _ _ _).symm
  | .function f, params, st => by
    rw [chainBranch]
    exact (toStringItems_single _ _ _ _).symm

theorem toStringAlt_chainBranch (regexec : Str → Str → Option Bool) :
    ∀ (alt : Option MetaSQLOutput) (params : ParameterList) (st : EvalState),
      toStringAlt regexec alt params st
        = match chainBranchAlt regexec alt params st with
          | none => none
          | some (items, st1) => toStringItems regexec items params st1
  | none, params, st => by
    rw [toStringAlt, chainBranchAlt]
    rfl
  | some a, params, st => by
    rw [toStringAlt, chainBranchAlt]
    exact toString_chainBranch regexec a params st
end

theorem value_found_iff (params : ParameterList) (name : Str) :
    (params.value name).2 = true ↔ name ∈ params.map Prod.fst := by
  induction params with
  | nil => simp [ParameterList.value]
  | cons p rest ih =>
    obtain ⟨n, v⟩ := p
    unfold ParameterList.value
    by_cases h : n = name
    · simp [h]
    · have h' : ¬ name = n := fun e => h e.symm
      simp [h, h', ih]

theorem exists_toVariant (regexec : Str → Str → Option Bool) (valid : Bool) (name : Str)
    (rest : List Str) (nb : Int) (params : ParameterList) (st : EvalState) :
    (MetaSQLFunction.mk true valid FunctionExists (name :: rest) nb).toVariant regexec params st
      = some (QVariant.bool (decide (name ∈ params.map Prod.fst)), st) := by
  by_cases h : (params.value name).2 = true
  · simp [MetaSQLFunction.toVariant, h, trueVariant, (value_found_iff params name).mp h]
  · have h2 : name ∉ params.map Prod.fst := fun hm => h ((value_found_iff params name).mpr hm)
    simp only [Bool.not_eq_true] at h
    simp [MetaSQLFunction.toVariant, h, falseVariant, h2]

theorem ifChain_toString (regexec : Str → Str → Option Bool) (params : ParameterList)
    (st : EvalState) (els : Option (List MetaSQLOutput)) :
    ∀ (cs : List (BlockHead × List MetaSQLOutput)),
      (∀ c ∈ cs, (c.1.block = BlockIf ∨ c.1.block = BlockElseIf)
        ∧ ∃ f v, c.1.ifFunc = some f ∧ f.toVariant regexec params st = some (v, st)) →
      toStringAlt regexec (ifChain cs (els.map elseBlock)) params st
        = toStringItems regexec (firstTrue regexec params st cs (els.getD [])) params st := by
  intro cs
  induction cs with
  | nil =>
    intro _
    cases els with
    | none => simp [ifChain, toStringAlt, firstTrue, toStringItems]
    | some items =>
      simp [ifChain, toStringAlt, firstTrue, elseBlock, MetaSQLOutput.toString]
  | cons c rest ih =>
    intro h
    obtain ⟨b, items⟩ := c
    obtain ⟨hblock, f, v, hf, hv⟩ := h (b, items) (List.mem_cons_self _ _)
    have ih' := ih (fun c hc => h c (List.mem_cons_of_mem _ hc))
    obtain ⟨valid, block, loopVar, ifNot, ifFunc⟩ := b
    dsimp only at hblock hf
    subst hf
    have hcond : condHolds regexec params st ⟨valid, block, loopVar, ifNot, some f⟩
        = (v.toBool != ifNot) := by
      simp [condHolds, hv]
    rw [ifChain, toStringAlt]
    have key : (MetaSQLOutput.block ⟨valid, block, loopVar, ifNot, some f⟩ items
          (ifChain rest (els.map elseBlock))).toString regexec params st
        = if (v.toBool != ifNot) = true then toStringItems regexec items params st
          else toStringAlt regexec (ifChain rest (els.map elseBlock)) params st := by
      rcases hblock with hb | hb <;> subst hb <;> rw [MetaSQLOutput.toString] <;>
        dsimp only <;> rw [hv] <;> dsimp only <;>
        cases ifNot <;> cases v.toBool <;> simp
    rw [key]
    unfold firstTrue
    rw [List.find?_cons]
    dsimp only
    rw [hcond]
    cases hc : (v.toBool != ifNot) with
    | true => simp
    | false =>
      simp only [Bool.false_eq_true, if_false]
      rw [ih']
      rfl

theorem value_filter (params : ParameterList) (str key : Str) (h : key ≠ str) :
    ParameterList.value (params.filter (fun p => p.1 != str)) key = params.value key := by
  induction params with
  | nil => rfl
  | cons p rest ih =>
    obtain ⟨n, v⟩ := p
    by_cases hn : n = str
    · subst hn
      have : ¬ n = key := fun e => h e.symm
      simp [List.filter_cons, ParameterList.value, this, ih]
    · have hb : (n != str) = true := bne_iff_ne.mpr hn
      by_cases hk : n = key
      · subst hk
        simp [List.filter_cons, ParameterList.value, hn]
      · simp [List.filter_cons, ParameterList.value, hn, hk, ih]

theorem append_foreachPos_ne (name : Str) : name ≠ name ++ foreachPos := by
  intro h
  have := congrArg List.length h
  simp [foreachPos] at this

theorem foreachParams_value (name : Str) (ui : Nat) (params : ParameterList) :
    (foreachParams (name ++ foreachPos) ui params).value name = params.value name := by
  unfold foreachParams
  rw [ParameterList.value]
  simp only [(append_foreachPos_ne name).symm, if_false]
  exact value_filter params _ _ (append_foreachPos_ne name)

theorem foreachParams_pos (str : Str) (ui : Nat) (params : ParameterList) :
    (foreachParams str ui params).value str = (QVariant.int ui, true) := by
  simp [foreachParams, ParameterList.value]

theorem value_in_foreach (regexec : Str → Str → Option Bool) (fn : Function)
    (hfn : fn = FunctionValue ∨ fn = FunctionLiteral) (noOutput : Bool) (name : Str)
    (rest : List Str) (nb : Int) (params : ParameterList) (st : EvalState) (i : Nat)
    (x : QVariant) (hl : (params.value name).1.isList = true)
    (hx : (params.value name).1.toList[i]? = some x) :
    (MetaSQLFunction.mk true noOutput fn (name :: rest) nb).toVariant regexec
        (foreachParams (name ++ foreachPos) i params) st
      = some (x, st) := by
  have h1 := foreachParams_value name i params
  have h2 := foreachParams_pos (name ++ foreachPos) i params
  rcases hfn with h | h <;> subst h <;>
    simp [MetaSQLFunction.toVariant, h1, h2, hl, QVariant.toInt, hx]

theorem bindFrom_append (k : Nat) (a b : List QVariant) :
    bindFrom k (a ++ b) = bindFrom k a ++ bindFrom (k + a.length) b := by
  induction a generalizing k with
  | nil => simp [bindFrom]
  | cons x a ih =>
    have e : k + 1 + a.length = k + (a.length + 1) := by omega
    rw [List.cons_append, bindFrom, bindFrom, ih (k + 1), List.length_cons, e]
    rfl

theorem bindFrom_keys (k : Nat) (xs : List QVariant) :
    (bindFrom k xs).keys = (List.range' k xs.length).map placeholder := by
  induction xs generalizing k with
  | nil => rfl
  | cons x xs ih =>
    simp only [bindFrom, PMap.keys, List.map_cons, List.length_cons, List.range'_succ]
    congr 1
    exact ih (k + 1)

theorem placeholder_fresh (pre : List QVariant) :
    placeholder (pre.length + 1) ∉ (bindFrom 1 pre).keys := by
  rw [bindFrom_keys]
  intro hmem
  obtain ⟨k, hk, he⟩ := List.mem_map.mp hmem
  have := placeholder_injective he
  rw [List.mem_range'_1] at hk
  omega

theorem foreachBody_toString (regexec : Str → Str → Option Bool) (xs pre suf : List QVariant)
    (x : QVariant) (hxs : xs = pre ++ x :: suf) (st : EvalState)
    (hmif : st.mif = ⟨pre.length, bindFrom 1 pre⟩) (hnb : st.nBreaks = some 0) :
    toStringItems regexec foreachBody
        (foreachParams ("xs".toList ++ foreachPos) pre.length [("xs".toList, QVariant.list xs)]) st
      = some (placeholder (pre.length + 1) ++ [' ', ','],
          { st with mif := ⟨pre.length + 1, bindFrom 1 (pre ++ [x])⟩ }) := by
  have hval : ParameterList.value [("xs".toList, QVariant.list xs)] "xs".toList
      = (QVariant.list xs, true) := by
    simp [ParameterList.value]
  have hv := value_in_foreach regexec FunctionValue (Or.inl rfl) false "xs".toList [] 0
    [("xs".toList, QVariant.list xs)] st pre.length x (by rw [hval]; rfl)
    (by
      rw [hval, hxs]
      show (pre ++ x :: suf)[pre.length]? = some x
      rw [List.getElem?_append_right (Nat.le_refl _)]
      simp)
  unfold foreachBody valueOf
  rw [toStringItems_cons, MetaSQLOutput.toString, MetaSQLFunction.toString]
  simp only [Bool.false_eq_true, if_false]
  rw [hv]
  simp only [reduceCtorEq, if_false, hnb, Option.getD_some, ne_eq, not_true_eq_false,
    toStringItems, MetaSQLOutput.toString, List.append_nil, hmif]
  rw [PMap.set_fresh _ _ _ (placeholder_fresh pre), bindFrom_append]
  simp [bindFrom, Nat.add_comm]

theorem parse_foreachTemplate :
    MetaSQLQueryPrivate.parse_query 100 MetaSQLQueryPrivate.new foreachTemplate
      = some (ParseResult.returned true ⟨true, some foreachTree, []⟩) := by
  decide!

theorem foreachLoop_value (regexec : Str → Str → Option Bool) (xs : List QVariant) :
    ∀ (suf pre : List QVariant) (st : EvalState), xs = pre ++ suf →
      st.mif = ⟨pre.length, bindFrom 1 pre⟩ →
      forEachLoop (fun pList s => toStringItems regexec foreachBody pList s)
          ("xs".toList ++ foreachPos) [("xs".toList, QVariant.list xs)] suf.length pre.length st
        = some (placeholdersText (pre.length + 1) suf.length,
            { st with mif := ⟨xs.length, bindFrom 1 xs⟩ }) := by
  intro suf
  induction suf with
  | nil =>
    intro pre st hxs hmif
    simp only [List.append_nil] at hxs
    subst hxs
    simp [forEachLoop, placeholdersText, ← hmif]
  | cons x suf ih =>
    intro pre st hxs hmif
    have hbody := foreachBody_toString regexec xs pre suf x hxs
      { st with nBreaks := some 0, isContinue := some false } hmif rfl
    have hrec := ih (pre ++ [x])
      { st with mif := ⟨pre.length + 1, bindFrom 1 (pre ++ [x])⟩ }
      (by rw [hxs]; simp) (by simp)
    simp only [List.length_append, List.length_singleton] at hrec
    simp only [List.length_cons, forEachLoop, hbody, Option.getD_some, gt_iff_lt, lt_self_iff_false,
      false_and, if_false, hrec, placeholdersText, List.append_assoc]

theorem foreachTree_populate (regexec : Str → Str → Option Bool) (xs : List QVariant) :
    (MetaSQLQueryPrivate.mk true (some foreachTree) []).populate regexec
        [("xs".toList, QVariant.list xs)] MetaSQLInfo.new
      = some (trim (placeholdersText 1 xs.length), ⟨xs.length, bindFrom 1 xs⟩, []) := by
  have hloop := foreachLoop_value regexec xs xs [] ⟨MetaSQLInfo.new, [], none, none⟩
    rfl rfl
  have hblock : (MetaSQLOutput.block ⟨true, BlockForEach, "xs".toList, false, none⟩ foreachBody
        none).toString regexec [("xs".toList, QVariant.list xs)]
          ⟨MetaSQLInfo.new, [], none, none⟩
      = some (placeholdersText 1 xs.length,
          ⟨⟨xs.length, bindFrom 1 xs⟩, [], none, none⟩) := by
    rw [MetaSQLOutput.toString]
    simp only [ParameterList.value, if_true, QVariant.toList]
    exact hloop
  unfold MetaSQLQueryPrivate.populate foreachTree
  dsimp only
  rw [rootOf_toString, toStringItems_cons, hblock]
  simp [toStringItems, MetaSQLOutput.toString]

/-! ## Trimming keeps what stands between two characters that are not spaces -/

theorem dropWhile_keeps (p : Char → Bool) (c : Char) (hc : p c = false) (y : Str) :
    ∀ x : Str, ∃ x', List.dropWhile p (x ++ c :: y) = x' ++ c :: y := by
  intro x
  induction x with
  | nil => exact ⟨[], by simp [List.dropWhile, hc]⟩
  | cons a x ih =>
    by_cases ha : p a = true
    · obtain ⟨x', hx'⟩ := ih
      exact ⟨x', by simp [List.dropWhile, ha, hx']⟩
    · exact ⟨a :: x, by simp [List.dropWhile, ha]⟩

theorem infix_trim (key r : Str) (c d : Char) (mid : Str) (hkey : key = c :: mid ++ [d])
    (hc : isspace c = false) (hd : isspace d = false) (h : key <:+: r) : key <:+: trim r := by
  obtain ⟨a, b, hr⟩ := h
  subst hkey
  -- rtrim
  have hrev : r.reverse = b.reverse ++ d :: (mid.reverse ++ c :: a.reverse) := by
    rw [← hr]; simp
  obtain ⟨b', hb'⟩ := dropWhile_keeps isspace d hd (mid.reverse ++ c :: a.reverse) b.reverse
  have hrtrim : rtrim r = a ++ c :: (mid ++ d :: b'.reverse) := by
    unfold rtrim
    rw [hrev, hb']
    simp
  obtain ⟨a', ha'⟩ := dropWhile_keeps isspace c hc (mid ++ d :: b'.reverse) a
  refine ⟨a', b'.reverse, ?_⟩
  unfold trim ltrim
  rw [hrtrim, ha']
  simp

theorem placeholder_infix_trim (k : Nat) (r : Str) (h : placeholder k <:+: r) :
    placeholder k <:+: trim r :=
  infix_trim _ r '_' '_' (natToStr k) rfl (by decide) (by decide) h

theorem new_literal (logger : Str) (ps : List Str) :
    (MetaSQLFunction.new logger "literal".toList ps).1
      = ⟨decide (ps.length ≥ 1), false, FunctionLiteral, ps, 0⟩ := rfl

theorem new_value (logger : Str) (ps : List Str) :
    (MetaSQLFunction.new logger "value".toList ps).1
      = ⟨decide (ps.length ≥ 1), false, FunctionValue, ps, 0⟩ := rfl

theorem toVariant_value_state (regexec : Str → Str → Option Bool) (f : MetaSQLFunction)
    (hf : f.func = FunctionValue ∨ f.func = FunctionLiteral)
    (params : ParameterList) (st st1 : EvalState) (v : QVariant)
    (h : f.toVariant regexec params st = some (v, st1)) : st1 = st := by
  unfold MetaSQLFunction.toVariant at h
  rcases hf with hf | hf <;> rw [hf] at h <;> dsimp only at h <;>
  · repeat' split at h
    all_goals first
      | (simp only [Option.some.injEq, Prod.mk.injEq] at h; obtain ⟨_, h2⟩ := h; subst h2; rfl)
      | simp at h

theorem PMap.get_set_self (m : PMap) (k : Str) (v : QVariant) : (m.set k v).get k = some v := by
  induction m with
  | nil => simp [PMap.set, PMap.get]
  | cons p m ih =>
    obtain ⟨n, w⟩ := p
    by_cases h : n = k
    · simp [PMap.set, PMap.get, h]
    · simp [PMap.set, PMap.get, h, ih]

theorem PMap.get_set_other (m : PMap) (k k' : Str) (v : QVariant) (hk : k' ≠ k) :
    (m.set k v).get k' = m.get k' := by
  induction m with
  | nil =>
    have : ¬ k = k' := fun e => hk e.symm
    simp [PMap.set, PMap.get, this]
  | cons p m ih =>
    obtain ⟨n, w⟩ := p
    by_cases h : n = k
    · subst h
      have : ¬ n = k' := fun e => hk e.symm
      simp [PMap.set, PMap.get, this]
    · by_cases h' : n = k'
      · subst h'
        simp [PMap.set, PMap.get, h]
      · simp [PMap.set, PMap.get, h, h', ih]

/-! ## Templates that are plain text -/

theorem findFrom_spec (p : Char → Bool) (l : Str) (k : Nat) :
    findFrom p l k = npos
      ∨ ∃ j c, findFrom p l k = k + j ∧ l[j]? = some c ∧ p c = true := by
  induction l generalizing k with
  | nil => exact Or.inl rfl
  | cons a l ih =>
    unfold findFrom
    by_cases ha : p a = true
    · rw [if_pos ha]
      exact Or.inr ⟨0, a, rfl, by simp, ha⟩
    · rw [if_neg ha]
      rcases ih (k + 1) with h | ⟨j, c, h1, h2, h3⟩
      · exact Or.inl h
      · exact Or.inr ⟨j + 1, c, by rw [h1]; omega, by simpa using h2, h3⟩

theorem find_first_of_spec (s set : Str) (pos : Nat) :
    find_first_of s set pos = npos
      ∨ ∃ i c, find_first_of s set pos = i ∧ pos ≤ i ∧ s[i]? = some c ∧ c ∈ set := by
  unfold find_first_of
  split
  · next hlt =>
    rcases findFrom_spec (fun c => set.elem c) (s.drop pos) pos with h | ⟨j, c, h1, h2, h3⟩
    · exact Or.inl h
    · refine Or.inr ⟨pos + j, c, h1, by omega, ?_, ?_⟩
      · rw [List.getElem?_drop] at h2
        exact h2
      · simpa using h3
  · exact Or.inl rfl


theorem plainText_step_skip (query : Str) (valid : Bool) (fuel : Nat) (st : ParseState)
    (hplain : PlainText query) (hlen : query.length < npos) (i : Nat) (c : Char)
    (hfind : find_first_of query [squote, dquote, '-', '/', '<'] st.currPos = i)
    (hc : query[i]? = some c) :
    parseStep query valid fuel st = some (Step.next { st with currPos := i + 1 }) := by
  obtain ⟨hq1, hq2, hm, hs, hl⟩ := hplain i c hc
  have hilt : i < query.length := by
    by_contra hge
    rw [List.getElem?_eq_none (by omega)] at hc
    exact Option.noConfusion hc
  have hne : i ≠ npos := by omega
  have hsz : sizeT (i + 1) = i + 1 := by
    unfold sizeT
    apply Nat.mod_eq_of_lt
    unfold npos at hlen
    omega
  have hat : strAt query i = some c := by
    unfold strAt
    rw [List.get?_eq_getElem?]
    exact hc
  unfold parseStep
  dsimp only
  rw [hfind]
  have hnq : ¬ (i ≠ npos ∧ (strAt query i = some squote ∨ strAt query i = some dquote)) := by
    rw [hat]
    rintro ⟨_, h | h⟩
    · exact hq1 (Option.some.inj h)
    · exact hq2 (Option.some.inj h)
  rw [if_neg hnq, if_pos hne]
  have hfw : foundWhat query i = some 0 := by
    unfold foundWhat
    rw [hat]
    dsimp only
    rw [hsz]
    by_cases h1 : c = '-'
    · obtain ⟨d, hd, hdne⟩ := hm h1
      have : strAt query (i + 1) = some d := by
        unfold strAt; rw [List.get?_eq_getElem?]; exact hd
      simp [h1, this, hdne]
    · by_cases h2 : c = '/'
      · obtain ⟨d, hd, hdne⟩ := hs h2
        have : strAt query (i + 1) = some d := by
          unfold strAt; rw [List.get?_eq_getElem?]; exact hd
        simp [h2, this, hdne]
      · by_cases h3 : c = '<'
        · obtain ⟨d, hd, hdne⟩ := hl h3
          have : strAt query (i + 1) = some d := by
            unfold strAt; rw [List.get?_eq_getElem?]; exact hd
          simp [h3, this, hdne]
        · simp [h1, h2, h3]
  rw [hfw]
  dsimp only
  rw [if_pos ⟨hne, rfl⟩, hsz]


theorem piece_whole (query : Str) (hlen : query.length < npos) :
    piece query 0 npos = some query := by
  have : min npos query.length = query.length := Nat.min_eq_right (Nat.le_of_lt hlen)
  simp [piece, substr, this]

theorem plainText_step_end (query : Str) (valid : Bool) (fuel : Nat) (st : ParseState)
    (hlast : st.lastPos = 0) (hlen : query.length < npos)
    (hfind : find_first_of query [squote, dquote, '-', '/', '<'] st.currPos = npos) :
    parseStep query valid fuel st
      = some (Step.next
          ⟨npos, npos, appendCurrent st.blocks (MetaSQLOutput.string query), st.logger⟩) := by
  unfold parseStep
  dsimp only
  rw [hfind]
  have h0 : (0 : Nat) ≠ npos := by decide
  simp [flushText, hlast, piece_whole query hlen, h0]

theorem plainText_loop (query : Str) (valid : Bool) (logger : Str)
    (hplain : PlainText query) (hlen : query.length < npos) (fuel : Nat) :
    ∀ (p : Nat), p ≤ query.length → query.length - p + 2 ≤ fuel →
      parseLoop query valid fuel ⟨0, p, rootBlocks, logger⟩
        = some (ParseResult.returned true
            ⟨true, some (rootOf [MetaSQLOutput.string query]), logger⟩) := by
  induction fuel with
  | zero => intro p _ h; omega
  | succ fuel ih =>
    intro p hp hfuel
    have hpn : p ≠ npos := by omega
    unfold parseLoop
    dsimp only
    rw [if_neg hpn]
    rcases find_first_of_spec query [squote, dquote, '-', '/', '<'] p with h | ⟨i, c, h1, h2, h3, _⟩
    · rw [plainText_step_end query valid fuel _ rfl hlen h]
      dsimp only
      cases fuel with
      | zero => omega
      | succ fuel =>
        unfold parseLoop
        simp [closeAll, closeInto, OpenBlock.close, rootBlocks, appendCurrent, OpenBlock.append,
          rootOf]
    · have hilt : i < query.length := by
        by_contra hge
        rw [List.getElem?_eq_none (by omega)] at h3
        exact Option.noConfusion h3
      rw [plainText_step_skip query valid fuel _ hplain hlen i c h1 h3]
      dsimp only
      exact ih (i + 1) (by omega) (by omega)

/-- A template that is plain text is compiled to a root block with the whole template as its one
child, and rendered as the template trimmed, with the `MetaSQLInfo` left as it was. -/
theorem plainText_renders (regexec : Str → Str → Option Bool) (query : Str)
    (d : MetaSQLQueryPrivate) (params : ParameterList) (mif : MetaSQLInfo) (fuel : Nat)
    (hplain : PlainText query) (hlen : query.length < npos) (hfuel : query.length + 2 ≤ fuel) :
    MetaSQLQueryPrivate.parse_query fuel d query
        = some (ParseResult.returned true
            ⟨true, some (rootOf [MetaSQLOutput.string query]), d.logger⟩)
    ∧ (MetaSQLQueryPrivate.mk true (some (rootOf [MetaSQLOutput.string query]))
          d.logger).populate regexec params mif
        = some (trim query, mif, d.logger) := by
  constructor
  · exact plainText_loop query d.valid d.logger hplain hlen fuel 0 (Nat.zero_le _) (by omega)
  · simp [MetaSQLQueryPrivate.populate, rootOf, MetaSQLOutput.toString, toStringItems]

theorem plainText_select1 : PlainText "SELECT 1".toList := by
  intro i c h
  have hi : i < 8 := by
    by_contra hge
    rw [List.getElem?_eq_none (by simpa using Nat.le_of_not_lt hge)] at h
    exact Option.noConfusion h
  interval_cases i <;> simp at h <;> subst h <;> decide

theorem root_is_generic_block (logger : Str) :
    (MetaSQLBlock.new logger "generic".toList []).map (fun r => [OpenBlock.mk r.1 [] []])
      = some rootBlocks := rfl

/-! ## Lemmas on the templates of the statements -/

theorem populate_grows (regexec : Str → Str → Option Bool) (d : MetaSQLQueryPrivate)
    (top : MetaSQLOutput) (params : ParameterList) (mif mif' : MetaSQLInfo) (sql log : Str)
    (htop : d.top = some top) (h : d.populate regexec params mif = some (sql, mif', log)) :
    ∃ r, sql = trim r
      ∧ Grows mif r mif'
          (top.evalCount regexec emitsPlaceholder false params ⟨mif, d.logger, none, none⟩) := by
  unfold MetaSQLQueryPrivate.populate at h
  rw [htop] at h
  dsimp only at h
  split at h
  · simp at h
  · next r st hs =>
    simp only [Option.some.injEq, Prod.mk.injEq] at h
    obtain ⟨h1, h2, _⟩ := h
    subst h1; subst h2
    exact ⟨r, rfl, toString_grows regexec top params _ _ _ hs⟩

theorem contiguous_new : MetaSQLInfo.new.Contiguous := rfl

theorem parse_valueTemplate :
    MetaSQLQueryPrivate.parse_query 100 MetaSQLQueryPrivate.new valueTemplate
      = some (ParseResult.returned true ⟨true, some valueTree, []⟩) := by
  decide!

theorem populate_valueTree (regexec : Str → Str → Option Bool) :
    (MetaSQLQueryPrivate.mk true (some valueTree) []).populate regexec
        [(['a'], QVariant.int 7)] MetaSQLInfo.new
      = some ("SELECT _1_".toList, ⟨1, [("_1_".toList, QVariant.int 7)]⟩, []) := rfl

theorem parse_ifElseTemplate :
    MetaSQLQueryPrivate.parse_query 100 MetaSQLQueryPrivate.new ifElseTemplate
      = some (ParseResult.returned true ⟨true, some ifElseTree, []⟩) := by
  decide!

theorem parse_ifNotTemplate :
    MetaSQLQueryPrivate.parse_query 100 MetaSQLQueryPrivate.new ifNotTemplate
      = some (ParseResult.returned true ⟨true, some ifNotTree, []⟩) := by
  decide!

/-! ## `isfirst` and `islast` -/

theorem isfirst_toVariant (regexec : Str → Str → Option Bool) (noOutput : Bool) (name : Str)
    (rest : List Str) (nb : Int) (params : ParameterList) (st : EvalState) :
    (MetaSQLFunction.mk true noOutput FunctionIsFirst (name :: rest) nb).toVariant regexec params st
      = some (QVariant.bool
          (if (params.value name).2 then
            if (params.value name).1.isList then
              decide ((params.value name).1.toList ≠ [] ∧ currentPos params name = 0)
            else true
          else false), st) := by
  unfold MetaSQLFunction.toVariant currentPos
  by_cases h1 : (params.value name).2 = true
  · by_cases h2 : (params.value name).1.isList = true
    · cases hl : (params.value name).1.toList with
      | nil => simp [h1, h2, hl, falseVariant]
      | cons x xs =>
        by_cases h3 : (if (params.value (name ++ foreachPos)).2 = true then (params.value (name ++ foreachPos)).1.toInt else 0) = 0
        · simp [h1, h2, hl, h3, trueVariant]
        · simp [h1, h2, hl, h3, falseVariant]
    · simp [h1, h2, trueVariant]
  · simp [h1, falseVariant]

theorem islast_toVariant (regexec : Str → Str → Option Bool) (noOutput : Bool) (name : Str)
    (rest : List Str) (nb : Int) (params : ParameterList) (st : EvalState) :
    (MetaSQLFunction.mk true noOutput FunctionIsLast (name :: rest) nb).toVariant regexec params st
      = some (QVariant.bool
          (if (params.value name).2 then
            if (params.value name).1.isList then
              decide ((params.value name).1.toList ≠ []
                ∧ currentPos params name + 1 = ((params.value name).1.toList.length : Int))
            else true
          else false), st) := by
  unfold MetaSQLFunction.toVariant currentPos
  by_cases h1 : (params.value name).2 = true
  · by_cases h2 : (params.value name).1.isList = true
    · cases hl : (params.value name).1.toList with
      | nil => simp [h1, h2, hl, falseVariant]
      | cons x xs =>
        dsimp only
        generalize (if (params.value (name ++ foreachPos)).2 = true
          then (params.value (name ++ foreachPos)).1.toInt else 0) = pos
        by_cases h3 : pos = (xs.length : Int)
        · simp [h1, h2, hl, h3, trueVariant]
        · simp [h1, h2, hl, h3, falseVariant]
    · simp [h1, h2, trueVariant]
  · simp [h1, falseVariant]

theorem parse_separatorTemplate :
    MetaSQLQueryPrivate.parse_query 100 MetaSQLQueryPrivate.new separatorTemplate
      = some (ParseResult.returned true ⟨true, some separatorTree, []⟩) := by
  decide!

theorem currentPos_foreach (name : Str) (ui : Nat) (params : ParameterList) :
    currentPos (foreachParams (name ++ foreachPos) ui params) name = ui := by
  unfold currentPos
  rw [foreachParams_pos]
  simp [QVariant.toInt]

theorem islast_in_foreach (regexec : Str → Str → Option Bool) (noOutput : Bool) (name : Str)
    (rest : List Str) (nb : Int) (params : ParameterList) (st : EvalState) (ui : Nat)
    (hf : (params.value name).2 = true) (hl : (params.value name).1.isList = true)
    (hui : ui < (params.value name).1.toList.length) :
    (MetaSQLFunction.mk true noOutput FunctionIsLast (name :: rest) nb).toVariant regexec
        (foreachParams (name ++ foreachPos) ui params) st
      = some (QVariant.bool (decide (ui + 1 = (params.value name).1.toList.length)), st) := by
  rw [islast_toVariant, currentPos_foreach, foreachParams_value]
  have hne : (params.value name).1.toList ≠ [] := by
    intro h; rw [h] at hui; simp at hui
  simp only [hf, hl, if_true, hne, ne_eq, not_false_eq_true, true_and]
  congr 3
  apply decide_eq_decide.mpr
  constructor
  · intro h; exact_mod_cast h
  · intro h; exact_mod_cast h

theorem separatorBody_toString (regexec : Str → Str → Option Bool) (params : ParameterList)
    (st : EvalState) (ui : Nat) (hnb : st.nBreaks = some 0)
    (hf : (params.value ['v']).2 = true) (hl : (params.value ['v']).1.isList = true)
    (hui : ui < (params.value ['v']).1.toList.length) :
    toStringItems regexec separatorBody (foreachParams (['v'] ++ foreachPos) ui params) st
      = some ('x' :: (if ui + 1 = (params.value ['v']).1.toList.length then [] else [',']), st) := by
  have hv := islast_in_foreach regexec false ['v'] [] 0 params st ui hf hl hui
  unfold separatorBody islastV
  rw [toStringItems_cons, MetaSQLOutput.toString]
  simp only [hnb, Option.getD_some, ne_eq, not_true_eq_false, if_false]
  rw [toStringItems_single, MetaSQLOutput.toString]
  simp only [hv]
  by_cases h : ui + 1 = (params.value ['v']).1.toList.length
  · simp [h, QVariant.toBool, toStringAlt]
  · simp [h, QVariant.toBool, toStringItems, MetaSQLOutput.toString, hnb]

theorem separator_loop (regexec : Str → Str → Option Bool) (params : ParameterList)
    (hf : (params.value ['v']).2 = true) (hl : (params.value ['v']).1.isList = true) :
    ∀ (n ui : Nat) (st : EvalState), ui + n = (params.value ['v']).1.toList.length →
      forEachLoop (fun pList s => toStringItems regexec separatorBody pList s)
          (['v'] ++ foreachPos) params n ui st
        = some (separated n, st) := by
  intro n
  induction n with
  | zero => intro ui st _; rfl
  | succ n ih =>
    intro ui st hlen
    have hbody := separatorBody_toString regexec params
      { st with nBreaks := some 0, isContinue := some false } ui rfl hf hl (by omega)
    have hrec := ih (ui + 1) st (by omega)
    have hiff : (ui + 1 = (params.value ['v']).1.toList.length) ↔ n = 0 := by omega
    simp only [forEachLoop, hbody, Option.getD_some, gt_iff_lt, lt_self_iff_false, false_and,
      if_false, hrec, separated, hiff]
    cases n with
    | zero => simp [separated]
    | succ n => simp

/-! ## The state of `parse_query` at the end of the input -/

theorem parseLoop_finalState (query : Str) (valid : Bool) (fuel : Nat) :
    ∀ (st : ParseState) (d : MetaSQLQueryPrivate),
      parseLoop query valid fuel st = some (ParseResult.returned true d)
        ↔ ∃ st', finalState query valid fuel st = some st'
            ∧ d = ⟨true, closeAll st'.blocks, st'.logger⟩ := by
  induction fuel with
  | zero => intro st d; simp [parseLoop, finalState]
  | succ fuel ih =>
    intro st d
    unfold parseLoop finalState
    by_cases hc : st.currPos = npos
    · simp only [hc, if_true, Option.some.injEq, ParseResult.returned.injEq, true_and]
      constructor
      · intro h; exact ⟨st, rfl, h.symm⟩
      · rintro ⟨st', h1, h2⟩; subst h1; exact h2.symm
    · simp only [hc, if_false]
      cases hstep : parseStep query valid fuel st with
      | none => simp
      | some s =>
        cases s with
        | next st1 => exact ih st1 d
        | done r =>
          constructor
          · intro h
            simp only [Option.some.injEq] at h
            subst h
            have := (parseStep_returned _ _ _ _ _ _ hstep).2
            simp at this
          · rintro ⟨st', h1, _⟩
            simp at h1

/-! ## Every `else` block ends its chain -/

theorem elseLastItems_append (xs ys : List MetaSQLOutput) :
    elseLastItems (xs ++ ys) = (elseLastItems xs && elseLastItems ys) := by
  induction xs with
  | nil => simp [elseLastItems]
  | cons x xs ih => simp [elseLastItems, ih, Bool.and_assoc]

theorem chain_elseLast (chain : List (BlockHead × List MetaSQLOutput)) :
    ∀ acc : MetaSQLOutput, acc.elseLast = true →
      (∀ c ∈ chain, c.1.block ≠ BlockElse ∧ elseLastItems c.2 = true) →
      (chain.foldl (fun acc p => MetaSQLOutput.block p.1 p.2 (some acc)) acc).elseLast = true := by
  induction chain with
  | nil => intro acc h _; exact h
  | cons c chain ih =>
    intro acc h hc
    rw [List.foldl_cons]
    apply ih
    · have := hc c (List.mem_cons_self _ _)
      simp [MetaSQLOutput.elseLast, elseLastAlt, this.1, this.2, h]
    · intro c' hc'
      exact hc c' (List.mem_cons_of_mem _ hc')

theorem close_elseLast (b : OpenBlock) (h : b.ElseLast) : b.close.elseLast = true := by
  unfold OpenBlock.close
  apply chain_elseLast
  · simp [MetaSQLOutput.elseLast, elseLastAlt, h.1]
  · exact h.2

theorem append_elseLast (b : OpenBlock) (mso : MetaSQLOutput) (h : b.ElseLast)
    (hm : mso.elseLast = true) : (b.append mso).ElseLast := by
  refine ⟨?_, h.2⟩
  simp [OpenBlock.append, elseLastItems_append, h.1, elseLastItems, hm]

theorem closeInto_elseLast (blocks : List OpenBlock) :
    ∀ child : MetaSQLOutput, child.elseLast = true → (∀ b ∈ blocks, b.ElseLast) →
      (closeInto child blocks).elseLast = true := by
  induction blocks with
  | nil => intro child h _; exact h
  | cons b rest ih =>
    intro child h hb
    rw [closeInto]
    apply ih
    · exact close_elseLast _ (append_elseLast b child (hb b (List.mem_cons_self _ _)) h)
    · intro b' hb'
      exact hb b' (List.mem_cons_of_mem _ hb')

theorem closeAll_elseLast (blocks : List OpenBlock) (h : ∀ b ∈ blocks, b.ElseLast)
    (top : MetaSQLOutput) (ht : closeAll blocks = some top) : top.elseLast = true := by
  cases blocks with
  | nil => simp [closeAll] at ht
  | cons b rest =>
    simp only [closeAll, Option.some.injEq] at ht
    subst ht
    exact closeInto_elseLast rest _ (close_elseLast b (h b (List.mem_cons_self _ _)))
      (fun b' hb' => h b' (List.mem_cons_of_mem _ hb'))

theorem appendCurrent_elseLast (blocks : List OpenBlock) (mso : MetaSQLOutput)
    (h : ∀ b ∈ blocks, b.ElseLast) (hm : mso.elseLast = true) :
    ∀ b ∈ appendCurrent blocks mso, b.ElseLast := by
  cases blocks with
  | nil => intro b hb; simp [appendCurrent] at hb
  | cons c rest =>
    intro b hb
    simp only [appendCurrent, List.mem_cons] at hb
    rcases hb with hb | hb
    · subst hb
      exact append_elseLast c mso (h c (List.mem_cons_self _ _)) hm
    · exact h b (List.mem_cons_of_mem _ hb)

theorem directive_elseLast (cmd options : Str) (blocks blocks' : List OpenBlock)
    (logger logger' : Str) (h : ∀ b ∈ blocks, b.ElseLast)
    (hd : directive cmd options blocks logger = DirectiveResult.ok blocks' logger') :
    ∀ b ∈ blocks', b.ElseLast := by
  unfold directive at hd
  split at hd
  · dsimp only at hd
    split at hd
    · split at hd
      · next b parent rest _ =>
        simp only [DirectiveResult.ok.injEq] at hd
        obtain ⟨h1, _⟩ := hd
        subst h1
        intro x hx
        simp only [List.mem_cons] at hx
        rcases hx with hx | hx
        · subst hx
          exact append_elseLast parent _ (h parent (by simp))
            (close_elseLast b (h b (by simp)))
        · exact h x (by simp [hx])
      · simp at hd
    · simp at hd
  · split at hd
    · split at hd
      · simp at hd
      · next b lg _ =>
        split at hd
        · simp only [DirectiveResult.ok.injEq] at hd
          obtain ⟨h1, _⟩ := hd
          subst h1
          intro x hx
          simp only [List.mem_cons] at hx
          rcases hx with hx | hx
          · subst hx
            exact ⟨rfl, by simp⟩
          · exact h x hx
        · simp at hd
    · split at hd
      · split at hd
        · simp at hd
        · next hne =>
          split at hd
          · simp at hd
          · next hnot =>
            split at hd
            · simp at hd
            · next bh lg heq =>
              split at hd
              · next hv =>
                split at hd
                · next cur rest =>
                  simp only [DirectiveResult.ok.injEq] at hd
                  obtain ⟨h1, _⟩ := hd
                  subst h1
                  have hcur := h cur (by simp)
                  intro x hx
                  simp only [List.mem_cons] at hx
                  rcases hx with hx | hx
                  · subst hx
                    refine ⟨rfl, ?_⟩
                    intro c hc
                    simp only [List.mem_cons] at hc
                    rcases hc with hc | hc
                    · subst hc
                      exact ⟨by simpa [currentType] using hne, hcur.1⟩
                    · exact hcur.2 c hc
                  · exact h x (by simp [hx])
                · simp at hd
              · simp at hd
      · split at hd
        · simp at hd
        · dsimp only at hd
          split at hd
          · simp only [DirectiveResult.ok.injEq] at hd
            obtain ⟨h1, _⟩ := hd
            subst h1
            exact appendCurrent_elseLast blocks _ h rfl
          · simp at hd

theorem flushText_elseLast (query : Str) (st : ParseState) (currPos : Nat)
    (blocks : List OpenBlock) (h : ∀ b ∈ st.blocks, b.ElseLast)
    (hf : flushText query st currPos = some blocks) : ∀ b ∈ blocks, b.ElseLast := by
  unfold flushText at hf
  split at hf
  · cases hp : piece query st.lastPos currPos with
    | none => simp [hp] at hf
    | some s =>
      simp only [hp, Option.map_some', Option.some.injEq] at hf
      subst hf
      exact appendCurrent_elseLast _ _ h rfl
  · simp only [Option.some.injEq] at hf
    subst hf
    exact h

theorem stepDirective_elseLast (query : Str) (valid : Bool) (logger : Str)
    (blocks : List OpenBlock) (currPos : Nat) (st' : ParseState)
    (h : ∀ b ∈ blocks, b.ElseLast)
    (hs : stepDirective query valid logger blocks currPos = Step.next st') :
    ∀ b ∈ st'.blocks, b.ElseLast := by
  unfold stepDirective at hs
  dsimp only at hs
  split at hs
  · simp at hs
  · split at hs
    · simp at hs
    · simp at hs
    · next blocks' logger' hd =>
      simp only [Step.next.injEq] at hs
      subst hs
      exact directive_elseLast _ _ _ _ _ _ h hd

theorem parseStep_elseLast (query : Str) (valid : Bool) (fuel : Nat) (st st' : ParseState)
    (h : ∀ b ∈ st.blocks, b.ElseLast)
    (hs : parseStep query valid fuel st = some (Step.next st')) :
    ∀ b ∈ st'.blocks, b.ElseLast := by
  unfold parseStep at hs
  simp only at hs
  split at hs
  · unfold stepString at hs
    dsimp only at hs
    split at hs
    · simp at hs
    · simp only [Option.some.injEq, Step.next.injEq] at hs
      subst hs
      exact h
  · split at hs
    · simp at hs
    · split at hs
      · simp only [Option.some.injEq, Step.next.injEq] at hs
        subst hs
        exact h
      · split at hs
        · simp at hs
        · next blocks hflush =>
          have hb := flushText_elseLast _ _ _ _ h hflush
          split at hs
          · unfold stepLineComment at hs
            dsimp only at hs
            split at hs
            · simp at hs
            · simp only [Option.some.injEq, Step.next.injEq] at hs
              subst hs
              exact appendCurrent_elseLast _ _ hb rfl
          · split at hs
            · unfold stepBlockComment at hs
              dsimp only at hs
              split at hs
              · simp at hs
              · split at hs
                · simp at hs
                · simp only [Option.some.injEq, Step.next.injEq] at hs
                  subst hs
                  exact appendCurrent_elseLast _ _ hb rfl
            · split at hs
              · simp only [Option.some.injEq] at hs
                exact stepDirective_elseLast _ _ _ _ _ _ hb hs
              · simp only [Option.some.injEq, Step.next.injEq] at hs
                subst hs
                exact hb

theorem parseLoop_elseLast (query : Str) (valid : Bool) (fuel : Nat) :
    ∀ (st : ParseState) (d : MetaSQLQueryPrivate) (top : MetaSQLOutput),
      (∀ b ∈ st.blocks, b.ElseLast) →
      parseLoop query valid fuel st = some (ParseResult.returned true d) →
      d.top = some top → top.elseLast = true := by
  induction fuel with
  | zero => intro st d top _ h; simp [parseLoop] at h
  | succ fuel ih =>
    intro st d top hb h htop
    unfold parseLoop at h
    split at h
    · simp only [Option.some.injEq, ParseResult.returned.injEq, true_and] at h
      subst h
      exact closeAll_elseLast _ hb top htop
    · split at h
      · simp at h
      · next st1 hstep => exact ih st1 d top (parseStep_elseLast _ _ _ _ _ hb hstep) h htop
      · next r hstep =>
        simp only [Option.some.injEq] at h
        subst h
        have := (parseStep_returned _ _ _ _ _ _ hstep).2
        simp at this

theorem rootBlocks_elseLast : ∀ b ∈ rootBlocks, b.ElseLast := by
  intro b hb
  simp only [rootBlocks, List.mem_singleton] at hb
  subst hb
  exact ⟨rfl, by simp⟩

theorem directive_unexpected_else (cmd options : Str) (blocks : List OpenBlock) (logger : Str)
    (hc : cmd = "elseif".toList ∨ cmd = "else".toList)
    (h1 : currentType blocks ≠ BlockIf) (h2 : currentType blocks ≠ BlockElseIf) :
    directive cmd options blocks logger
      = DirectiveResult.failed (logLine logger
          ("Encountered unexpected ".toList ++ cmd
            ++ (if currentType blocks = BlockElse then " statement within else block.".toList
                else " statement outside of if/elseif block.".toList))) := by
  rcases hc with hc | hc <;> subst hc <;>
  · by_cases h3 : currentType blocks = BlockElse
    · simp [directive, h3]
    · simp [directive, h1, h2, h3]

/-! ## Searching in a concatenation -/

theorem dropWhile_none (p : Char → Bool) (s : Str) (h : ∀ c ∈ s, p c = false) :
    s.dropWhile p = s := by
  cases s with
  | nil => rfl
  | cons a s => simp [List.dropWhile, h a (List.mem_cons_self _ _)]

theorem trim_eq_self (s : Str) (h : ∀ c ∈ s, isspace c = false) : trim s = s := by
  unfold trim ltrim rtrim
  rw [dropWhile_none isspace s.reverse (fun c hc => h c (List.mem_reverse.mp hc)),
    List.reverse_reverse, dropWhile_none isspace s h]

theorem findFrom_skip (p : Char → Bool) (A rest : Str) (h : ∀ c ∈ A, p c = false) :
    ∀ k : Nat, findFrom p (A ++ rest) k = findFrom p rest (k + A.length) := by
  induction A with
  | nil => intro k; rfl
  | cons a A ih =>
    intro k
    have ha : p a = false := h a (List.mem_cons_self _ _)
    rw [List.cons_append, findFrom]
    simp only [ha, Bool.false_eq_true, if_false]
    rw [ih (fun c hc => h c (List.mem_cons_of_mem _ hc)) (k + 1), List.length_cons]
    congr 1
    omega

theorem find_first_of_skip (P A rest set : Str) (c : Char) (hA : ∀ x ∈ A, x ∉ set)
    (hc : c ∈ set) :
    find_first_of (P ++ (A ++ c :: rest)) set P.length = P.length + A.length := by
  unfold find_first_of
  have hlt : P.length < (P ++ (A ++ c :: rest)).length := by simp
  rw [if_pos hlt, List.drop_left, findFrom_skip _ A _ (fun x hx => by simpa using hA x hx),
    findFrom]
  simp [hc]

theorem find_first_of_none (P B set : Str) (hB : ∀ x ∈ B, x ∉ set) :
    find_first_of (P ++ B) set P.length = npos := by
  unfold find_first_of
  split
  · rw [List.drop_left]
    have := findFrom_skip (fun c => set.elem c) B [] (fun x hx => by simpa using hB x hx) P.length
    rw [List.append_nil] at this
    rw [this]
    rfl
  · rfl

theorem strAt_append (P rest : Str) (c : Char) : strAt (P ++ c :: rest) P.length = some c := by
  unfold strAt
  rw [List.get?_eq_getElem?, List.getElem?_append_right (Nat.le_refl _)]
  simp

theorem strAt_end (s : Str) (n : Nat) (h : s.length ≤ n) : strAt s n = none := by
  unfold strAt
  rw [List.get?_eq_getElem?]
  exact List.getElem?_eq_none h

theorem sizeT_small (n : Nat) (h : n ≤ npos) : sizeT n = n := by
  unfold sizeT
  unfold npos at h
  exact Nat.mod_eq_of_lt (by omega)

theorem piece_mid (P X Y : Str) (hlen : (P ++ (X ++ Y)).length < npos) :
    piece (P ++ (X ++ Y)) P.length (P.length + X.length) = some X := by
  have h1 : P.length + X.length ≠ npos := by
    simp only [List.length_append] at hlen; omega
  have h2 : sizeT (P.length + X.length + 18446744073709551616 - P.length) = X.length := by
    unfold sizeT
    simp only [List.length_append] at hlen
    unfold npos at hlen
    omega
  unfold piece substr
  rw [if_neg h1, h2, if_pos (by simp), List.drop_left]
  simp

theorem piece_rest (P X : Str) (hlen : (P ++ X).length < npos) :
    piece (P ++ X) P.length npos = some X := by
  unfold piece substr
  rw [if_pos rfl, if_pos (by simp), List.drop_left]
  simp only [List.length_append] at hlen
  have : min npos ((P ++ X).length - P.length) = X.length := by
    simp only [List.length_append]; omega
  rw [this]
  simp

/-! ## Directives: one iteration of the loop, and function calls -/

/-- One iteration of the loop that finds a directive is the handling of that directive. -/
theorem parseStep_directive (query : Str) (valid : Bool) (fuel : Nat) (st : ParseState)
    (blocks : List OpenBlock) (p : Nat)
    (hp : find_first_of query [squote, dquote, '-', '/', '<'] st.currPos = p) (hpos : p ≠ npos)
    (hdir : foundWhat query p = some 3) (hflush : flushText query st p = some blocks) :
    parseStep query valid fuel st = some (stepDirective query valid st.logger blocks p) := by
  have hlt := foundWhat_directive query _ hdir
  have hnq : ¬ (p ≠ npos ∧ (strAt query p = some squote ∨ strAt query p = some dquote)) := by
    rw [hlt]
    rintro ⟨_, h | h⟩
    · exact absurd (Option.some.inj h) (by decide)
    · exact absurd (Option.some.inj h) (by decide)
  unfold parseStep
  dsimp only
  rw [hp, if_neg hnq, if_pos hpos, hdir]
  simp [hflush]

theorem stepDirective_eq (query : Str) (valid : Bool) (logger : Str) (blocks : List OpenBlock)
    (p : Nat) (body : Str)
    (hbody : piece query (sizeT (p + 2)) (find query "?>".toList (sizeT (p + 2))) = some body) :
    stepDirective query valid logger blocks p
      = match directive (strlower (splitCommand (trim body)).1) (splitCommand (trim body)).2
            blocks logger with
        | DirectiveResult.thrown => Step.done (ParseResult.thrown ⟨valid, closeAll blocks, logger⟩)
        | DirectiveResult.failed logger =>
          Step.done (ParseResult.returned false ⟨false, closeAll blocks, logger⟩)
        | DirectiveResult.ok blocks logger =>
          Step.next ⟨sizeT (find query "?>".toList (sizeT (p + 2)) + 2),
            sizeT (find query "?>".toList (sizeT (p + 2)) + 2), blocks, logger⟩ := by
  unfold stepDirective
  dsimp only
  rw [hbody]

theorem acceptedCall_value (cmd : Str) (plist : List Str) (h : cmd ∈ valueFunctions) :
    acceptedCall cmd plist = decide (plist.length ≥ 1) := by
  unfold acceptedCall
  generalize decide (plist.length ≥ 1) = b
  simp only [valueFunctions, List.mem_cons, List.mem_singleton, List.not_mem_nil, or_false] at h
  rcases h with h | h | h | h | h | h <;> subst h <;> cases b <;> decide

theorem acceptedCall_control (cmd : Str) (plist : List Str) (h : cmd ∈ controlFunctions) :
    acceptedCall cmd plist = true := by
  unfold acceptedCall
  generalize decide (plist.length ≥ 1) = b
  simp only [controlFunctions, List.mem_cons, List.mem_singleton, List.not_mem_nil, or_false] at h
  rcases h with h | h <;> subst h <;> cases b <;> decide

theorem acceptedCall_unknown (cmd : Str) (plist : List Str) (h1 : cmd ∉ valueFunctions)
    (h2 : cmd ∉ controlFunctions) : acceptedCall cmd plist = false := by
  simp [acceptedCall, h1, h2]

theorem new_valid (logger cmd : Str) (plist : List Str) (ht : trim cmd = cmd) :
    (MetaSQLFunction.new logger cmd plist).1.valid = acceptedCall cmd plist := by
  by_cases h1 : cmd ∈ valueFunctions
  · rw [acceptedCall_value cmd plist h1]
    simp only [valueFunctions, List.mem_cons, List.mem_singleton, List.not_mem_nil, or_false] at h1
    rcases h1 with h | h | h | h | h | h <;> subst h <;> rfl
  · by_cases h2 : cmd ∈ controlFunctions
    · rw [acceptedCall_control cmd plist h2]
      simp only [controlFunctions, List.mem_cons, List.mem_singleton, List.not_mem_nil,
        or_false] at h2
      rcases h2 with h | h <;> subst h <;> rfl
    · rw [acceptedCall_unknown cmd plist h1 h2]
      simp only [valueFunctions, controlFunctions, List.mem_cons, List.mem_singleton,
        List.not_mem_nil, or_false, not_or] at h1 h2
      obtain ⟨a1, a2, a3, a4, a5, a6⟩ := h1
      obtain ⟨a7, a8⟩ := h2
      unfold MetaSQLFunction.new identifyFunction
      dsimp only
      rw [ht, if_neg a1, if_neg a2, if_neg a3, if_neg a4, if_neg a5, if_neg a6, if_neg a7,
        if_neg a8]

theorem new_logger (logger cmd : Str) (plist : List Str) (ht : trim cmd = cmd)
    (h : acceptedCall cmd plist = true) :
    (MetaSQLFunction.new logger cmd plist).2 = logger := by
  by_cases h1 : cmd ∈ valueFunctions
  · simp only [valueFunctions, List.mem_cons, List.mem_singleton, List.not_mem_nil, or_false] at h1
    rcases h1 with h | h | h | h | h | h <;> subst h <;> rfl
  · by_cases h2 : cmd ∈ controlFunctions
    · simp only [controlFunctions, List.mem_cons, List.mem_singleton, List.not_mem_nil,
        or_false] at h2
      rcases h2 with h | h <;> subst h <;> rfl
    · rw [acceptedCall_unknown cmd plist h1 h2] at h
      exact absurd h (by decide)

theorem directive_function (cmd options : Str) (blocks : List OpenBlock) (logger : Str)
    (plist : List Str) (ht : trim cmd = cmd) (hkw : cmd ∉ blockKeywords)
    (hargs : parseParams (trim options) = some plist) :
    directive cmd options blocks logger
      = if acceptedCall cmd plist then
          DirectiveResult.ok
            (appendCurrent blocks (MetaSQLOutput.function (MetaSQLFunction.new logger cmd plist).1))
            logger
        else
          DirectiveResult.failed
            (logLine (MetaSQLFunction.new logger cmd plist).2
              ("Failed to create new ".toList ++ cmd ++ " function.".toList)) := by
  simp only [blockKeywords, List.mem_cons, List.mem_singleton, List.not_mem_nil, or_false,
    not_or] at hkw
  obtain ⟨k1, k2, k3, k4, k5, k6⟩ := hkw
  unfold directive
  rw [if_neg (by rintro (h | h); exact k4 h; exact k6 h),
    if_neg (by rintro (h | h); exact k1 h; exact k5 h),
    if_neg (by rintro (h | h); exact k2 h; exact k3 h), hargs]
  dsimp only
  rw [new_valid logger cmd plist ht]
  by_cases ha : acceptedCall cmd plist = true
  · rw [if_pos ha, if_pos ha, new_logger logger cmd plist ht ha]
  · rw [if_neg ha, if_neg ha]

/-! ## Comments: one iteration of the loop -/

theorem parseStep_lineComment (query : Str) (valid : Bool) (fuel : Nat) (st : ParseState)
    (blocks : List OpenBlock) (p : Nat)
    (hp : find_first_of query [squote, dquote, '-', '/', '<'] st.currPos = p) (hpos : p ≠ npos)
    (hat : strAt query p = some '-')
    (hfw : foundWhat query p = some 1) (hflush : flushText query st p = some blocks) :
    parseStep query valid fuel st = some (stepLineComment query valid st.logger blocks p) := by
  have hnq : ¬ (p ≠ npos ∧ (strAt query p = some squote ∨ strAt query p = some dquote)) := by
    rw [hat]
    rintro ⟨_, h | h⟩
    · exact absurd (Option.some.inj h) (by decide)
    · exact absurd (Option.some.inj h) (by decide)
  unfold parseStep
  dsimp only
  rw [hp, if_neg hnq, if_pos hpos, hfw]
  simp [hflush]

theorem parseStep_end (query : Str) (valid : Bool) (fuel : Nat) (st : ParseState)
    (blocks : List OpenBlock)
    (hfind : find_first_of query [squote, dquote, '-', '/', '<'] st.currPos = npos)
    (hflush : flushText query st npos = some blocks) :
    parseStep query valid fuel st = some (Step.next ⟨npos, npos, blocks, st.logger⟩) := by
  unfold parseStep
  dsimp only
  rw [hfind]
  simp [hflush]

theorem appendCurrent_root (items : List MetaSQLOutput) (mso : MetaSQLOutput) :
    appendCurrent [⟨⟨true, BlockGeneric, [], false, none⟩, items, []⟩] mso
      = [⟨⟨true, BlockGeneric, [], false, none⟩, items ++ [mso], []⟩] := rfl

theorem closeAll_root (items : List MetaSQLOutput) :
    closeAll [⟨⟨true, BlockGeneric, [], false, none⟩, items, []⟩] = some (rootOf items) := rfl

/-- The flush of the text `A` at the start of the template. -/
theorem flushText_start (A rest : Str) (logger : Str) (hlen : (A ++ rest).length < npos) :
    flushText (A ++ rest) ⟨0, 0, rootBlocks, logger⟩ A.length
      = some [⟨⟨true, BlockGeneric, [], false, none⟩, textNode A, []⟩] := by
  unfold flushText textNode
  by_cases hA : A = []
  · subst hA
    simp [rootBlocks]
  · have hne : (0 : Nat) ≠ A.length := by
      intro h
      exact hA (List.length_eq_zero.mp h.symm)
    have hp := piece_mid [] A rest (by simpa using hlen)
    simp only [List.nil_append, List.length_nil, Nat.zero_add] at hp
    simp [hne, hp, hA, rootBlocks, appendCurrent, OpenBlock.append]

/-- The flush of the text `B` at the end of the template. -/
theorem flushText_rest (P B : Str) (logger : Str) (items : List MetaSQLOutput)
    (hlen : (P ++ B).length < npos) :
    flushText (P ++ B)
        ⟨P.length, P.length, [⟨⟨true, BlockGeneric, [], false, none⟩, items, []⟩], logger⟩ npos
      = some [⟨⟨true, BlockGeneric, [], false, none⟩, items ++ [MetaSQLOutput.string B], []⟩] := by
  have hne : P.length ≠ npos := by
    simp only [List.length_append] at hlen; omega
  unfold flushText
  simp [hne, piece_rest P B hlen, appendCurrent, OpenBlock.append]

theorem parseStep_blockComment (query : Str) (valid : Bool) (fuel : Nat) (st : ParseState)
    (blocks : List OpenBlock) (p : Nat)
    (hp : find_first_of query [squote, dquote, '-', '/', '<'] st.currPos = p) (hpos : p ≠ npos)
    (hat : strAt query p = some '/')
    (hfw : foundWhat query p = some 2) (hflush : flushText query st p = some blocks) :
    parseStep query valid fuel st = stepBlockComment query valid fuel st.logger blocks p := by
  have hnq : ¬ (p ≠ npos ∧ (strAt query p = some squote ∨ strAt query p = some dquote)) := by
    rw [hat]
    rintro ⟨_, h | h⟩
    · exact absurd (Option.some.inj h) (by decide)
    · exact absurd (Option.some.inj h) (by decide)
  unfold parseStep
  dsimp only
  rw [hp, if_neg hnq, if_pos hpos, hfw]
  simp [hflush]

theorem closeAll_rootBlocks : closeAll rootBlocks = some (rootOf []) := rfl

/-! ## A line comment between two plain texts -/

theorem lineComment_first (A body B : Str) (valid : Bool) (fuel : Nat) (logger : Str)
    (hA : Plain A) (hlen : (A ++ ('-' :: '-' :: body ++ B)).length < npos) :
    parseStep (A ++ ('-' :: '-' :: body ++ B)) valid fuel ⟨0, 0, rootBlocks, logger⟩
      = some (stepLineComment (A ++ ('-' :: '-' :: body ++ B)) valid logger
          [⟨⟨true, BlockGeneric, [], false, none⟩, textNode A, []⟩] A.length) := by
  have hl : A.length + (body.length + B.length + 2) < npos := by
    simpa [Nat.add_assoc] using hlen
  have hfind : find_first_of (A ++ ('-' :: '-' :: body ++ B)) [squote, dquote, '-', '/', '<'] 0
      = A.length := by
    have := find_first_of_skip [] A ('-' :: body ++ B) scanStops '-' hA (by decide)
    simpa using this
  have hat : strAt (A ++ ('-' :: '-' :: body ++ B)) A.length = some '-' := strAt_append A _ '-'
  have hat2 : strAt (A ++ ('-' :: '-' :: body ++ B)) (A.length + 1) = some '-' := by
    have := strAt_append (A ++ ['-']) (body ++ B) '-'
    simpa using this
  have hfw : foundWhat (A ++ ('-' :: '-' :: body ++ B)) A.length = some 1 := by
    unfold foundWhat
    rw [hat]
    dsimp only
    rw [sizeT_small _ (by omega), hat2]
    simp
  exact parseStep_lineComment _ valid fuel ⟨0, 0, rootBlocks, logger⟩ _ A.length hfind (by omega)
    hat hfw (flushText_start A _ logger hlen)

theorem lineComment_parse (A body B : Str) (valid : Bool) (fuel : Nat) (logger : Str)
    (hA : Plain A) (hbody : ∀ c ∈ body, c ≠ '\r' ∧ c ≠ '\n') (hB : Plain B)
    (hnl : ∀ n ∈ B.head?, n = '\r' ∨ n = '\n')
    (hlen : (A ++ ('-' :: '-' :: body ++ B)).length < npos) :
    parseLoop (A ++ ('-' :: '-' :: body ++ B)) valid (fuel + 3) ⟨0, 0, rootBlocks, logger⟩
      = some (ParseResult.returned true
          ⟨true, some (rootOf (textNode A ++ MetaSQLOutput.comment ('-' :: '-' :: body)
            :: textNode B)), logger⟩) := by
  have hl : A.length + (body.length + B.length + 2) < npos := by
    simpa [Nat.add_assoc] using hlen
  have hC : ∀ x ∈ '-' :: '-' :: body, x ∉ ['\r', '\n'] := by
    intro x hx
    simp only [List.mem_cons] at hx
    rcases hx with h | h | h
    · subst h; decide
    · subst h; decide
    · have := hbody x h
      simp [this.1, this.2]
  rw [parseLoop, if_neg (show ¬ (0 : Nat) = npos by decide),
    lineComment_first A body B valid _ logger hA hlen]
  unfold stepLineComment
  dsimp only
  cases B with
  | nil =>
    have hq : A ++ ('-' :: '-' :: body ++ []) = A ++ ('-' :: '-' :: body) := by simp
    rw [hq] at hlen ⊢
    rw [find_first_of_none A ('-' :: '-' :: body) _ hC, piece_rest A _ hlen]
    dsimp only
    rw [parseLoop, if_pos rfl, appendCurrent_root, closeAll_root]
    simp [textNode]
  | cons n rest =>
    have hn : n ∈ ['\r', '\n'] := by
      have := hnl n (by simp)
      simpa using this
    have hfind : find_first_of (A ++ ('-' :: '-' :: body ++ n :: rest)) ['\r', '\n'] A.length
        = A.length + ('-' :: '-' :: body).length := by
      have := find_first_of_skip A ('-' :: '-' :: body) rest ['\r', '\n'] n hC hn
      simpa using this
    have hpiece : piece (A ++ ('-' :: '-' :: body ++ n :: rest)) A.length
        (A.length + ('-' :: '-' :: body).length) = some ('-' :: '-' :: body) := by
      have := piece_mid A ('-' :: '-' :: body) (n :: rest) (by simpa using hlen)
      simpa using this
    rw [hfind, hpiece]
    dsimp only
    rw [appendCurrent_root, parseLoop]
    have hne : A.length + ('-' :: '-' :: body).length ≠ npos := by
      simp only [List.length_cons] at hl ⊢; omega
    rw [if_neg hne]
    have hq : A ++ ('-' :: '-' :: body ++ n :: rest) = (A ++ '-' :: '-' :: body) ++ n :: rest := by
      simp
    have hlen' : ((A ++ '-' :: '-' :: body) ++ n :: rest).length < npos := by
      rw [← hq]; exact hlen
    have hcl : A.length + ('-' :: '-' :: body).length = (A ++ '-' :: '-' :: body).length := by
      simp
    have hend : find_first_of ((A ++ '-' :: '-' :: body) ++ n :: rest)
        [squote, dquote, '-', '/', '<'] (A ++ '-' :: '-' :: body).length = npos :=
      find_first_of_none _ _ scanStops hB
    rw [hq, hcl, parseStep_end _ valid _ _ _ hend (flushText_rest _ _ logger _ hlen')]
    dsimp only
    rw [parseLoop, if_pos rfl, closeAll_root]
    simp [textNode]

/-! ## A block comment between two plain texts -/

theorem findStrFrom_skip (a : Char) (pat X rest : Str) (hX : ∀ x ∈ X, x ≠ a) :
    ∀ k : Nat, findStrFrom (a :: pat) (X ++ rest) k = findStrFrom (a :: pat) rest (k + X.length) := by
  induction X with
  | nil => intro k; rfl
  | cons x X ih =>
    intro k
    have hx : (x == a) = false := by simpa using hX x (List.mem_cons_self _ _)
    rw [List.cons_append, findStrFrom, startsWith, hx, Bool.false_and]
    simp only [Bool.false_eq_true, if_false]
    rw [ih (fun y hy => hX y (List.mem_cons_of_mem _ hy)) (k + 1), List.length_cons]
    congr 1
    omega

theorem infix_tail (pat : Str) (x : Char) (body : Str) (h : ¬ pat <:+: x :: body) :
    ¬ pat <:+: body := by
  intro hi
  exact h (List.IsInfix.trans hi (List.suffix_cons x body).isInfix)

theorem startsWith_slash (body rest : Str) (hb : body.head? ≠ some '/') :
    startsWith (body ++ '*' :: rest) ['/'] = false := by
  cases body with
  | nil => rfl
  | cons y body =>
    have hy : (y == '/') = false := by
      simp only [List.head?_cons, ne_eq, Option.some.injEq] at hb
      simpa using hb
    rw [List.cons_append, startsWith, hy, Bool.false_and]

theorem findStrFrom_close (body B : Str) (hb : ¬ ['*', '/'] <:+: body) :
    ∀ k : Nat, findStrFrom ['*', '/'] (body ++ '*' :: '/' :: B) k = k + body.length := by
  induction body with
  | nil =>
    intro k
    simp [findStrFrom, startsWith]
  | cons x body ih =>
    intro k
    have hs : startsWith (x :: (body ++ '*' :: '/' :: B)) ['*', '/'] = false := by
      by_cases hx : x = '*'
      · subst hx
        have hh : body.head? ≠ some '/' := by
          intro hh
          cases body with
          | nil => simp at hh
          | cons y body =>
            simp only [List.head?_cons, Option.some.injEq] at hh
            subst hh
            exact hb ⟨[], body, rfl⟩
        rw [startsWith, startsWith_slash body _ hh, Bool.and_false]
      · have : (x == '*') = false := by simpa using hx
        rw [startsWith, this, Bool.false_and]
    rw [List.cons_append, findStrFrom, hs]
    simp only [Bool.false_eq_true, if_false]
    rw [ih (infix_tail _ x body hb) (k + 1), List.length_cons]
    omega

theorem findStrFrom_open (body rest : Str) (hb : ¬ ['/', '*'] <:+: body ++ ['*']) :
    ∀ k : Nat, findStrFrom ['/', '*'] (body ++ '*' :: rest) k
      = findStrFrom ['/', '*'] ('*' :: rest) (k + body.length) := by
  induction body with
  | nil => intro k; rfl
  | cons x body ih =>
    intro k
    have hs : startsWith (x :: (body ++ '*' :: rest)) ['/', '*'] = false := by
      by_cases hx : x = '/'
      · subst hx
        cases body with
        | nil => exact absurd ⟨[], [], rfl⟩ hb
        | cons y body =>
          by_cases hy : y = '*'
          · subst hy
            exact absurd ⟨[], body ++ ['*'], by simp⟩ hb
          · have : (y == '*') = false := by simpa using hy
            rw [startsWith, List.cons_append, startsWith, this, Bool.false_and, Bool.and_false]
      · have : (x == '/') = false := by simpa using hx
        rw [startsWith, this, Bool.false_and]
    rw [List.cons_append, findStrFrom, hs]
    simp only [Bool.false_eq_true, if_false]
    rw [ih (infix_tail _ x (body ++ ['*']) hb) (k + 1), List.length_cons]
    congr 1
    omega

theorem find_close (A body B : Str) (hb : CommentText body) :
    find (A ++ ('/' :: '*' :: body ++ '*' :: '/' :: B)) "*/".toList A.length
      = A.length + 2 + body.length := by
  unfold find
  rw [if_pos (by simp), List.drop_left]
  show findStrFrom ['*', '/'] ('/' :: '*' :: (body ++ '*' :: '/' :: B)) A.length = _
  rw [findStrFrom, startsWith]
  simp only [show ('/' == '*') = false by decide, Bool.false_and, Bool.false_eq_true, if_false]
  rw [findStrFrom, startsWith, startsWith_slash body _ hb.1, Bool.and_false]
  simp only [Bool.false_eq_true, if_false]
  rw [findStrFrom_close body B hb.2.1]

theorem find_nested (A body B : Str) (hb : CommentText body) (hB : ∀ x ∈ B, x ≠ '/') :
    find (A ++ ('/' :: '*' :: body ++ '*' :: '/' :: B)) "/*".toList (A.length + 1)
        = A.length + body.length + 3
      ∨ find (A ++ ('/' :: '*' :: body ++ '*' :: '/' :: B)) "/*".toList (A.length + 1) = npos := by
  have hq : A ++ ('/' :: '*' :: body ++ '*' :: '/' :: B)
      = (A ++ ['/']) ++ ('*' :: (body ++ '*' :: '/' :: B)) := by simp
  have hl : A.length + 1 = (A ++ ['/']).length := by simp
  unfold find
  rw [if_pos (by simp), hq, hl, List.drop_left]
  show findStrFrom ['/', '*'] _ _ = _ ∨ findStrFrom ['/', '*'] _ _ = _
  rw [findStrFrom, startsWith]
  simp only [show ('*' == '/') = false by decide, Bool.false_and, Bool.false_eq_true, if_false]
  rw [findStrFrom_open body ('/' :: B) hb.2.2, findStrFrom, startsWith]
  simp only [show ('*' == '/') = false by decide, Bool.false_and, Bool.false_eq_true, if_false]
  rw [findStrFrom]
  by_cases hs : startsWith ('/' :: B) ['/', '*'] = true
  · left
    rw [if_pos hs]
    simp only [List.length_append, List.length_singleton]
    omega
  · right
    rw [if_neg hs]
    have := findStrFrom_skip '/' ['*'] B [] hB
      ((A ++ ['/']).length + 1 + body.length + 1 + 1)
    rw [List.append_nil] at this
    rw [this]
    rfl

theorem blockComment_first (A body B : Str) (valid : Bool) (fuel : Nat) (logger : Str)
    (hA : Plain A) (hlen : (A ++ ('/' :: '*' :: body ++ '*' :: '/' :: B)).length < npos) :
    parseStep (A ++ ('/' :: '*' :: body ++ '*' :: '/' :: B)) valid fuel ⟨0, 0, rootBlocks, logger⟩
      = stepBlockComment (A ++ ('/' :: '*' :: body ++ '*' :: '/' :: B)) valid fuel logger
          [⟨⟨true, BlockGeneric, [], false, none⟩, textNode A, []⟩] A.length := by
  have hl : A.length + (body.length + (B.length + 2) + 2) < npos := by
    simpa [Nat.add_assoc] using hlen
  have hfind : find_first_of (A ++ ('/' :: '*' :: body ++ '*' :: '/' :: B))
      [squote, dquote, '-', '/', '<'] 0 = A.length := by
    have := find_first_of_skip [] A ('*' :: body ++ '*' :: '/' :: B) scanStops '/' hA (by decide)
    simpa using this
  have hat : strAt (A ++ ('/' :: '*' :: body ++ '*' :: '/' :: B)) A.length = some '/' :=
    strAt_append A _ '/'
  have hat2 : strAt (A ++ ('/' :: '*' :: body ++ '*' :: '/' :: B)) (A.length + 1) = some '*' := by
    have := strAt_append (A ++ ['/']) (body ++ '*' :: '/' :: B) '*'
    simpa using this
  have hfw : foundWhat (A ++ ('/' :: '*' :: body ++ '*' :: '/' :: B)) A.length = some 2 := by
    unfold foundWhat
    rw [hat]
    dsimp only
    rw [sizeT_small _ (by omega), hat2]
    simp
  exact parseStep_blockComment _ valid fuel ⟨0, 0, rootBlocks, logger⟩ _ A.length hfind
    (by omega) hat hfw (flushText_start A _ logger hlen)

theorem blockComment_end (A body B : Str) (f : Nat) (hb : CommentText body)
    (hB : ∀ x ∈ B, x ≠ '/')
    (hlen : (A ++ ('/' :: '*' :: body ++ '*' :: '/' :: B)).length < npos) :
    commentEnd (A ++ ('/' :: '*' :: body ++ '*' :: '/' :: B)) A.length (f + 1) A.length
        (find (A ++ ('/' :: '*' :: body ++ '*' :: '/' :: B)) "*/".toList A.length)
      = some (A.length + 2 + body.length) := by
  have hl : A.length + (body.length + (B.length + 2) + 2) < npos := by
    simpa [Nat.add_assoc] using hlen
  rw [find_close A body B hb, commentEnd]
  try dsimp only
  rw [sizeT_small (A.length + 1) (by omega)]
  have hcond : ¬ (find (A ++ ('/' :: '*' :: body ++ '*' :: '/' :: B)) "/*".toList (A.length + 1)
        > A.length
      ∧ find (A ++ ('/' :: '*' :: body ++ '*' :: '/' :: B)) "/*".toList (A.length + 1)
        < A.length + 2 + body.length) := by
    rcases find_nested A body B hb hB with h | h <;> rw [h] <;> omega
  rw [if_neg hcond, if_neg hcond]

theorem blockComment_parse (A body B : Str) (valid : Bool) (fuel : Nat) (logger : Str)
    (hA : Plain A) (hb : CommentText body) (hB : Plain B)
    (hlen : (A ++ ('/' :: '*' :: body ++ '*' :: '/' :: B)).length < npos) :
    parseLoop (A ++ ('/' :: '*' :: body ++ '*' :: '/' :: B)) valid (fuel + 3)
        ⟨0, 0, rootBlocks, logger⟩
      = some (ParseResult.returned true
          ⟨true, some (rootOf (textNode A ++ [MetaSQLOutput.comment ('/' :: '*' :: body ++ ['*']),
            MetaSQLOutput.string B])), logger⟩) := by
  have hl : A.length + (body.length + (B.length + 2) + 2) < npos := by
    simpa [Nat.add_assoc] using hlen
  have hB' : ∀ x ∈ B, x ≠ '/' := by
    intro x hx h
    subst h
    exact hB _ hx (by decide)
  have hc1 : (if A.length + 2 + body.length ≠ npos then sizeT (A.length + 2 + body.length + 1)
      else A.length + 2 + body.length) = A.length + ('/' :: '*' :: body ++ ['*']).length := by
    rw [if_pos (by omega), sizeT_small _ (by omega)]
    simp only [List.cons_append, List.length_cons, List.length_append, List.length_singleton,
      List.length_nil]
    omega
  have hpiece : piece (A ++ ('/' :: '*' :: body ++ '*' :: '/' :: B)) A.length
      (A.length + ('/' :: '*' :: body ++ ['*']).length) = some ('/' :: '*' :: body ++ ['*']) := by
    have := piece_mid A ('/' :: '*' :: body ++ ['*']) ('/' :: B) (by simpa using hlen)
    simpa using this
  have hc2 : (if A.length + ('/' :: '*' :: body ++ ['*']).length ≠ npos
      then sizeT (A.length + ('/' :: '*' :: body ++ ['*']).length + 1)
      else A.length + ('/' :: '*' :: body ++ ['*']).length)
      = (A ++ '/' :: '*' :: body ++ ['*', '/']).length := by
    simp only [List.cons_append, List.length_cons, List.length_append, List.length_singleton,
      List.length_nil] at *
    rw [if_pos (by omega), sizeT_small _ (by omega)]
    omega
  rw [parseLoop, if_neg (show ¬ (0 : Nat) = npos by decide),
    blockComment_first A body B valid _ logger hA hlen]
  unfold stepBlockComment
  dsimp only
  rw [blockComment_end A body B _ hb hB' hlen]
  dsimp only
  rw [hc1, hpiece]
  dsimp only
  rw [hc2, appendCurrent_root, parseLoop]
  have hne : (A ++ '/' :: '*' :: body ++ ['*', '/']).length ≠ npos := by
    simp only [List.cons_append, List.length_cons, List.length_append, List.length_singleton,
      List.length_nil]
    omega
  rw [if_neg hne]
  have hq : A ++ ('/' :: '*' :: body ++ '*' :: '/' :: B)
      = (A ++ '/' :: '*' :: body ++ ['*', '/']) ++ B := by simp
  have hlen' : ((A ++ '/' :: '*' :: body ++ ['*', '/']) ++ B).length < npos := by
    rw [← hq]; exact hlen
  have hend : find_first_of ((A ++ '/' :: '*' :: body ++ ['*', '/']) ++ B)
      [squote, dquote, '-', '/', '<'] (A ++ '/' :: '*' :: body ++ ['*', '/']).length = npos :=
    find_first_of_none _ _ scanStops hB
  rw [hq, parseStep_end _ valid _ _ _ hend (flushText_rest _ _ logger _ hlen')]
  dsimp only
  rw [parseLoop, if_pos rfl, closeAll_root]
  simp

/-! ## Templates on which `parse_query` does not terminate -/

theorem unterminated_directive (valid : Bool) (logger : Str) (blocks : List OpenBlock) :
    stepDirective unterminatedTemplate valid logger blocks 1
      = Step.next ⟨1, 1, appendCurrent blocks (MetaSQLOutput.function (valueOf ['a'])), logger⟩ := by
  have hcmd : strlower (splitCommand (trim " value(a)".toList)).1 = "value".toList := by decide!
  have hopt : (splitCommand (trim " value(a)".toList)).2 = "(a)".toList := by decide!
  have hacc : acceptedCall "value".toList [['a']] = true := by decide!
  have hsz : sizeT (find unterminatedTemplate "?>".toList (sizeT (1 + 2)) + 2) = 1 := by decide!
  have hd := directive_function "value".toList "(a)".toList blocks logger [['a']] (by decide!)
    (by decide!) (by decide!)
  rw [hacc, if_pos rfl] at hd
  rw [stepDirective_eq unterminatedTemplate valid logger blocks 1 " value(a)".toList (by decide!),
    hcmd, hopt, hd, hsz]
  rfl


theorem unterminated_step (valid : Bool) (fuel : Nat) (logger : Str) (items : List MetaSQLOutput) :
    parseStep unterminatedTemplate valid fuel
        ⟨1, 1, [⟨⟨true, BlockGeneric, [], false, none⟩, items, []⟩], logger⟩
      = some (Step.next ⟨1, 1, [⟨⟨true, BlockGeneric, [], false, none⟩,
          items ++ [MetaSQLOutput.function (valueOf ['a'])], []⟩], logger⟩) := by
  have h1 : find_first_of unterminatedTemplate [squote, dquote, '-', '/', '<'] 1 = 1 := by decide!
  have h2 : foundWhat unterminatedTemplate 1 = some 3 := by decide!
  have h3 : (1 : Nat) ≠ npos := by decide
  have h4 : flushText unterminatedTemplate
      ⟨1, 1, [⟨⟨true, BlockGeneric, [], false, none⟩, items, []⟩], logger⟩ 1
      = some [⟨⟨true, BlockGeneric, [], false, none⟩, items, []⟩] := by
    simp [flushText]
  have := parseStep_directive unterminatedTemplate valid fuel
      ⟨1, 1, [⟨⟨true, BlockGeneric, [], false, none⟩, items, []⟩], logger⟩
      [⟨⟨true, BlockGeneric, [], false, none⟩, items, []⟩] 1 h1 h3 h2 h4
  rw [this, unterminated_directive]
  rfl

theorem unterminated_loop (valid : Bool) (logger : Str) (fuel : Nat) :
    ∀ items : List MetaSQLOutput,
      parseLoop unterminatedTemplate valid fuel
        ⟨1, 1, [⟨⟨true, BlockGeneric, [], false, none⟩, items, []⟩], logger⟩ = none := by
  induction fuel with
  | zero => intro items; simp [parseLoop]
  | succ fuel ih =>
    intro items
    rw [parseLoop]
    rw [if_neg (show ¬ (1 : Nat) = npos by decide), unterminated_step]
    exact ih _

theorem unterminated_first (valid : Bool) (fuel : Nat) (logger : Str) :
    parseStep unterminatedTemplate valid fuel ⟨0, 0, rootBlocks, logger⟩
      = some (Step.next ⟨1, 1, [⟨⟨true, BlockGeneric, [], false, none⟩,
          [MetaSQLOutput.string ['x'], MetaSQLOutput.function (valueOf ['a'])], []⟩], logger⟩) := by
  have h1 : find_first_of unterminatedTemplate [squote, dquote, '-', '/', '<'] 0 = 1 := by decide!
  have h2 : foundWhat unterminatedTemplate 1 = some 3 := by decide!
  have h3 : (1 : Nat) ≠ npos := by decide
  have hp : piece unterminatedTemplate 0 1 = some ['x'] := by decide!
  have h4 : flushText unterminatedTemplate ⟨0, 0, rootBlocks, logger⟩ 1
      = some [⟨⟨true, BlockGeneric, [], false, none⟩, [MetaSQLOutput.string ['x']], []⟩] := by
    simp [flushText, hp, rootBlocks, appendCurrent, OpenBlock.append]
  have := parseStep_directive unterminatedTemplate valid fuel ⟨0, 0, rootBlocks, logger⟩
      [⟨⟨true, BlockGeneric, [], false, none⟩, [MetaSQLOutput.string ['x']], []⟩] 1 h1 h3 h2 h4
  rw [this, unterminated_directive]
  rfl

theorem unterminated_diverges (fuel : Nat) (d : MetaSQLQueryPrivate) :
    MetaSQLQueryPrivate.parse_query fuel d unterminatedTemplate = none := by
  unfold MetaSQLQueryPrivate.parse_query
  cases fuel with
  | zero => simp [parseLoop]
  | succ fuel =>
    rw [parseLoop]
    rw [if_neg (show ¬ (0 : Nat) = npos by decide), unterminated_first]
    exact unterminated_loop _ _ fuel _

theorem reopened_commentEnd (f : Nat) :
    commentEnd reopenedCommentTemplate 8 (f + 1) 8 (find reopenedCommentTemplate "*/".toList 8)
      = some 5 := by
  have h1 : find reopenedCommentTemplate "*/".toList 8 = npos := by decide!
  have h2 : find reopenedCommentTemplate "/*".toList (sizeT (8 + 1)) = 13 := by decide!
  have h3 : find reopenedCommentTemplate "*/".toList (sizeT (npos + 1)) = 5 := by decide!
  have h4 : (13 > 8 ∧ 13 < npos) := by decide
  have h5 : ¬ (13 > 8 ∧ 13 < 5) := by decide
  rw [h1, commentEnd]
  try dsimp only
  rw [h2, if_pos h4, h3, if_neg h5]

theorem reopened_comment (valid : Bool) (f : Nat) (logger : Str) (blocks : List OpenBlock) :
    stepBlockComment reopenedCommentTemplate valid (f + 1) logger blocks 8
      = some (Step.next ⟨7, 7,
          appendCurrent blocks (MetaSQLOutput.comment "/* b /* c".toList), logger⟩) := by
  have h1 : (if (5 : Nat) ≠ npos then sizeT (5 + 1) else 5) = 6 := by decide!
  have h2 : piece reopenedCommentTemplate 8 6 = some "/* b /* c".toList := by decide!
  have h3 : (if (6 : Nat) ≠ npos then sizeT (6 + 1) else 6) = 7 := by decide!
  unfold stepBlockComment
  dsimp only
  rw [reopened_commentEnd]
  dsimp only
  rw [h1, h2]
  dsimp only
  rw [h3]

theorem reopened_step (valid : Bool) (f : Nat) (logger : Str) (items : List MetaSQLOutput) :
    parseStep reopenedCommentTemplate valid (f + 1)
        ⟨7, 7, [⟨⟨true, BlockGeneric, [], false, none⟩, items, []⟩], logger⟩
      = some (Step.next ⟨7, 7, [⟨⟨true, BlockGeneric, [], false, none⟩,
          items ++ [MetaSQLOutput.string [' '], MetaSQLOutput.comment "/* b /* c".toList], []⟩],
          logger⟩) := by
  have h1 : find_first_of reopenedCommentTemplate [squote, dquote, '-', '/', '<'] 7 = 8 := by
    decide!
  have h2 : foundWhat reopenedCommentTemplate 8 = some 2 := by decide!
  have h3 : (8 : Nat) ≠ npos := by decide
  have hat : strAt reopenedCommentTemplate 8 = some '/' := by decide!
  have hp : piece reopenedCommentTemplate 7 8 = some [' '] := by decide!
  have h4 : flushText reopenedCommentTemplate
      ⟨7, 7, [⟨⟨true, BlockGeneric, [], false, none⟩, items, []⟩], logger⟩ 8
      = some [⟨⟨true, BlockGeneric, [], false, none⟩, items ++ [MetaSQLOutput.string [' ']], []⟩] := by
    simp [flushText, hp, appendCurrent, OpenBlock.append]
  have := parseStep_blockComment reopenedCommentTemplate valid (f + 1)
      ⟨7, 7, [⟨⟨true, BlockGeneric, [], false, none⟩, items, []⟩], logger⟩
      [⟨⟨true, BlockGeneric, [], false, none⟩, items ++ [MetaSQLOutput.string [' ']], []⟩]
      8 h1 h3 hat h2 h4
  rw [this, reopened_comment]
  simp [appendCurrent, OpenBlock.append]

theorem reopened_loop (valid : Bool) (logger : Str) (fuel : Nat) :
    ∀ items : List MetaSQLOutput,
      parseLoop reopenedCommentTemplate valid fuel
        ⟨7, 7, [⟨⟨true, BlockGeneric, [], false, none⟩, items, []⟩], logger⟩ = none := by
  induction fuel with
  | zero => intro items; simp [parseLoop]
  | succ fuel ih =>
    intro items
    rw [parseLoop]
    rw [if_neg (show ¬ (7 : Nat) = npos by decide)]
    cases fuel with
    | zero =>
      have h1 : find_first_of reopenedCommentTemplate [squote, dquote, '-', '/', '<'] 7 = 8 := by
        decide!
      have h2 : foundWhat reopenedCommentTemplate 8 = some 2 := by decide!
      have h3 : (8 : Nat) ≠ npos := by decide
      have hat : strAt reopenedCommentTemplate 8 = some '/' := by decide!
      have hp : piece reopenedCommentTemplate 7 8 = some [' '] := by decide!
      have h4 : flushText reopenedCommentTemplate
          ⟨7, 7, [⟨⟨true, BlockGeneric, [], false, none⟩, items, []⟩], logger⟩ 8
          = some [⟨⟨true, BlockGeneric, [], false, none⟩,
              items ++ [MetaSQLOutput.string [' ']], []⟩] := by
        simp [flushText, hp, appendCurrent, OpenBlock.append]
      have := parseStep_blockComment reopenedCommentTemplate valid 0
          ⟨7, 7, [⟨⟨true, BlockGeneric, [], false, none⟩, items, []⟩], logger⟩
          [⟨⟨true, BlockGeneric, [], false, none⟩, items ++ [MetaSQLOutput.string [' ']], []⟩]
          8 h1 h3 hat h2 h4
      rw [this]
      simp [stepBlockComment, commentEnd]
    | succ f =>
      rw [reopened_step]
      exact ih _

/-! ## The lookahead at the end of the input, and a quote that is not closed -/

theorem lookahead_throws (A : Str) (c : Char) (valid : Bool) (fuel : Nat) (logger : Str)
    (hA : Plain A) (hc : c = '-' ∨ c = '/' ∨ c = '<') (hlen : (A ++ [c]).length < npos) :
    parseLoop (A ++ [c]) valid (fuel + 1) ⟨0, 0, rootBlocks, logger⟩
      = some (ParseResult.thrown ⟨valid, some (rootOf []), logger⟩) := by
  have hmem : c ∈ scanStops := by
    rcases hc with h | h | h <;> subst h <;> decide
  have hfind : find_first_of (A ++ [c]) [squote, dquote, '-', '/', '<'] 0 = A.length := by
    have := find_first_of_skip [] A [] scanStops c hA hmem
    simpa using this
  have hat : strAt (A ++ [c]) A.length = some c := strAt_append A [] c
  have hne : A.length ≠ npos := by
    simp only [List.length_append, List.length_singleton] at hlen; omega
  have hsz : sizeT (A.length + 1) = A.length + 1 := by
    apply sizeT_small
    simp only [List.length_append, List.length_singleton] at hlen; omega
  have hnext : strAt (A ++ [c]) (A.length + 1) = none := strAt_end _ _ (by simp)
  have hfw : foundWhat (A ++ [c]) A.length = none := by
    unfold foundWhat
    rw [hat]
    dsimp only
    rw [hsz, hnext]
    rcases hc with h | h | h <;> subst h <;> simp
  have hnq : ¬ (A.length ≠ npos
      ∧ (strAt (A ++ [c]) A.length = some squote ∨ strAt (A ++ [c]) A.length = some dquote)) := by
    rw [hat]
    rintro ⟨_, h | h⟩
    · rcases hc with h' | h' | h' <;> subst h' <;> exact absurd (Option.some.inj h) (by decide)
    · rcases hc with h' | h' | h' <;> subst h' <;> exact absurd (Option.some.inj h) (by decide)
  rw [parseLoop, if_neg (show ¬ (0 : Nat) = npos by decide)]
  unfold parseStep
  dsimp only
  rw [hfind, if_neg hnq, if_pos hne, hfw]
  rfl

theorem unclosed_quote (A rest : Str) (q : Char) (valid : Bool) (fuel : Nat) (logger : Str)
    (hA : Plain A) (hq : q = squote ∨ q = dquote)
    (hrest : ∀ c ∈ rest, c ≠ q ∧ c ≠ backslash) (hlen : (A ++ q :: rest).length < npos) :
    parseLoop (A ++ q :: rest) valid (fuel + 2) ⟨0, 0, rootBlocks, logger⟩
      = some (ParseResult.returned true ⟨true, some (rootOf []), logger⟩) := by
  have hmem : q ∈ scanStops := by
    rcases hq with h | h <;> subst h <;> decide
  have hfind : find_first_of (A ++ q :: rest) [squote, dquote, '-', '/', '<'] 0 = A.length := by
    have := find_first_of_skip [] A rest scanStops q hA hmem
    simpa using this
  have hat : strAt (A ++ q :: rest) A.length = some q := strAt_append A rest q
  have hl : A.length + rest.length + 1 < npos := by
    simpa [Nat.add_assoc] using hlen
  have hne : A.length ≠ npos := by omega
  have hq' : A.length ≠ npos
      ∧ (strAt (A ++ q :: rest) A.length = some squote
          ∨ strAt (A ++ q :: rest) A.length = some dquote) := by
    rw [hat]
    rcases hq with h | h <;> subst h <;> simp [hne]
  have hsz : sizeT (sizeT (A.length + 18446744073709551615) + 2) = (A ++ [q]).length := by
    unfold sizeT
    unfold npos at hl
    simp only [List.length_append, List.length_singleton]
    omega
  have hneedle : find_first_of (A ++ q :: rest) [backslash, q] (A ++ [q]).length = npos := by
    have := find_first_of_none (A ++ [q]) rest [backslash, q] (fun x hx => by
      have := hrest x hx
      simp [this.1, this.2])
    simpa using this
  rw [parseLoop, if_neg (show ¬ (0 : Nat) = npos by decide)]
  unfold parseStep
  dsimp only
  rw [hfind, if_pos hq']
  unfold stepString
  dsimp only
  rw [hat]
  unfold skipString
  dsimp only
  simp only [Option.toList]
  rw [hsz, hneedle]
  simp [parseLoop, closeAll_rootBlocks]

theorem trim_keeps (x y : Str) (c : Char) (hc : isspace c = false) : trim (x ++ c :: y) ≠ [] := by
  have hrev : (x ++ c :: y).reverse = y.reverse ++ c :: x.reverse := by simp
  obtain ⟨y', hy'⟩ := dropWhile_keeps isspace c hc x.reverse y.reverse
  have hrtrim : rtrim (x ++ c :: y) = x ++ c :: y'.reverse := by
    unfold rtrim
    rw [hrev, hy']
    simp
  obtain ⟨x', hx'⟩ := dropWhile_keeps isspace c hc y'.reverse x
  unfold trim ltrim
  rw [hrtrim, hx']
  simp

/-! ## The comment that is closed by an earlier `*/` -/

theorem reopened_first (valid : Bool) (f : Nat) (logger : Str) :
    parseStep reopenedCommentTemplate valid (f + 1) ⟨0, 0, rootBlocks, logger⟩
      = some (Step.next ⟨7, 7, [⟨⟨true, BlockGeneric, [], false, none⟩,
          [MetaSQLOutput.comment "/* a *".toList], []⟩], logger⟩) := by
  have h1 : find_first_of reopenedCommentTemplate [squote, dquote, '-', '/', '<'] 0 = 0 := by
    decide!
  have h2 : foundWhat reopenedCommentTemplate 0 = some 2 := by decide!
  have h3 : (0 : Nat) ≠ npos := by decide
  have hat : strAt reopenedCommentTemplate 0 = some '/' := by decide!
  have h4 : flushText reopenedCommentTemplate ⟨0, 0, rootBlocks, logger⟩ 0 = some rootBlocks := by
    simp [flushText]
  have h5 : find reopenedCommentTemplate "*/".toList 0 = 5 := by decide!
  have h6 : find reopenedCommentTemplate "/*".toList (sizeT (0 + 1)) = 8 := by decide!
  have h7 : ¬ (8 > 0 ∧ 8 < 5) := by decide
  have h8 : (if (5 : Nat) ≠ npos then sizeT (5 + 1) else 5) = 6 := by decide!
  have h9 : piece reopenedCommentTemplate 0 6 = some "/* a *".toList := by decide!
  have h10 : (if (6 : Nat) ≠ npos then sizeT (6 + 1) else 6) = 7 := by decide!
  have := parseStep_blockComment reopenedCommentTemplate valid (f + 1)
      ⟨0, 0, rootBlocks, logger⟩ rootBlocks 0 h1 h3 hat h2 h4
  rw [this]
  unfold stepBlockComment
  dsimp only
  rw [h5, commentEnd]
  try dsimp only
  rw [h6, if_neg h7, if_neg h7]
  dsimp only
  rw [h8, h9]
  dsimp only
  rw [h10]
  rfl

theorem reopened_diverges (fuel : Nat) (d : MetaSQLQueryPrivate) :
    MetaSQLQueryPrivate.parse_query fuel d reopenedCommentTemplate = none := by
  unfold MetaSQLQueryPrivate.parse_query
  cases fuel with
  | zero => simp [parseLoop]
  | succ fuel =>
    rw [parseLoop, if_neg (show ¬ (0 : Nat) = npos by decide)]
    cases fuel with
    | zero =>
      have h1 : find_first_of reopenedCommentTemplate [squote, dquote, '-', '/', '<'] 0 = 0 := by
        decide!
      have h2 : foundWhat reopenedCommentTemplate 0 = some 2 := by decide!
      have h3 : (0 : Nat) ≠ npos := by decide
      have hat : strAt reopenedCommentTemplate 0 = some '/' := by decide!
      have h4 : flushText reopenedCommentTemplate ⟨0, 0, rootBlocks, d.logger⟩ 0
          = some rootBlocks := by
        simp [flushText]
      have := parseStep_blockComment reopenedCommentTemplate d.valid 0
          ⟨0, 0, rootBlocks, d.logger⟩ rootBlocks 0 h1 h3 hat h2 h4
      rw [this]
      simp [stepBlockComment, commentEnd]
    | succ f =>
      rw [reopened_first]
      exact reopened_loop _ _ (f + 1) _

/-! ## Rendering the trees of the statements -/

theorem render_lineComment (regexec : Str → Str → Option Bool) (A c B : Str)
    (params : ParameterList) (st : EvalState) (hnb : st.nBreaks = none) :
    toStringItems regexec (textNode A ++ MetaSQLOutput.comment c :: textNode B) params st
      = some (A ++ ' ' :: B, st) := by
  by_cases hA : A = [] <;> by_cases hB : B = [] <;>
    simp [textNode, hA, hB, toStringItems, MetaSQLOutput.toString, hnb]

theorem render_blockComment (regexec : Str → Str → Option Bool) (A c B : Str)
    (params : ParameterList) (st : EvalState) (hnb : st.nBreaks = none) :
    toStringItems regexec (textNode A ++ [MetaSQLOutput.comment c, MetaSQLOutput.string B])
        params st
      = some (A ++ ' ' :: B, st) := by
  by_cases hA : A = [] <;>
    simp [textNode, hA, toStringItems, MetaSQLOutput.toString, hnb]

theorem populate_root (regexec : Str → Str → Option Bool) (items : List MetaSQLOutput)
    (logger r : Str) (params : ParameterList) (mif : MetaSQLInfo)
    (h : toStringItems regexec items params ⟨mif, logger, none, none⟩
      = some (r, ⟨mif, logger, none, none⟩)) :
    (MetaSQLQueryPrivate.mk true (some (rootOf items)) logger).populate regexec params mif
      = some (trim r, mif, logger) := by
  unfold MetaSQLQueryPrivate.populate
  dsimp only
  rw [rootOf_toString, h]

theorem value_absent (params : ParameterList) (name : Str) (h : (params.value name).2 = false) :
    (params.value name).1 = QVariant.invalid := by
  induction params with
  | nil => rfl
  | cons p rest ih =>
    obtain ⟨n, v⟩ := p
    unfold ParameterList.value at h ⊢
    by_cases hn : n = name
    · simp [hn] at h
    · simp only [hn, if_false] at h ⊢
      exact ih h

theorem separatorTree_populate (regexec : Str → Str → Option Bool) (params : ParameterList)
    (mif : MetaSQLInfo) (logger : Str)
    (hf : (params.value ['v']).2 = true) (hl : (params.value ['v']).1.isList = true) :
    (MetaSQLQueryPrivate.mk true (some separatorTree) logger).populate regexec params mif
      = some (separated (params.value ['v']).1.toList.length, mif, logger) := by
  have hloop := separator_loop regexec params hf hl (params.value ['v']).1.toList.length 0
    ⟨mif, logger, none, none⟩ (by omega)
  have hblock : (MetaSQLOutput.block ⟨true, BlockForEach, ['v'], false, none⟩ separatorBody
        none).toString regexec params ⟨mif, logger, none, none⟩
      = some (separated (params.value ['v']).1.toList.length, ⟨mif, logger, none, none⟩) := by
    rw [MetaSQLOutput.toString]
    simp only [hf, if_true]
    exact hloop
  have hsp : ∀ n, ∀ c ∈ separated n, isspace c = false := by
    intro n
    induction n with
    | zero => intro c hc; simp [separated] at hc
    | succ n ih =>
      intro c hc
      unfold separated at hc
      by_cases h0 : n = 0
      · simp only [h0, if_true, List.mem_singleton] at hc
        subst hc; decide
      · simp only [h0, if_false, List.mem_cons] at hc
        rcases hc with h | h | h
        · subst h; decide
        · subst h; decide
        · exact ih c h
  have hitems : toStringItems regexec
      [MetaSQLOutput.block ⟨true, BlockForEach, ['v'], false, none⟩ separatorBody none,
        MetaSQLOutput.string []] params ⟨mif, logger, none, none⟩
      = some (separated (params.value ['v']).1.toList.length, ⟨mif, logger, none, none⟩) := by
    rw [toStringItems_cons, hblock]
    simp [toStringItems, MetaSQLOutput.toString]
  have := populate_root regexec _ logger _ params mif hitems
  rw [trim_eq_self _ (hsp _)] at this
  exact this

/-! ## The parameter list of an iteration, and the growth of the bindings -/

theorem forEachLoop_congr (body body' : ParameterList → EvalState → Option (Str × EvalState))
    (str : Str) (params : ParameterList) (n ui : Nat) (st : EvalState)
    (h : ∀ i, ui ≤ i → i < ui + n → ∀ s,
      body (foreachParams str i params) s = body' (foreachParams str i params) s) :
    forEachLoop body str params n ui st = forEachLoop body' str params n ui st := by
  induction n generalizing ui st with
  | zero => rfl
  | succ n ih =>
    rw [forEachLoop, forEachLoop, h ui (Nat.le_refl _) (by omega)]
    split
    · rfl
    · next r st1 _ =>
      dsimp only
      rw [ih (ui + 1) _ (fun i h1 h2 s => h i (by omega) (by omega) s)]

theorem append_right_ne {a b : Str} (h : a ≠ b) (c : Str) : a ++ c ≠ b ++ c :=
  fun e => h (List.append_cancel_right e)

theorem value_nested (regexec : Str → Str → Option Bool) (fn : Function)
    (hfn : fn = FunctionValue ∨ fn = FunctionLiteral) (noOutput : Bool) (a b : Str)
    (rest : List Str) (nb : Int) (params : ParameterList) (st : EvalState) (i j : Nat)
    (x : QVariant) (hab : a ≠ b) (hpos : a ≠ b ++ foreachPos)
    (hl : (params.value a).1.isList = true)
    (hx : (params.value a).1.toList[i]? = some x) :
    (MetaSQLFunction.mk true noOutput fn (a :: rest) nb).toVariant regexec
        (foreachParams (b ++ foreachPos) j (foreachParams (a ++ foreachPos) i params)) st
      = some (x, st) := by
  have e1 : (foreachParams (b ++ foreachPos) j (foreachParams (a ++ foreachPos) i params)).value a
      = params.value a := by
    rw [foreachParams, ParameterList.value, if_neg (fun e => hpos e.symm),
      value_filter _ _ _ hpos, foreachParams_value]
  have e2 : (foreachParams (b ++ foreachPos) j (foreachParams (a ++ foreachPos) i params)).value
      (a ++ foreachPos) = (QVariant.int i, true) := by
    rw [foreachParams, ParameterList.value, if_neg (fun e => append_right_ne hab _ e.symm),
      value_filter _ _ _ (append_right_ne hab _), foreachParams_pos]
  rcases hfn with h | h <;> subst h <;>
    simp [MetaSQLFunction.toVariant, e1, e2, hl, QVariant.toInt, hx]

theorem PMap.get_append (m ext : PMap) (key : Str) (v : QVariant)
    (h : PMap.get m key = some v) : PMap.get (m ++ ext) key = some v := by
  induction m with
  | nil => simp [PMap.get] at h
  | cons p rest ih =>
    obtain ⟨n, w⟩ := p
    rw [List.cons_append, PMap.get]
    rw [PMap.get] at h
    by_cases hn : n = key
    · rw [if_pos hn] at h ⊢
      exact h
    · rw [if_neg hn] at h ⊢
      exact ih h

/-! ## The argument parsers -/

theorem ltrim_cons (c : Char) (s : Str) (hc : isspace c = false) : ltrim (c :: s) = c :: s := by
  simp [ltrim, List.dropWhile, hc]

theorem rtrim_snoc (s : Str) (d : Char) (hd : isspace d = false) : rtrim (s ++ [d]) = s ++ [d] := by
  simp [rtrim, List.dropWhile, hd]

theorem trim_ends (c d : Char) (mid : Str) (hc : isspace c = false) (hd : isspace d = false) :
    trim (c :: mid ++ [d]) = c :: mid ++ [d] := by
  unfold trim
  rw [show c :: mid ++ [d] = (c :: mid) ++ [d] from rfl, rtrim_snoc _ _ hd]
  exact ltrim_cons c _ hc

theorem argLoop_cons (enclosed : Bool) (qc : Char) (rest : Str) (working in_string : Bool)
    (string_starter : Char) (wip : Str) (plist : List Str) :
    argLoop enclosed (qc :: rest) working in_string string_starter wip plist
      = if !working && enclosed && qc == '(' then
          argLoop enclosed rest true in_string string_starter wip plist
        else if in_string then
          if qc == backslash then
            match rest with
            | [] => none
            | c :: rest2 => argLoop enclosed rest2 working in_string string_starter (wip ++ [c]) plist
          else if qc == string_starter then
            argLoop enclosed rest working false string_starter wip plist
          else argLoop enclosed rest working in_string string_starter (wip ++ [qc]) plist
        else
          if qc == ',' then argLoop enclosed rest working in_string string_starter [] (plist ++ [wip])
          else if isspace qc then argLoop enclosed rest working in_string string_starter wip plist
          else if qc == squote || qc == dquote then argLoop enclosed rest working true qc wip plist
          else if enclosed && qc == ')' then some (wip, plist)
          else argLoop enclosed rest working in_string string_starter (wip ++ [qc]) plist := by
  rw [argLoop.eq_def]
  rfl

theorem loopVarLoop_cons (qc : Char) (rest : Str) (in_string : Bool) (in_list : Int)
    (string_starter : Char) (wip : Str) :
    loopVarLoop (qc :: rest) in_string in_list string_starter wip
      = if in_string then
          if qc == backslash then
            match rest with
            | [] => none
            | c :: rest2 => loopVarLoop rest2 in_string in_list string_starter (wip ++ [c])
          else if qc == string_starter then loopVarLoop rest false in_list string_starter wip
          else loopVarLoop rest in_string in_list string_starter (wip ++ [qc])
        else
          if qc == '(' then loopVarLoop rest in_string (in_list + 1) string_starter wip
          else if qc == ')' then
            if in_list - 1 < 1 then some wip
            else loopVarLoop rest in_string (in_list - 1) string_starter wip
          else if qc == squote || qc == dquote then loopVarLoop rest true in_list qc wip
          else if qc == ',' then some wip
          else loopVarLoop rest in_string in_list string_starter wip := by
  rw [loopVarLoop.eq_def]
  rfl

theorem argLoop_backslash (enclosed : Bool) (q : Char) (s : Str)
    (hs : ∀ c ∈ s, c ≠ backslash ∧ c ≠ q) (wip : Str) (plist : List Str) :
    argLoop enclosed (s ++ [backslash]) true true q wip plist = none := by
  induction s generalizing wip with
  | nil => simp [argLoop_cons]
  | cons c s ih =>
    have h1 := hs c (List.mem_cons_self _ _)
    rw [List.cons_append, argLoop_cons]
    simp only [Bool.not_true, Bool.false_and, Bool.false_eq_true, if_false, if_true,
      beq_iff_eq, h1.1, h1.2]
    exact ih (fun x hx => hs x (List.mem_cons_of_mem _ hx)) _

theorem parseParams_backslash (q : Char) (hq : q = squote ∨ q = dquote) (s : Str)
    (hs : ∀ c ∈ s, c ≠ backslash ∧ c ≠ q) :
    parseParams ('(' :: q :: s ++ [backslash]) = none := by
  have h := argLoop_backslash true q s hs [] []
  show parseParams ('(' :: q :: (s ++ [backslash])) = none
  unfold parseParams
  dsimp only
  rw [argLoop_cons, if_pos (by rfl), argLoop_cons, if_neg (by simp), if_neg (by simp),
    if_neg (by rcases hq with e | e <;> subst e <;> decide),
    if_neg (by rcases hq with e | e <;> subst e <;> decide),
    if_pos (by rcases hq with e | e <;> subst e <;> decide)]
  rw [show ('(' == '(') = true from rfl, h]

theorem loopVarLoop_backslash (q : Char) (s : Str)
    (hs : ∀ c ∈ s, c ≠ backslash ∧ c ≠ q) (n : Int) (wip : Str) :
    loopVarLoop (s ++ [backslash]) true n q wip = none := by
  induction s generalizing wip with
  | nil => simp [loopVarLoop_cons]
  | cons c s ih =>
    have h1 := hs c (List.mem_cons_self _ _)
    rw [List.cons_append, loopVarLoop_cons]
    simp only [if_true, beq_iff_eq, h1.1, h1.2, if_false]
    exact ih (fun x hx => hs x (List.mem_cons_of_mem _ hx)) _

theorem loopVar_backslash (q : Char) (hq : q = squote ∨ q = dquote) (s : Str)
    (hs : ∀ c ∈ s, c ≠ backslash ∧ c ≠ q) :
    loopVarLoop ('(' :: q :: s ++ [backslash]) false 0 dquote [] = none := by
  have h := loopVarLoop_backslash q s hs 1 []
  show loopVarLoop ('(' :: q :: (s ++ [backslash])) false 0 dquote [] = none
  rw [loopVarLoop_cons, if_neg (by simp), if_pos (by rfl), loopVarLoop_cons, if_neg (by simp),
    if_neg (by rcases hq with e | e <;> subst e <;> decide),
    if_neg (by rcases hq with e | e <;> subst e <;> decide),
    if_pos (by rcases hq with e | e <;> subst e <;> decide)]
  exact h

theorem directive_backslash (cmd : Str) (q : Char) (hq : q = squote ∨ q = dquote) (s : Str)
    (hs : ∀ c ∈ s, c ≠ backslash ∧ c ≠ q) (blocks : List OpenBlock) (logger : Str)
    (hkw : cmd ∉ blockKeywords) :
    directive cmd ('(' :: q :: s ++ [backslash]) blocks logger = DirectiveResult.thrown := by
  simp only [blockKeywords, List.mem_cons, List.mem_singleton, List.not_mem_nil, or_false,
    not_or] at hkw
  obtain ⟨k1, k2, k3, k4, k5, k6⟩ := hkw
  unfold directive
  rw [if_neg (by rintro (h | h); exact k4 h; exact k6 h),
    if_neg (by rintro (h | h); exact k1 h; exact k5 h),
    if_neg (by rintro (h | h); exact k2 h; exact k3 h),
    show '(' :: q :: s ++ [backslash] = '(' :: (q :: s) ++ [backslash] from rfl,
    trim_ends '(' backslash (q :: s) (by decide) (by decide)]
  rw [show '(' :: (q :: s) ++ [backslash] = '(' :: q :: s ++ [backslash] from rfl,
    parseParams_backslash q hq s hs]

theorem foreach_backslash (q : Char) (hq : q = squote ∨ q = dquote) (s : Str)
    (hs : ∀ c ∈ s, c ≠ backslash ∧ c ≠ q) (logger : Str) :
    MetaSQLBlock.new logger "foreach".toList ('(' :: q :: s ++ [backslash]) = none := by
  have ht : trim ('(' :: q :: s ++ [backslash]) = '(' :: q :: s ++ [backslash] :=
    trim_ends '(' backslash (q :: s) (by decide) (by decide)
  have hi : identifyBlock logger "foreach".toList = (BlockForEach, logger) := rfl
  unfold MetaSQLBlock.new
  rw [hi]
  dsimp only
  rw [ht, loopVar_backslash q hq s hs]

theorem splitCommand_exists (rest : Str) :
    splitCommand ("exists".toList ++ '(' :: rest) = ("exists".toList, '(' :: rest) := by
  simp [splitCommand, find_first_not_of, findFrom, wordchars, npos]

theorem if_backslash (cmd : Str) (hcmd : cmd = "if".toList ∨ cmd = "elseif".toList) (q : Char)
    (hq : q = squote ∨ q = dquote) (s : Str)
    (hs : ∀ c ∈ s, c ≠ backslash ∧ c ≠ q) (logger : Str) :
    MetaSQLBlock.new logger cmd ("exists".toList ++ '(' :: q :: s ++ [backslash]) = none := by
  have ht : trim ("exists".toList ++ '(' :: q :: s ++ [backslash])
      = "exists".toList ++ '(' :: q :: s ++ [backslash] :=
    trim_ends 'e' backslash ("xists".toList ++ '(' :: q :: s) (by decide) (by decide)
  have ht2 : trim ('(' :: q :: s ++ [backslash]) = '(' :: q :: s ++ [backslash] :=
    trim_ends '(' backslash (q :: s) (by decide) (by decide)
  have hsplit : splitCommand ("exists".toList ++ '(' :: q :: s ++ [backslash])
      = ("exists".toList, '(' :: q :: s ++ [backslash]) :=
    splitCommand_exists (q :: s ++ [backslash])
  have hnot : (strlower (("exists".toList ++ '(' :: q :: s ++ [backslash]).take 4)
      == "not ".toList) = false := rfl
  unfold MetaSQLBlock.new
  rcases hcmd with e | e <;> subst e
  · rw [show identifyBlock logger "if".toList = (BlockIf, logger) from rfl]
    dsimp only
    rw [ht, hnot]
    simp only [Bool.false_eq_true, if_false]
    rw [hsplit]
    dsimp only
    rw [ht2, parseParams_backslash q hq s hs]
  · rw [show identifyBlock logger "elseif".toList = (BlockElseIf, logger) from rfl]
    dsimp only
    rw [ht, hnot]
    simp only [Bool.false_eq_true, if_false]
    rw [hsplit]
    dsimp only
    rw [ht2, parseParams_backslash q hq s hs]

theorem argLoop_string (enclosed : Bool) (q : Char) (hq : q ≠ backslash) (s : Str)
    (hs : ∀ c ∈ s, c ≠ backslash ∧ c ≠ q) (rest wip : Str) (plist : List Str) :
    argLoop enclosed (s ++ q :: rest) true true q wip plist
      = argLoop enclosed rest true false q (wip ++ s) plist := by
  induction s generalizing wip with
  | nil =>
    rw [List.nil_append, argLoop_cons]
    simp [hq]
  | cons c s ih =>
    have h1 := hs c (List.mem_cons_self _ _)
    rw [List.cons_append, argLoop_cons]
    simp only [Bool.not_true, Bool.false_and, Bool.false_eq_true, if_false, if_true,
      beq_iff_eq, h1.1, h1.2]
    rw [ih (fun x hx => hs x (List.mem_cons_of_mem _ hx)), List.append_assoc]
    rfl

theorem argList_cons (a : Str) (l : List Str) (hl : l ≠ []) :
    argList (a :: l) = quoted dquote a ++ ',' :: ' ' :: argList l := by
  cases l with
  | nil => exact absurd rfl hl
  | cons b rest => rfl

theorem argLoop_quoted (a : Str) (ha : Unquoted a) (rest : Str) (ss : Char) (plist : List Str) :
    argLoop true (quoted dquote a ++ rest) true false ss [] plist
      = argLoop true rest true false dquote a plist := by
  show argLoop true (dquote :: (a ++ [dquote] ++ rest)) true false ss [] plist = _
  rw [argLoop_cons, if_neg (by simp), if_neg (by simp), if_neg (by decide), if_neg (by decide),
    if_pos (by decide), List.append_assoc, List.singleton_append,
    argLoop_string true dquote (by decide) a (fun c hc => ⟨(ha c hc).2.2, (ha c hc).2.1⟩)]
  rfl

theorem argLoop_args (init : List Str) (last : Str) (rest : Str)
    (h : ∀ a ∈ init ++ [last], Unquoted a) (ss : Char) (plist : List Str) :
    argLoop true (argList (init ++ [last]) ++ ')' :: rest) true false ss [] plist
      = some (last, plist ++ init) := by
  induction init generalizing ss plist with
  | nil =>
    show argLoop true (quoted dquote last ++ ')' :: rest) true false ss [] plist = _
    rw [argLoop_quoted last (h last (by simp)), argLoop_cons, if_neg (by simp), if_neg (by simp),
      if_neg (by decide), if_neg (by decide), if_neg (by decide), if_pos (by decide)]
    simp
  | cons a init ih =>
    rw [List.cons_append, argList_cons a _ (by simp), List.append_assoc,
      argLoop_quoted a (h a (by simp))]
    show argLoop true (',' :: ' ' :: (argList (init ++ [last]) ++ ')' :: rest)) true false dquote
      a plist = _
    rw [argLoop_cons, if_neg (by simp), if_neg (by simp), if_pos (by decide),
      argLoop_cons, if_neg (by simp), if_neg (by simp), if_neg (by decide), if_pos (by decide),
      ih (fun x hx => h x (by simp at hx ⊢; tauto))]
    simp

theorem parseParams_args (args : List Str) (hne : args ≠ [])
    (h : ∀ a ∈ args, a ≠ [] ∧ Unquoted a) : parseParams (callOptions args) = some args := by
  obtain ⟨init, last, rfl⟩ : ∃ init last, args = init ++ [last] :=
    ⟨args.dropLast, args.getLast hne, (List.dropLast_append_getLast hne).symm⟩
  have hl : last ≠ [] := (h last (by simp)).1
  have hloop := argLoop_args init last [] (fun a ha => (h a ha).2) dquote []
  show parseParams ('(' :: (argList (init ++ [last]) ++ [')'])) = _
  unfold parseParams
  dsimp only
  rw [show ('(' == '(') = true from rfl, argLoop_cons, if_pos (by rfl), hloop]
  simp [hl]

theorem directive_value (args : List Str) (hne : args ≠ [])
    (h : ∀ a ∈ args, a ≠ [] ∧ Unquoted a) (blocks : List OpenBlock) (logger : Str) :
    directive "value".toList (callOptions args) blocks logger
      = DirectiveResult.ok
          (appendCurrent blocks (MetaSQLOutput.function ⟨true, false, FunctionValue, args, 0⟩))
          logger := by
  have ht : trim (callOptions args) = callOptions args :=
    trim_ends '(' ')' (argList args) (by decide) (by decide)
  have hlen : decide (args.length ≥ 1) = true := by
    cases args with
    | nil => exact absurd rfl hne
    | cons a l => simp
  rw [directive_function "value".toList (callOptions args) blocks logger args (by decide)
    (by decide) (by rw [ht]; exact parseParams_args args hne h),
    acceptedCall_value _ _ (by decide), hlen, if_pos rfl]
  have hnew : (MetaSQLFunction.new logger "value".toList args).1
      = ⟨decide (args.length ≥ 1), false, FunctionValue, args, 0⟩ := rfl
  rw [hnew, hlen]

theorem unescape_nil (s : Str) : unescape s = [] ↔ s = [] := by
  match s with
  | [] => simp [unescape]
  | [c] => simp [unescape]
  | c :: d :: rest =>
    simp only [unescape]
    split <;> simp

theorem loopVarLoop_escaped (q : Char) (hq : q ≠ backslash) (rest : Str) (k : Int) :
    ∀ (n : Nat) (s wip : Str), s.length ≤ n → unescapedQuote q s = false →
      danglingBackslash s = false →
      loopVarLoop (s ++ q :: rest) true k q wip
        = loopVarLoop rest false k q (wip ++ unescape s) := by
  intro n
  induction n with
  | zero =>
    intro s wip hn _ _
    have : s = [] := List.length_eq_zero.mp (Nat.le_zero.mp hn)
    subst this
    rw [List.nil_append, loopVarLoop_cons]
    simp [hq, unescape]
  | succ n ih =>
    intro s wip hn hu hd
    match s, hn, hu, hd with
    | [], _, _, _ =>
      rw [List.nil_append, loopVarLoop_cons]
      simp [hq, unescape]
    | [c], _, hu, hd =>
      have hcb : c ≠ backslash := by simpa [danglingBackslash] using hd
      have hcq : c ≠ q := by
        intro e
        simp [unescapedQuote, hcb, e] at hu
        exact hq hu
      rw [List.singleton_append, loopVarLoop_cons]
      simp only [if_true, beq_iff_eq, hcb, hcq, if_false]
      rw [loopVarLoop_cons]
      simp [hq, unescape]
    | c :: d :: r, hn, hu, hd =>
      simp only [List.length_cons] at hn
      by_cases hcb : c = backslash
      · subst hcb
        have hu' : unescapedQuote q r = false := by simpa [unescapedQuote] using hu
        have hd' : danglingBackslash r = false := by simpa [danglingBackslash] using hd
        rw [List.cons_append, List.cons_append, loopVarLoop_cons]
        simp only [if_true, beq_self_eq_true]
        rw [ih r _ (by omega) hu' hd']
        simp [unescape]
      · have hcq : c ≠ q := by
          intro e
          simp [unescapedQuote, hcb, e] at hu
          exact hq hu.1
        have hu' : unescapedQuote q (d :: r) = false := by
          simpa [unescapedQuote, hcb, hcq] using hu
        have hd' : danglingBackslash (d :: r) = false := by
          simpa [danglingBackslash, hcb] using hd
        rw [List.cons_append, loopVarLoop_cons]
        simp only [if_true, beq_iff_eq, hcb, hcq, if_false]
        rw [ih (d :: r) _ (by simp; omega) hu' hd']
        simp [unescape, hcb]

theorem loopVarLoop_quoted (q : Char) (hq : q = squote ∨ q = dquote) (s : Str)
    (hu : unescapedQuote q s = false) (hd : danglingBackslash s = false) (rest : Str) (n : Int)
    (ss : Char) (wip : Str) :
    loopVarLoop (quoted q s ++ rest) false n ss wip
      = loopVarLoop rest false n q (wip ++ unescape s) := by
  have hb : q ≠ backslash := by rcases hq with e | e <;> subst e <;> decide
  show loopVarLoop (q :: (s ++ [q] ++ rest)) false n ss wip = _
  rw [loopVarLoop_cons, if_neg (by simp),
    if_neg (by rcases hq with e | e <;> subst e <;> decide),
    if_neg (by rcases hq with e | e <;> subst e <;> decide),
    if_pos (by rcases hq with e | e <;> subst e <;> decide),
    List.append_assoc, List.singleton_append,
    loopVarLoop_escaped q hb rest n s.length s wip (Nat.le_refl _) hu hd]

theorem new_foreach (logger opts wip : Str)
    (h : loopVarLoop (trim opts) false 0 dquote [] = some wip) :
    MetaSQLBlock.new logger "foreach".toList opts
      = some (if wip = [] then ⟨false, BlockForEach, [], false, none⟩
          else ⟨true, BlockForEach, wip, false, none⟩, logger) := by
  have hi : identifyBlock logger "foreach".toList = (BlockForEach, logger) := rfl
  unfold MetaSQLBlock.new
  rw [hi]
  dsimp only
  rw [h]
  cases wip with
  | nil => rfl
  | cons c w => rfl

theorem directive_foreach (logger opts wip : Str) (blocks : List OpenBlock)
    (h : loopVarLoop (trim opts) false 0 dquote [] = some wip) :
    directive "foreach".toList opts blocks logger
      = if wip = [] then
          DirectiveResult.failed (logLine logger "Failed to create new foreach block.".toList)
        else
          DirectiveResult.ok (⟨⟨true, BlockForEach, wip, false, none⟩, [], []⟩ :: blocks)
            logger := by
  unfold directive
  rw [if_neg (by decide), if_pos (by decide), new_foreach logger opts wip h]
  cases wip with
  | nil => rfl
  | cons c w => rfl

/-! ## The root block stays at the bottom of the stack -/

theorem openStack_root : OpenStack rootBlocks :=
  ⟨[], _, rfl, rfl, rfl, by simp⟩

theorem openStack_ne {blocks : List OpenBlock} (h : OpenStack blocks) : blocks ≠ [] := by
  obtain ⟨upper, root, rfl, _⟩ := h
  simp

theorem openStack_push (x : OpenBlock) (blocks : List OpenBlock) (h : OpenStack blocks)
    (hx : x.head.block.opened) : OpenStack (x :: blocks) := by
  obtain ⟨upper, root, rfl, h1, h2, h3⟩ := h
  refine ⟨x :: upper, root, rfl, h1, h2, ?_⟩
  intro b hb
  rcases List.mem_cons.mp hb with e | e
  · subst e; exact hx
  · exact h3 b e

theorem openStack_tail (x : OpenBlock) (tl : List OpenBlock) (h : OpenStack (x :: tl))
    (hx : x.head.block.opened) : OpenStack tl := by
  obtain ⟨upper, root, he, h1, h2, h3⟩ := h
  cases upper with
  | nil =>
    simp only [List.nil_append, List.cons.injEq] at he
    obtain ⟨e, _⟩ := he
    subst e
    rw [h1] at hx
    rcases hx with e | e | e | e <;> exact absurd e (by decide)
  | cons u upper =>
    simp only [List.cons_append, List.cons.injEq] at he
    obtain ⟨_, e⟩ := he
    exact ⟨upper, root, e, h1, h2, fun b hb => h3 b (List.mem_cons_of_mem _ hb)⟩

theorem openStack_append (blocks : List OpenBlock) (mso : MetaSQLOutput) (h : OpenStack blocks) :
    OpenStack (appendCurrent blocks mso) := by
  obtain ⟨upper, root, rfl, h1, h2, h3⟩ := h
  cases upper with
  | nil => exact ⟨[], root.append mso, rfl, h1, h2, by simp⟩
  | cons u upper =>
    refine ⟨u.append mso :: upper, root, rfl, h1, h2, ?_⟩
    intro b hb
    rcases List.mem_cons.mp hb with e | e
    · subst e; exact h3 u (List.mem_cons_self _ _)
    · exact h3 b (List.mem_cons_of_mem _ e)

theorem new_block (logger cmd options : Str) (b : BlockHead) (lg : Str)
    (h : MetaSQLBlock.new logger cmd options = some (b, lg)) :
    b.block = (identifyBlock logger cmd).1 := by
  unfold MetaSQLBlock.new at h
  generalize identifyBlock logger cmd = ib at h ⊢
  obtain ⟨block, lg0⟩ := ib
  dsimp only at h
  repeat' split at h
  all_goals first
    | (simp only [Option.some.injEq, Prod.mk.injEq] at h; obtain ⟨h, _⟩ := h; subst h; rfl)
    | (simp at h)

theorem new_opened (logger cmd options : Str) (b : BlockHead) (lg : Str)
    (hcmd : cmd = "if".toList ∨ cmd = "foreach".toList ∨ cmd = "elseif".toList
      ∨ cmd = "else".toList)
    (h : MetaSQLBlock.new logger cmd options = some (b, lg)) : b.block.opened := by
  rw [Block.opened, new_block logger cmd options b lg h]
  rcases hcmd with e | e | e | e <;> subst e
  · exact Or.inl rfl
  · exact Or.inr (Or.inr (Or.inr rfl))
  · exact Or.inr (Or.inl rfl)
  · exact Or.inr (Or.inr (Or.inl rfl))

theorem currentType_opened (blocks : List OpenBlock) (h : OpenStack blocks)
    (ht : (currentType blocks).opened) :
    ∃ b parent rest, blocks = b :: parent :: rest ∧ b.head.block.opened
      ∧ OpenStack (parent :: rest) := by
  cases blocks with
  | nil => exact absurd rfl (openStack_ne h)
  | cons b tl =>
    have hb : b.head.block.opened := ht
    have htl := openStack_tail b tl h hb
    cases tl with
    | nil => exact absurd rfl (openStack_ne htl)
    | cons parent rest => exact ⟨b, parent, rest, rfl, hb, htl⟩

/-- What a directive that does not end `parse_query` does to the open blocks. -/
theorem directive_shape (cmd options : Str) (blocks blocks' : List OpenBlock)
    (logger logger' : Str) (h : OpenStack blocks)
    (hd : directive cmd options blocks logger = DirectiveResult.ok blocks' logger') :
    ((cmd = "endif".toList ∨ cmd = "endforeach".toList)
      ∧ ∃ b parent rest, blocks = b :: parent :: rest ∧ OpenStack (parent :: rest)
          ∧ blocks' = parent.append b.close :: rest)
    ∨ (¬ (cmd = "endif".toList ∨ cmd = "endforeach".toList)
      ∧ (cmd = "if".toList ∨ cmd = "foreach".toList)
      ∧ ∃ x : OpenBlock, x.head.block.opened ∧ x.items = [] ∧ x.chain = []
          ∧ blocks' = x :: blocks)
    ∨ (¬ (cmd = "endif".toList ∨ cmd = "endforeach".toList)
      ∧ ¬ (cmd = "if".toList ∨ cmd = "foreach".toList)
      ∧ (cmd = "elseif".toList ∨ cmd = "else".toList)
      ∧ ∃ (cur parent : OpenBlock) (rest : List OpenBlock) (x : OpenBlock),
          blocks = cur :: parent :: rest ∧ OpenStack (parent :: rest) ∧ x.head.block.opened
          ∧ blocks' = x :: parent :: rest)
    ∨ (¬ (cmd = "endif".toList ∨ cmd = "endforeach".toList)
      ∧ ¬ (cmd = "if".toList ∨ cmd = "foreach".toList)
      ∧ ¬ (cmd = "elseif".toList ∨ cmd = "else".toList)
      ∧ ∃ f : MetaSQLFunction, blocks' = appendCurrent blocks (MetaSQLOutput.function f)) := by
  unfold directive at hd
  split at hd
  · next hend =>
    dsimp only at hd
    split at hd
    · next hguard =>
      have ht : (currentType blocks).opened := by
        rcases hguard with ⟨_, e | e | e⟩ | ⟨_, e⟩
        · exact Or.inl e
        · exact Or.inr (Or.inl e)
        · exact Or.inr (Or.inr (Or.inl e))
        · exact Or.inr (Or.inr (Or.inr e))
      obtain ⟨b, parent, rest, rfl, _, hrest⟩ := currentType_opened blocks h ht
      simp only [DirectiveResult.ok.injEq] at hd
      obtain ⟨h1, _⟩ := hd
      exact Or.inl ⟨hend, b, parent, rest, rfl, hrest, h1.symm⟩
    · simp at hd
  · next hend =>
    split at hd
    · next hcmd =>
      split at hd
      · simp at hd
      · next b lg hnew =>
        split at hd
        · simp only [DirectiveResult.ok.injEq] at hd
          obtain ⟨h1, _⟩ := hd
          refine Or.inr (Or.inl ⟨hend, hcmd, ⟨b, [], []⟩, ?_, rfl, rfl, h1.symm⟩)
          exact new_opened logger cmd options b lg
              (by rcases hcmd with e | e
                  · exact Or.inl e
                  · exact Or.inr (Or.inl e)) hnew
        · simp at hd
    · next hopen =>
      split at hd
      · next hcmd =>
        split at hd
        · simp at hd
        · split at hd
          · simp at hd
          · next hnot =>
            have ht : (currentType blocks).opened := by
              by_cases e : currentType blocks = BlockIf
              · exact Or.inl e
              · by_cases e2 : currentType blocks = BlockElseIf
                · exact Or.inr (Or.inl e2)
                · exact absurd ⟨e, e2⟩ hnot
            obtain ⟨cur, parent, rest, rfl, _, hrest⟩ := currentType_opened blocks h ht
            split at hd
            · simp at hd
            · next b lg hnew =>
              split at hd
              · simp only [DirectiveResult.ok.injEq] at hd
                obtain ⟨h1, _⟩ := hd
                refine Or.inr (Or.inr (Or.inl ⟨hend, hopen, hcmd, cur, parent, rest,
                  ⟨b, [], (cur.head, cur.items) :: cur.chain⟩, rfl, hrest, ?_, h1.symm⟩))
                exact new_opened logger cmd options b lg
                    (by rcases hcmd with e | e
                        · exact Or.inr (Or.inr (Or.inl e))
                        · exact Or.inr (Or.inr (Or.inr e))) hnew
              · simp at hd
      · next hrepl =>
        split at hd
        · simp at hd
        · dsimp only at hd
          split at hd
          · simp only [DirectiveResult.ok.injEq] at hd
            obtain ⟨h1, _⟩ := hd
            exact Or.inr (Or.inr (Or.inr ⟨hend, hopen, hrepl, _, h1.symm⟩))
          · simp at hd

theorem directive_openStack (cmd options : Str) (blocks blocks' : List OpenBlock)
    (logger logger' : Str) (h : OpenStack blocks)
    (hd : directive cmd options blocks logger = DirectiveResult.ok blocks' logger') :
    OpenStack blocks' := by
  rcases directive_shape cmd options blocks blocks' logger logger' h hd with
    ⟨_, b, parent, rest, _, hrest, rfl⟩ | ⟨_, _, x, hx, _, _, rfl⟩
    | ⟨_, _, _, cur, parent, rest, x, _, hrest, hx, rfl⟩ | ⟨_, _, _, f, rfl⟩
  · exact openStack_append (parent :: rest) _ hrest
  · exact openStack_push x blocks h hx
  · exact openStack_push x _ hrest hx
  · exact openStack_append blocks _ h

/-- Under the invariant, an exception in the handling of a directive is one of the argument
parsers: `_blocks.back()` is defined after every `pop_back()`. -/
theorem directive_thrown (cmd options : Str) (blocks : List OpenBlock) (logger : Str)
    (h : OpenStack blocks)
    (hd : directive cmd options blocks logger = DirectiveResult.thrown) :
    ((cmd = "if".toList ∨ cmd = "foreach".toList ∨ cmd = "elseif".toList ∨ cmd = "else".toList)
      ∧ MetaSQLBlock.new logger cmd options = none)
    ∨ (cmd ∉ blockKeywords ∧ parseParams (trim options) = none) := by
  unfold directive at hd
  split at hd
  · dsimp only at hd
    split at hd
    · next hguard =>
      have ht : (currentType blocks).opened := by
        rcases hguard with ⟨_, e | e | e⟩ | ⟨_, e⟩
        · exact Or.inl e
        · exact Or.inr (Or.inl e)
        · exact Or.inr (Or.inr (Or.inl e))
        · exact Or.inr (Or.inr (Or.inr e))
      obtain ⟨b, parent, rest, rfl, _, hrest⟩ := currentType_opened blocks h ht
      simp at hd
    · simp at hd
  · next hend =>
    split at hd
    · next hcmd =>
      split at hd
      · next hnew =>
        exact Or.inl ⟨by rcases hcmd with e | e
                         · exact Or.inl e
                         · exact Or.inr (Or.inl e), hnew⟩
      · split at hd <;> simp at hd
    · next hopen =>
      split at hd
      · next hcmd =>
        split at hd
        · simp at hd
        · split at hd
          · simp at hd
          · next hnot =>
            have ht : (currentType blocks).opened := by
              by_cases e : currentType blocks = BlockIf
              · exact Or.inl e
              · by_cases e2 : currentType blocks = BlockElseIf
                · exact Or.inr (Or.inl e2)
                · exact absurd ⟨e, e2⟩ hnot
            obtain ⟨cur, parent, rest, rfl, _, hrest⟩ := currentType_opened blocks h ht
            split at hd
            · next hnew =>
              exact Or.inl ⟨by rcases hcmd with e | e
                               · exact Or.inr (Or.inr (Or.inl e))
                               · exact Or.inr (Or.inr (Or.inr e)), hnew⟩
            · split at hd <;> simp at hd
      · next hrepl =>
        split at hd
        · next hp =>
          refine Or.inr ⟨?_, hp⟩
          simp only [blockKeywords, List.mem_cons, List.mem_singleton, List.not_mem_nil,
            or_false, not_or]
          simp only [not_or] at hend hopen hrepl
          exact ⟨hopen.1, hrepl.1, hrepl.2, hend.1, hopen.2, hend.2⟩
        · dsimp only at hd
          split at hd <;> simp at hd

theorem flushText_invariant (P : List OpenBlock → Prop)
    (happ : ∀ blocks mso, P blocks → P (appendCurrent blocks mso))
    (query : Str) (st : ParseState) (currPos : Nat) (blocks : List OpenBlock) (h : P st.blocks)
    (hf : flushText query st currPos = some blocks) : P blocks := by
  unfold flushText at hf
  split at hf
  · cases hp : piece query st.lastPos currPos with
    | none => simp [hp] at hf
    | some s =>
      simp only [hp, Option.map_some', Option.some.injEq] at hf
      subst hf
      exact happ _ _ h
  · simp only [Option.some.injEq] at hf
    subst hf
    exact h

/-- A property of the open blocks that `_current->append` and the directives keep is kept by every
iteration of the loop of `parse_query`. -/
theorem parseStep_invariant (P : List OpenBlock → Prop)
    (happ : ∀ blocks mso, P blocks → P (appendCurrent blocks mso))
    (hdir : ∀ cmd options blocks logger blocks' logger', P blocks →
      directive cmd options blocks logger = DirectiveResult.ok blocks' logger' → P blocks')
    (query : Str) (valid : Bool) (fuel : Nat) (st st' : ParseState) (h : P st.blocks)
    (hs : parseStep query valid fuel st = some (Step.next st')) : P st'.blocks := by
  unfold parseStep at hs
  simp only at hs
  split at hs
  · unfold stepString at hs
    dsimp only at hs
    split at hs
    · simp at hs
    · simp only [Option.some.injEq, Step.next.injEq] at hs
      subst hs
      exact h
  · split at hs
    · simp at hs
    · split at hs
      · simp only [Option.some.injEq, Step.next.injEq] at hs
        subst hs
        exact h
      · split at hs
        · simp at hs
        · next blocks hflush =>
          have hb : P blocks := flushText_invariant P happ _ _ _ _ h hflush
          split at hs
          · unfold stepLineComment at hs
            dsimp only at hs
            split at hs
            · simp at hs
            · simp only [Option.some.injEq, Step.next.injEq] at hs
              subst hs
              exact happ _ _ hb
          · split at hs
            · unfold stepBlockComment at hs
              dsimp only at hs
              split at hs
              · simp at hs
              · split at hs
                · simp at hs
                · simp only [Option.some.injEq, Step.next.injEq] at hs
                  subst hs
                  exact happ _ _ hb
            · split at hs
              · simp only [Option.some.injEq] at hs
                unfold stepDirective at hs
                dsimp only at hs
                split at hs
                · simp at hs
                · split at hs
                  · simp at hs
                  · simp at hs
                  · next blocks' logger' hd =>
                    simp only [Step.next.injEq] at hs
                    subst hs
                    exact hdir _ _ _ _ _ _ hb hd
              · simp only [Option.some.injEq, Step.next.injEq] at hs
                subst hs
                exact hb

theorem parseStep_openStack (query : Str) (valid : Bool) (fuel : Nat) (st st' : ParseState)
    (h : OpenStack st.blocks) (hs : parseStep query valid fuel st = some (Step.next st')) :
    OpenStack st'.blocks :=
  parseStep_invariant OpenStack openStack_append
    (fun cmd options blocks logger blocks' logger' hb hd =>
      directive_openStack cmd options blocks blocks' logger logger' hb hd)
    query valid fuel st st' h hs

theorem stateAfter_openStack (query : Str) (valid : Bool) :
    ∀ (fuel k : Nat) (st st' : ParseState), OpenStack st.blocks →
      stateAfter query valid fuel k st = some st' → OpenStack st'.blocks := by
  intro fuel
  induction fuel with
  | zero =>
    intro k st st' h hs
    cases k with
    | zero =>
      simp only [stateAfter, Option.some.injEq] at hs
      subst hs
      exact h
    | succ k => simp [stateAfter] at hs
  | succ fuel ih =>
    intro k st st' h hs
    cases k with
    | zero =>
      simp only [stateAfter, Option.some.injEq] at hs
      subst hs
      exact h
    | succ k =>
      rw [stateAfter] at hs
      split at hs
      · simp at hs
      · split at hs
        · next st1 hstep => exact ih k st1 st' (parseStep_openStack _ _ _ _ _ h hstep) hs
        · simp at hs

theorem getLast_cons_cons {α : Type} (a b : α) (l : List α) :
    (a :: b :: l).getLast? = (b :: l).getLast? := by
  simp [List.getLast?_cons_cons]

theorem pointers_start (top : Nat) : (Pointers.start top).Agree rootBlocks :=
  ⟨rfl, rfl, rfl⟩

theorem pointers_step (cmd options : Str) (blocks blocks' : List OpenBlock)
    (logger logger' : Str) (p : Pointers) (b : Nat) (h : OpenStack blocks)
    (ha : p.Agree blocks)
    (hd : directive cmd options blocks logger = DirectiveResult.ok blocks' logger') :
    ∃ p', p.step cmd b = some p' ∧ p'.Agree blocks' ∧ p'.top = p.top := by
  obtain ⟨hlen, hcur, hbot⟩ := ha
  unfold Pointers.step
  rcases directive_shape cmd options blocks blocks' logger logger' h hd with
    ⟨hend, x, parent, rest, rfl, _, rfl⟩ | ⟨hend, hopen, x, _, _, _, rfl⟩
    | ⟨hend, hopen, hrepl, cur, parent, rest, x, rfl, _, _, rfl⟩ | ⟨hend, hopen, hrepl, f, rfl⟩
  · rw [if_pos hend]
    obtain ⟨bs, cur, top⟩ := p
    match bs, hlen, hcur, hbot with
    | y :: z :: r, hlen, hcur, hbot =>
      refine ⟨⟨z :: r, z, top⟩, rfl, ⟨?_, rfl, ?_⟩, rfl⟩
      · simp only [List.length_cons] at hlen ⊢
        omega
      · rw [← hbot]
        exact (getLast_cons_cons y z r).symm
    | [_], hlen, _, _ => simp at hlen
    | [], hlen, _, _ => simp at hlen
  · rw [if_neg hend, if_pos hopen]
    obtain ⟨bs, cur, top⟩ := p
    match bs, hlen, hcur, hbot with
    | y :: r, hlen, hcur, hbot =>
      refine ⟨_, rfl, ⟨?_, rfl, ?_⟩, rfl⟩
      · simp only [Pointers.push, List.length_cons] at hlen ⊢
        omega
      · show (b :: y :: r).getLast? = some top
        rw [getLast_cons_cons]
        exact hbot
    | [], hlen, _, _ =>
      have := openStack_ne h
      cases blocks with
      | nil => exact absurd rfl this
      | cons c cs => simp at hlen
  · rw [if_neg hend, if_neg hopen, if_pos hrepl]
    obtain ⟨bs, c, top⟩ := p
    match bs, hlen, hcur, hbot with
    | y :: z :: r, hlen, hcur, hbot =>
      refine ⟨⟨b :: z :: r, b, top⟩, rfl, ⟨?_, rfl, ?_⟩, rfl⟩
      · simp only [List.length_cons] at hlen ⊢
        omega
      · show (b :: z :: r).getLast? = some top
        rw [getLast_cons_cons, ← getLast_cons_cons y z r]
        exact hbot
    | [_], hlen, _, _ => simp at hlen
    | [], hlen, _, _ => simp at hlen
  · rw [if_neg hend, if_neg hopen, if_neg hrepl]
    refine ⟨p, rfl, ⟨?_, hcur, hbot⟩, rfl⟩
    rw [hlen]
    cases blocks with
    | nil => rfl
    | cons c cs => rfl

/-! ## A quoted string between two plain texts -/

theorem skipString_succ (query needle : Str) (fuel cur : Nat) :
    skipString query needle (fuel + 1) cur = skipFrom query needle fuel (sizeT (cur + 2)) := by
  rw [skipString]
  rfl

theorem find_first_of_next (P rest set : Str) (c : Char) (hc : c ∉ set) :
    find_first_of (P ++ c :: rest) set P.length
      = find_first_of (P ++ c :: rest) set (P.length + 1) := by
  unfold find_first_of
  have hlt : P.length < (P ++ c :: rest).length := by simp
  have hd : (P ++ c :: rest).drop (P.length + 1) = rest := by
    rw [show P ++ c :: rest = (P ++ [c]) ++ rest by simp,
      show P.length + 1 = (P ++ [c]).length by simp, List.drop_left]
  rw [if_pos hlt, List.drop_left, findFrom, hd]
  have hf : (List.elem c set) = false := by simpa using hc
  simp only [hf, Bool.false_eq_true, if_false]
  cases rest with
  | nil => simp [findFrom]
  | cons d rest => simp

theorem skipFrom_next (P rest needle : Str) (c : Char) (fuel : Nat) (hc : c ∉ needle) :
    skipFrom (P ++ c :: rest) needle fuel P.length
      = skipFrom (P ++ c :: rest) needle fuel (P.length + 1) := by
  unfold skipFrom
  rw [find_first_of_next P rest needle c hc]

theorem skipFrom_backslash (P rest needle : Str) (fuel : Nat) (hb : backslash ∈ needle)
    (hlen : (P ++ backslash :: rest).length < npos) :
    skipFrom (P ++ backslash :: rest) needle (fuel + 1) P.length
      = skipFrom (P ++ backslash :: rest) needle fuel (P.length + 2) := by
  have hfind : find_first_of (P ++ backslash :: rest) needle P.length = P.length := by
    have := find_first_of_skip P [] rest needle backslash (by simp) hb
    simpa using this
  have hl : P.length + rest.length + 1 < npos := by
    simpa [Nat.add_assoc] using hlen
  have hne : P.length ≠ npos := by omega
  have hsz : sizeT (P.length + 2) = P.length + 2 := sizeT_small _ (by omega)
  rw [skipFrom, hfind, if_pos ⟨hne, strAt_append P rest backslash⟩, skipString_succ, hsz]

theorem skipFrom_quote (P rest needle : Str) (q : Char) (fuel : Nat) (hq : q ∈ needle)
    (hqb : q ≠ backslash) :
    skipFrom (P ++ q :: rest) needle fuel P.length = some P.length := by
  have hfind : find_first_of (P ++ q :: rest) needle P.length = P.length := by
    have := find_first_of_skip P [] rest needle q (by simp) hq
    simpa using this
  rw [skipFrom, hfind, strAt_append P rest q, if_neg]
  rintro ⟨_, h⟩
  exact hqb (Option.some.inj h)

theorem skipFrom_past (query needle : Str) (fuel k : Nat) (hk : query.length ≤ k) :
    skipFrom query needle fuel k = some npos := by
  have hfind : find_first_of query needle k = npos := by
    unfold find_first_of
    rw [if_neg (by omega)]
  rw [skipFrom, hfind, if_neg (by simp)]

theorem scan_closed (q : Char) (hqb : q ≠ backslash) (post : Str) :
    ∀ (n : Nat) (body P : Str) (fuel : Nat), body.length ≤ n →
      unescapedQuote q body = false → danglingBackslash body = false → body.length ≤ fuel →
      (P ++ (body ++ q :: post)).length < npos →
      skipFrom (P ++ (body ++ q :: post)) [backslash, q] fuel P.length
        = some (P.length + body.length) := by
  intro n
  induction n with
  | zero =>
    intro body P fuel hn _ _ _ _
    have : body = [] := List.length_eq_zero.mp (Nat.le_zero.mp hn)
    subst this
    exact skipFrom_quote P post _ q fuel (by simp) hqb
  | succ n ih =>
    intro body P fuel hn hu hd hf hlen
    match body, hn, hu, hd, hf, hlen with
    | [], _, _, _, _, _ => exact skipFrom_quote P post _ q fuel (by simp) hqb
    | [c], _, hu, hd, _, hlen =>
      have hcb : c ≠ backslash := by simpa [danglingBackslash] using hd
      have hcq : c ≠ q := by
        intro e
        simp [unescapedQuote, hcb, e] at hu
        exact hqb hu
      have h1 := skipFrom_next P (q :: post) [backslash, q] c fuel (by simp [hcb, hcq])
      have h2 := skipFrom_quote (P ++ [c]) post [backslash, q] q fuel (by simp) hqb
      simp only [List.singleton_append, List.length_append, List.length_singleton,
        List.append_assoc] at h1 h2 ⊢
      rw [h1, h2]
    | c :: d :: rest, hn, hu, hd, hf, hlen =>
      by_cases hcb : c = backslash
      · subst hcb
        have hu' : unescapedQuote q rest = false := by simpa [unescapedQuote] using hu
        have hd' : danglingBackslash rest = false := by simpa [danglingBackslash] using hd
        simp only [List.length_cons] at hn hf
        obtain ⟨f, rfl⟩ : ∃ f, fuel = f + 1 := ⟨fuel - 1, by omega⟩
        have h1 := skipFrom_backslash P (d :: rest ++ q :: post) [backslash, q] f (by simp)
          (by simpa using hlen)
        have h2 := ih rest (P ++ [backslash, d]) f (by omega) hu' hd' (by omega)
          (by simpa using hlen)
        simp only [List.cons_append, List.length_append, List.length_cons, List.length_nil,
          List.append_assoc, List.nil_append, Nat.zero_add] at h1 h2 ⊢
        rw [h1, h2]
        congr 1
        omega
      · have hcq : c ≠ q := by
          intro e
          simp [unescapedQuote, hcb, e] at hu
          exact hqb hu.1
        have hu' : unescapedQuote q (d :: rest) = false := by
          simpa [unescapedQuote, hcb, hcq] using hu
        have hd' : danglingBackslash (d :: rest) = false := by
          simpa [danglingBackslash, hcb] using hd
        simp only [List.length_cons] at hn hf
        have h1 := skipFrom_next P (d :: rest ++ q :: post) [backslash, q] c fuel
          (by simp [hcb, hcq])
        have h2 := ih (d :: rest) (P ++ [c]) fuel (by simp; omega) hu' hd' (by simp; omega)
          (by simpa using hlen)
        simp only [List.cons_append, List.length_append, List.length_cons, List.length_nil,
          List.append_assoc, List.nil_append, Nat.zero_add, List.singleton_append] at h1 h2 ⊢
        rw [h1, h2]
        congr 1
        omega

theorem scan_rest (q : Char) :
    ∀ (n : Nat) (post P : Str) (fuel : Nat), post.length ≤ n → (∀ c ∈ post, c ≠ q) →
      post.length ≤ fuel → (P ++ post).length < npos →
      skipFrom (P ++ post) [backslash, q] fuel P.length = some npos := by
  intro n
  induction n with
  | zero =>
    intro post P fuel hn _ _ _
    have : post = [] := List.length_eq_zero.mp (Nat.le_zero.mp hn)
    subst this
    exact skipFrom_past _ _ _ _ (by simp)
  | succ n ih =>
    intro post P fuel hn hp hf hlen
    match post, hn, hp, hf, hlen with
    | [], _, _, _, _ => exact skipFrom_past _ _ _ _ (by simp)
    | c :: rest, hn, hp, hf, hlen =>
      simp only [List.length_cons] at hn hf
      by_cases hcb : c = backslash
      · subst hcb
        obtain ⟨f, rfl⟩ : ∃ f, fuel = f + 1 := ⟨fuel - 1, by omega⟩
        rw [skipFrom_backslash P rest [backslash, q] f (by simp) hlen]
        match rest, hn, hp, hf, hlen with
        | [], _, _, _, _ => exact skipFrom_past _ _ _ _ (by simp)
        | d :: rest2, hn, hp, hf, hlen =>
          simp only [List.length_cons] at hn hf
          have h2 := ih rest2 (P ++ [backslash, d]) f (by omega)
            (fun x hx => hp x (by simp [hx])) (by omega) (by simpa using hlen)
          simp only [List.length_append, List.length_cons, List.length_nil,
            List.append_assoc, List.cons_append, List.nil_append, Nat.zero_add] at h2
          exact h2
      · have hcq : c ≠ q := hp c (List.mem_cons_self _ _)
        rw [skipFrom_next P rest [backslash, q] c fuel (by simp [hcb, hcq])]
        have h2 := ih rest (P ++ [c]) fuel (by omega)
          (fun x hx => hp x (List.mem_cons_of_mem _ hx)) (by omega) (by simpa using hlen)
        simp only [List.length_append, List.length_singleton, List.append_assoc,
          List.singleton_append] at h2
        exact h2

theorem scan_dangling (q : Char) (hqb : q ≠ backslash) (post : Str) (hpost : ∀ c ∈ post, c ≠ q) :
    ∀ (n : Nat) (body P : Str) (fuel : Nat), body.length ≤ n →
      unescapedQuote q body = false → danglingBackslash body = true →
      body.length + post.length ≤ fuel →
      (P ++ (body ++ q :: post)).length < npos →
      skipFrom (P ++ (body ++ q :: post)) [backslash, q] fuel P.length = some npos := by
  intro n
  induction n with
  | zero =>
    intro body P fuel hn _ hd _ _
    have : body = [] := List.length_eq_zero.mp (Nat.le_zero.mp hn)
    subst this
    simp [danglingBackslash] at hd
  | succ n ih =>
    intro body P fuel hn hu hd hf hlen
    match body, hn, hu, hd, hf, hlen with
    | [], _, _, hd, _, _ => simp [danglingBackslash] at hd
    | [c], _, _, hd, hf, hlen =>
      have hcb : c = backslash := by simpa [danglingBackslash] using hd
      subst hcb
      simp only [List.length_singleton] at hf
      obtain ⟨f, rfl⟩ : ∃ f, fuel = f + 1 := ⟨fuel - 1, by omega⟩
      have h1 := skipFrom_backslash P (q :: post) [backslash, q] f (by simp)
        (by simpa using hlen)
      have h2 := scan_rest q post.length post (P ++ [backslash, q]) f (Nat.le_refl _) hpost
        (by omega) (by simpa using hlen)
      simp only [List.singleton_append, List.length_append, List.length_cons, List.length_nil,
        List.append_assoc, List.cons_append, List.nil_append, Nat.zero_add] at h1 h2 ⊢
      rw [h1, h2]
    | c :: d :: rest, hn, hu, hd, hf, hlen =>
      simp only [List.length_cons] at hn hf
      by_cases hcb : c = backslash
      · subst hcb
        have hu' : unescapedQuote q rest = false := by simpa [unescapedQuote] using hu
        have hd' : danglingBackslash rest = true := by simpa [danglingBackslash] using hd
        obtain ⟨f, rfl⟩ : ∃ f, fuel = f + 1 := ⟨fuel - 1, by omega⟩
        have h1 := skipFrom_backslash P (d :: rest ++ q :: post) [backslash, q] f (by simp)
          (by simpa using hlen)
        have h2 := ih rest (P ++ [backslash, d]) f (by omega) hu' hd' (by omega)
          (by simpa using hlen)
        simp only [List.cons_append, List.length_append, List.length_cons, List.length_nil,
          List.append_assoc, List.nil_append, Nat.zero_add] at h1 h2 ⊢
        rw [h1, h2]
      · have hcq : c ≠ q := by
          intro e
          simp [unescapedQuote, hcb, e] at hu
          exact hqb hu.1
        have hu' : unescapedQuote q (d :: rest) = false := by
          simpa [unescapedQuote, hcb, hcq] using hu
        have hd' : danglingBackslash (d :: rest) = true := by
          simpa [danglingBackslash, hcb] using hd
        have h1 := skipFrom_next P (d :: rest ++ q :: post) [backslash, q] c fuel
          (by simp [hcb, hcq])
        have h2 := ih (d :: rest) (P ++ [c]) fuel (by simp; omega) hu' hd'
          (by simp only [List.length_cons]; omega) (by simpa using hlen)
        simp only [List.cons_append, List.length_append, List.length_cons, List.length_nil,
          List.append_assoc, List.nil_append, Nat.zero_add, List.singleton_append] at h1 h2 ⊢
        rw [h1, h2]

/-- The first iteration of the loop on a template that begins with plain text and a quote: the
string is jumped over. -/
theorem quoted_first (pre rest : Str) (q : Char) (valid : Bool) (f : Nat) (logger : Str)
    (hpre : Plain pre) (hq : q = squote ∨ q = dquote)
    (hlen : (pre ++ q :: rest).length < npos) :
    parseStep (pre ++ q :: rest) valid (f + 1) ⟨0, 0, rootBlocks, logger⟩
      = match skipFrom (pre ++ q :: rest) [backslash, q] f (pre.length + 1) with
        | none => none
        | some p =>
          some (Step.next ⟨0, if p ≠ npos then sizeT (p + 1) else p, rootBlocks, logger⟩) := by
  have hmem : q ∈ scanStops := by
    rcases hq with h | h <;> subst h <;> decide
  have hfind : find_first_of (pre ++ q :: rest) [squote, dquote, '-', '/', '<'] 0
      = pre.length := by
    have := find_first_of_skip [] pre rest scanStops q hpre hmem
    simpa using this
  have hat : strAt (pre ++ q :: rest) pre.length = some q := strAt_append pre rest q
  have hl : pre.length + rest.length + 1 < npos := by
    simpa [Nat.add_assoc] using hlen
  have hne : pre.length ≠ npos := by omega
  have hq' : pre.length ≠ npos
      ∧ (strAt (pre ++ q :: rest) pre.length = some squote
          ∨ strAt (pre ++ q :: rest) pre.length = some dquote) := by
    rw [hat]
    rcases hq with h | h <;> subst h <;> simp [hne]
  have hsz : sizeT (sizeT (pre.length + 18446744073709551615) + 2) = pre.length + 1 := by
    unfold sizeT
    unfold npos at hl
    omega
  unfold parseStep
  dsimp only
  rw [hfind, if_pos hq']
  unfold stepString
  dsimp only
  rw [hat, skipString_succ, hsz]
  rfl

theorem quoted_parse (pre body post : Str) (q : Char) (valid : Bool) (fuel : Nat)
    (logger : Str) (hpre : Plain pre) (hpost : Plain post) (hq : q = squote ∨ q = dquote)
    (hu : unescapedQuote q body = false) (hd : danglingBackslash body = false)
    (hfuel : body.length + 3 ≤ fuel)
    (hlen : (pre ++ q :: (body ++ q :: post)).length < npos) :
    parseLoop (pre ++ q :: (body ++ q :: post)) valid fuel ⟨0, 0, rootBlocks, logger⟩
      = some (ParseResult.returned true
          ⟨true, some (rootOf [MetaSQLOutput.string (pre ++ q :: (body ++ q :: post))]),
            logger⟩) := by
  obtain ⟨g, rfl⟩ : ∃ g, fuel = g + 3 := ⟨fuel - 3, by omega⟩
  have hqb : q ≠ backslash := by rcases hq with h | h <;> subst h <;> decide
  have hl : pre.length + body.length + post.length + 2 < npos := by
    simp only [List.length_append, List.length_cons] at hlen
    omega
  have e1 : pre ++ q :: (body ++ q :: post) = (pre ++ [q]) ++ (body ++ q :: post) := by simp
  have hscan : skipFrom (pre ++ q :: (body ++ q :: post)) [backslash, q] (g + 1)
      (pre.length + 1) = some (pre.length + 1 + body.length) := by
    have := scan_closed q hqb post body.length body (pre ++ [q]) (g + 1) (Nat.le_refl _) hu hd
      (by omega) (by rw [← e1]; exact hlen)
    rw [← e1] at this
    simpa using this
  have hne : pre.length + 1 + body.length ≠ npos := by omega
  have hsz : sizeT (pre.length + 1 + body.length + 1) = pre.length + 1 + body.length + 1 :=
    sizeT_small _ (by omega)
  have e2 : pre ++ q :: (body ++ q :: post) = (pre ++ q :: (body ++ [q])) ++ post := by simp
  have hfind : find_first_of (pre ++ q :: (body ++ q :: post)) [squote, dquote, '-', '/', '<']
      (pre.length + 1 + body.length + 1) = npos := by
    have h := find_first_of_none (pre ++ q :: (body ++ [q])) post scanStops hpost
    have hlen2 : (pre ++ q :: (body ++ [q])).length = pre.length + 1 + body.length + 1 := by
      simp only [List.length_append, List.length_cons, List.length_nil]
      omega
    rw [← e2, hlen2] at h
    exact h
  have hflush : flushText (pre ++ q :: (body ++ q :: post))
      ⟨0, pre.length + 1 + body.length + 1, rootBlocks, logger⟩ npos
        = some [⟨⟨true, BlockGeneric, [], false, none⟩,
            [MetaSQLOutput.string (pre ++ q :: (body ++ q :: post))], []⟩] := by
    have hp := piece_rest [] (pre ++ q :: (body ++ q :: post)) (by simpa using hlen)
    simp only [List.nil_append, List.length_nil] at hp
    unfold flushText
    dsimp only
    rw [if_pos (show (0 : Nat) ≠ npos by decide), hp]
    rfl
  rw [parseLoop, if_neg (show ¬ (0 : Nat) = npos by decide),
    quoted_first pre (body ++ q :: post) q valid (g + 1) logger hpre hq hlen, hscan]
  dsimp only
  rw [if_pos hne, hsz, parseLoop, if_neg (by dsimp only; omega),
    parseStep_end _ valid (g + 1) ⟨0, pre.length + 1 + body.length + 1, rootBlocks, logger⟩ _
      hfind hflush]
  dsimp only
  rw [parseLoop, if_pos rfl]
  rfl

theorem quoted_dangling (pre body post : Str) (q : Char) (valid : Bool) (fuel : Nat)
    (logger : Str) (hpre : Plain pre) (hpost : Plain post) (hq : q = squote ∨ q = dquote)
    (hu : unescapedQuote q body = false) (hd : danglingBackslash body = true)
    (hfuel : body.length + post.length + 3 ≤ fuel)
    (hlen : (pre ++ q :: (body ++ q :: post)).length < npos) :
    parseLoop (pre ++ q :: (body ++ q :: post)) valid fuel ⟨0, 0, rootBlocks, logger⟩
      = some (ParseResult.returned true ⟨true, some (rootOf []), logger⟩) := by
  obtain ⟨g, rfl⟩ : ∃ g, fuel = g + 3 := ⟨fuel - 3, by omega⟩
  have hqb : q ≠ backslash := by rcases hq with h | h <;> subst h <;> decide
  have hpq : ∀ c ∈ post, c ≠ q := by
    intro c hc e
    subst e
    exact hpost c hc (by rcases hq with h | h <;> subst h <;> decide)
  have e1 : pre ++ q :: (body ++ q :: post) = (pre ++ [q]) ++ (body ++ q :: post) := by simp
  have hscan : skipFrom (pre ++ q :: (body ++ q :: post)) [backslash, q] (g + 1)
      (pre.length + 1) = some npos := by
    have := scan_dangling q hqb post hpq body.length body (pre ++ [q]) (g + 1) (Nat.le_refl _)
      hu hd (by omega) (by rw [← e1]; exact hlen)
    rw [← e1] at this
    simpa using this
  rw [parseLoop, if_neg (show ¬ (0 : Nat) = npos by decide),
    quoted_first pre (body ++ q :: post) q valid (g + 1) logger hpre hq hlen, hscan]
  dsimp only
  rw [if_neg (fun h => h rfl), parseLoop, if_pos rfl]
  rfl

/-! ## A block comment with properly nested pairs -/

theorem find_drop (P rest pat : Str) :
    find (P ++ rest) pat P.length = findStrFrom pat rest P.length := by
  unfold find
  rw [if_pos (by simp), List.drop_left]

/-- The loop of `commentEnd` along the positions of the nested `/*` and of the `*/`: every `/*`
found moves the tracked end to the next `*/`, and the loop ends at the last one. -/
theorem commentEnd_chain (Q : Str) (lastPos final : Nat) :
    ∀ (O C : List Nat) (s cur fuel : Nat),
      ChainFrom Q ['/', '*'] (fun r => final < r) (s + 1) O →
      ChainFrom Q ['*', '/'] (fun _ => True) (cur + 1) C →
      Before O (cur :: C) → O.length = C.length → (∀ o ∈ O, lastPos < o) →
      (cur :: C).Chain' (· < ·) → (cur :: C).getLast? = some final →
      s + 1 < npos → (∀ c ∈ cur :: C, c + 1 < npos) → (∀ o ∈ O, o + 1 < npos) →
      O.length < fuel →
      commentEnd Q lastPos fuel s cur = some final := by
  intro O
  induction O with
  | nil =>
    intro C s cur fuel hO _ _ hlen _ _ hlast hs _ _ hf
    have hC : C = [] := List.length_eq_zero.mp hlen.symm
    subst hC
    simp only [List.getLast?_singleton, Option.some.injEq] at hlast
    subst hlast
    obtain ⟨f, rfl⟩ : ∃ f, fuel = f + 1 := ⟨fuel - 1, by simp at hf; omega⟩
    have hfind : cur < find Q ['/', '*'] (s + 1) := hO
    rw [commentEnd]
    try dsimp only
    rw [sizeT_small (s + 1) (by omega)]
    have hcond : ¬ (find Q "/*".toList (s + 1) > lastPos ∧ find Q "/*".toList (s + 1) < cur) := by
      rintro ⟨_, h⟩
      have : find Q "/*".toList (s + 1) = find Q ['/', '*'] (s + 1) := rfl
      omega
    rw [if_neg hcond, if_neg hcond]
  | cons o O ih =>
    intro C s cur fuel hO hC hB hlen hlo hsorted hlast hs hcb hob hf
    match C, hC, hB, hlen, hsorted, hlast, hcb with
    | c :: C', hC, hB, hlen, hsorted, hlast, hcb =>
      obtain ⟨hfo, hO'⟩ := hO
      obtain ⟨hfc, hC'⟩ := hC
      obtain ⟨hocur, hB'⟩ := hB
      have hcc : cur < c := by
        rw [List.chain'_cons] at hsorted
        exact hsorted.1
      have hsorted' : (c :: C').Chain' (· < ·) := by
        rw [List.chain'_cons] at hsorted
        exact hsorted.2
      obtain ⟨f, rfl⟩ : ∃ f, fuel = f + 1 := ⟨fuel - 1, by simp at hf; omega⟩
      have hcur1 : cur + 1 < npos := hcb cur (List.mem_cons_self _ _)
      have ho1 : o + 1 < npos := hob o (List.mem_cons_self _ _)
      have hlo1 : lastPos < o := hlo o (List.mem_cons_self _ _)
      have hfo' : find Q "/*".toList (s + 1) = o := hfo
      have hfc' : find Q "*/".toList (cur + 1) = c := hfc
      rw [commentEnd]
      try dsimp only
      rw [sizeT_small (s + 1) (by omega), hfo', sizeT_small (cur + 1) (by omega), hfc',
        if_pos (show o > lastPos ∧ o < cur from ⟨hlo1, hocur⟩),
        if_pos (show o > lastPos ∧ o < c from ⟨hlo1, by omega⟩)]
      exact ih C' o c f hO' hC' hB' (by simpa using hlen)
        (fun x hx => hlo x (List.mem_cons_of_mem _ hx)) hsorted'
        (by rw [List.getLast?_cons_cons] at hlast; exact hlast) ho1
        (fun x hx => hcb x (List.mem_cons_of_mem _ hx))
        (fun x hx => hob x (List.mem_cons_of_mem _ hx)) (by simp at hf; omega)

/-- A block comment between two plain texts, given the end that `commentEnd` finds. -/
theorem blockComment_parse_end (A body B : Str) (valid : Bool) (fuel : Nat) (logger : Str)
    (hA : Plain A) (hB : Plain B)
    (hend : commentEnd (A ++ ('/' :: '*' :: body ++ '*' :: '/' :: B)) A.length (fuel + 2)
        A.length (find (A ++ ('/' :: '*' :: body ++ '*' :: '/' :: B)) "*/".toList A.length)
      = some (A.length + 2 + body.length))
    (hlen : (A ++ ('/' :: '*' :: body ++ '*' :: '/' :: B)).length < npos) :
    parseLoop (A ++ ('/' :: '*' :: body ++ '*' :: '/' :: B)) valid (fuel + 3)
        ⟨0, 0, rootBlocks, logger⟩
      = some (ParseResult.returned true
          ⟨true, some (rootOf (textNode A ++ [MetaSQLOutput.comment ('/' :: '*' :: body ++ ['*']),
            MetaSQLOutput.string B])), logger⟩) := by
  have hl : A.length + (body.length + (B.length + 2) + 2) < npos := by
    simpa [Nat.add_assoc] using hlen
  have hc1 : (if A.length + 2 + body.length ≠ npos then sizeT (A.length + 2 + body.length + 1)
      else A.length + 2 + body.length) = A.length + ('/' :: '*' :: body ++ ['*']).length := by
    rw [if_pos (by omega), sizeT_small _ (by omega)]
    simp only [List.cons_append, List.length_cons, List.length_append, List.length_singleton,
      List.length_nil]
    omega
  have hpiece : piece (A ++ ('/' :: '*' :: body ++ '*' :: '/' :: B)) A.length
      (A.length + ('/' :: '*' :: body ++ ['*']).length) = some ('/' :: '*' :: body ++ ['*']) := by
    have := piece_mid A ('/' :: '*' :: body ++ ['*']) ('/' :: B) (by simpa using hlen)
    simpa using this
  have hc2 : (if A.length + ('/' :: '*' :: body ++ ['*']).length ≠ npos
      then sizeT (A.length + ('/' :: '*' :: body ++ ['*']).length + 1)
      else A.length + ('/' :: '*' :: body ++ ['*']).length)
      = (A ++ '/' :: '*' :: body ++ ['*', '/']).length := by
    simp only [List.cons_append, List.length_cons, List.length_append, List.length_singleton,
      List.length_nil] at *
    rw [if_pos (by omega), sizeT_small _ (by omega)]
    omega
  rw [parseLoop, if_neg (show ¬ (0 : Nat) = npos by decide),
    blockComment_first A body B valid _ logger hA hlen]
  unfold stepBlockComment
  dsimp only
  rw [hend]
  dsimp only
  rw [hc1, hpiece]
  dsimp only
  rw [hc2, appendCurrent_root, parseLoop]
  have hne : (A ++ '/' :: '*' :: body ++ ['*', '/']).length ≠ npos := by
    simp only [List.cons_append, List.length_cons, List.length_append, List.length_singleton,
      List.length_nil]
    omega
  rw [if_neg hne]
  have hq : A ++ ('/' :: '*' :: body ++ '*' :: '/' :: B)
      = (A ++ '/' :: '*' :: body ++ ['*', '/']) ++ B := by simp
  have hlen' : ((A ++ '/' :: '*' :: body ++ ['*', '/']) ++ B).length < npos := by
    rw [← hq]; exact hlen
  have hfin : find_first_of ((A ++ '/' :: '*' :: body ++ ['*', '/']) ++ B)
      [squote, dquote, '-', '/', '<'] (A ++ '/' :: '*' :: body ++ ['*', '/']).length = npos :=
    find_first_of_none _ _ scanStops hB
  rw [hq, parseStep_end _ valid _ _ _ hfin (flushText_rest _ _ logger _ hlen')]
  dsimp only
  rw [parseLoop, if_pos rfl, closeAll_root]
  simp

/-! ## The directive `value` with a list of quoted arguments -/

theorem findStrFrom_end (body rest : Str) (hb : ¬ ['?', '>'] <:+: body) :
    ∀ k : Nat, findStrFrom ['?', '>'] (body ++ '?' :: '>' :: rest) k = k + body.length := by
  induction body with
  | nil =>
    intro k
    simp [findStrFrom, startsWith]
  | cons x body ih =>
    intro k
    have hs : startsWith (x :: (body ++ '?' :: '>' :: rest)) ['?', '>'] = false := by
      by_cases hx : x = '?'
      · subst hx
        cases body with
        | nil => rfl
        | cons y body =>
          by_cases hy : y = '>'
          · subst hy
            exact absurd ⟨[], body, rfl⟩ hb
          · have : (y == '>') = false := by simpa using hy
            rw [startsWith, List.cons_append, startsWith, this, Bool.false_and, Bool.and_false]
      · have : (x == '?') = false := by simpa using hx
        rw [startsWith, this, Bool.false_and]
    rw [List.cons_append, findStrFrom, hs]
    simp only [Bool.false_eq_true, if_false]
    rw [ih (infix_tail _ x body hb) (k + 1), List.length_cons]
    omega

theorem trim_blanks (c d : Char) (mid : Str) (hc : isspace c = false) (hd : isspace d = false) :
    trim (' ' :: (c :: mid ++ [d]) ++ [' ']) = c :: mid ++ [d] := by
  have h1 : rtrim (' ' :: (c :: mid ++ [d]) ++ [' ']) = ' ' :: (c :: mid ++ [d]) := by
    have : (' ' :: (c :: mid ++ [d]) ++ [' ']).reverse
        = ' ' :: d :: (mid.reverse ++ [c, ' ']) := by simp
    have hsp : isspace ' ' = true := by decide
    unfold rtrim
    rw [this]
    simp [List.dropWhile, hsp, hd]
  have hsp : isspace ' ' = true := by decide
  unfold trim
  rw [h1]
  simp [ltrim, List.dropWhile, hsp, hc]

theorem callTemplate_parse (args : List Str) (hne : args ≠ [])
    (h : ∀ a ∈ args, a ≠ [] ∧ Unquoted a)
    (hend : ¬ ['?', '>'] <:+: " value".toList ++ callOptions args ++ [' '])
    (valid : Bool) (fuel : Nat) (logger : Str) (hlen : (callTemplate args).length < npos) :
    parseLoop (callTemplate args) valid (fuel + 3) ⟨0, 0, rootBlocks, logger⟩
      = some (ParseResult.returned true
          ⟨true, some (rootOf [MetaSQLOutput.function ⟨true, false, FunctionValue, args, 0⟩,
            MetaSQLOutput.string []]), logger⟩) := by
  generalize hbd : " value".toList ++ callOptions args ++ [' '] = body at hend
  have hQ : callTemplate args = ['<', '?'] ++ (body ++ ['?', '>']) := by
    rw [← hbd]; rfl
  have hl : body.length + 4 < npos := by
    rw [hQ] at hlen
    simp only [List.length_append, List.length_cons, List.length_nil] at hlen
    omega
  have hfind : find_first_of (callTemplate args) [squote, dquote, '-', '/', '<'] 0 = 0 := by
    have := find_first_of_skip [] [] ('?' :: (body ++ ['?', '>'])) scanStops '<' (by simp)
      (by decide)
    rw [hQ]
    simpa using this
  have hdir : foundWhat (callTemplate args) 0 = some 3 := by
    rw [hQ]
    rfl
  have hflush : flushText (callTemplate args) ⟨0, 0, rootBlocks, logger⟩ 0 = some rootBlocks := by
    unfold flushText
    simp
  have hfe : find (callTemplate args) "?>".toList 2 = 2 + body.length := by
    have := find_drop ['<', '?'] (body ++ ['?', '>']) ['?', '>']
    rw [← hQ] at this
    simp only [List.length_cons, List.length_nil] at this
    show find (callTemplate args) ['?', '>'] 2 = _
    rw [this]
    exact findStrFrom_end body [] hend 2
  have hpiece : piece (callTemplate args) (sizeT (0 + 2))
      (find (callTemplate args) "?>".toList (sizeT (0 + 2))) = some body := by
    rw [show sizeT (0 + 2) = 2 from rfl, hfe, hQ]
    have := piece_mid ['<', '?'] body ['?', '>'] (by rw [← hQ]; exact hlen)
    simpa using this
  have htrim : trim body = "value".toList ++ callOptions args := by
    rw [← hbd]
    exact trim_blanks 'v' ')' ("alue".toList ++ '(' :: argList args) (by decide) (by decide)
  have hsplit : splitCommand ("value".toList ++ callOptions args)
      = ("value".toList, callOptions args) := by
    simp [splitCommand, find_first_not_of, findFrom, wordchars, npos, callOptions]
  have hsz : sizeT (2 + body.length + 2) = (callTemplate args).length := by
    rw [hQ, sizeT_small _ (by omega)]
    simp only [List.length_append, List.length_cons, List.length_nil]
    omega
  rw [parseLoop, if_neg (show ¬ (0 : Nat) = npos by decide),
    parseStep_directive (callTemplate args) valid _ ⟨0, 0, rootBlocks, logger⟩ rootBlocks 0 hfind
      (by decide) hdir hflush,
    stepDirective_eq (callTemplate args) valid logger rootBlocks 0 body hpiece, htrim, hsplit]
  dsimp only
  rw [show strlower "value".toList = "value".toList by decide,
    directive_value args hne h rootBlocks logger]
  dsimp only
  rw [show sizeT (0 + 2) = 2 from rfl, hfe, hsz, parseLoop,
    if_neg (by dsimp only; omega)]
  have hfin : find_first_of (callTemplate args ++ []) [squote, dquote, '-', '/', '<']
      (callTemplate args).length = npos :=
    find_first_of_none (callTemplate args) [] scanStops (by simp)
  have hfl := flushText_rest (callTemplate args) [] logger
    [MetaSQLOutput.function ⟨true, false, FunctionValue, args, 0⟩] (by simpa using hlen)
  rw [List.append_nil] at hfin hfl
  rw [show appendCurrent rootBlocks (MetaSQLOutput.function ⟨true, false, FunctionValue, args, 0⟩)
      = [⟨⟨true, BlockGeneric, [], false, none⟩,
          [MetaSQLOutput.function ⟨true, false, FunctionValue, args, 0⟩], []⟩] from rfl,
    parseStep_end _ valid _ _ _ hfin hfl]
  dsimp only
  rw [parseLoop, if_pos rfl, closeAll_root]
  rfl

/-! ## The scan of a loop variable over quoted strings and characters outside quotes -/

theorem optionsText_cons (t : OptToken) (ts : List OptToken) :
    optionsText (t :: ts) = t.text ++ optionsText ts := by
  simp [optionsText]

theorem loopVarLoop_tokens (ts : List OptToken) (hts : ∀ t ∈ ts, t.WellFormed) (rest : Str) :
    ∀ (d : Int) (ss : Char) (wip : Str),
      rest = [] ∨ scanned stopsAtAnyComma d ts ≠ ts →
      loopVarLoop (optionsText ts ++ rest) false d ss wip
        = some (wip ++ quotedContents (scanned stopsAtAnyComma d ts)) := by
  induction ts with
  | nil =>
    intro d ss wip h
    rcases h with h | h
    · subst h
      simp [optionsText, loopVarLoop, scanned, quotedContents]
    · exact absurd rfl h
  | cons t ts ih =>
    intro d ss wip h
    have hts' : ∀ t ∈ ts, t.WellFormed := fun x hx => hts x (List.mem_cons_of_mem _ hx)
    have ht := hts t (List.mem_cons_self _ _)
    rw [optionsText_cons, List.append_assoc]
    cases t with
    | quotedString q s =>
      obtain ⟨hq, hu, hd⟩ := ht
      have h' : rest = [] ∨ scanned stopsAtAnyComma d ts ≠ ts := by
        rcases h with h | h
        · exact Or.inl h
        · right
          intro e
          apply h
          simp [scanned, e]
      show loopVarLoop (quoted q s ++ (optionsText ts ++ rest)) false d ss wip = _
      rw [loopVarLoop_quoted q hq s hu hd, ih hts' d q _ h']
      simp [scanned, quotedContents]
    | outside c =>
      obtain ⟨h1, h2⟩ := ht
      have h' : ∀ d', stopsAtAnyComma d c = false → d' = depthAfter d c →
          (rest = [] ∨ scanned stopsAtAnyComma d' ts ≠ ts) := by
        intro d' hs hd'
        subst hd'
        rcases h with h | h
        · exact Or.inl h
        · right
          intro e
          apply h
          simp [scanned, hs, e]
      show loopVarLoop (c :: (optionsText ts ++ rest)) false d ss wip = _
      rw [loopVarLoop_cons, if_neg (by simp)]
      by_cases ho : c = '('
      · subst ho
        have hs : stopsAtAnyComma d '(' = false := by simp [stopsAtAnyComma]
        rw [if_pos (by rfl), ih hts' (d + 1) ss wip (h' _ hs (by simp [depthAfter]))]
        simp [scanned, hs, depthAfter, quotedContents]
      · rw [if_neg (by simpa using ho)]
        by_cases hc : c = ')'
        · subst hc
          rw [if_pos (by rfl)]
          by_cases hd : d - 1 < 1
          · rw [if_pos hd]
            simp [scanned, stopsAtAnyComma, hd, quotedContents]
          · have hs : stopsAtAnyComma d ')' = false := by simp [stopsAtAnyComma, hd]
            rw [if_neg hd, ih hts' (d - 1) ss wip (h' _ hs (by simp [depthAfter]))]
            simp [scanned, hs, depthAfter, quotedContents]
        · rw [if_neg (by simpa using hc), if_neg (by simp [h1, h2])]
          by_cases hk : c = ','
          · subst hk
            rw [if_pos (by rfl)]
            simp [scanned, stopsAtAnyComma, quotedContents]
          · have hs : stopsAtAnyComma d c = false := by simp [stopsAtAnyComma, hk, hc]
            rw [if_neg (by simpa using hk),
              ih hts' d ss wip (h' _ hs (by simp [depthAfter, ho, hc]))]
            simp [scanned, hs, depthAfter, ho, hc, quotedContents]

theorem loopVarLoop_open (q : Char) (hq : q ≠ backslash) (k : Int) :
    ∀ (n : Nat) (s wip : Str), s.length ≤ n → unescapedQuote q s = false →
      loopVarLoop s true k q wip
        = if danglingBackslash s then none else some (wip ++ unescape s) := by
  intro n
  induction n with
  | zero =>
    intro s wip hn _
    have : s = [] := List.length_eq_zero.mp (Nat.le_zero.mp hn)
    subst this
    simp [loopVarLoop, danglingBackslash, unescape]
  | succ n ih =>
    intro s wip hn hu
    match s, hn, hu with
    | [], _, _ => simp [loopVarLoop, danglingBackslash, unescape]
    | [c], _, hu =>
      by_cases hcb : c = backslash
      · subst hcb
        rw [loopVarLoop_cons]
        simp [danglingBackslash]
      · have hcq : c ≠ q := by
          intro e
          simp [unescapedQuote, hcb, e] at hu
          exact hq hu
        rw [loopVarLoop_cons]
        simp only [if_true, beq_iff_eq, hcb, hcq, if_false]
        simp [loopVarLoop, danglingBackslash, unescape, hcb]
    | c :: d :: r, hn, hu =>
      simp only [List.length_cons] at hn
      by_cases hcb : c = backslash
      · subst hcb
        have hu' : unescapedQuote q r = false := by simpa [unescapedQuote] using hu
        rw [loopVarLoop_cons]
        simp only [if_true, beq_self_eq_true]
        rw [ih r _ (by omega) hu']
        simp [unescape, danglingBackslash]
      · have hcq : c ≠ q := by
          intro e
          simp [unescapedQuote, hcb, e] at hu
          exact hq hu.1
        have hu' : unescapedQuote q (d :: r) = false := by
          simpa [unescapedQuote, hcb, hcq] using hu
        rw [loopVarLoop_cons]
        simp only [if_true, beq_iff_eq, hcb, hcq, if_false]
        rw [ih (d :: r) _ (by simp; omega) hu']
        simp [unescape, danglingBackslash, hcb]

theorem loopVarLoop_unclosed (ts : List OptToken) (hts : ∀ t ∈ ts, t.WellFormed) (q : Char)
    (hq : q = squote ∨ q = dquote) (s : Str) (hu : unescapedQuote q s = false) :
    ∀ (d : Int) (ss : Char) (wip : Str),
      scanned stopsAtAnyComma d ts = ts →
      loopVarLoop (optionsText ts ++ q :: s) false d ss wip
        = if danglingBackslash s then none
          else some (wip ++ quotedContents ts ++ unescape s) := by
  have hb : q ≠ backslash := by rcases hq with e | e <;> subst e <;> decide
  induction ts with
  | nil =>
    intro d ss wip _
    show loopVarLoop (q :: s) false d ss wip = _
    rw [loopVarLoop_cons, if_neg (by simp),
      if_neg (by rcases hq with e | e <;> subst e <;> decide),
      if_neg (by rcases hq with e | e <;> subst e <;> decide),
      if_pos (by rcases hq with e | e <;> subst e <;> decide),
      loopVarLoop_open q hb d s.length s wip (Nat.le_refl _) hu]
    simp [quotedContents]
  | cons t ts ih =>
    intro d ss wip h
    have hts' : ∀ t ∈ ts, t.WellFormed := fun x hx => hts x (List.mem_cons_of_mem _ hx)
    have ht := hts t (List.mem_cons_self _ _)
    rw [optionsText_cons, List.append_assoc]
    cases t with
    | quotedString q' s' =>
      obtain ⟨hq', hu', hd'⟩ := ht
      have h' : scanned stopsAtAnyComma d ts = ts := by
        simpa [scanned] using h
      show loopVarLoop (quoted q' s' ++ (optionsText ts ++ q :: s)) false d ss wip = _
      rw [loopVarLoop_quoted q' hq' s' hu' hd', ih hts' d q' _ h']
      simp [quotedContents]
    | outside c =>
      obtain ⟨h1, h2⟩ := ht
      have hs : stopsAtAnyComma d c = false := by
        cases hsc : stopsAtAnyComma d c with
        | false => rfl
        | true => simp [scanned, hsc] at h
      have h' : scanned stopsAtAnyComma (depthAfter d c) ts = ts := by
        simpa [scanned, hs] using h
      have hk : c ≠ ',' := by
        intro e; subst e; simp [stopsAtAnyComma] at hs
      show loopVarLoop (c :: (optionsText ts ++ q :: s)) false d ss wip = _
      rw [loopVarLoop_cons, if_neg (by simp)]
      by_cases ho : c = '('
      · subst ho
        rw [if_pos (by rfl)]
        have hd : depthAfter d '(' = d + 1 := by simp [depthAfter]
        rw [hd] at h'
        rw [ih hts' (d + 1) ss wip h']
        simp [quotedContents]
      · rw [if_neg (by simpa using ho)]
        by_cases hc : c = ')'
        · subst hc
          have hd : ¬ d - 1 < 1 := by
            intro hlt; simp [stopsAtAnyComma, hlt] at hs
          have hda : depthAfter d ')' = d - 1 := by simp [depthAfter]
          rw [hda] at h'
          rw [if_pos (by rfl), if_neg hd, ih hts' (d - 1) ss wip h']
          simp [quotedContents]
        · have hda : depthAfter d c = d := by simp [depthAfter, ho, hc]
          rw [hda] at h'
          rw [if_neg (by simpa using hc), if_neg (by simp [h1, h2]),
            if_neg (by simpa using hk), ih hts' d ss wip h']
          simp [quotedContents]

theorem quotedContents_nil (ts : List OptToken) :
    quotedContents ts = [] ↔ ∀ q s, OptToken.quotedString q s ∈ ts → s = [] := by
  induction ts with
  | nil => simp [quotedContents]
  | cons t ts ih =>
    cases t with
    | quotedString q s =>
      simp only [quotedContents, List.append_eq_nil, unescape_nil, ih, List.mem_cons]
      constructor
      · rintro ⟨h1, h2⟩ q' s' (h | h)
        · cases h; exact h1
        · exact h2 q' s' h
      · intro h
        exact ⟨h q s (Or.inl rfl), fun q' s' hm => h q' s' (Or.inr hm)⟩
    | outside c =>
      simp only [quotedContents, ih, List.mem_cons]
      constructor
      · rintro h q' s' (h' | h')
        · cases h'
        · exact h q' s' h'
      · intro h q' s' hm
        exact h q' s' (Or.inr hm)

theorem unescapedQuote_split (q : Char) (hq : q ≠ backslash) :
    ∀ (n : Nat) (r : Str), r.length ≤ n → unescapedQuote q r = true →
      ∃ s r', r = s ++ q :: r' ∧ unescapedQuote q s = false ∧ danglingBackslash s = false := by
  intro n
  induction n with
  | zero =>
    intro r hn hu
    have : r = [] := List.length_eq_zero.mp (Nat.le_zero.mp hn)
    subst this
    simp [unescapedQuote] at hu
  | succ n ih =>
    intro r hn hu
    match r, hn, hu with
    | [], _, hu => simp [unescapedQuote] at hu
    | [c], _, hu =>
      have hc : c = q := by
        simp [unescapedQuote] at hu
        exact hu.2
      subst hc
      exact ⟨[], [], rfl, rfl, rfl⟩
    | c :: d :: rest, hn, hu =>
      simp only [List.length_cons] at hn
      by_cases hcb : c = backslash
      · subst hcb
        have hu' : unescapedQuote q rest = true := by simpa [unescapedQuote] using hu
        obtain ⟨s, r', e, h1, h2⟩ := ih rest (by omega) hu'
        refine ⟨backslash :: d :: s, r', by rw [e]; rfl, ?_, ?_⟩
        · simpa [unescapedQuote] using h1
        · simpa [danglingBackslash] using h2
      · by_cases hcq : c = q
        · subst hcq
          exact ⟨[], d :: rest, rfl, rfl, rfl⟩
        · have hu' : unescapedQuote q (d :: rest) = true := by
            simpa [unescapedQuote, hcb, hcq] using hu
          obtain ⟨s, r', e, h1, h2⟩ := ih (d :: rest) (by simp; omega) hu'
          refine ⟨c :: s, r', by rw [e]; rfl, ?_, ?_⟩
          · cases s with
            | nil => simp [unescapedQuote, hcb, hcq]
            | cons x s => simpa [unescapedQuote, hcb, hcq] using h1
          · cases s with
            | nil => simp [danglingBackslash, hcb]
            | cons x s => simpa [danglingBackslash, hcb] using h2

theorem options_tokens :
    ∀ (n : Nat) (opts : Str) (d : Int), opts.length ≤ n →
      ∃ ts : List OptToken, (∀ t ∈ ts, t.WellFormed)
        ∧ ((∃ rest, opts = optionsText ts ++ rest
              ∧ (rest = [] ∨ scanned stopsAtAnyComma d ts ≠ ts))
          ∨ (∃ q s, (q = squote ∨ q = dquote) ∧ unescapedQuote q s = false
              ∧ scanned stopsAtAnyComma d ts = ts ∧ opts = optionsText ts ++ q :: s)) := by
  intro n
  induction n with
  | zero =>
    intro opts d hn
    have : opts = [] := List.length_eq_zero.mp (Nat.le_zero.mp hn)
    subst this
    exact ⟨[], by simp, Or.inl ⟨[], rfl, Or.inl rfl⟩⟩
  | succ n ih =>
    intro opts d hn
    cases opts with
    | nil => exact ⟨[], by simp, Or.inl ⟨[], rfl, Or.inl rfl⟩⟩
    | cons c r =>
      simp only [List.length_cons] at hn
      by_cases hq : c = squote ∨ c = dquote
      · have hb : c ≠ backslash := by rcases hq with e | e <;> subst e <;> decide
        cases hu : unescapedQuote c r with
        | false =>
          exact ⟨[], by simp, Or.inr ⟨c, r, hq, hu, rfl, rfl⟩⟩
        | true =>
          obtain ⟨s, r', e, h1, h2⟩ := unescapedQuote_split c hb r.length r (Nat.le_refl _) hu
          have hlen : r'.length ≤ n := by
            have := congrArg List.length e
            simp at this
            omega
          obtain ⟨ts, hts, h⟩ := ih r' d hlen
          have htext : ∀ x : Str,
              c :: r = optionsText (OptToken.quotedString c s :: ts) ++ x
                ↔ r' = optionsText ts ++ x := by
            intro x
            rw [optionsText_cons, e]
            simp [OptToken.text, quoted]
          refine ⟨OptToken.quotedString c s :: ts, ?_, ?_⟩
          · intro t ht
            rcases List.mem_cons.mp ht with ht | ht
            · subst ht; exact ⟨hq, h1, h2⟩
            · exact hts t ht
          · rcases h with ⟨rest, e1, e2⟩ | ⟨q, s', hq', hu', hsc, e1⟩
            · refine Or.inl ⟨rest, (htext rest).mpr e1, ?_⟩
              rcases e2 with e2 | e2
              · exact Or.inl e2
              · right
                simpa [scanned] using e2
            · refine Or.inr ⟨q, s', hq', hu', ?_, (htext (q :: s')).mpr e1⟩
              simp [scanned, hsc]
      · have hq' : c ≠ squote ∧ c ≠ dquote := by
          constructor
          · intro e; exact hq (Or.inl e)
          · intro e; exact hq (Or.inr e)
        cases hs : stopsAtAnyComma d c with
        | true =>
          refine ⟨[OptToken.outside c], ?_, Or.inl ⟨r, by simp [optionsText, OptToken.text], ?_⟩⟩
          · intro t ht
            simp only [List.mem_singleton] at ht
            subst ht
            exact hq'
          · right
            simp [scanned, hs]
        | false =>
          obtain ⟨ts, hts, h⟩ := ih r (depthAfter d c) (by omega)
          have htext : ∀ x : Str,
              c :: r = optionsText (OptToken.outside c :: ts) ++ x ↔ r = optionsText ts ++ x := by
            intro x
            rw [optionsText_cons]
            simp [OptToken.text]
          refine ⟨OptToken.outside c :: ts, ?_, ?_⟩
          · intro t ht
            rcases List.mem_cons.mp ht with ht | ht
            · subst ht; exact hq'
            · exact hts t ht
          · rcases h with ⟨rest, e1, e2⟩ | ⟨q, s', hq'', hu', hsc, e1⟩
            · refine Or.inl ⟨rest, (htext rest).mpr e1, ?_⟩
              rcases e2 with e2 | e2
              · exact Or.inl e2
              · right
                simpa [scanned, hs] using e2
            · refine Or.inr ⟨q, s', hq'', hu', ?_, (htext (q :: s')).mpr e1⟩
              simp [scanned, hs, hsc]

theorem scanned_topLevel (ts : List OptToken) :
    ∀ d : Int, nestedComma d ts = false →
      scanned stopsAtTopLevelComma d ts = scanned stopsAtAnyComma d ts := by
  induction ts with
  | nil =>
    intro d _
    rfl
  | cons t ts ih =>
    intro d h
    cases t with
    | quotedString q s =>
      simp only [nestedComma] at h
      simp only [scanned, ih d h]
    | outside c =>
      simp only [nestedComma] at h
      cases htop : stopsAtTopLevelComma d c with
      | true =>
        have hany : stopsAtAnyComma d c = true := by
          simp only [stopsAtTopLevelComma, stopsAtAnyComma, Bool.or_eq_true, Bool.and_eq_true,
            beq_iff_eq, decide_eq_true_eq] at htop ⊢
          rcases htop with ⟨h1, _⟩ | h2
          · exact Or.inl h1
          · exact Or.inr h2
        simp only [scanned, htop, hany, if_true]
      | false =>
        rw [htop] at h
        simp only [Bool.false_eq_true, if_false, Bool.or_eq_false_iff] at h
        obtain ⟨hc, hrest⟩ := h
        have hany : stopsAtAnyComma d c = false := by
          simp only [stopsAtTopLevelComma, Bool.or_eq_false_iff] at htop
          simp only [stopsAtAnyComma, Bool.or_eq_false_iff]
          exact ⟨hc, htop.2⟩
        simp only [scanned, htop, hany, Bool.false_eq_true, if_false, ih _ hrest]

theorem new_foreach_thrown (logger opts : Str)
    (h : loopVarLoop (trim opts) false 0 dquote [] = none) :
    MetaSQLBlock.new logger "foreach".toList opts = none := by
  have hi : identifyBlock logger "foreach".toList = (BlockForEach, logger) := rfl
  unfold MetaSQLBlock.new
  rw [hi]
  dsimp only
  rw [h]

/-! ## The end of a block comment, every `/*` and `*/` counted -/

theorem findStrFrom_ge (pat : Str) : ∀ (s : Str) (k : Nat), k + s.length ≤ npos →
    k ≤ findStrFrom pat s k := by
  intro s
  induction s with
  | nil =>
    intro k hk
    rw [findStrFrom]
    split
    · exact Nat.le_refl _
    · simpa using hk
  | cons c s ih =>
    intro k hk
    rw [findStrFrom]
    split
    · exact Nat.le_refl _
    · have := ih (k + 1) (by simp at hk ⊢; omega)
      omega

theorem matchingClose_bounds : ∀ (s : Str) (d k e : Nat), matchingClose s d k = some e →
    k ≤ e ∧ e < k + s.length := by
  intro s
  induction s with
  | nil =>
    intro d k e h
    simp [matchingClose] at h
  | cons c s ih =>
    intro d k e h
    rw [matchingClose] at h
    simp only [List.length_cons]
    split at h
    · split at h
      · simp only [Option.some.injEq] at h
        omega
      · have := ih (d - 1) (k + 1) e h
        omega
    · split at h
      · have := ih (d + 1) (k + 1) e h
        omega
      · have := ih d (k + 1) e h
        omega

theorem scan_chains (Q : Str) (hQ : Q.length < npos) :
    ∀ (s P : Str) (d e : Nat), Q = P ++ s → matchingClose s d P.length = some e →
      ∃ O C : List Nat,
        (∀ start, find Q ['/', '*'] start = findStrFrom ['/', '*'] s P.length →
            ChainFrom Q ['/', '*'] (fun r => e < r) start O)
        ∧ (∀ start, find Q ['*', '/'] start = findStrFrom ['*', '/'] s P.length →
            ChainFrom Q ['*', '/'] (fun _ => True) start C)
        ∧ C.length = O.length + d + 1
        ∧ Before O (C.drop d)
        ∧ C.getLast? = some e
        ∧ C.Chain' (· < ·)
        ∧ (∀ c ∈ C, P.length ≤ c ∧ c < Q.length)
        ∧ (∀ o ∈ O, P.length ≤ o ∧ o < Q.length)
        ∧ O.length + C.length ≤ s.length := by
  intro s
  induction s with
  | nil =>
    intro P d e _ h
    simp [matchingClose] at h
  | cons c s ih =>
    intro P d e hP h
    have hP' : Q = (P ++ [c]) ++ s := by rw [hP]; simp
    have hlen' : (P ++ [c]).length = P.length + 1 := by simp
    have hkQ : P.length < Q.length := by rw [hP]; simp
    have hnext : ∀ pat : Str, find Q pat (P.length + 1) = findStrFrom pat s (P.length + 1) := by
      intro pat
      have := find_drop (P ++ [c]) s pat
      rw [← hP', hlen'] at this
      exact this
    rw [matchingClose] at h
    by_cases hclose : startsWith (c :: s) ['*', '/'] = true
    · have hnopen : startsWith (c :: s) ['/', '*'] = false := by
        simp only [startsWith, Bool.and_eq_true, beq_iff_eq] at hclose
        simp [startsWith, hclose.1]
      have hfo : findStrFrom ['/', '*'] (c :: s) P.length
          = findStrFrom ['/', '*'] s (P.length + 1) := by
        rw [findStrFrom, hnopen]; rfl
      have hfc : findStrFrom ['*', '/'] (c :: s) P.length = P.length := by
        rw [findStrFrom, hclose]; rfl
      rw [if_pos hclose] at h
      cases d with
      | zero =>
        simp only [if_true, Option.some.injEq] at h
        subst h
        refine ⟨[], [P.length], ?_, ?_, rfl, trivial, rfl, List.chain'_singleton _, ?_, ?_, ?_⟩
        · intro start hs
          show P.length < find Q ['/', '*'] start
          rw [hs, hfo]
          have := findStrFrom_ge ['/', '*'] s (P.length + 1) (by
            have : Q.length = P.length + 1 + s.length := by rw [hP]; simp; omega
            omega)
          omega
        · intro start hs
          exact ⟨by rw [hs, hfc], trivial⟩
        · intro x hx
          simp only [List.mem_singleton] at hx
          subst hx
          exact ⟨Nat.le_refl _, hkQ⟩
        · intro x hx
          simp at hx
        · simp
      | succ d =>
        rw [if_neg (by omega), Nat.add_sub_cancel] at h
        have h' : matchingClose s d (P ++ [c]).length = some e := by rw [hlen']; exact h
        obtain ⟨O, C, hO, hC, hl, hB, hlast, hsort, hcb, hob, hcount⟩ := ih (P ++ [c]) d e hP' h'
        rw [hlen'] at hO hC hcb hob
        refine ⟨O, P.length :: C, ?_, ?_, ?_, ?_, ?_, ?_, ?_, ?_, ?_⟩
        · intro start hs
          exact hO start (by rw [hs, hfo])
        · intro start hs
          exact ⟨by rw [hs, hfc], hC (P.length + 1) (hnext _)⟩
        · simp only [List.length_cons]; omega
        · simpa using hB
        · cases C with
          | nil => simp at hl
          | cons x C => rw [List.getLast?_cons_cons]; exact hlast
        · rw [List.chain'_cons']
          refine ⟨?_, hsort⟩
          intro y hy
          have := hcb y (List.mem_of_mem_head? hy)
          omega
        · intro x hx
          rcases List.mem_cons.mp hx with hx | hx
          · subst hx; exact ⟨Nat.le_refl _, hkQ⟩
          · have := hcb x hx
            omega
        · intro x hx
          have := hob x hx
          omega
        · simp only [List.length_cons]; omega
    · have hclose' : startsWith (c :: s) ['*', '/'] = false := by simpa using hclose
      have hfc : findStrFrom ['*', '/'] (c :: s) P.length
          = findStrFrom ['*', '/'] s (P.length + 1) := by
        rw [findStrFrom, hclose']; rfl
      rw [if_neg hclose] at h
      by_cases hopen : startsWith (c :: s) ['/', '*'] = true
      · have hfo : findStrFrom ['/', '*'] (c :: s) P.length = P.length := by
          rw [findStrFrom, hopen]; rfl
        rw [if_pos hopen] at h
        have h' : matchingClose s (d + 1) (P ++ [c]).length = some e := by rw [hlen']; exact h
        obtain ⟨O, C, hO, hC, hl, hB, hlast, hsort, hcb, hob, hcount⟩ :=
          ih (P ++ [c]) (d + 1) e hP' h'
        rw [hlen'] at hO hC hcb hob
        refine ⟨P.length :: O, C, ?_, ?_, ?_, ?_, hlast, hsort, ?_, ?_, ?_⟩
        · intro start hs
          exact ⟨by rw [hs, hfo], hO (P.length + 1) (hnext _)⟩
        · intro start hs
          exact hC start (by rw [hs, hfc])
        · simp only [List.length_cons]; omega
        · have hd : d < C.length := by omega
          rw [List.drop_eq_getElem_cons hd]
          refine ⟨?_, hB⟩
          have := hcb C[d] (List.getElem_mem _)
          omega
        · intro x hx
          have := hcb x hx
          omega
        · intro x hx
          rcases List.mem_cons.mp hx with hx | hx
          · subst hx; exact ⟨Nat.le_refl _, hkQ⟩
          · have := hob x hx
            omega
        · simp only [List.length_cons]; omega
      · have hopen' : startsWith (c :: s) ['/', '*'] = false := by simpa using hopen
        have hfo : findStrFrom ['/', '*'] (c :: s) P.length
            = findStrFrom ['/', '*'] s (P.length + 1) := by
          rw [findStrFrom, hopen']; rfl
        rw [if_neg hopen] at h
        have h' : matchingClose s d (P ++ [c]).length = some e := by rw [hlen']; exact h
        obtain ⟨O, C, hO, hC, hl, hB, hlast, hsort, hcb, hob, hcount⟩ := ih (P ++ [c]) d e hP' h'
        rw [hlen'] at hO hC hcb hob
        refine ⟨O, C, ?_, ?_, hl, hB, hlast, hsort, ?_, ?_, ?_⟩
        · intro start hs
          exact hO start (by rw [hs, hfo])
        · intro start hs
          exact hC start (by rw [hs, hfc])
        · intro x hx
          have := hcb x hx
          omega
        · intro x hx
          have := hob x hx
          omega
        · simp only [List.length_cons]; omega

theorem commentEnd_matching (Q : Str) (p e fuel : Nat) (hQ : Q.length < npos)
    (hp : strAt Q p = some '/') (hm : matchingClose (Q.drop (p + 1)) 0 (p + 1) = some e)
    (hf : Q.length ≤ fuel) :
    commentEnd Q p fuel p (find Q "*/".toList p) = some e := by
  have hpl : p < Q.length := by
    unfold strAt at hp
    exact (List.get?_eq_some.mp hp).1
  have hP : Q = Q.take (p + 1) ++ Q.drop (p + 1) := (List.take_append_drop _ _).symm
  have hPl : (Q.take (p + 1)).length = p + 1 := by
    rw [List.length_take]; omega
  have hm' : matchingClose (Q.drop (p + 1)) 0 (Q.take (p + 1)).length = some e := by
    rw [hPl]; exact hm
  obtain ⟨O, C, hO, hC, hl, hB, hlast, hsort, hcb, hob, hcount⟩ :=
    scan_chains Q hQ _ _ 0 e hP hm'
  rw [hPl] at hO hC hcb hob
  cases C with
  | nil => simp at hl
  | cons cur C' =>
    have hget : Q[p]? = some '/' := by
      unfold strAt at hp
      rw [← List.get?_eq_getElem?]
      exact hp
    have hdrop : Q.drop p = '/' :: Q.drop (p + 1) := by
      rw [List.drop_eq_getElem_cons hpl]
      congr 1
      rw [List.getElem?_eq_getElem hpl] at hget
      exact Option.some.inj hget
    have hstartC : find Q ['*', '/'] p = findStrFrom ['*', '/'] (Q.drop (p + 1)) (p + 1) := by
      unfold find
      rw [if_pos (by omega), hdrop, findStrFrom]
      simp [startsWith]
    have hstartO : find Q ['/', '*'] (p + 1)
        = findStrFrom ['/', '*'] (Q.drop (p + 1)) (p + 1) := by
      unfold find
      rw [if_pos (by omega)]
    have hCc := hC p hstartC
    unfold ChainFrom at hCc
    obtain ⟨hcur, hC'⟩ := hCc
    have hcur' : find Q "*/".toList p = cur := hcur
    rw [hcur']
    exact commentEnd_chain Q p e O C' p cur fuel (hO (p + 1) hstartO) hC' (by simpa using hB)
      (by simp at hl; omega) (fun o ho => by have := hob o ho; omega) hsort hlast (by omega)
      (fun c hc => by have := hcb c hc; omega) (fun o ho => by have := hob o ho; omega)
      (by simp at hcount; omega)

theorem piece_between (Q : Str) (a b : Nat) (hab : a ≤ b) (hb : b ≤ Q.length)
    (hQ : Q.length < npos) : piece Q a b = some ((Q.drop a).take (b - a)) := by
  have h1 : b ≠ npos := by omega
  have h2 : sizeT (b + 18446744073709551616 - a) = b - a := by
    unfold sizeT
    unfold npos at hQ
    omega
  unfold piece substr
  rw [if_neg h1, h2, if_pos (by omega)]
  congr 2
  omega

theorem foundWhat_comment (query : Str) (p : Nat) (h : foundWhat query p = some 2) :
    strAt query p = some '/' := by
  unfold foundWhat at h
  split at h
  · simp at h
  · next c hc =>
    rw [hc]
    by_cases h1 : c = '-'
    · rw [if_pos h1] at h
      split at h
      · simp at h
      · simp only [Option.some.injEq] at h
        split at h <;> omega
    · rw [if_neg h1] at h
      by_cases h2 : c = '/'
      · rw [h2]
      · rw [if_neg h2] at h
        by_cases h3 : c = '<'
        · rw [if_pos h3] at h
          split at h
          · simp at h
          · simp only [Option.some.injEq] at h
            split at h <;> omega
        · rw [if_neg h3] at h
          simp at h

theorem parseStep_matching (query : Str) (valid : Bool) (fuel : Nat) (st : ParseState)
    (blocks : List OpenBlock) (p e : Nat)
    (hp : find_first_of query [squote, dquote, '-', '/', '<'] st.currPos = p)
    (hfw : foundWhat query p = some 2) (hflush : flushText query st p = some blocks)
    (hm : matchingClose (query.drop (p + 1)) 0 (p + 1) = some e)
    (hlen : query.length < npos) (hf : query.length ≤ fuel) :
    parseStep query valid fuel st
      = some (Step.next ⟨e + 2, e + 2,
          appendCurrent blocks (MetaSQLOutput.comment ((query.drop p).take (e + 1 - p))),
          st.logger⟩) := by
  have hat := foundWhat_comment query p hfw
  have hpl : p < query.length := by
    unfold strAt at hat
    exact (List.get?_eq_some.mp hat).1
  have hb := matchingClose_bounds _ _ _ _ hm
  rw [List.length_drop] at hb
  rw [parseStep_blockComment query valid fuel st blocks p hp (by omega) hat hfw hflush]
  unfold stepBlockComment
  dsimp only
  rw [commentEnd_matching query p e fuel hlen hat hm hf]
  dsimp only
  rw [if_pos (by omega), sizeT_small (e + 1) (by omega),
    piece_between query p (e + 1) (by omega) (by omega) hlen]
  dsimp only
  rw [if_pos (by omega), sizeT_small (e + 1 + 1) (by omega)]

theorem startsWith_two (y u v b : Char) (Y rest : Str)
    (h : startsWith (y :: (Y ++ b :: rest)) [u, v] = true) : [u, v] <:+: y :: Y ++ [b] := by
  apply List.IsPrefix.isInfix
  cases Y with
  | nil =>
    simp only [startsWith, List.nil_append, Bool.and_eq_true, beq_iff_eq, Bool.and_true] at h
    obtain ⟨h1, h2⟩ := h
    subst h1 h2
    exact ⟨[], rfl⟩
  | cons z Y =>
    simp only [startsWith, List.cons_append, Bool.and_eq_true, beq_iff_eq, Bool.and_true] at h
    obtain ⟨h1, h2⟩ := h
    subst h1 h2
    exact ⟨Y ++ [b], rfl⟩

theorem matchingClose_skip : ∀ (Y : Str) (b : Char) (rest : Str) (d k : Nat),
    ¬ ['/', '*'] <:+: Y ++ [b] → ¬ ['*', '/'] <:+: Y ++ [b] →
    matchingClose (Y ++ b :: rest) d k = matchingClose (b :: rest) d (k + Y.length) := by
  intro Y
  induction Y with
  | nil =>
    intro b rest d k _ _
    rfl
  | cons y Y ih =>
    intro b rest d k ho hc
    have h1 : startsWith (y :: (Y ++ b :: rest)) ['*', '/'] = false := by
      cases h : startsWith (y :: (Y ++ b :: rest)) ['*', '/'] with
      | false => rfl
      | true => exact absurd (startsWith_two y '*' '/' b Y rest h) hc
    have h2 : startsWith (y :: (Y ++ b :: rest)) ['/', '*'] = false := by
      cases h : startsWith (y :: (Y ++ b :: rest)) ['/', '*'] with
      | false => rfl
      | true => exact absurd (startsWith_two y '/' '*' b Y rest h) ho
    rw [List.cons_append, matchingClose, h1, h2]
    simp only [Bool.false_eq_true, if_false]
    rw [ih b rest d (k + 1) (fun h => ho (List.infix_cons h)) (fun h => hc (List.infix_cons h))]
    simp only [List.length_cons]
    congr 1
    omega

theorem matchingClose_delims : ∀ (items : List (Bool × Str)) (isOpen : Bool) (X rest : Str)
    (d k : Nat), delimsApart isOpen X items → nestedPairs items d = true →
    matchingClose (lastOf isOpen :: (X ++ (delimText items ++ '*' :: '/' :: rest))) d k
      = some (k + 1 + X.length + (delimText items).length) := by
  intro items
  induction items with
  | nil =>
    intro isOpen X rest d k hap hn
    have hd : d = 0 := by simpa [nestedPairs] using hn
    subst hd
    obtain ⟨ho, hc⟩ := hap
    have := matchingClose_skip (lastOf isOpen :: X) '*' ('/' :: rest) 0 k ho hc
    simp only [delimText, List.nil_append, List.length_nil, Nat.add_zero]
    rw [show lastOf isOpen :: (X ++ '*' :: '/' :: rest)
        = (lastOf isOpen :: X) ++ '*' :: '/' :: rest from rfl, this, matchingClose]
    simp [startsWith]
    omega
  | cons it more ih =>
    intro isOpen X rest d k hap hn
    obtain ⟨b, Y⟩ := it
    obtain ⟨⟨ho, hc⟩, hap'⟩ := hap
    cases b with
    | true =>
      have hn' : nestedPairs more (d + 1) = true := by simpa [nestedPairs] using hn
      have := matchingClose_skip (lastOf isOpen :: X) '/'
        ('*' :: (Y ++ (delimText more ++ '*' :: '/' :: rest))) d k ho hc
      rw [show lastOf isOpen :: (X ++ (delimText ((true, Y) :: more) ++ '*' :: '/' :: rest))
          = (lastOf isOpen :: X) ++ '/' :: '*' :: (Y ++ (delimText more ++ '*' :: '/' :: rest))
          from by simp [delimText], this, matchingClose]
      simp only [startsWith, show ('/' == '*') = false from rfl, Bool.false_and,
        Bool.false_eq_true, if_false, beq_self_eq_true, Bool.true_and, Bool.and_true, if_true]
      have hih := ih true Y rest (d + 1) (k + (lastOf isOpen :: X).length + 1) hap' hn'
      rw [show lastOf true = '*' from rfl] at hih
      rw [hih]
      simp only [delimText, List.length_cons, List.length_append]
      congr 1
      omega
    | false =>
      cases d with
      | zero => simp [nestedPairs] at hn
      | succ d =>
        have hn' : nestedPairs more d = true := by simpa [nestedPairs] using hn
        have := matchingClose_skip (lastOf isOpen :: X) '*'
          ('/' :: (Y ++ (delimText more ++ '*' :: '/' :: rest))) (d + 1) k ho hc
        rw [show lastOf isOpen :: (X ++ (delimText ((false, Y) :: more) ++ '*' :: '/' :: rest))
            = (lastOf isOpen :: X) ++ '*' :: '/' :: (Y ++ (delimText more ++ '*' :: '/' :: rest))
            from by simp [delimText], this, matchingClose]
        simp only [startsWith, beq_self_eq_true, Bool.true_and, Bool.and_true, if_true]
        rw [if_neg (by omega), Nat.add_sub_cancel]
        have hih := ih false Y rest d (k + (lastOf isOpen :: X).length + 1) hap' hn'
        rw [show lastOf false = '/' from rfl] at hih
        rw [hih]
        simp only [delimText, List.length_cons, List.length_append]
        congr 1
        omega

theorem matchingClose_nested (P X0 R : Str) (items : List (Bool × Str))
    (hap : delimsApart true X0 items) (hn : nestedPairs items 0 = true) :
    matchingClose ((P ++ ('/' :: '*' :: (X0 ++ delimText items) ++ '*' :: '/' :: R)).drop
        (P.length + 1)) 0 (P.length + 1)
      = some (P.length + 2 + (X0 ++ delimText items).length) := by
  have hd : (P ++ ('/' :: '*' :: (X0 ++ delimText items) ++ '*' :: '/' :: R)).drop (P.length + 1)
      = lastOf true :: (X0 ++ (delimText items ++ '*' :: '/' :: R)) := by
    simp [lastOf]
  rw [hd, matchingClose_delims items true X0 R 0 (P.length + 1) hap hn]
  simp only [List.length_append]
  congr 1
  omega

theorem parseStep_nested (P X0 R : Str) (items : List (Bool × Str)) (valid : Bool) (fuel : Nat)
    (st : ParseState) (blocks : List OpenBlock)
    (hp : find_first_of (P ++ ('/' :: '*' :: (X0 ++ delimText items) ++ '*' :: '/' :: R))
      [squote, dquote, '-', '/', '<'] st.currPos = P.length)
    (hflush : flushText (P ++ ('/' :: '*' :: (X0 ++ delimText items) ++ '*' :: '/' :: R)) st
      P.length = some blocks)
    (hap : delimsApart true X0 items) (hn : nestedPairs items 0 = true)
    (hlen : (P ++ ('/' :: '*' :: (X0 ++ delimText items) ++ '*' :: '/' :: R)).length < npos)
    (hf : (P ++ ('/' :: '*' :: (X0 ++ delimText items) ++ '*' :: '/' :: R)).length ≤ fuel) :
    parseStep (P ++ ('/' :: '*' :: (X0 ++ delimText items) ++ '*' :: '/' :: R)) valid fuel st
      = some (Step.next
          ⟨(P ++ ('/' :: '*' :: (X0 ++ delimText items) ++ ['*', '/'])).length,
            (P ++ ('/' :: '*' :: (X0 ++ delimText items) ++ ['*', '/'])).length,
            appendCurrent blocks
              (MetaSQLOutput.comment ('/' :: '*' :: (X0 ++ delimText items) ++ ['*'])),
            st.logger⟩) := by
  generalize hbody : X0 ++ delimText items = body at *
  have hm := matchingClose_nested P X0 R items hap hn
  rw [hbody] at hm
  have hl : P.length + (body.length + (R.length + 2) + 2) < npos := by
    simpa [Nat.add_assoc] using hlen
  have hat : strAt (P ++ ('/' :: '*' :: body ++ '*' :: '/' :: R)) P.length = some '/' :=
    strAt_append P _ '/'
  have hat2 : strAt (P ++ ('/' :: '*' :: body ++ '*' :: '/' :: R)) (P.length + 1) = some '*' := by
    have := strAt_append (P ++ ['/']) (body ++ '*' :: '/' :: R) '*'
    simpa using this
  have hfw : foundWhat (P ++ ('/' :: '*' :: body ++ '*' :: '/' :: R)) P.length = some 2 := by
    unfold foundWhat
    rw [hat]
    dsimp only
    rw [sizeT_small _ (by omega), hat2]
    simp
  rw [parseStep_matching _ valid fuel st blocks P.length _ hp hfw hflush hm hlen hf]
  have htake : ((P ++ ('/' :: '*' :: body ++ '*' :: '/' :: R)).drop P.length).take
      (P.length + 2 + body.length + 1 - P.length) = '/' :: '*' :: body ++ ['*'] := by
    rw [List.drop_left]
    have := @List.take_left' _ ('/' :: '*' :: body ++ ['*']) ('/' :: R)
      (P.length + 2 + body.length + 1 - P.length) (by simp; omega)
    simpa using this
  have hpos : P.length + 2 + body.length + 2
      = (P ++ ('/' :: '*' :: body ++ ['*', '/'])).length := by
    simp
    omega
  rw [htake, hpos]

theorem nested_parse (A X0 B : Str) (items : List (Bool × Str)) (valid : Bool) (fuel : Nat)
    (logger : Str) (hA : Plain A) (hB : Plain B) (hap : delimsApart true X0 items)
    (hn : nestedPairs items 0 = true)
    (hfuel : (A ++ ('/' :: '*' :: (X0 ++ delimText items) ++ '*' :: '/' :: B)).length + 1 ≤ fuel)
    (hlen : (A ++ ('/' :: '*' :: (X0 ++ delimText items) ++ '*' :: '/' :: B)).length < npos) :
    parseLoop (A ++ ('/' :: '*' :: (X0 ++ delimText items) ++ '*' :: '/' :: B)) valid fuel
        ⟨0, 0, rootBlocks, logger⟩
      = some (ParseResult.returned true
          ⟨true, some (rootOf (textNode A
            ++ [MetaSQLOutput.comment ('/' :: '*' :: (X0 ++ delimText items) ++ ['*']),
              MetaSQLOutput.string B])), logger⟩) := by
  have hmin : 4 ≤ (A ++ ('/' :: '*' :: (X0 ++ delimText items) ++ '*' :: '/' :: B)).length := by
    simp
    omega
  obtain ⟨g, rfl⟩ : ∃ g, fuel = g + 3 := ⟨fuel - 3, by omega⟩
  exact blockComment_parse_end A (X0 ++ delimText items) B valid g logger hA hB
    (commentEnd_matching _ A.length _ (g + 2) hlen (strAt_append A _ '/')
      (matchingClose_nested A X0 B items hap hn) (by omega)) hlen

/-! ## The claims -/

/-- C1 (code bug). A template without `<?`, `--` or `/*` is not always rendered as its trimmed
text. In `SELECT 'x` the quote is not closed: `parse_query` returns `true` with a root block that
has no child, so `populate` returns the empty string instead of the template. And on
`SELECT 1 <`, `parse_query` does not return: the lookahead `query.at(currPos+1)` throws. The claim
does hold for every template the tokenizer reads as plain text (no quote, and every `-`, `/`, `<`
followed by a character that does not make it `--`, `/*`, `<?`), given enough fuel; `SELECT 1`
renders `SELECT 1` with empty bindings. -/
theorem C1_unclosed_quote_text_lost (regexec : Str → Str → Option Bool) :
    find unclosedQuoteTemplate "<?".toList 0 = npos
    ∧ find unclosedQuoteTemplate "--".toList 0 = npos
    ∧ find unclosedQuoteTemplate "/*".toList 0 = npos
    ∧ trim unclosedQuoteTemplate = "SELECT 'x".toList
    ∧ MetaSQLQueryPrivate.parse_query 20 MetaSQLQueryPrivate.new unclosedQuoteTemplate
        = some (ParseResult.returned true ⟨true, some (rootOf []), []⟩)
    ∧ (MetaSQLQueryPrivate.mk true (some (rootOf [])) []).populate regexec [] MetaSQLInfo.new
        = some ([], MetaSQLInfo.new, [])
    ∧ MetaSQLQueryPrivate.parse_query 20 MetaSQLQueryPrivate.new trailingLessTemplate
        = some (ParseResult.thrown ⟨false, some (rootOf []), []⟩)
    ∧ (∀ (query : Str) (d : MetaSQLQueryPrivate) (params : ParameterList) (mif : MetaSQLInfo)
        (fuel : Nat), PlainText query → query.length < npos → query.length + 2 ≤ fuel →
        MetaSQLQueryPrivate.parse_query fuel d query
            = some (ParseResult.returned true
                ⟨true, some (rootOf [MetaSQLOutput.string query]), d.logger⟩)
        ∧ (MetaSQLQueryPrivate.mk true (some (rootOf [MetaSQLOutput.string query]))
              d.logger).populate regexec params mif
            = some (trim query, mif, d.logger))
    ∧ MetaSQLQueryPrivate.parse_query 20 MetaSQLQueryPrivate.new "SELECT 1".toList
        = some (ParseResult.returned true
            ⟨true, some (rootOf [MetaSQLOutput.string "SELECT 1".toList]), []⟩)
    ∧ (MetaSQLQueryPrivate.mk true (some (rootOf [MetaSQLOutput.string "SELECT 1".toList]))
          []).populate regexec [] MetaSQLInfo.new
        = some ("SELECT 1".toList, MetaSQLInfo.new, []) :=
  ⟨by decide!, by decide!, by decide!, by decide!, by decide!, rfl, by decide!,
    fun query d params mif fuel hplain hlen hfuel =>
      plainText_renders regexec query d params mif fuel hplain hlen hfuel,
    (plainText_renders regexec "SELECT 1".toList MetaSQLQueryPrivate.new [] MetaSQLInfo.new 20
      plainText_select1 (by decide) (by decide)).1,
    rfl⟩

/-- C2. At iteration `i` of `foreach(name)`, that is in the parameter list `foreachParams` the
loop builds for index `i`, `value(name)` resolves to the `i`-th element of the list bound to
`name`. For every list `xs`, the template `<? foreach("xs") ?><? value("xs") ?>,<? endforeach ?>`
compiles and, with `xs` bound to that list, renders the trim of `_1_ ,_2_ ,` ... `_n_ ,` with the
bindings `_k_ -> xs[k-1]`; for `[10, 20, 30]` this is `_1_ ,_2_ ,_3_ ,` and
`{_1_: 10, _2_: 20, _3_: 30}`. -/
theorem C2_foreach_value_resolves_element (regexec : Str → Str → Option Bool) :
    (∀ (name : Str) (rest : List Str) (nb : Int) (params : ParameterList) (st : EvalState)
        (i : Nat) (x : QVariant),
        (params.value name).1.isList = true → (params.value name).1.toList[i]? = some x →
        (MetaSQLFunction.mk true false FunctionValue (name :: rest) nb).toVariant regexec
            (foreachParams (name ++ foreachPos) i params) st
          = some (x, st))
    ∧ MetaSQLQueryPrivate.parse_query 100 MetaSQLQueryPrivate.new foreachTemplate
        = some (ParseResult.returned true ⟨true, some foreachTree, []⟩)
    ∧ (∀ xs : List QVariant,
        (MetaSQLQueryPrivate.mk true (some foreachTree) []).populate regexec
            [("xs".toList, QVariant.list xs)] MetaSQLInfo.new
          = some (trim (placeholdersText 1 xs.length), ⟨xs.length, bindFrom 1 xs⟩, []))
    ∧ (MetaSQLQueryPrivate.mk true (some foreachTree) []).populate regexec
          [("xs".toList, QVariant.list [QVariant.int 10, QVariant.int 20, QVariant.int 30])]
          MetaSQLInfo.new
        = some ("_1_ ,_2_ ,_3_ ,".toList,
            ⟨3, [("_1_".toList, QVariant.int 10), ("_2_".toList, QVariant.int 20),
              ("_3_".toList, QVariant.int 30)]⟩, []) :=
  ⟨fun name rest nb params st i x hl hx =>
      value_in_foreach regexec FunctionValue (Or.inl rfl) false name rest nb params st i x hl hx,
    parse_foreachTemplate,
    fun xs => foreachTree_populate regexec xs,
    (foreachTree_populate regexec [QVariant.int 10, QVariant.int 20, QVariant.int 30]).trans
      (by decide!)⟩

/-- C3 (code bug). A `break` directive does not terminate any loop: `MetaSQLFunction::toString`
returns before `toVariant` is called, so a function with `_noOutput` leaves `nBreaks` and
`isContinue` as they are. The template `<? foreach("xs") ?>A<? break ?>B<? endforeach ?>` renders
`AB` once per element of `xs` (`ABAB` for two elements), not `A`. -/
theorem C3_break_directive_ignored (regexec : Str → Str → Option Bool) :
    (∀ (f : MetaSQLFunction) (params : ParameterList) (st : EvalState),
        f.noOutput = true → f.toString regexec params st = some ([], st))
    ∧ MetaSQLQueryPrivate.parse_query 100 MetaSQLQueryPrivate.new breakTemplate
        = some (ParseResult.returned true ⟨true, some (loopTree FunctionBreak), []⟩)
    ∧ (∀ xs : List QVariant,
        (MetaSQLQueryPrivate.mk true (some (loopTree FunctionBreak)) []).populate regexec
            [("xs".toList, QVariant.list xs)] MetaSQLInfo.new
          = some (trim (copiesAB xs.length), MetaSQLInfo.new, []))
    ∧ (MetaSQLQueryPrivate.mk true (some (loopTree FunctionBreak)) []).populate regexec
          [("xs".toList, QVariant.list [QVariant.int 1, QVariant.int 2])] MetaSQLInfo.new
        = some ("ABAB".toList, MetaSQLInfo.new, []) :=
  ⟨fun f params st h => noOutput_toString regexec f params st h, parse_breakTemplate,
    fun xs => loopTree_populate regexec FunctionBreak xs,
    loopTree_populate regexec FunctionBreak [QVariant.int 1, QVariant.int 2]⟩

/-- C4 (code bug). A `continue` directive does not skip the rest of the iteration: as for `break`,
`MetaSQLFunction::toString` returns before `toVariant` is called. The template
`<? foreach("xs") ?>A<? continue ?>B<? endforeach ?>` renders `AB` once per element of `xs`
(`ABAB` for two elements), not `A` once per element. -/
theorem C4_continue_directive_ignored (regexec : Str → Str → Option Bool) :
    MetaSQLQueryPrivate.parse_query 100 MetaSQLQueryPrivate.new continueTemplate
        = some (ParseResult.returned true ⟨true, some (loopTree FunctionContinue), []⟩)
    ∧ (∀ (params : ParameterList) (st : EvalState),
        (MetaSQLOutput.function ⟨true, true, FunctionContinue, [], 1⟩).toString regexec params st
          = some ([], st))
    ∧ (∀ xs : List QVariant,
        (MetaSQLQueryPrivate.mk true (some (loopTree FunctionContinue)) []).populate regexec
            [("xs".toList, QVariant.list xs)] MetaSQLInfo.new
          = some (trim (copiesAB xs.length), MetaSQLInfo.new, []))
    ∧ (MetaSQLQueryPrivate.mk true (some (loopTree FunctionContinue)) []).populate regexec
          [("xs".toList, QVariant.list [QVariant.int 1, QVariant.int 2])] MetaSQLInfo.new
        = some ("ABAB".toList, MetaSQLInfo.new, []) :=
  ⟨parse_continueTemplate, fun _ _ => rfl,
    fun xs => loopTree_populate regexec FunctionContinue xs,
    loopTree_populate regexec FunctionContinue [QVariant.int 1, QVariant.int 2]⟩

/-- C5. An `if`/`elseif`/`else` chain renders as the children of the first block whose condition,
negated when the block has `not`, is true, and as the children of the `else` block (nothing when
there is none) when no condition holds: first for a chain whose conditions have a value and leave
the state as it is, then for every node (`chainBranch` selects one branch, and only its children
are evaluated). `exists(name)` is true exactly when `name` is a name of the parameter list, whatever
its value. `<? if exists("x") ?>A<? else ?>B<? endif ?>` renders `B` without parameters and `A`
with `x = 0`; `<? if not exists("x") ?>none<? endif ?>` renders `none` without parameters. -/
theorem C5_if_chain_first_true_branch (regexec : Str → Str → Option Bool) :
    (∀ (params : ParameterList) (st : EvalState) (els : Option (List MetaSQLOutput))
        (cs : List (BlockHead × List MetaSQLOutput)),
        (∀ c ∈ cs, (c.1.block = BlockIf ∨ c.1.block = BlockElseIf)
          ∧ ∃ f v, c.1.ifFunc = some f ∧ f.toVariant regexec params st = some (v, st)) →
        toStringAlt regexec (ifChain cs (els.map elseBlock)) params st
          = toStringItems regexec (firstTrue regexec params st cs (els.getD [])) params st)
    ∧ (∀ (node : MetaSQLOutput) (params : ParameterList) (st : EvalState),
        node.toString regexec params st
          = match chainBranch regexec node params st with
            | none => none
            | some (items, st1) => toStringItems regexec items params st1)
    ∧ (∀ (noOutput : Bool) (name : Str) (rest : List Str) (nb : Int) (params : ParameterList)
        (st : EvalState),
        (MetaSQLFunction.mk true noOutput FunctionExists (name :: rest) nb).toVariant regexec
            params st
          = some (QVariant.bool (decide (name ∈ params.map Prod.fst)), st))
    ∧ MetaSQLQueryPrivate.parse_query 100 MetaSQLQueryPrivate.new ifElseTemplate
        = some (ParseResult.returned true ⟨true, some ifElseTree, []⟩)
    ∧ (MetaSQLQueryPrivate.mk true (some ifElseTree) []).populate regexec [] MetaSQLInfo.new
        = some (['B'], MetaSQLInfo.new, [])
    ∧ (MetaSQLQueryPrivate.mk true (some ifElseTree) []).populate regexec
          [(['x'], QVariant.int 0)] MetaSQLInfo.new
        = some (['A'], MetaSQLInfo.new, [])
    ∧ MetaSQLQueryPrivate.parse_query 100 MetaSQLQueryPrivate.new ifNotTemplate
        = some (ParseResult.returned true ⟨true, some ifNotTree, []⟩)
    ∧ (MetaSQLQueryPrivate.mk true (some ifNotTree) []).populate regexec [] MetaSQLInfo.new
        = some ("none".toList, MetaSQLInfo.new, []) :=
  ⟨fun params st els cs h => ifChain_toString regexec params st els cs h,
    fun node params st => toString_chainBranch regexec node params st,
    fun noOutput name rest nb params st =>
      exists_toVariant regexec noOutput name rest nb params st,
    parse_ifElseTemplate, rfl, rfl, parse_ifNotTemplate, rfl⟩

/-- C5, witness: the chain `if exists("x")` with child `A` and `else` with child `B`, evaluated
without parameters: the condition has the value `false` and leaves the state as it is, and the
branch selected is the child `B` of the `else` block. -/
theorem C5_if_chain_first_true_branch_witness :
    toStringAlt noRegex
        (ifChain [(⟨true, BlockIf, [], false, some existsX⟩, [MetaSQLOutput.string ['A']])]
          ((some [MetaSQLOutput.string ['B']]).map elseBlock)) [] (startState MetaSQLQueryPrivate.new)
      = toStringItems noRegex
          (firstTrue noRegex [] (startState MetaSQLQueryPrivate.new)
            [(⟨true, BlockIf, [], false, some existsX⟩, [MetaSQLOutput.string ['A']])]
            ((some [MetaSQLOutput.string ['B']]).getD [])) [] (startState MetaSQLQueryPrivate.new)
    ∧ firstTrue noRegex [] (startState MetaSQLQueryPrivate.new)
          [(⟨true, BlockIf, [], false, some existsX⟩, [MetaSQLOutput.string ['A']])]
          [MetaSQLOutput.string ['B']]
        = [MetaSQLOutput.string ['B']] :=
  ⟨(C5_if_chain_first_true_branch noRegex).1 [] (startState MetaSQLQueryPrivate.new)
      (some [MetaSQLOutput.string ['B']])
      [(⟨true, BlockIf, [], false, some existsX⟩, [MetaSQLOutput.string ['A']])]
      (by
        intro c hc
        simp only [List.mem_singleton] at hc
        subst hc
        exact ⟨Or.inl rfl, existsX, QVariant.bool false, rfl, rfl⟩),
    by decide!⟩

/-- C6 (amended). After `populate` with a fresh `MetaSQLInfo`, the keys of the bindings map are
`_1_`, ..., `_N_` where `N` is the final value of the placeholder counter, and `N` is the number
of function nodes evaluated by `MetaSQLFunction::toString` that are neither `literal` nor
`continue` nor `break` (conditions of `if`/`elseif` blocks are not counted). -/
theorem C6_placeholder_indices_contiguous (regexec : Str → Str → Option Bool)
    (d : MetaSQLQueryPrivate) (top : MetaSQLOutput) (params : ParameterList)
    (sql log : Str) (mif : MetaSQLInfo) (htop : d.top = some top)
    (h : d.populate regexec params MetaSQLInfo.new = some (sql, mif, log)) :
    mif.pList.keys = (List.range' 1 mif.paramCount).map placeholder
    ∧ mif.paramCount = top.evalCount regexec emitsPlaceholder false params (startState d) := by
  obtain ⟨r, _, hg⟩ := populate_grows regexec d top params _ _ _ _ htop h
  refine ⟨hg.contiguous contiguous_new, ?_⟩
  have := hg.1
  simpa [MetaSQLInfo.new, startState] using this

/-- C6, witness: `SELECT <? value("a") ?>` with `a = 7` renders `SELECT _1_` with the one key
`_1_`, and one placeholder-emitting evaluation is counted. -/
theorem C6_placeholder_indices_contiguous_witness :
    (MetaSQLQueryPrivate.mk true (some valueTree) []).populate noRegex
        [(['a'], QVariant.int 7)] MetaSQLInfo.new
      = some ("SELECT _1_".toList, ⟨1, [("_1_".toList, QVariant.int 7)]⟩, [])
    ∧ PMap.keys [("_1_".toList, QVariant.int 7)] = (List.range' 1 1).map placeholder
    ∧ 1 = valueTree.evalCount noRegex emitsPlaceholder false [(['a'], QVariant.int 7)]
          (startState (MetaSQLQueryPrivate.mk true (some valueTree) [])) :=
  ⟨populate_valueTree noRegex,
    C6_placeholder_indices_contiguous noRegex (MetaSQLQueryPrivate.mk true (some valueTree) [])
      valueTree [(['a'], QVariant.int 7)] "SELECT _1_".toList []
      ⟨1, [("_1_".toList, QVariant.int 7)]⟩ rfl (populate_valueTree noRegex)⟩

/-- C6, counterexample. The template `<? exists("x") ?>` rendered without parameters has the
placeholder index 1 (`_1_` is bound to `false`) although no `value` function is evaluated, so the
indices are not `{1, ..., N}` for `N` the number of `value` evaluations. In the other direction,
`<? if value("x") ?>A<? endif ?>` with `x = true` evaluates one `value` function, as a condition,
and has no placeholder. -/
theorem C6_value_evaluations_counterexample :
    MetaSQLQueryPrivate.parse_query 100 MetaSQLQueryPrivate.new existsDirectiveTemplate
        = some (ParseResult.returned true ⟨true, some existsDirectiveTree, []⟩)
    ∧ (MetaSQLQueryPrivate.mk true (some existsDirectiveTree) []).populate noRegex []
          MetaSQLInfo.new
        = some ("_1_".toList, ⟨1, [("_1_".toList, QVariant.bool false)]⟩, [])
    ∧ existsDirectiveTree.evalCount noRegex isValueFunction true []
          (startState (MetaSQLQueryPrivate.mk true (some existsDirectiveTree) [])) = 0
    ∧ PMap.keys [("_1_".toList, QVariant.bool false)]
        ≠ (List.range' 1
            (existsDirectiveTree.evalCount noRegex isValueFunction true []
              (startState (MetaSQLQueryPrivate.mk true (some existsDirectiveTree) [])))).map
            placeholder
    ∧ MetaSQLQueryPrivate.parse_query 100 MetaSQLQueryPrivate.new ifValueTemplate
        = some (ParseResult.returned true ⟨true, some ifValueTree, []⟩)
    ∧ (MetaSQLQueryPrivate.mk true (some ifValueTree) []).populate noRegex
          [(['x'], QVariant.bool true)] MetaSQLInfo.new
        = some (['A'], MetaSQLInfo.new, [])
    ∧ ifValueTree.evalCount noRegex isValueFunction true [(['x'], QVariant.bool true)]
          (startState (MetaSQLQueryPrivate.mk true (some ifValueTree) [])) = 1 := by
  refine ⟨by decide!, by decide!, by decide!, by decide!, by decide!, by decide!, by decide!⟩

/-- C7 (amended). After `populate` with a fresh `MetaSQLInfo`, every key of the bindings map
occurs in the rendered SQL, and every placeholder `_k_` emitted by a function evaluation, that is
for `k` from 1 to the final counter, which is the number of placeholder-emitting evaluations, is a
key of the bindings map. -/
theorem C7_bindings_occur_in_sql (regexec : Str → Str → Option Bool)
    (d : MetaSQLQueryPrivate) (top : MetaSQLOutput) (params : ParameterList)
    (sql log : Str) (mif : MetaSQLInfo) (htop : d.top = some top)
    (h : d.populate regexec params MetaSQLInfo.new = some (sql, mif, log)) :
    (∀ key ∈ mif.pList.keys, key <:+: sql)
    ∧ (∀ k, 1 ≤ k → k ≤ mif.paramCount → placeholder k ∈ mif.pList.keys)
    ∧ mif.paramCount = top.evalCount regexec emitsPlaceholder false params (startState d) := by
  obtain ⟨r, hsql, hg⟩ := populate_grows regexec d top params _ _ _ _ htop h
  have hkeys := hg.contiguous contiguous_new
  obtain ⟨ext, hext, hk, hin⟩ := hg.2 contiguous_new
  refine ⟨?_, ?_, ?_⟩
  · intro key hkey
    have hmem : key ∈ ext.keys := by
      rw [hext] at hkey
      simpa [MetaSQLInfo.new, PMap.keys] using hkey
    have hinfix := hin key hmem
    rw [hk] at hmem
    obtain ⟨j, _, hj⟩ := List.mem_map.mp hmem
    subst hj
    rw [hsql]
    exact placeholder_infix_trim j r hinfix
  · intro k h1 h2
    rw [hkeys]
    exact List.mem_map.mpr ⟨k, by rw [List.mem_range'_1]; omega, rfl⟩
  · have := hg.1
    simpa [MetaSQLInfo.new, startState] using this

/-- C7, witness: `SELECT <? value("a") ?>` with `a = 7` renders `SELECT _1_`; the key `_1_`
occurs in the SQL and the placeholder of index 1 is a key. -/
theorem C7_bindings_occur_in_sql_witness :
    (MetaSQLQueryPrivate.mk true (some valueTree) []).populate noRegex
        [(['a'], QVariant.int 7)] MetaSQLInfo.new
      = some ("SELECT _1_".toList, ⟨1, [("_1_".toList, QVariant.int 7)]⟩, [])
    ∧ (∀ key ∈ PMap.keys [("_1_".toList, QVariant.int 7)], key <:+: "SELECT _1_".toList)
    ∧ (∀ k, 1 ≤ k → k ≤ 1 → placeholder k ∈ PMap.keys [("_1_".toList, QVariant.int 7)]) :=
  have h := C7_bindings_occur_in_sql noRegex (MetaSQLQueryPrivate.mk true (some valueTree) [])
    valueTree [(['a'], QVariant.int 7)] "SELECT _1_".toList []
    ⟨1, [("_1_".toList, QVariant.int 7)]⟩ rfl (populate_valueTree noRegex)
  ⟨populate_valueTree noRegex, h.1, h.2.1⟩

/-- C7, counterexample. The template `_1_` is plain text: it renders `_1_` with an empty bindings
map, so the placeholder `_1_` occurs in the rendered SQL and is not a key of the map. -/
theorem C7_placeholder_text_counterexample :
    MetaSQLQueryPrivate.parse_query 100 MetaSQLQueryPrivate.new placeholderTextTemplate
        = some (ParseResult.returned true
            ⟨true, some (rootOf [MetaSQLOutput.string "_1_".toList]), []⟩)
    ∧ (MetaSQLQueryPrivate.mk true (some (rootOf [MetaSQLOutput.string "_1_".toList]))
          []).populate noRegex [] MetaSQLInfo.new
        = some ("_1_".toList, MetaSQLInfo.new, [])
    ∧ placeholder 1 <:+: "_1_".toList
    ∧ placeholder 1 ∉ MetaSQLInfo.new.pList.keys :=
  ⟨by decide!, by decide!, ⟨[], [], by decide!⟩, by decide!⟩

/-- C8. In a state reached during a render (the keys of the map are `_1_`, ..., `_c_` for the
counter `c`), for the value `v` the function resolves to: a `literal` function node emits the
string coercion of `v` and leaves the whole state, so the bindings map and the counter, as it is;
a `value` function node emits `_c+1_` followed by one space, sets the counter to `c + 1`, makes the
map one entry longer with `_c+1_` bound to `v`, and leaves every other key as it was. -/
theorem C8_literal_and_value_frame (regexec : Str → Str → Option Bool) (logger : Str)
    (ps : List Str) (params : ParameterList) (st st1 : EvalState) (v : QVariant)
    (hc : st.mif.Contiguous) :
    ((MetaSQLFunction.new logger "literal".toList ps).1.toVariant regexec params st
        = some (v, st1) →
      (MetaSQLFunction.new logger "literal".toList ps).1.toString regexec params st
        = some (v.toStr, st))
    ∧ ((MetaSQLFunction.new logger "value".toList ps).1.toVariant regexec params st
        = some (v, st1) →
      ∃ st' : EvalState,
        (MetaSQLFunction.new logger "value".toList ps).1.toString regexec params st
          = some (placeholder (st.mif.paramCount + 1) ++ [' '], st')
        ∧ st'.mif.paramCount = st.mif.paramCount + 1
        ∧ st'.mif.pList.length = st.mif.pList.length + 1
        ∧ st'.mif.pList.get (placeholder (st.mif.paramCount + 1)) = some v
        ∧ (∀ key, key ≠ placeholder (st.mif.paramCount + 1) →
            st'.mif.pList.get key = st.mif.pList.get key)
        ∧ st'.logger = st.logger ∧ st'.nBreaks = st.nBreaks
        ∧ st'.isContinue = st.isContinue) := by
  rw [new_literal, new_value]
  constructor
  · intro h
    have hst := toVariant_value_state regexec _ (Or.inr rfl) params st st1 v h
    subst hst
    simp [MetaSQLFunction.toString, h]
  · intro h
    have hst := toVariant_value_state regexec _ (Or.inl rfl) params st st1 v h
    subst hst
    refine ⟨{ st1 with mif := ⟨st1.mif.paramCount + 1,
      st1.mif.pList.set (placeholder (st1.mif.paramCount + 1)) v⟩ }, ?_, rfl, ?_, ?_, ?_,
      rfl, rfl, rfl⟩
    · simp [MetaSQLFunction.toString, h]
    · dsimp only
      rw [PMap.set_fresh _ _ _ (Contiguous.fresh _ hc)]
      simp
    · exact PMap.get_set_self _ _ _
    · intro key hkey
      exact PMap.get_set_other _ _ _ _ hkey

/-- C8, witness: in the fresh state and with `a = 7`, `literal("a")` emits `7` and leaves the
state as it is; `value("a")` emits `_1_ ` and binds `_1_` to 7 in a map of one entry. -/
theorem C8_literal_and_value_frame_witness :
    MetaSQLInfo.new.Contiguous
    ∧ (MetaSQLFunction.new [] "literal".toList [['a']]).1.toString noRegex
          [(['a'], QVariant.int 7)] (startState MetaSQLQueryPrivate.new)
        = some (['7'], startState MetaSQLQueryPrivate.new)
    ∧ ∃ st' : EvalState,
        (MetaSQLFunction.new [] "value".toList [['a']]).1.toString noRegex
            [(['a'], QVariant.int 7)] (startState MetaSQLQueryPrivate.new)
          = some ("_1_ ".toList, st')
        ∧ st'.mif.paramCount = 1 ∧ st'.mif.pList.length = 1
        ∧ st'.mif.pList.get "_1_".toList = some (QVariant.int 7) :=
  have h := C8_literal_and_value_frame noRegex [] [['a']] [(['a'], QVariant.int 7)]
    (startState MetaSQLQueryPrivate.new) (startState MetaSQLQueryPrivate.new) (QVariant.int 7)
    contiguous_new
  ⟨contiguous_new, h.1 (by decide!),
    match h.2 (by decide!) with
    | ⟨st', h1, h2, h3, h4, _⟩ => ⟨st', h1, h2, h3, h4⟩⟩

/-- C9. When an iteration of the loop of `parse_query` finds a directive (`<?` at the position
the scan stops at) whose command is `endif` while the innermost open block is not an `if`, `elseif`
or `else` block, or whose command is `endforeach` while the innermost open block is not a
`foreach` block, `parse_query` returns `false`, `_valid` is `false`, and the line
`Encountered an unexpected <cmd>.` is appended to the log. -/
theorem C9_unexpected_end_fails (query : Str) (valid : Bool) (fuel : Nat)
    (st : ParseState) (blocks : List OpenBlock) (body cmd : Str)
    (hcur : st.currPos ≠ npos)
    (hpos : find_first_of query [squote, dquote, '-', '/', '<'] st.currPos ≠ npos)
    (hdir : foundWhat query (find_first_of query [squote, dquote, '-', '/', '<'] st.currPos)
      = some 3)
    (hflush : flushText query st (find_first_of query [squote, dquote, '-', '/', '<'] st.currPos)
      = some blocks)
    (hbody : piece query
        (sizeT (find_first_of query [squote, dquote, '-', '/', '<'] st.currPos + 2))
        (find query "?>".toList
          (sizeT (find_first_of query [squote, dquote, '-', '/', '<'] st.currPos + 2)))
      = some body)
    (hcmd : strlower (splitCommand (trim body)).1 = cmd)
    (h : (cmd = "endif".toList ∧ currentType blocks ≠ BlockIf
            ∧ currentType blocks ≠ BlockElseIf ∧ currentType blocks ≠ BlockElse)
          ∨ (cmd = "endforeach".toList ∧ currentType blocks ≠ BlockForEach)) :
    parseLoop query valid (fuel + 1) st
      = some (ParseResult.returned false
          ⟨false, closeAll blocks,
            logLine st.logger ("Encountered an unexpected ".toList ++ cmd ++ ['.'])⟩) := by
  have hlt := foundWhat_directive query _ hdir
  have hstep : stepDirective query valid st.logger blocks
      (find_first_of query [squote, dquote, '-', '/', '<'] st.currPos)
      = Step.done (ParseResult.returned false
          ⟨false, closeAll blocks,
            logLine st.logger ("Encountered an unexpected ".toList ++ cmd ++ ['.'])⟩) := by
    unfold stepDirective
    dsimp only
    rw [hbody]
    dsimp only
    rw [hcmd, directive_unexpected_end cmd _ blocks st.logger h]
  have hnq : ¬ (find_first_of query [squote, dquote, '-', '/', '<'] st.currPos ≠ npos
      ∧ (strAt query (find_first_of query [squote, dquote, '-', '/', '<'] st.currPos)
            = some squote
          ∨ strAt query (find_first_of query [squote, dquote, '-', '/', '<'] st.currPos)
            = some dquote)) := by
    rw [hlt]
    rintro ⟨_, h | h⟩
    · exact absurd (Option.some.inj h) (by decide)
    · exact absurd (Option.some.inj h) (by decide)
  unfold parseLoop
  rw [if_neg hcur]
  unfold parseStep
  dsimp only
  rw [if_neg hnq, if_pos hpos, hdir]
  simp [hflush, hstep]

/-- C9, witness: in `<? endif ?>` the first iteration finds at position 0 a directive with the
command `endif` while the only open block is the root; `parse_query` returns `false`, the template
is invalid and the log names `endif`. The same for an `endif` directly inside a `foreach` and for
an `endforeach` directly inside an `if`. -/
theorem C9_unexpected_end_fails_witness :
    parseLoop "<? endif ?>".toList false 1 ⟨0, 0, rootBlocks, []⟩
        = some (ParseResult.returned false
            ⟨false, some (rootOf []), "Encountered an unexpected endif.\n".toList⟩)
    ∧ MetaSQLQueryPrivate.parse_query 20 MetaSQLQueryPrivate.new "<? endif ?>".toList
        = some (ParseResult.returned false
            ⟨false, some (rootOf []), "Encountered an unexpected endif.\n".toList⟩)
    ∧ MetaSQLQueryPrivate.parse_query 50 MetaSQLQueryPrivate.new
          "<? foreach(\"xs\") ?><? endif ?>".toList
        = some (ParseResult.returned false
            ⟨false,
              some (rootOf [MetaSQLOutput.block ⟨true, BlockForEach, "xs".toList, false, none⟩ []
                none]),
              "Encountered an unexpected endif.\n".toList⟩)
    ∧ MetaSQLQueryPrivate.parse_query 50 MetaSQLQueryPrivate.new
          "<? if exists(\"x\") ?><? endforeach ?>".toList
        = some (ParseResult.returned false
            ⟨false,
              some (rootOf [MetaSQLOutput.block ⟨true, BlockIf, [], false, some existsX⟩ []
                none]),
              "Encountered an unexpected endforeach.\n".toList⟩) :=
  ⟨C9_unexpected_end_fails "<? endif ?>".toList false 0 ⟨0, 0, rootBlocks, []⟩ rootBlocks
      " endif ".toList "endif".toList (by decide!) (by decide!) (by decide!) (by decide!)
      (by decide!) (by decide!) (Or.inl (by decide!)),
    by decide!, by decide!, by decide!⟩

/-- C10. After a call of `parse_query` that returned `false` the template is marked invalid, and
`toQuery` hands nothing to the database: no statement is prepared, no value is bound, nothing is
executed, whatever the parameters. -/
theorem C10_invalid_template_not_rendered (regexec : Str → Str → Option Bool)
    (prepare : Str → Bool) (fuel : Nat) (d0 d : MetaSQLQueryPrivate) (query : Str)
    (params : ParameterList) (pExec : Bool)
    (h : MetaSQLQueryPrivate.parse_query fuel d0 query = some (ParseResult.returned false d)) :
    d.valid = false
    ∧ MetaSQLQuery.toQuery regexec prepare d params pExec = some ⟨none, [], false⟩ := by
  have hv : d.valid = false := parseLoop_returned _ _ _ _ _ _ h
  exact ⟨hv, by simp [MetaSQLQuery.toQuery, hv]⟩

/-- C10, witness: the template `<? endif ?>` does not compile, and `toQuery` then prepares and
binds nothing, here for the parameter `x = 1`. -/
theorem C10_invalid_template_not_rendered_witness :
    MetaSQLQueryPrivate.parse_query 20 MetaSQLQueryPrivate.new "<? endif ?>".toList
        = some (ParseResult.returned false
            ⟨false, some (rootOf []), "Encountered an unexpected endif.\n".toList⟩)
    ∧ MetaSQLQuery.toQuery (fun _ _ => none) (fun _ => true)
          ⟨false, some (rootOf []), "Encountered an unexpected endif.\n".toList⟩
          [(['x'], QVariant.int 1)] true
        = some ⟨none, [], false⟩ :=
  ⟨by decide!,
    (C10_invalid_template_not_rendered (fun _ _ => none) (fun _ => true) 20
      MetaSQLQueryPrivate.new _ "<? endif ?>".toList [(['x'], QVariant.int 1)] true
      (by decide!)).2⟩

/-- C11 (code bug). A template on which `parse_query` returns `true` need not be balanced. The
loop of `parse_query` is left as soon as `currPos == npos` and the call then returns `true`,
whatever the stack `_blocks` holds: nothing tests that only the root block is open. In
`<? if exists("x") ?>A` the `if` is never closed; the loop is left with two open blocks, the `if`
block above the root, `parse_query` returns `true` with `_valid = true`, and `populate` then
renders `A` when `x` is present. The same happens for the `foreach` of `<? foreach("xs") ?>A`. -/
theorem C11_unclosed_block_compiles (regexec : Str → Str → Option Bool) :
    (∀ (query : Str) (valid : Bool) (fuel : Nat) (st : ParseState), st.currPos = npos →
        parseLoop query valid (fuel + 1) st
          = some (ParseResult.returned true ⟨true, closeAll st.blocks, st.logger⟩))
    ∧ finalState unclosedIfTemplate false 100 ⟨0, 0, rootBlocks, []⟩
        = some ⟨npos, npos,
            [⟨⟨true, BlockIf, [], false, some existsX⟩, [MetaSQLOutput.string ['A']], []⟩,
              ⟨⟨true, BlockGeneric, [], false, none⟩, [], []⟩], []⟩
    ∧ MetaSQLQueryPrivate.parse_query 100 MetaSQLQueryPrivate.new unclosedIfTemplate
        = some (ParseResult.returned true
            ⟨true, some (rootOf [MetaSQLOutput.block ⟨true, BlockIf, [], false, some existsX⟩
              [MetaSQLOutput.string ['A']] none]), []⟩)
    ∧ (MetaSQLQueryPrivate.mk true
          (some (rootOf [MetaSQLOutput.block ⟨true, BlockIf, [], false, some existsX⟩
            [MetaSQLOutput.string ['A']] none])) []).populate regexec
          [(['x'], QVariant.int 1)] MetaSQLInfo.new
        = some (['A'], MetaSQLInfo.new, [])
    ∧ finalState unclosedForeachTemplate false 100 ⟨0, 0, rootBlocks, []⟩
        = some ⟨npos, npos,
            [⟨⟨true, BlockForEach, "xs".toList, false, none⟩, [MetaSQLOutput.string ['A']], []⟩,
              ⟨⟨true, BlockGeneric, [], false, none⟩, [], []⟩], []⟩
    ∧ MetaSQLQueryPrivate.parse_query 100 MetaSQLQueryPrivate.new unclosedForeachTemplate
        = some (ParseResult.returned true
            ⟨true, some (rootOf [MetaSQLOutput.block ⟨true, BlockForEach, "xs".toList, false, none⟩
              [MetaSQLOutput.string ['A']] none]), []⟩) := by
  refine ⟨?_, by decide!, by decide!, rfl, by decide!, by decide!⟩
  intro query valid fuel st h
  rw [parseLoop, if_pos h]

/-- C12. When an iteration of the loop of `parse_query` finds a directive whose command is `else`
or `elseif` while the innermost open block is neither an `if` nor an `elseif` block, `parse_query`
returns `false`, `_valid` is `false`, and one line is appended to the log:
`Encountered unexpected <cmd> statement within else block.` when the innermost open block is an
`else` block, `Encountered unexpected <cmd> statement outside of if/elseif block.` otherwise. And
in the tree of every template on which `parse_query` returns `true` no `else` block has an
alternate: `else` is the last block of its chain. -/
theorem C12_else_outside_if_fails :
    (∀ (query : Str) (valid : Bool) (fuel : Nat) (st : ParseState) (blocks : List OpenBlock)
        (p : Nat) (body cmd : Str),
        st.currPos ≠ npos →
        find_first_of query [squote, dquote, '-', '/', '<'] st.currPos = p → p ≠ npos →
        foundWhat query p = some 3 →
        flushText query st p = some blocks →
        piece query (sizeT (p + 2)) (find query "?>".toList (sizeT (p + 2))) = some body →
        strlower (splitCommand (trim body)).1 = cmd →
        cmd = "elseif".toList ∨ cmd = "else".toList →
        currentType blocks ≠ BlockIf → currentType blocks ≠ BlockElseIf →
        parseLoop query valid (fuel + 1) st
          = some (ParseResult.returned false
              ⟨false, closeAll blocks,
                logLine st.logger ("Encountered unexpected ".toList ++ cmd
                  ++ (if currentType blocks = BlockElse
                      then " statement within else block.".toList
                      else " statement outside of if/elseif block.".toList))⟩))
    ∧ (∀ (fuel : Nat) (d d' : MetaSQLQueryPrivate) (query : Str) (top : MetaSQLOutput),
        MetaSQLQueryPrivate.parse_query fuel d query = some (ParseResult.returned true d') →
        d'.top = some top → top.elseLast = true) := by
  constructor
  · intro query valid fuel st blocks p body cmd hcur hp hpos hdir hflush hbody hcmd hc h1 h2
    rw [parseLoop, if_neg hcur, parseStep_directive query valid fuel st blocks p hp hpos hdir hflush,
      stepDirective_eq query valid st.logger blocks p body hbody, hcmd,
      directive_unexpected_else cmd _ blocks st.logger hc h1 h2]
  · intro fuel d d' query top h htop
    exact parseLoop_elseLast query d.valid fuel _ d' top rootBlocks_elseLast h htop

/-- C12, witness: `<? else ?>` at top level fails with the message for a directive outside of an
`if`; the tree of `<? if exists("x") ?>A<? else ?>B<? endif ?>` is compiled and its `else` block
ends the chain; a second `else` and an `elseif` after an `else` fail with the message for an
`else` block; an `else` directly inside a `foreach` and an `elseif` at top level fail. -/
theorem C12_else_outside_if_fails_witness :
    parseLoop "<? else ?>".toList false 1 ⟨0, 0, rootBlocks, []⟩
        = some (ParseResult.returned false
            ⟨false, some (rootOf []),
              "Encountered unexpected else statement outside of if/elseif block.\n".toList⟩)
    ∧ ifElseTree.elseLast = true
    ∧ MetaSQLQueryPrivate.parse_query 50 MetaSQLQueryPrivate.new
          "<? if exists(\"x\") ?>A<? else ?>B<? else ?>C<? endif ?>".toList
        = some (ParseResult.returned false
            ⟨false,
              some (rootOf [MetaSQLOutput.block ⟨true, BlockIf, [], false, some existsX⟩
                [MetaSQLOutput.string ['A']] (some (elseBlock [MetaSQLOutput.string ['B']]))]),
              "Encountered unexpected else statement within else block.\n".toList⟩)
    ∧ MetaSQLQueryPrivate.parse_query 50 MetaSQLQueryPrivate.new
          "<? if exists(\"x\") ?>A<? else ?>B<? elseif exists(\"y\") ?>C<? endif ?>".toList
        = some (ParseResult.returned false
            ⟨false,
              some (rootOf [MetaSQLOutput.block ⟨true, BlockIf, [], false, some existsX⟩
                [MetaSQLOutput.string ['A']] (some (elseBlock [MetaSQLOutput.string ['B']]))]),
              "Encountered unexpected elseif statement within else block.\n".toList⟩)
    ∧ MetaSQLQueryPrivate.parse_query 50 MetaSQLQueryPrivate.new
          "<? foreach(\"xs\") ?><? else ?><? endforeach ?>".toList
        = some (ParseResult.returned false
            ⟨false,
              some (rootOf [MetaSQLOutput.block ⟨true, BlockForEach, "xs".toList, false, none⟩ []
                none]),
              "Encountered unexpected else statement outside of if/elseif block.\n".toList⟩)
    ∧ MetaSQLQueryPrivate.parse_query 50 MetaSQLQueryPrivate.new
          "<? elseif exists(\"y\") ?>".toList
        = some (ParseResult.returned false
            ⟨false, some (rootOf []),
              "Encountered unexpected elseif statement outside of if/elseif block.\n".toList⟩) :=
  ⟨C12_else_outside_if_fails.1 "<? else ?>".toList false 0 ⟨0, 0, rootBlocks, []⟩ rootBlocks 0
      " else ".toList "else".toList (by decide!) (by decide!) (by decide!) (by decide!)
      (by decide!) (by decide!) (by decide!) (Or.inr rfl) (by decide!) (by decide!),
    C12_else_outside_if_fails.2 100 MetaSQLQueryPrivate.new _ ifElseTemplate ifElseTree
      parse_ifElseTemplate rfl,
    by decide!, by decide!, by decide!, by decide!⟩

/-- C14 (code bug). `parse_query` does not return on every input. On a template that consists of
text without `'`, `"`, `-`, `/`, `<` followed by one last character `-`, `/` or `<`, the lookahead
`query.at(currPos+1)` reads the position behind the last character and throws
`std::out_of_range`, which leaves `parse_query` with `_valid` unchanged and a root block without
children. -/
theorem C14_lookahead_out_of_range (A : Str) (c : Char) (d : MetaSQLQueryPrivate) (fuel : Nat)
    (hA : Plain A) (hc : c = '-' ∨ c = '/' ∨ c = '<') (hlen : (A ++ [c]).length < npos) :
    strAt (A ++ [c]) (A.length + 1) = none
    ∧ MetaSQLQueryPrivate.parse_query (fuel + 1) d (A ++ [c])
        = some (ParseResult.thrown ⟨d.valid, some (rootOf []), d.logger⟩) :=
  ⟨strAt_end _ _ (by simp), lookahead_throws A c d.valid fuel d.logger hA hc hlen⟩

/-- C14, witness: on `SELECT 1 <` the lookahead reads position 10 of a string of length 10 and
`parse_query` is left by the exception. -/
theorem C14_lookahead_out_of_range_witness :
    strAt "SELECT 1 <".toList 10 = none
    ∧ MetaSQLQueryPrivate.parse_query 1 MetaSQLQueryPrivate.new "SELECT 1 <".toList
        = some (ParseResult.thrown ⟨false, some (rootOf []), []⟩) :=
  C14_lookahead_out_of_range "SELECT 1 ".toList '<' MetaSQLQueryPrivate.new 0
    (by unfold Plain; decide) (Or.inr (Or.inr rfl)) (by decide)

/-- C15 (code bug). A directive that is not terminated is scanned again. When `?>` is not found,
`currPos` is `npos` and the statement `currPos += 2` wraps around to `1`: every iteration that
handles such a directive without failing leaves `lastPos = currPos = 1`, so the scan resumes at
the second character of the template. On `x<? value(a)` the scan then finds the same `<?` again,
without end: `parse_query` does not return, whatever the fuel. On `<? value("a")` it returns
`true`, but the text `? value("a")` of the directive is scanned a second time and becomes a text
node, so that the render with `a = 7` is `_1_ ? value("a")`. -/
theorem C15_unterminated_directive_rescanned (regexec : Str → Str → Option Bool) :
    (∀ (query : Str) (valid : Bool) (logger : Str) (blocks : List OpenBlock) (p : Nat)
        (st' : ParseState),
        find query "?>".toList (sizeT (p + 2)) = npos →
        stepDirective query valid logger blocks p = Step.next st' →
        st'.lastPos = 1 ∧ st'.currPos = 1)
    ∧ (∀ (fuel : Nat) (d : MetaSQLQueryPrivate),
        MetaSQLQueryPrivate.parse_query fuel d unterminatedTemplate = none)
    ∧ MetaSQLQueryPrivate.parse_query 100 MetaSQLQueryPrivate.new unterminatedValueTemplate
        = some (ParseResult.returned true
            ⟨true, some (rootOf [MetaSQLOutput.function (valueOf ['a']),
              MetaSQLOutput.string "? value(\"a\")".toList]), []⟩)
    ∧ (MetaSQLQueryPrivate.mk true (some (rootOf [MetaSQLOutput.function (valueOf ['a']),
          MetaSQLOutput.string "? value(\"a\")".toList])) []).populate regexec
          [(['a'], QVariant.int 7)] MetaSQLInfo.new
        = some ("_1_ ? value(\"a\")".toList, ⟨1, [("_1_".toList, QVariant.int 7)]⟩, []) := by
  refine ⟨?_, unterminated_diverges, by decide!, rfl⟩
  intro query valid logger blocks p st' hfind h
  unfold stepDirective at h
  dsimp only at h
  rw [hfind] at h
  split at h
  · simp at h
  · split at h
    · simp at h
    · simp at h
    · simp only [Step.next.injEq] at h
      subst h
      exact ⟨show sizeT (npos + 2) = 1 by decide, show sizeT (npos + 2) = 1 by decide⟩

/-- C16 (code bug). On `/* a */ /* b /* c` `parse_query` does not return, whatever the fuel. The
second comment (position 8) has no `*/` behind it, so the tracked end is `npos`; the further `/*`
(position 13) lies before that end and moves it to `query.find("*/", npos + 1)`, a search that
starts at position 0 and finds the `*/` of the first comment at position 5. The comment node gets
the text up to the end of the input, but the scan resumes at position 7, before the comment it has
just read: every iteration entered at position 7 appends a text node and a comment node and comes
back to position 7. Without a closed comment before it, as in `/* b /* c`, the comment extends to
the end of the input and `parse_query` returns `true`. -/
theorem C16_reopened_comment_diverges :
    (∀ (fuel : Nat) (d : MetaSQLQueryPrivate),
        MetaSQLQueryPrivate.parse_query fuel d reopenedCommentTemplate = none)
    ∧ find reopenedCommentTemplate "*/".toList 8 = npos
    ∧ (∀ f : Nat, commentEnd reopenedCommentTemplate 8 (f + 1) 8 npos = some 5)
    ∧ (∀ (valid : Bool) (f : Nat) (logger : Str) (items : List MetaSQLOutput),
        parseStep reopenedCommentTemplate valid (f + 1)
            ⟨7, 7, [⟨⟨true, BlockGeneric, [], false, none⟩, items, []⟩], logger⟩
          = some (Step.next ⟨7, 7, [⟨⟨true, BlockGeneric, [], false, none⟩,
              items ++ [MetaSQLOutput.string [' '],
                MetaSQLOutput.comment "/* b /* c".toList], []⟩], logger⟩))
    ∧ MetaSQLQueryPrivate.parse_query 100 MetaSQLQueryPrivate.new "/* b /* c".toList
        = some (ParseResult.returned true
            ⟨true, some (rootOf [MetaSQLOutput.comment "/* b /* c".toList]), []⟩) := by
  have h1 : find reopenedCommentTemplate "*/".toList 8 = npos := by decide!
  refine ⟨reopened_diverges, h1, ?_, reopened_step, by decide!⟩
  intro f
  have := reopened_commentEnd f
  rw [h1] at this
  exact this

/-- C17 (code bug). The text of a template with a quote that is not closed is not emitted. For a
template made of text without `'`, `"`, `-`, `/`, `<`, then a quote `'` or `"`, then characters
among which there is neither that quote nor a backslash, `parse_query` returns `true` with a root
block that has no child: the branch for a quoted string ends in `continue` with
`currPos == npos`, so the loop is left before the pending text is flushed. `populate` then returns
the empty string, whereas the trimmed template is not empty. -/
theorem C17_unclosed_quote_not_emitted (regexec : Str → Str → Option Bool) (A rest : Str)
    (q : Char) (d : MetaSQLQueryPrivate) (params : ParameterList) (mif : MetaSQLInfo)
    (fuel : Nat) (hA : Plain A) (hq : q = squote ∨ q = dquote)
    (hrest : ∀ c ∈ rest, c ≠ q ∧ c ≠ backslash) (hlen : (A ++ q :: rest).length < npos) :
    MetaSQLQueryPrivate.parse_query (fuel + 2) d (A ++ q :: rest)
        = some (ParseResult.returned true ⟨true, some (rootOf []), d.logger⟩)
    ∧ (MetaSQLQueryPrivate.mk true (some (rootOf [])) d.logger).populate regexec params mif
        = some ([], mif, d.logger)
    ∧ trim (A ++ q :: rest) ≠ [] := by
  refine ⟨unclosed_quote A rest q d.valid fuel d.logger hA hq hrest hlen, rfl, ?_⟩
  apply trim_keeps
  rcases hq with h | h <;> subst h <;> decide

/-- C17, witness: `SELECT 'x` compiles to a root block without children and renders as the empty
string. -/
theorem C17_unclosed_quote_not_emitted_witness :
    MetaSQLQueryPrivate.parse_query 2 MetaSQLQueryPrivate.new "SELECT 'x".toList
        = some (ParseResult.returned true ⟨true, some (rootOf []), []⟩)
    ∧ (MetaSQLQueryPrivate.mk true (some (rootOf [])) []).populate noRegex [] MetaSQLInfo.new
        = some ([], MetaSQLInfo.new, [])
    ∧ trim "SELECT 'x".toList ≠ [] :=
  C17_unclosed_quote_not_emitted noRegex "SELECT ".toList ['x'] squote MetaSQLQueryPrivate.new []
    MetaSQLInfo.new 0 (by unfold Plain; decide) (Or.inl rfl) (by decide) (by decide)

/-- C18 (code bug). A block comment whose text begins with `/` is not replaced by one space: the
search for `*/` starts at the `/*` itself (`query.find(cmntEnd, lastPos)`), so in `a/*/ x */b` the
comment ends behind `/*/` and the rest ` x */b` is text: the render is `a  x */b`, not `a b`. The
claim holds for a line comment, and for a block comment whose text does not begin with `/`, does
not contain `*/` and has no `/*` beginning in it (`CommentText`): for plain texts `A` and `B` (`B`
empty or beginning with the `\r` or `\n` that ends the line comment), the children of the root
concatenate to `A ++ " " ++ B`, and `populate` returns this text trimmed and leaves the
`MetaSQLInfo` as it was. -/
theorem C18_comment_replaced_by_space (regexec : Str → Str → Option Bool) :
    (MetaSQLQueryPrivate.parse_query 100 MetaSQLQueryPrivate.new slashCommentTemplate
        = some (ParseResult.returned true
            ⟨true, some (rootOf [MetaSQLOutput.string ['a'], MetaSQLOutput.comment "/*".toList,
              MetaSQLOutput.string " x */b".toList]), []⟩)
      ∧ (MetaSQLQueryPrivate.mk true
            (some (rootOf [MetaSQLOutput.string ['a'], MetaSQLOutput.comment "/*".toList,
              MetaSQLOutput.string " x */b".toList])) []).populate regexec [] MetaSQLInfo.new
          = some ("a  x */b".toList, MetaSQLInfo.new, []))
    ∧ (∀ (A body B : Str) (d : MetaSQLQueryPrivate) (params : ParameterList)
        (mif : MetaSQLInfo) (fuel : Nat),
        Plain A → (∀ c ∈ body, c ≠ '\r' ∧ c ≠ '\n') → Plain B →
        (∀ n ∈ B.head?, n = '\r' ∨ n = '\n') →
        (A ++ ('-' :: '-' :: body ++ B)).length < npos →
        MetaSQLQueryPrivate.parse_query (fuel + 3) d (A ++ ('-' :: '-' :: body ++ B))
            = some (ParseResult.returned true
                ⟨true, some (rootOf (textNode A ++ MetaSQLOutput.comment ('-' :: '-' :: body)
                  :: textNode B)), d.logger⟩)
          ∧ toStringItems regexec
                (textNode A ++ MetaSQLOutput.comment ('-' :: '-' :: body) :: textNode B)
                params ⟨mif, d.logger, none, none⟩
              = some (A ++ ' ' :: B, ⟨mif, d.logger, none, none⟩)
          ∧ (MetaSQLQueryPrivate.mk true
                (some (rootOf (textNode A ++ MetaSQLOutput.comment ('-' :: '-' :: body)
                  :: textNode B))) d.logger).populate regexec params mif
              = some (trim (A ++ ' ' :: B), mif, d.logger))
    ∧ (∀ (A body B : Str) (d : MetaSQLQueryPrivate) (params : ParameterList)
        (mif : MetaSQLInfo) (fuel : Nat),
        Plain A → CommentText body → Plain B →
        (A ++ ('/' :: '*' :: body ++ '*' :: '/' :: B)).length < npos →
        MetaSQLQueryPrivate.parse_query (fuel + 3) d (A ++ ('/' :: '*' :: body ++ '*' :: '/' :: B))
            = some (ParseResult.returned true
                ⟨true, some (rootOf (textNode A
                  ++ [MetaSQLOutput.comment ('/' :: '*' :: body ++ ['*']),
                    MetaSQLOutput.string B])), d.logger⟩)
          ∧ toStringItems regexec
                (textNode A ++ [MetaSQLOutput.comment ('/' :: '*' :: body ++ ['*']),
                  MetaSQLOutput.string B])
                params ⟨mif, d.logger, none, none⟩
              = some (A ++ ' ' :: B, ⟨mif, d.logger, none, none⟩)
          ∧ (MetaSQLQueryPrivate.mk true
                (some (rootOf (textNode A
                  ++ [MetaSQLOutput.comment ('/' :: '*' :: body ++ ['*']),
                    MetaSQLOutput.string B]))) d.logger).populate regexec params mif
              = some (trim (A ++ ' ' :: B), mif, d.logger)) := by
  refine ⟨⟨by decide!, rfl⟩, ?_, ?_⟩
  · intro A body B d params mif fuel hA hbody hB hnl hlen
    have hr := render_lineComment regexec A ('-' :: '-' :: body) B params
      ⟨mif, d.logger, none, none⟩ rfl
    exact ⟨lineComment_parse A body B d.valid fuel d.logger hA hbody hB hnl hlen, hr,
      populate_root regexec _ d.logger _ params mif hr⟩
  · intro A body B d params mif fuel hA hbody hB hlen
    have hr := render_blockComment regexec A ('/' :: '*' :: body ++ ['*']) B params
      ⟨mif, d.logger, none, none⟩ rfl
    exact ⟨blockComment_parse A body B d.valid fuel d.logger hA hbody hB hlen, hr,
      populate_root regexec _ d.logger _ params mif hr⟩

/-- C18, witness: `a/* x/y */b` renders `a b`, and `a-- c` followed by a line feed and `b` renders
`a`, a space, the line feed and `b`. -/
theorem C18_comment_replaced_by_space_witness :
    (MetaSQLQueryPrivate.parse_query 3 MetaSQLQueryPrivate.new "a/* x/y */b".toList
        = some (ParseResult.returned true
            ⟨true, some (rootOf [MetaSQLOutput.string ['a'],
              MetaSQLOutput.comment "/* x/y *".toList, MetaSQLOutput.string ['b']]), []⟩)
      ∧ (MetaSQLQueryPrivate.mk true (some (rootOf [MetaSQLOutput.string ['a'],
            MetaSQLOutput.comment "/* x/y *".toList, MetaSQLOutput.string ['b']]))
            []).populate noRegex [] MetaSQLInfo.new
          = some ("a b".toList, MetaSQLInfo.new, []))
    ∧ (MetaSQLQueryPrivate.parse_query 3 MetaSQLQueryPrivate.new "a-- c\nb".toList
        = some (ParseResult.returned true
            ⟨true, some (rootOf [MetaSQLOutput.string ['a'],
              MetaSQLOutput.comment "-- c".toList, MetaSQLOutput.string "\nb".toList]), []⟩)
      ∧ (MetaSQLQueryPrivate.mk true (some (rootOf [MetaSQLOutput.string ['a'],
            MetaSQLOutput.comment "-- c".toList, MetaSQLOutput.string "\nb".toList]))
            []).populate noRegex [] MetaSQLInfo.new
          = some ("a \nb".toList, MetaSQLInfo.new, [])) :=
  have hb := (C18_comment_replaced_by_space noRegex).2.2 ['a'] " x/y ".toList ['b']
    MetaSQLQueryPrivate.new [] MetaSQLInfo.new 0 (by unfold Plain; decide)
    (by unfold CommentText; decide) (by unfold Plain; decide) (by decide)
  have hl := (C18_comment_replaced_by_space noRegex).2.1 ['a'] " c".toList "\nb".toList
    MetaSQLQueryPrivate.new [] MetaSQLInfo.new 0 (by unfold Plain; decide) (by decide)
    (by unfold Plain; decide) (by decide) (by decide)
  ⟨⟨hb.1, hb.2.2⟩, ⟨hl.1, hl.2.2⟩⟩

/-- C19 (amended). `isfirst(name)` evaluates to false when `name` is absent, to true when it is
present and not a list, to false when it is an empty list, and for a list that is not empty to
true exactly when the current position `name__FOREACH_POS__` is 0 or unset. -/
theorem C19_isfirst_value (regexec : Str → Str → Option Bool) (noOutput : Bool) (name : Str)
    (rest : List Str) (nb : Int) (params : ParameterList) (st : EvalState) :
    (MetaSQLFunction.mk true noOutput FunctionIsFirst (name :: rest) nb).toVariant regexec params st
      = some (QVariant.bool
          (if (params.value name).1.isList = true ∧ (params.value name).1.toList = [] then false
            else isfirstSpec params name), st) := by
  rw [isfirst_toVariant]
  unfold isfirstSpec
  by_cases h1 : (params.value name).2 = true
  · by_cases h2 : (params.value name).1.isList = true
    · by_cases h3 : (params.value name).1.toList = []
      · simp [h1, h2, h3]
      · simp [h1, h2, h3]
    · simp [h1, h2]
  · have h0 : (params.value name).2 = false := by simpa using h1
    have hv := value_absent params name h0
    simp [h0, hv, QVariant.isList]

/-- C19, witness: `isfirst("xs")` is true for a list of two elements without position entry,
false at position 1, false when `xs` is absent, and true for the scalar 3. -/
theorem C19_isfirst_value_witness :
    isfirstXs.toVariant noRegex [("xs".toList, QVariant.list [QVariant.int 4, QVariant.int 5])]
          (startState MetaSQLQueryPrivate.new)
        = some (QVariant.bool true, startState MetaSQLQueryPrivate.new)
    ∧ isfirstXs.toVariant noRegex
          [("xs__FOREACH_POS__".toList, QVariant.int 1),
            ("xs".toList, QVariant.list [QVariant.int 4, QVariant.int 5])]
          (startState MetaSQLQueryPrivate.new)
        = some (QVariant.bool false, startState MetaSQLQueryPrivate.new)
    ∧ isfirstXs.toVariant noRegex [] (startState MetaSQLQueryPrivate.new)
        = some (QVariant.bool false, startState MetaSQLQueryPrivate.new)
    ∧ isfirstXs.toVariant noRegex [("xs".toList, QVariant.int 3)]
          (startState MetaSQLQueryPrivate.new)
        = some (QVariant.bool true, startState MetaSQLQueryPrivate.new) :=
  ⟨C19_isfirst_value noRegex false "xs".toList [] 0
      [("xs".toList, QVariant.list [QVariant.int 4, QVariant.int 5])]
      (startState MetaSQLQueryPrivate.new),
    C19_isfirst_value noRegex false "xs".toList [] 0
      [("xs__FOREACH_POS__".toList, QVariant.int 1),
        ("xs".toList, QVariant.list [QVariant.int 4, QVariant.int 5])]
      (startState MetaSQLQueryPrivate.new),
    C19_isfirst_value noRegex false "xs".toList [] 0 [] (startState MetaSQLQueryPrivate.new),
    C19_isfirst_value noRegex false "xs".toList [] 0 [("xs".toList, QVariant.int 3)]
      (startState MetaSQLQueryPrivate.new)⟩

/-- C19, counterexample. For the empty list `xs` and no position entry, the spec gives
`isfirst("xs")` the value true (the position is unset), but `toVariant` returns false (the test
`l.size() > 0` fails); so `<? if isfirst("xs") ?>A<? endif ?>` renders the empty string. -/
theorem C19_isfirst_empty_list_counterexample :
    isfirstSpec [("xs".toList, QVariant.list [])] "xs".toList = true
    ∧ isfirstXs.toVariant noRegex [("xs".toList, QVariant.list [])]
          (startState MetaSQLQueryPrivate.new)
        = some (QVariant.bool false, startState MetaSQLQueryPrivate.new)
    ∧ MetaSQLQueryPrivate.parse_query 100 MetaSQLQueryPrivate.new ifFirstTemplate
        = some (ParseResult.returned true ⟨true, some ifFirstTree, []⟩)
    ∧ (MetaSQLQueryPrivate.mk true (some ifFirstTree) []).populate noRegex
          [("xs".toList, QVariant.list [])] MetaSQLInfo.new
        = some ([], MetaSQLInfo.new, []) := by
  refine ⟨by decide!, by decide!, by decide!, by decide!⟩

/-- C20 (amended). `islast(name)` evaluates to false when `name` is an empty list, whatever the
current position is, and otherwise to true exactly when `name` is present and is a scalar, or
`name` is a list and the current position equals `len(list) - 1`. At iteration `ui` of
`foreach(name)` over a list, `islast(name)` is true exactly when `ui + 1` is the length of the
list. The template
`<? foreach("v") ?>x<? if not islast("v") ?>,<? endif ?><? endforeach ?>` compiles, and for every
parameter list in which `v` is a list of length `m` it renders `m` copies of `x` separated by
`m - 1` commas, with the `MetaSQLInfo` left as it was. -/
theorem C20_islast_value (regexec : Str → Str → Option Bool) :
    (∀ (noOutput : Bool) (name : Str) (rest : List Str) (nb : Int) (params : ParameterList)
        (st : EvalState),
        (MetaSQLFunction.mk true noOutput FunctionIsLast (name :: rest) nb).toVariant regexec
            params st
          = some (QVariant.bool
              (if (params.value name).1.isList = true ∧ (params.value name).1.toList = []
                then false else islastSpec params name), st))
    ∧ (∀ (noOutput : Bool) (name : Str) (rest : List Str) (nb : Int) (params : ParameterList)
        (st : EvalState) (ui : Nat),
        (params.value name).2 = true → (params.value name).1.isList = true →
        ui < (params.value name).1.toList.length →
        (MetaSQLFunction.mk true noOutput FunctionIsLast (name :: rest) nb).toVariant regexec
            (foreachParams (name ++ foreachPos) ui params) st
          = some (QVariant.bool (decide (ui + 1 = (params.value name).1.toList.length)), st))
    ∧ MetaSQLQueryPrivate.parse_query 100 MetaSQLQueryPrivate.new separatorTemplate
        = some (ParseResult.returned true ⟨true, some separatorTree, []⟩)
    ∧ (∀ (params : ParameterList) (mif : MetaSQLInfo) (logger : Str),
        (params.value ['v']).2 = true → (params.value ['v']).1.isList = true →
        (MetaSQLQueryPrivate.mk true (some separatorTree) logger).populate regexec params mif
          = some (separated (params.value ['v']).1.toList.length, mif, logger)) := by
  refine ⟨?_, ?_, parse_separatorTemplate, ?_⟩
  · intro noOutput name rest nb params st
    rw [islast_toVariant]
    unfold islastSpec
    by_cases h1 : (params.value name).2 = true
    · by_cases h2 : (params.value name).1.isList = true
      · by_cases h3 : (params.value name).1.toList = []
        · simp [h1, h2, h3]
        · simp only [h1, h2, h3, if_true, Bool.not_true, Bool.and_false, Bool.false_or,
            Bool.true_and, and_false, if_false, ne_eq, not_false_eq_true, true_and]
          congr 3
          apply decide_eq_decide.mpr
          constructor
          · intro h; omega
          · intro h; omega
      · simp [h1, h2]
    · have h0 : (params.value name).2 = false := by simpa using h1
      have hv := value_absent params name h0
      simp [h0, hv, QVariant.isList]
  · intro noOutput name rest nb params st ui hf hl hui
    exact islast_in_foreach regexec noOutput name rest nb params st ui hf hl hui
  · intro params mif logger hf hl
    exact separatorTree_populate regexec params mif logger hf hl

/-- C20, witness: `islast("v")` is true at position 2 of a list of three elements, false at
position -1 of the empty list, and the template renders `x,x,x` for the list of three
elements. -/
theorem C20_islast_value_witness :
    islastV.toVariant noRegex
          [("v__FOREACH_POS__".toList, QVariant.int 2),
            (['v'], QVariant.list [QVariant.int 1, QVariant.int 2, QVariant.int 3])]
          (startState MetaSQLQueryPrivate.new)
        = some (QVariant.bool true, startState MetaSQLQueryPrivate.new)
    ∧ islastV.toVariant noRegex
          [("v__FOREACH_POS__".toList, QVariant.int (-1)), (['v'], QVariant.list [])]
          (startState MetaSQLQueryPrivate.new)
        = some (QVariant.bool false, startState MetaSQLQueryPrivate.new)
    ∧ (MetaSQLQueryPrivate.mk true (some separatorTree) []).populate noRegex
          [(['v'], QVariant.list [QVariant.int 1, QVariant.int 2, QVariant.int 3])]
          MetaSQLInfo.new
        = some ("x,x,x".toList, MetaSQLInfo.new, []) :=
  ⟨(C20_islast_value noRegex).1 false ['v'] [] 0
      [("v__FOREACH_POS__".toList, QVariant.int 2),
        (['v'], QVariant.list [QVariant.int 1, QVariant.int 2, QVariant.int 3])]
      (startState MetaSQLQueryPrivate.new),
    (C20_islast_value noRegex).1 false ['v'] [] 0
      [("v__FOREACH_POS__".toList, QVariant.int (-1)), (['v'], QVariant.list [])]
      (startState MetaSQLQueryPrivate.new),
    (C20_islast_value noRegex).2.2.2
      [(['v'], QVariant.list [QVariant.int 1, QVariant.int 2, QVariant.int 3])]
      MetaSQLInfo.new [] rfl rfl⟩

/-- C20, counterexample. For the empty list `xs` at the position -1, the spec gives
`islast("xs")` the value true (the position equals `len(list) - 1`), but `toVariant` returns
false (the test `l.size() > 0` fails); so `<? if islast("xs") ?>A<? endif ?>` renders the empty
string. -/
theorem C20_islast_empty_list_counterexample :
    islastSpec [("xs".toList, QVariant.list []), ("xs__FOREACH_POS__".toList, QVariant.int (-1))]
        "xs".toList = true
    ∧ islastXs.toVariant noRegex
          [("xs".toList, QVariant.list []), ("xs__FOREACH_POS__".toList, QVariant.int (-1))]
          (startState MetaSQLQueryPrivate.new)
        = some (QVariant.bool false, startState MetaSQLQueryPrivate.new)
    ∧ MetaSQLQueryPrivate.parse_query 100 MetaSQLQueryPrivate.new ifLastTemplate
        = some (ParseResult.returned true ⟨true, some ifLastTree, []⟩)
    ∧ (MetaSQLQueryPrivate.mk true (some ifLastTree) []).populate noRegex
          [("xs".toList, QVariant.list []), ("xs__FOREACH_POS__".toList, QVariant.int (-1))]
          MetaSQLInfo.new
        = some ([], MetaSQLInfo.new, []) := by
  refine ⟨by decide!, by decide!, by decide!, by decide!⟩

/-- C21. `value(n)` and `literal(n)` on a parameter `n` that is a list: when the entry
`n__FOREACH_POS__` is absent the result is the first element of a list that is not empty, and the
access `first()` is outside the list when the list is empty; when the entry is present with the
index `i` the result is the element at `i` if there is one, and the access `operator[]` is outside
the list when the index is negative or not less than the size. So the element access is not in
range for every list-valued parameter: `isfirst` and `islast` test `l.size() > 0`, `value` and
`literal` do not. -/
theorem C21_value_of_list_element (regexec : Str → Str → Option Bool) (fn : Function)
    (noOutput : Bool) (name : Str) (rest : List Str) (nb : Int) (params : ParameterList)
    (st : EvalState) (hfn : fn = FunctionValue ∨ fn = FunctionLiteral)
    (hl : (params.value name).1.isList = true) :
    ((params.value (name ++ foreachPos)).2 = false →
        (∀ x xs, (params.value name).1.toList = x :: xs →
          (MetaSQLFunction.mk true noOutput fn (name :: rest) nb).toVariant regexec params st
            = some (x, st))
        ∧ ((params.value name).1.toList = [] →
          (MetaSQLFunction.mk true noOutput fn (name :: rest) nb).toVariant regexec params st
            = none))
    ∧ ((params.value (name ++ foreachPos)).2 = true →
        (∀ (i : Nat) x, (params.value (name ++ foreachPos)).1.toInt = i →
          (params.value name).1.toList[i]? = some x →
          (MetaSQLFunction.mk true noOutput fn (name :: rest) nb).toVariant regexec params st
            = some (x, st))
        ∧ (((params.value (name ++ foreachPos)).1.toInt < 0
            ∨ ((params.value name).1.toList.length : Int)
                ≤ (params.value (name ++ foreachPos)).1.toInt) →
          (MetaSQLFunction.mk true noOutput fn (name :: rest) nb).toVariant regexec params st
            = none)) := by
  refine ⟨fun hp => ⟨fun x xs hx => ?_, fun hx => ?_⟩,
    fun hp => ⟨fun i x hi hx => ?_, fun hr => ?_⟩⟩
  · rcases hfn with h | h <;> subst h <;> simp [MetaSQLFunction.toVariant, hl, hp, hx]
  · rcases hfn with h | h <;> subst h <;> simp [MetaSQLFunction.toVariant, hl, hp, hx]
  · rcases hfn with h | h <;> subst h <;> simp [MetaSQLFunction.toVariant, hl, hp, hi, hx]
  · have key : (if 0 ≤ (params.value (name ++ foreachPos)).1.toInt then
          (match (params.value name).1.toList.get?
              (params.value (name ++ foreachPos)).1.toInt.toNat with
            | some x => some (x, st)
            | none => none)
        else (none : Option (QVariant × EvalState))) = none := by
      split
      · next h0 =>
        have hge : (params.value name).1.toList.length
            ≤ (params.value (name ++ foreachPos)).1.toInt.toNat := by
          rcases hr with h | h
          · omega
          · omega
        rw [List.get?_eq_none.mpr hge]
      · rfl
    rcases hfn with h | h <;> subst h <;>
      simp only [MetaSQLFunction.toVariant, hl, hp, if_true] <;> exact key

/-- C21, witness: `value("xs")` with `xs` bound to the empty list and no position entry reads
`first()` of an empty list. `<? value("xs") ?>` compiles, and rendering it in that environment is
undefined, as it is with the list `[4]` and the position 5. -/
theorem C21_value_of_list_element_witness :
    (MetaSQLFunction.mk true false FunctionValue ["xs".toList] 0).toVariant noRegex
        [("xs".toList, QVariant.list [])] (startState MetaSQLQueryPrivate.new) = none
    ∧ MetaSQLQueryPrivate.parse_query 100 MetaSQLQueryPrivate.new valueXsTemplate
        = some (ParseResult.returned true ⟨true, some valueXsTree, []⟩)
    ∧ (MetaSQLQueryPrivate.mk true (some valueXsTree) []).populate noRegex
          [("xs".toList, QVariant.list [])] MetaSQLInfo.new = none
    ∧ MetaSQLQuery.toQuery noRegex (fun _ => true)
          (MetaSQLQueryPrivate.mk true (some valueXsTree) [])
          [("xs".toList, QVariant.list [])] true = none
    ∧ MetaSQLQuery.toQuery noRegex (fun _ => true)
          (MetaSQLQueryPrivate.mk true (some valueXsTree) [])
          [("xs".toList, QVariant.list [QVariant.int 4]),
            ("xs".toList ++ foreachPos, QVariant.int 5)] true = none :=
  ⟨((C21_value_of_list_element noRegex FunctionValue false "xs".toList [] 0
      [("xs".toList, QVariant.list [])] (startState MetaSQLQueryPrivate.new) (Or.inl rfl) rfl).1
        rfl).2 rfl,
    by decide!, by decide!, by decide!, by decide!⟩

/-- C22. A `foreach` block whose loop variable is not a name of the parameter list, or is bound
to a value whose list is empty, renders the empty string and leaves the evaluation state (the
bindings map, the placeholder counter, the logger and the break cells) as it was; its children are
evaluated zero times. -/
theorem C22_foreach_absent_or_empty (regexec : Str → Str → Option Bool) (valid : Bool)
    (loopVar : Str) (ifNot : Bool) (ifFunc : Option MetaSQLFunction) (items : List MetaSQLOutput)
    (alt : Option MetaSQLOutput) (params : ParameterList) (st : EvalState)
    (h : (params.value loopVar).2 = false ∨ (params.value loopVar).1.toList = []) :
    (MetaSQLOutput.block ⟨valid, BlockForEach, loopVar, ifNot, ifFunc⟩ items alt).toString
        regexec params st = some ([], st)
    ∧ foreachIterations regexec ⟨valid, BlockForEach, loopVar, ifNot, ifFunc⟩ items params st
        = 0 := by
  rw [MetaSQLOutput.toString]
  unfold foreachIterations
  dsimp only
  rcases h with h | h
  · simp [h]
  · by_cases hf : (params.value loopVar).2 = true
    · simp [hf, h, forEachLoop, forEachCount]
    · simp [hf]

/-- C22, witness: the block `foreach("xs")` with the child `value("xs")`, without parameters and
with `xs` bound to the empty list. `<? foreach("xs") ?>A<? endforeach ?>` renders the empty string
with a fresh `MetaSQLInfo` in both environments; with a list of two elements the children are
evaluated twice. -/
theorem C22_foreach_absent_or_empty_witness :
    ((MetaSQLOutput.block ⟨true, BlockForEach, "xs".toList, false, none⟩
          [MetaSQLOutput.function (valueOf "xs".toList)] none).toString noRegex []
          (startState MetaSQLQueryPrivate.new) = some ([], startState MetaSQLQueryPrivate.new)
      ∧ foreachIterations noRegex ⟨true, BlockForEach, "xs".toList, false, none⟩
          [MetaSQLOutput.function (valueOf "xs".toList)] []
          (startState MetaSQLQueryPrivate.new) = 0)
    ∧ ((MetaSQLOutput.block ⟨true, BlockForEach, "xs".toList, false, none⟩
          [MetaSQLOutput.function (valueOf "xs".toList)] none).toString noRegex
          [("xs".toList, QVariant.list [])]
          (startState MetaSQLQueryPrivate.new) = some ([], startState MetaSQLQueryPrivate.new)
      ∧ foreachIterations noRegex ⟨true, BlockForEach, "xs".toList, false, none⟩
          [MetaSQLOutput.function (valueOf "xs".toList)] [("xs".toList, QVariant.list [])]
          (startState MetaSQLQueryPrivate.new) = 0)
    ∧ MetaSQLQueryPrivate.parse_query 100 MetaSQLQueryPrivate.new foreachATemplate
        = some (ParseResult.returned true ⟨true, some foreachATree, []⟩)
    ∧ (MetaSQLQueryPrivate.mk true (some foreachATree) []).populate noRegex [] MetaSQLInfo.new
        = some ([], MetaSQLInfo.new, [])
    ∧ (MetaSQLQueryPrivate.mk true (some foreachATree) []).populate noRegex
          [("xs".toList, QVariant.list [])] MetaSQLInfo.new
        = some ([], MetaSQLInfo.new, [])
    ∧ foreachIterations noRegex ⟨true, BlockForEach, "xs".toList, false, none⟩
          [MetaSQLOutput.string ['A']]
          [("xs".toList, QVariant.list [QVariant.int 1, QVariant.int 2])]
          (startState MetaSQLQueryPrivate.new) = 2 :=
  ⟨C22_foreach_absent_or_empty noRegex true "xs".toList false none
      [MetaSQLOutput.function (valueOf "xs".toList)] none [] (startState MetaSQLQueryPrivate.new)
      (Or.inl rfl),
    C22_foreach_absent_or_empty noRegex true "xs".toList false none
      [MetaSQLOutput.function (valueOf "xs".toList)] none [("xs".toList, QVariant.list [])]
      (startState MetaSQLQueryPrivate.new) (Or.inr rfl),
    by decide!, by decide!, by decide!, by decide!⟩

/-- C25 (amended). A `foreach` block over `var` that is found evaluates its children by the loop
`forEachLoop`, whose result depends on the children only through their evaluation on the parameter
lists `foreachParams (var ++ "__FOREACH_POS__") i params` of the iterations `i`, each built from
the incoming list `params`. That list is the entry `<var>__FOREACH_POS__ = i` followed by the
entries of `params` whose name is not `<var>__FOREACH_POS__`, in their order and with their
values, so a lookup of any other name gives what it gives in `params`. In a loop over `b` nested
in a loop over `a`, where `a` is neither `b` nor the name `b__FOREACH_POS__`, `value(a)` and
`literal(a)` resolve to the element of `a` at the index of the outer loop; the nested template
over `a = [10, 20]` and `b = [7]` binds 10 and 20. -/
theorem C25_foreach_child_environment (regexec : Str → Str → Option Bool) :
    (∀ (valid : Bool) (var : Str) (ifNot : Bool) (ifFunc : Option MetaSQLFunction)
        (items : List MetaSQLOutput) (alt : Option MetaSQLOutput) (params : ParameterList)
        (st : EvalState), (params.value var).2 = true →
        (MetaSQLOutput.block ⟨valid, BlockForEach, var, ifNot, ifFunc⟩ items alt).toString
            regexec params st
          = forEachLoop (fun pList s => toStringItems regexec items pList s) (var ++ foreachPos)
              params (params.value var).1.toList.length 0 st)
    ∧ (∀ (body body' : ParameterList → EvalState → Option (Str × EvalState)) (str : Str)
        (params : ParameterList) (n ui : Nat) (st : EvalState),
        (∀ i, ui ≤ i → i < ui + n → ∀ s,
          body (foreachParams str i params) s = body' (foreachParams str i params) s) →
        forEachLoop body str params n ui st = forEachLoop body' str params n ui st)
    ∧ (∀ (var : Str) (i : Nat) (params : ParameterList),
        foreachParams (var ++ foreachPos) i params
            = (var ++ foreachPos, QVariant.int i)
                :: params.filter (fun p => decide (p.1 ≠ var ++ foreachPos))
        ∧ (params.filter (fun p => decide (p.1 ≠ var ++ foreachPos))).Sublist params
        ∧ (∀ p ∈ params, p.1 ≠ var ++ foreachPos →
            p ∈ params.filter (fun p => decide (p.1 ≠ var ++ foreachPos)))
        ∧ (∀ key, key ≠ var ++ foreachPos →
            (foreachParams (var ++ foreachPos) i params).value key = params.value key)
        ∧ (foreachParams (var ++ foreachPos) i params).value (var ++ foreachPos)
            = (QVariant.int i, true))
    ∧ (∀ (fn : Function) (noOutput : Bool) (a b : Str) (rest : List Str) (nb : Int)
        (params : ParameterList) (st : EvalState) (i j : Nat) (x : QVariant),
        fn = FunctionValue ∨ fn = FunctionLiteral → a ≠ b → a ≠ b ++ foreachPos →
        (params.value a).1.isList = true → (params.value a).1.toList[i]? = some x →
        (MetaSQLFunction.mk true noOutput fn (a :: rest) nb).toVariant regexec
            (foreachParams (b ++ foreachPos) j (foreachParams (a ++ foreachPos) i params)) st
          = some (x, st))
    ∧ MetaSQLQueryPrivate.parse_query 100 MetaSQLQueryPrivate.new (nestedTemplate ['a'] ['b'])
        = some (ParseResult.returned true ⟨true, some (nestedTree ['a'] ['b']), []⟩)
    ∧ (MetaSQLQueryPrivate.mk true (some (nestedTree ['a'] ['b'])) []).populate noRegex
          (nestedParams ['a']) MetaSQLInfo.new
        = some ("_1_ _2_".toList,
            ⟨2, [("_1_".toList, QVariant.int 10), ("_2_".toList, QVariant.int 20)]⟩, []) := by
  refine ⟨?_, forEachLoop_congr, ?_, ?_, by decide!, by decide!⟩
  · intro valid var ifNot ifFunc items alt params st h
    rw [MetaSQLOutput.toString]
    simp [h]
  · intro var i params
    have e : (fun p : Str × QVariant => p.1 != var ++ foreachPos)
        = (fun p => decide (p.1 ≠ var ++ foreachPos)) := by
      funext p
      by_cases hp : p.1 = var ++ foreachPos <;> simp [hp]
    refine ⟨by rw [foreachParams, e], List.filter_sublist _, ?_, ?_, foreachParams_pos _ _ _⟩
    · intro p hp hne
      exact List.mem_filter.mpr ⟨hp, by simpa using hne⟩
    · intro key hkey
      rw [foreachParams, ParameterList.value, if_neg (fun e => hkey e.symm)]
      exact value_filter params _ _ hkey
  · intro fn noOutput a b rest nb params st i j x hfn hab hpos hl hx
    exact value_nested regexec fn hfn noOutput a b rest nb params st i j x hab hpos hl hx

/-- C25, counterexample. The outer loop variable is named `b__FOREACH_POS__` and bound to
`[10, 20]`, the inner one is `b`: the two names differ. The parameter list of the inner loop
drops every entry named `b__FOREACH_POS__`, the outer list among them, and puts the inner index
under that name, so at the outer index 1 `value("b__FOREACH_POS__")` is the inner index 0, not the
element 20; the nested template binds 0 and 0 where the same template over `a` binds 10 and 20. -/
theorem C25_position_name_collision_counterexample :
    posOfB ≠ "b".toList
    ∧ (ParameterList.value (nestedParams posOfB) posOfB).1.isList = true
    ∧ (ParameterList.value (nestedParams posOfB) posOfB).1.toList[1]? = some (QVariant.int 20)
    ∧ (valueOf posOfB).toVariant noRegex
        (foreachParams ("b".toList ++ foreachPos) 0
          (foreachParams (posOfB ++ foreachPos) 1 (nestedParams posOfB)))
        (startState MetaSQLQueryPrivate.new)
      = some (QVariant.int 0, startState MetaSQLQueryPrivate.new)
    ∧ MetaSQLQueryPrivate.parse_query 100 MetaSQLQueryPrivate.new (nestedTemplate posOfB ['b'])
        = some (ParseResult.returned true ⟨true, some (nestedTree posOfB ['b']), []⟩)
    ∧ (MetaSQLQueryPrivate.mk true (some (nestedTree posOfB ['b'])) []).populate noRegex
          (nestedParams posOfB) MetaSQLInfo.new
        = some ("_1_ _2_".toList,
            ⟨2, [("_1_".toList, QVariant.int 0), ("_2_".toList, QVariant.int 0)]⟩, []) := by
  refine ⟨by decide, by decide!, by decide!, by decide!, by decide!, by decide!⟩

/-- C27. After `populate` with a fresh `MetaSQLInfo` the keys of the bindings map are exactly
`_1_`, ..., `_c_`, each once, `c` being the final placeholder counter, and `c` is the number of
evaluations of `MetaSQLFunction::toString` that emitted a placeholder into the text; each key
occurs in the rendered SQL. During the
evaluation, from every state whose keys are `_1_`, ..., `_c_` (the fresh one is such a state, and
each evaluation of a node leads to such a state again), the evaluation of a node adds its number of
emitted placeholders to the counter, which therefore does not decrease, and extends the bindings
map at its end: every binding present before is present after with the same value. -/
theorem C27_bindings_grow_by_emission (regexec : Str → Str → Option Bool) :
    (∀ (d : MetaSQLQueryPrivate) (top : MetaSQLOutput) (params : ParameterList) (sql log : Str)
        (mif : MetaSQLInfo), d.top = some top →
        d.populate regexec params MetaSQLInfo.new = some (sql, mif, log) →
        (∀ key, key ∈ mif.pList.keys ↔ ∃ k, 1 ≤ k ∧ k ≤ mif.paramCount ∧ key = placeholder k)
        ∧ mif.pList.keys.Nodup
        ∧ mif.pList.length = mif.paramCount
        ∧ mif.paramCount
            = top.evalCount regexec emitsPlaceholder false params (startState d)
        ∧ ∀ key ∈ mif.pList.keys, key <:+: sql)
    ∧ MetaSQLInfo.new.Contiguous
    ∧ (∀ (node : MetaSQLOutput) (params : ParameterList) (st st' : EvalState) (r : Str),
        node.toString regexec params st = some (r, st') → st.mif.Contiguous →
        st'.mif.Contiguous
        ∧ st'.mif.paramCount
            = st.mif.paramCount + node.evalCount regexec emitsPlaceholder false params st
        ∧ st.mif.paramCount ≤ st'.mif.paramCount
        ∧ st.mif.pList <+: st'.mif.pList
        ∧ (∀ key v, st.mif.pList.get key = some v → st'.mif.pList.get key = some v))
    ∧ (MetaSQLQueryPrivate.mk true (some (nestedTree ['a'] ['b'])) []).populate regexec
          (nestedParams ['a']) MetaSQLInfo.new
        = some ("_1_ _2_".toList,
            ⟨2, [("_1_".toList, QVariant.int 10), ("_2_".toList, QVariant.int 20)]⟩, []) := by
  refine ⟨?_, contiguous_new, ?_, rfl⟩
  · intro d top params sql log mif htop h
    obtain ⟨r, hsql, hg⟩ := populate_grows regexec d top params _ _ _ _ htop h
    have hk : mif.pList.keys = (List.range' 1 mif.paramCount).map placeholder :=
      hg.contiguous contiguous_new
    refine ⟨fun key => ?_, ?_, ?_, ?_, ?_⟩
    · rw [hk, List.mem_map]
      constructor
      · rintro ⟨k, hk1, rfl⟩
        rw [List.mem_range'_1] at hk1
        exact ⟨k, hk1.1, by omega, rfl⟩
      · rintro ⟨k, h1, h2, rfl⟩
        exact ⟨k, by rw [List.mem_range'_1]; omega, rfl⟩
    · rw [hk]
      exact (List.nodup_range' 1 mif.paramCount).map placeholder_injective
    · have := congrArg List.length hk
      simpa [PMap.keys] using this
    · have := hg.1
      simpa [MetaSQLInfo.new, startState] using this
    · obtain ⟨ext, hext, hke, hin⟩ := hg.2 contiguous_new
      intro key hkey
      have hmem : key ∈ ext.keys := by
        rw [hext] at hkey
        simpa [MetaSQLInfo.new, PMap.keys] using hkey
      have hinfix := hin key hmem
      rw [hke] at hmem
      obtain ⟨j, _, hj⟩ := List.mem_map.mp hmem
      subst hj
      rw [hsql]
      exact placeholder_infix_trim j r hinfix
  · intro node params st st' r h hc
    have hg := toString_grows regexec node params st st' r h
    obtain ⟨ext, hext, _, _⟩ := hg.2 hc
    refine ⟨hg.contiguous hc, hg.1, by rw [hg.1]; omega, ⟨ext, hext.symm⟩, ?_⟩
    intro key v hv
    rw [hext]
    exact PMap.get_append _ _ _ _ hv

/-- C26. For a non-empty list `a1, ..., an` of non-empty strings without quote character and
without backslash (commas, blanks and parentheses may occur in them), the options
`("a1", "a2", ..., "an")` parse to the argument list `[a1, ..., an]`, and the directive
`value("a1", ..., "an")` appends the function node `value` with these arguments to the innermost
open block. When `?>` does not occur in the body of the directive, the template
`<? value("a1", ..., "an") ?>` compiles to that function node. -/
theorem C26_argument_list (args : List Str) (hne : args ≠ [])
    (h : ∀ a ∈ args, a ≠ [] ∧ Unquoted a) :
    parseParams (callOptions args) = some args
    ∧ splitCommand ("value".toList ++ callOptions args) = ("value".toList, callOptions args)
    ∧ (∀ (blocks : List OpenBlock) (logger : Str),
        directive "value".toList (callOptions args) blocks logger
          = DirectiveResult.ok
              (appendCurrent blocks
                (MetaSQLOutput.function ⟨true, false, FunctionValue, args, 0⟩)) logger)
    ∧ (¬ ['?', '>'] <:+: " value".toList ++ callOptions args ++ [' '] →
        (callTemplate args).length < npos →
        ∀ (d : MetaSQLQueryPrivate) (fuel : Nat),
          MetaSQLQueryPrivate.parse_query (fuel + 3) d (callTemplate args)
            = some (ParseResult.returned true
                ⟨true, some (rootOf [MetaSQLOutput.function
                    ⟨true, false, FunctionValue, args, 0⟩, MetaSQLOutput.string []]),
                  d.logger⟩)) :=
  ⟨parseParams_args args hne h,
    by simp [splitCommand, find_first_not_of, findFrom, wordchars, npos, callOptions],
    fun blocks logger => directive_value args hne h blocks logger,
    fun hend hlen d fuel => callTemplate_parse args hne h hend d.valid fuel d.logger hlen⟩

/-- C26, witness: the arguments `a, b`, `c (d)` and `e`: the options
`("a, b", "c (d)", "e")` parse to these three arguments, and the template
`<? value("a, b", "c (d)", "e") ?>` compiles to the function node `value` with them. -/
theorem C26_argument_list_witness :
    parseParams "(\"a, b\", \"c (d)\", \"e\")".toList
        = some ["a, b".toList, "c (d)".toList, ['e']]
    ∧ MetaSQLQueryPrivate.parse_query 3 MetaSQLQueryPrivate.new
          "<? value(\"a, b\", \"c (d)\", \"e\") ?>".toList
        = some (ParseResult.returned true ⟨true,
            some (rootOf [MetaSQLOutput.function
                ⟨true, false, FunctionValue, ["a, b".toList, "c (d)".toList, ['e']], 0⟩,
              MetaSQLOutput.string []]), []⟩) :=
  ⟨(C26_argument_list ["a, b".toList, "c (d)".toList, ['e']] (by decide)
      (by unfold Unquoted; decide)).1,
    (C26_argument_list ["a, b".toList, "c (d)".toList, ['e']] (by decide)
      (by unfold Unquoted; decide)).2.2.2 (by decide) (by decide) MetaSQLQueryPrivate.new 0⟩

/-- C29 (code bug). The argument parsers read past the end of the directive body. When the
options are `(`, a quote, characters other than that quote and the backslash, and a backslash as
last character, the character index `++p` consumed after the backslash is the size of the
options: `options.at(++p)` throws in the argument list of a function and of an `if`/`elseif`
condition, `tmp.at(++p)` throws in the loop variable of `foreach`, and the exception leaves
`parse_query`. -/
theorem C29_backslash_reads_past_end (q : Char) (s : Str) (hq : q = squote ∨ q = dquote)
    (hs : ∀ c ∈ s, c ≠ backslash ∧ c ≠ q) :
    parseParams ('(' :: q :: s ++ [backslash]) = none
    ∧ loopVarLoop ('(' :: q :: s ++ [backslash]) false 0 dquote [] = none
    ∧ (∀ (cmd : Str) (blocks : List OpenBlock) (logger : Str), cmd ∉ blockKeywords →
        directive cmd ('(' :: q :: s ++ [backslash]) blocks logger = DirectiveResult.thrown)
    ∧ (∀ (cmd : Str) (logger : Str), cmd = "if".toList ∨ cmd = "elseif".toList →
        MetaSQLBlock.new logger cmd ("exists".toList ++ '(' :: q :: s ++ [backslash]) = none)
    ∧ (∀ logger : Str,
        MetaSQLBlock.new logger "foreach".toList ('(' :: q :: s ++ [backslash]) = none) :=
  ⟨parseParams_backslash q hq s hs, loopVar_backslash q hq s hs,
    fun cmd blocks logger hkw => directive_backslash cmd q hq s hs blocks logger hkw,
    fun cmd logger hcmd => if_backslash cmd hcmd q hq s hs logger,
    fun logger => foreach_backslash q hq s hs logger⟩

/-- C29, witness: the options `("a\`. The templates `<? value("a\ ?>`, `<? if exists("a\ ?>` and
`<? foreach("a\ ?>` end `parse_query` with the exception. -/
theorem C29_backslash_reads_past_end_witness :
    (parseParams ('(' :: dquote :: ['a'] ++ [backslash]) = none
      ∧ loopVarLoop ('(' :: dquote :: ['a'] ++ [backslash]) false 0 dquote [] = none
      ∧ (∀ (cmd : Str) (blocks : List OpenBlock) (logger : Str), cmd ∉ blockKeywords →
          directive cmd ('(' :: dquote :: ['a'] ++ [backslash]) blocks logger
            = DirectiveResult.thrown)
      ∧ (∀ (cmd : Str) (logger : Str), cmd = "if".toList ∨ cmd = "elseif".toList →
          MetaSQLBlock.new logger cmd ("exists".toList ++ '(' :: dquote :: ['a'] ++ [backslash])
            = none)
      ∧ (∀ logger : Str,
          MetaSQLBlock.new logger "foreach".toList ('(' :: dquote :: ['a'] ++ [backslash])
            = none))
    ∧ MetaSQLQueryPrivate.parse_query 100 MetaSQLQueryPrivate.new "<? value(\"a\\ ?>".toList
        = some (ParseResult.thrown ⟨false, some (rootOf []), []⟩)
    ∧ MetaSQLQueryPrivate.parse_query 100 MetaSQLQueryPrivate.new "<? if exists(\"a\\ ?>".toList
        = some (ParseResult.thrown ⟨false, some (rootOf []), []⟩)
    ∧ MetaSQLQueryPrivate.parse_query 100 MetaSQLQueryPrivate.new "<? foreach(\"a\\ ?>".toList
        = some (ParseResult.thrown ⟨false, some (rootOf []), []⟩) :=
  ⟨C29_backslash_reads_past_end dquote ['a'] (Or.inr rfl) (by decide),
    by decide!, by decide!, by decide!⟩

/-- C30 (amended). The options of a `foreach` are read as quoted strings and characters outside
quotes. The scan ends at the first `,` outside quotes, at any parenthesis depth, at the first `)`
outside quotes that leaves no parenthesis open, or at the end of the options; the loop variable
is the concatenation of the contents of the quoted strings before that point, a backslash in a
string standing for the character after it, and the characters outside quotes are discarded. It
is empty exactly when every quoted string there is; the directive opens the block when it is not
empty, and otherwise `parse_query` fails with the line `Failed to create new foreach block.`.
A string whose closing quote is missing counts with the text behind its quote, and throws when
that text ends in an escaping backslash. Every options text has one of these two forms. Where
no `,` outside quotes stands inside more than one parenthesis, the scan ends at the first
top-level `,` or at the `)` that leaves no parenthesis open.
`<? foreach("xs") ?>` has the loop variable `xs`; `<? foreach(xs) ?>` has an empty one and fails.
The options `(("a") "b")` give `ab`, the options `("a") "b"` give `a`, and the options
`(("a", "b"))` give `a`. -/
theorem C30_foreach_loop_variable :
    (∀ (logger opts wip : Str) (blocks : List OpenBlock),
        loopVarLoop (trim opts) false 0 dquote [] = some wip →
        MetaSQLBlock.new logger "foreach".toList opts
            = some (if wip = [] then ⟨false, BlockForEach, [], false, none⟩
                else ⟨true, BlockForEach, wip, false, none⟩, logger)
        ∧ directive "foreach".toList opts blocks logger
            = if wip = [] then
                DirectiveResult.failed
                  (logLine logger "Failed to create new foreach block.".toList)
              else
                DirectiveResult.ok (⟨⟨true, BlockForEach, wip, false, none⟩, [], []⟩ :: blocks)
                  logger)
    ∧ (∀ (ts : List OptToken) (rest opts : Str),
        (∀ t ∈ ts, t.WellFormed) → (rest = [] ∨ scanned stopsAtAnyComma 0 ts ≠ ts) →
        trim opts = optionsText ts ++ rest →
        loopVarLoop (trim opts) false 0 dquote []
            = some (quotedContents (scanned stopsAtAnyComma 0 ts))
        ∧ (quotedContents (scanned stopsAtAnyComma 0 ts) = []
            ↔ ∀ q s, OptToken.quotedString q s ∈ scanned stopsAtAnyComma 0 ts → s = [])
        ∧ ∀ (logger : Str) (blocks : List OpenBlock),
            directive "foreach".toList opts blocks logger
              = if quotedContents (scanned stopsAtAnyComma 0 ts) = [] then
                  DirectiveResult.failed
                    (logLine logger "Failed to create new foreach block.".toList)
                else
                  DirectiveResult.ok
                    (⟨⟨true, BlockForEach, quotedContents (scanned stopsAtAnyComma 0 ts), false,
                      none⟩, [], []⟩ :: blocks)
                    logger)
    ∧ (∀ (ts : List OptToken) (q : Char) (s opts : Str),
        (∀ t ∈ ts, t.WellFormed) → (q = squote ∨ q = dquote) → unescapedQuote q s = false →
        scanned stopsAtAnyComma 0 ts = ts → trim opts = optionsText ts ++ q :: s →
        loopVarLoop (trim opts) false 0 dquote []
            = (if danglingBackslash s then none else some (quotedContents ts ++ unescape s))
        ∧ ∀ (logger : Str) (blocks : List OpenBlock),
            directive "foreach".toList opts blocks logger
              = if danglingBackslash s then DirectiveResult.thrown
                else if quotedContents ts ++ unescape s = [] then
                  DirectiveResult.failed
                    (logLine logger "Failed to create new foreach block.".toList)
                else
                  DirectiveResult.ok
                    (⟨⟨true, BlockForEach, quotedContents ts ++ unescape s, false, none⟩, [],
                      []⟩ :: blocks)
                    logger)
    ∧ (∀ opts : Str, ∃ ts : List OptToken, (∀ t ∈ ts, t.WellFormed)
        ∧ ((∃ rest, opts = optionsText ts ++ rest
              ∧ (rest = [] ∨ scanned stopsAtAnyComma 0 ts ≠ ts))
          ∨ (∃ q s, (q = squote ∨ q = dquote) ∧ unescapedQuote q s = false
              ∧ scanned stopsAtAnyComma 0 ts = ts ∧ opts = optionsText ts ++ q :: s)))
    ∧ (∀ ts : List OptToken, nestedComma 0 ts = false →
        scanned stopsAtTopLevelComma 0 ts = scanned stopsAtAnyComma 0 ts)
    ∧ MetaSQLQueryPrivate.parse_query 100 MetaSQLQueryPrivate.new foreachATemplate
        = some (ParseResult.returned true ⟨true, some foreachATree, []⟩)
    ∧ MetaSQLQueryPrivate.parse_query 100 MetaSQLQueryPrivate.new "<? foreach(xs) ?>".toList
        = some (ParseResult.returned false
            ⟨false, some (rootOf []), "Failed to create new foreach block.\n".toList⟩)
    ∧ loopVarLoop "(\"a\\\"b\")".toList false 0 dquote [] = some ['a', dquote, 'b']
    ∧ loopVarLoop "((\"a\") \"b\")".toList false 0 dquote [] = some ['a', 'b']
    ∧ loopVarLoop "(\"a\") \"b\"".toList false 0 dquote [] = some ['a']
    ∧ loopVarLoop "((\"a\", \"b\"))".toList false 0 dquote [] = some ['a'] := by
  refine ⟨fun logger opts wip blocks h =>
      ⟨new_foreach logger opts wip h, directive_foreach logger opts wip blocks h⟩,
    ?_, ?_, fun opts => options_tokens opts.length opts 0 (Nat.le_refl _),
    fun ts h => scanned_topLevel ts 0 h,
    by decide!, by decide!, by decide!, by decide!, by decide!, by decide!⟩
  · intro ts rest opts hts hrest hopts
    have hloop : loopVarLoop (trim opts) false 0 dquote []
        = some (quotedContents (scanned stopsAtAnyComma 0 ts)) := by
      rw [hopts, loopVarLoop_tokens ts hts rest 0 dquote [] hrest]
      rfl
    exact ⟨hloop, quotedContents_nil _,
      fun logger blocks => directive_foreach logger opts _ blocks hloop⟩
  · intro ts q s opts hts hq hu hsc hopts
    have hloop : loopVarLoop (trim opts) false 0 dquote []
        = (if danglingBackslash s then none else some (quotedContents ts ++ unescape s)) := by
      rw [hopts, loopVarLoop_unclosed ts hts q hq s hu 0 dquote [] hsc]
      rfl
    refine ⟨hloop, fun logger blocks => ?_⟩
    cases hd : danglingBackslash s with
    | true =>
      rw [hd] at hloop
      unfold directive
      rw [if_neg (by decide), if_pos (by decide),
        new_foreach_thrown logger opts (by simpa using hloop)]
      rfl
    | false =>
      rw [hd] at hloop
      rw [directive_foreach logger opts _ blocks hloop]
      rfl

/-- C30, witness: the options `(("a") "b")` are two parentheses, the string `a`, a `)` that leaves
one parenthesis open, a blank, the string `b` and the `)` that ends the scan; the loop variable
is `ab` and the directive opens the block. -/
theorem C30_foreach_loop_variable_witness :
    loopVarLoop (trim "((\"a\") \"b\")".toList) false 0 dquote []
        = some (quotedContents (scanned stopsAtAnyComma 0 nestedParenOptions))
    ∧ quotedContents (scanned stopsAtAnyComma 0 nestedParenOptions) = ['a', 'b']
    ∧ directive "foreach".toList "((\"a\") \"b\")".toList rootBlocks []
        = DirectiveResult.ok
            (⟨⟨true, BlockForEach, ['a', 'b'], false, none⟩, [], []⟩ :: rootBlocks) [] :=
  have h := C30_foreach_loop_variable.2.1 nestedParenOptions [] "((\"a\") \"b\")".toList
    (by
      intro t ht
      simp only [nestedParenOptions, List.mem_cons, List.mem_singleton, List.not_mem_nil,
        or_false] at ht
      rcases ht with e | e | e | e | e | e | e <;> subst e <;>
        (unfold OptToken.WellFormed; decide))
    (Or.inl rfl) (by decide!)
  ⟨h.1, by decide!, by decide!⟩

/-- C30, counterexample. In the options `((, "a"))` the `,` stands inside two parentheses, so it
is not a top-level one, and the quoted string `a` stands before the `)` that closes the outermost
parenthesis: by the claim the loop variable is `a` and the directive compiles. The scan ends at
that `,`: the loop variable is empty and `<? foreach((, "a")) ?>` fails to compile with the line
`Failed to create new foreach block.`. -/
theorem C30_nested_comma_counterexample :
    optionsText nestedCommaOptions = "((, \"a\"))".toList
    ∧ nestedComma 0 nestedCommaOptions = true
    ∧ quotedContents (scanned stopsAtTopLevelComma 0 nestedCommaOptions) = ['a']
    ∧ quotedContents (scanned stopsAtAnyComma 0 nestedCommaOptions) = []
    ∧ loopVarLoop (trim "((, \"a\"))".toList) false 0 dquote [] = some []
    ∧ MetaSQLQueryPrivate.parse_query 100 MetaSQLQueryPrivate.new
          "<? foreach((, \"a\")) ?>".toList
        = some (ParseResult.returned false
            ⟨false, some (rootOf []), "Failed to create new foreach block.\n".toList⟩) := by
  refine ⟨by decide!, by decide!, by decide!, by decide!, by decide!, by decide!⟩

/-- C28. During `parse_query` the stack of open blocks is the root generic block, never replaced,
below blocks opened by `if`, `foreach`, `elseif` and `else`: this holds at the start, is kept by
every iteration of the loop, and so holds after any number of iterations. Such a stack is not
empty and its bottom element is the root. `endif` and `endforeach` pop a block only above another
one, so `_blocks.back()` after the pop is defined; `elseif` and `else` replace only a block that
has one below; the only exceptions in the handling of a directive are those of the argument
parsers. The pointers follow: `_current` is the last element of `_blocks` and `_top` its first,
at the start and after the assignments of every directive that does not end `parse_query`.
`<? endif ?>` and `<? endforeach ?>` on the root fail with a diagnostic. On
`<? if exists("x") ?>A<? else ?>B<? endif ?>` the stack after one, two and three iterations is the
`if` block over the root, the `else` block over the root, and the root alone. -/
theorem C28_root_stays_at_bottom :
    OpenStack rootBlocks
    ∧ (∀ (query : Str) (valid : Bool) (fuel : Nat) (st st' : ParseState),
        OpenStack st.blocks → parseStep query valid fuel st = some (Step.next st') →
        OpenStack st'.blocks)
    ∧ (∀ (query : Str) (d : MetaSQLQueryPrivate) (fuel k : Nat) (st : ParseState),
        stateAfter query d.valid fuel k ⟨0, 0, rootBlocks, d.logger⟩ = some st →
        OpenStack st.blocks)
    ∧ (∀ blocks : List OpenBlock, OpenStack blocks →
        blocks ≠ [] ∧ closeAll blocks ≠ none
        ∧ ∃ root, blocks.getLast? = some root
            ∧ root.head = ⟨true, BlockGeneric, [], false, none⟩ ∧ root.chain = [])
    ∧ (∀ (cmd options : Str) (blocks blocks' : List OpenBlock) (logger logger' : Str),
        OpenStack blocks → cmd = "endif".toList ∨ cmd = "endforeach".toList →
        directive cmd options blocks logger = DirectiveResult.ok blocks' logger' →
        ∃ b parent rest, blocks = b :: parent :: rest ∧ OpenStack (parent :: rest)
          ∧ blocks' = parent.append b.close :: rest)
    ∧ (∀ (cmd options : Str) (blocks blocks' : List OpenBlock) (logger logger' : Str),
        OpenStack blocks → cmd = "elseif".toList ∨ cmd = "else".toList →
        directive cmd options blocks logger = DirectiveResult.ok blocks' logger' →
        ∃ (cur parent : OpenBlock) (rest : List OpenBlock) (x : OpenBlock),
          blocks = cur :: parent :: rest ∧ OpenStack (parent :: rest)
          ∧ blocks' = x :: parent :: rest)
    ∧ (∀ (cmd options : Str) (blocks : List OpenBlock) (logger : Str), OpenStack blocks →
        directive cmd options blocks logger = DirectiveResult.thrown →
        ((cmd = "if".toList ∨ cmd = "foreach".toList ∨ cmd = "elseif".toList
            ∨ cmd = "else".toList) ∧ MetaSQLBlock.new logger cmd options = none)
        ∨ (cmd ∉ blockKeywords ∧ parseParams (trim options) = none))
    ∧ (∀ top : Nat, (Pointers.start top).Agree rootBlocks)
    ∧ (∀ (cmd options : Str) (blocks blocks' : List OpenBlock) (logger logger' : Str)
        (p : Pointers) (b : Nat), OpenStack blocks → p.Agree blocks →
        directive cmd options blocks logger = DirectiveResult.ok blocks' logger' →
        ∃ p', p.step cmd b = some p' ∧ p'.Agree blocks' ∧ p'.top = p.top)
    ∧ MetaSQLQueryPrivate.parse_query 100 MetaSQLQueryPrivate.new "<? endif ?>".toList
        = some (ParseResult.returned false
            ⟨false, some (rootOf []), "Encountered an unexpected endif.\n".toList⟩)
    ∧ MetaSQLQueryPrivate.parse_query 100 MetaSQLQueryPrivate.new "<? endforeach ?>".toList
        = some (ParseResult.returned false
            ⟨false, some (rootOf []), "Encountered an unexpected endforeach.\n".toList⟩)
    ∧ (stateAfter ifElseTemplate false 100 1 ⟨0, 0, rootBlocks, []⟩).map
          (fun st => st.blocks.map (fun b => b.head.block))
        = some [BlockIf, BlockGeneric]
    ∧ (stateAfter ifElseTemplate false 100 2 ⟨0, 0, rootBlocks, []⟩).map
          (fun st => st.blocks.map (fun b => b.head.block))
        = some [BlockElse, BlockGeneric]
    ∧ (stateAfter ifElseTemplate false 100 3 ⟨0, 0, rootBlocks, []⟩).map
          (fun st => st.blocks.map (fun b => b.head.block))
        = some [BlockGeneric] := by
  refine ⟨openStack_root, parseStep_openStack,
    fun query d fuel k st h => stateAfter_openStack query d.valid fuel k _ st openStack_root h,
    ?_, ?_, ?_, directive_thrown, pointers_start, pointers_step,
    by decide!, by decide!, by decide!, by decide!, by decide!⟩
  · intro blocks h
    refine ⟨openStack_ne h, ?_, ?_⟩
    · cases blocks with
      | nil => exact absurd rfl (openStack_ne h)
      | cons b rest => simp [closeAll]
    · obtain ⟨upper, root, rfl, h1, h2, _⟩ := h
      exact ⟨root, by simp, h1, h2⟩
  · intro cmd options blocks blocks' logger logger' h hcmd hd
    rcases directive_shape cmd options blocks blocks' logger logger' h hd with
      ⟨_, b, parent, rest, e1, hrest, e2⟩ | ⟨hend, _⟩ | ⟨hend, _⟩ | ⟨hend, _⟩
    · exact ⟨b, parent, rest, e1, hrest, e2⟩
    · exact absurd hcmd hend
    · exact absurd hcmd hend
    · exact absurd hcmd hend
  · intro cmd options blocks blocks' logger logger' h hcmd hd
    rcases directive_shape cmd options blocks blocks' logger logger' h hd with
      ⟨hend, _⟩ | ⟨_, hopen, _⟩ | ⟨_, _, _, cur, parent, rest, x, e1, hrest, _, e2⟩
      | ⟨_, _, hrepl, _⟩
    · rcases hcmd with e | e <;> rcases hend with e2 | e2 <;> subst e <;>
        exact absurd e2 (by decide)
    · rcases hcmd with e | e <;> rcases hopen with e2 | e2 <;> subst e <;>
        exact absurd e2 (by decide)
    · exact ⟨cur, parent, rest, x, e1, hrest, e2⟩
    · exact absurd hcmd hrepl

/-- C23 (code bug). The template is `pre`, a quote `q`, `body`, the quote `q` again and `post`,
where `pre` and `post` contain none of `'`, `"`, `-`, `/`, `<` and every `q` in `body` is escaped
by a backslash. When `body` does not end in an escaping backslash, `parse_query` returns `true`
with the whole template as the one text node: nothing in the string is interpreted, and
`populate` returns the template trimmed and leaves the `MetaSQLInfo` as it was. When `body` ends
in an escaping backslash (as in `'a\'`), that backslash escapes the closing quote, the end of the
string is not found, the loop is left with `currPos == npos` before the pending text is flushed:
the root block has no child and `populate` returns the empty string, not the trimmed template. -/
theorem C23_quoted_string_verbatim (regexec : Str → Str → Option Bool) (pre body post : Str)
    (q : Char) (d : MetaSQLQueryPrivate) (params : ParameterList) (mif : MetaSQLInfo)
    (fuel : Nat) (hpre : Plain pre) (hpost : Plain post) (hq : q = squote ∨ q = dquote)
    (hu : unescapedQuote q body = false) (hfuel : body.length + post.length + 3 ≤ fuel)
    (hlen : (pre ++ q :: (body ++ q :: post)).length < npos) :
    (danglingBackslash body = false →
      MetaSQLQueryPrivate.parse_query fuel d (pre ++ q :: (body ++ q :: post))
          = some (ParseResult.returned true
              ⟨true, some (rootOf [MetaSQLOutput.string (pre ++ q :: (body ++ q :: post))]),
                d.logger⟩)
        ∧ (MetaSQLQueryPrivate.mk true
              (some (rootOf [MetaSQLOutput.string (pre ++ q :: (body ++ q :: post))]))
              d.logger).populate regexec params mif
            = some (trim (pre ++ q :: (body ++ q :: post)), mif, d.logger))
    ∧ (danglingBackslash body = true →
      MetaSQLQueryPrivate.parse_query fuel d (pre ++ q :: (body ++ q :: post))
          = some (ParseResult.returned true ⟨true, some (rootOf []), d.logger⟩)
        ∧ (MetaSQLQueryPrivate.mk true (some (rootOf [])) d.logger).populate regexec params mif
            = some ([], mif, d.logger)
        ∧ trim (pre ++ q :: (body ++ q :: post)) ≠ []) := by
  constructor
  · intro hd
    refine ⟨quoted_parse pre body post q d.valid fuel d.logger hpre hpost hq hu hd (by omega)
      hlen, ?_⟩
    simp [MetaSQLQueryPrivate.populate, rootOf, MetaSQLOutput.toString, toStringItems]
  · intro hd
    refine ⟨quoted_dangling pre body post q d.valid fuel d.logger hpre hpost hq hu hd hfuel
      hlen, rfl, ?_⟩
    apply trim_keeps
    rcases hq with h | h <;> subst h <;> decide

/-- C23, witness: the template `'a\'`, whose body `a\` contains no quote, compiles to a root block
without children and renders as the empty string; the template `x'a\'b--c<? z ?>/*'y`, where the
quote of the body is escaped, compiles to one text node and renders as itself. -/
theorem C23_quoted_string_verbatim_witness :
    (MetaSQLQueryPrivate.parse_query 5 MetaSQLQueryPrivate.new
          ([] ++ squote :: (['a', backslash] ++ squote :: []))
        = some (ParseResult.returned true ⟨true, some (rootOf []), []⟩)
      ∧ (MetaSQLQueryPrivate.mk true (some (rootOf [])) []).populate noRegex [] MetaSQLInfo.new
          = some ([], MetaSQLInfo.new, [])
      ∧ trim ([] ++ squote :: (['a', backslash] ++ squote :: [])) ≠ [])
    ∧ MetaSQLQueryPrivate.parse_query 30 MetaSQLQueryPrivate.new
          "x'a\\'b--c<? z ?>/*'y".toList
        = some (ParseResult.returned true
            ⟨true, some (rootOf [MetaSQLOutput.string "x'a\\'b--c<? z ?>/*'y".toList]), []⟩)
    ∧ (MetaSQLQueryPrivate.mk true
          (some (rootOf [MetaSQLOutput.string "x'a\\'b--c<? z ?>/*'y".toList]))
          []).populate noRegex [] MetaSQLInfo.new
        = some ("x'a\\'b--c<? z ?>/*'y".toList, MetaSQLInfo.new, []) :=
  ⟨(C23_quoted_string_verbatim noRegex [] ['a', backslash] [] squote MetaSQLQueryPrivate.new []
      MetaSQLInfo.new 5 (by unfold Plain; decide) (by unfold Plain; decide) (Or.inl rfl)
      (by decide) (by decide) (by decide)).2 (by decide),
    (C23_quoted_string_verbatim noRegex ['x'] "a\\'b--c<? z ?>/*".toList ['y'] squote
      MetaSQLQueryPrivate.new [] MetaSQLInfo.new 30 (by unfold Plain; decide)
      (by unfold Plain; decide) (Or.inl rfl) (by decide) (by decide) (by decide)).1
      (by decide)⟩

/-- C24 (amended). When the scan of `parse_query` stops at a `/*`, and the `*/` that closes it
is found by counting every `/*` and every `*/` behind it, the loop appends one comment node that
runs from that `/*` through the closing `*/` (its stored text lacks the last `/`), emits nothing
in front of that `*/`, and goes on behind it. This holds in every template, whatever stands
before the comment and behind it. A comment made of `/*`, a text, delimiters `/*` and `*/` that
form properly nested pairs, each followed by a text, and the closing `*/` ends at that closing
`*/` whenever no text holds a `/*` or a `*/` and none is formed across the boundary between a
text and a delimiter or between two delimiters. When such a comment stands between two plain
texts `A` and `B`, the children of the root are `A`, the comment and `B`, they concatenate to
`A`, one space and `B`, and `populate` returns that text trimmed and leaves the `MetaSQLInfo` as
it was. -/
theorem C24_nested_comment (regexec : Str → Str → Option Bool) :
    (∀ (query : Str) (valid : Bool) (fuel : Nat) (st : ParseState) (blocks : List OpenBlock)
        (p e : Nat),
        find_first_of query [squote, dquote, '-', '/', '<'] st.currPos = p →
        foundWhat query p = some 2 → flushText query st p = some blocks →
        matchingClose (query.drop (p + 1)) 0 (p + 1) = some e →
        query.length < npos → query.length ≤ fuel →
        parseStep query valid fuel st
          = some (Step.next ⟨e + 2, e + 2,
              appendCurrent blocks (MetaSQLOutput.comment ((query.drop p).take (e + 1 - p))),
              st.logger⟩))
    ∧ (∀ (P X0 R : Str) (items : List (Bool × Str)) (valid : Bool) (fuel : Nat)
        (st : ParseState) (blocks : List OpenBlock),
        find_first_of (P ++ ('/' :: '*' :: (X0 ++ delimText items) ++ '*' :: '/' :: R))
          [squote, dquote, '-', '/', '<'] st.currPos = P.length →
        flushText (P ++ ('/' :: '*' :: (X0 ++ delimText items) ++ '*' :: '/' :: R)) st P.length
          = some blocks →
        delimsApart true X0 items → nestedPairs items 0 = true →
        (P ++ ('/' :: '*' :: (X0 ++ delimText items) ++ '*' :: '/' :: R)).length < npos →
        (P ++ ('/' :: '*' :: (X0 ++ delimText items) ++ '*' :: '/' :: R)).length ≤ fuel →
        parseStep (P ++ ('/' :: '*' :: (X0 ++ delimText items) ++ '*' :: '/' :: R)) valid fuel st
          = some (Step.next
              ⟨(P ++ ('/' :: '*' :: (X0 ++ delimText items) ++ ['*', '/'])).length,
                (P ++ ('/' :: '*' :: (X0 ++ delimText items) ++ ['*', '/'])).length,
                appendCurrent blocks
                  (MetaSQLOutput.comment ('/' :: '*' :: (X0 ++ delimText items) ++ ['*'])),
                st.logger⟩))
    ∧ (∀ (A X0 B : Str) (items : List (Bool × Str)) (d : MetaSQLQueryPrivate)
        (params : ParameterList) (mif : MetaSQLInfo) (fuel : Nat),
        Plain A → Plain B → delimsApart true X0 items → nestedPairs items 0 = true →
        (A ++ ('/' :: '*' :: (X0 ++ delimText items) ++ '*' :: '/' :: B)).length + 1 ≤ fuel →
        (A ++ ('/' :: '*' :: (X0 ++ delimText items) ++ '*' :: '/' :: B)).length < npos →
        MetaSQLQueryPrivate.parse_query fuel d
            (A ++ ('/' :: '*' :: (X0 ++ delimText items) ++ '*' :: '/' :: B))
          = some (ParseResult.returned true
              ⟨true, some (rootOf (textNode A
                ++ [MetaSQLOutput.comment ('/' :: '*' :: (X0 ++ delimText items) ++ ['*']),
                  MetaSQLOutput.string B])), d.logger⟩)
        ∧ toStringItems regexec
              (textNode A
                ++ [MetaSQLOutput.comment ('/' :: '*' :: (X0 ++ delimText items) ++ ['*']),
                  MetaSQLOutput.string B])
              params ⟨mif, d.logger, none, none⟩
            = some (A ++ ' ' :: B, ⟨mif, d.logger, none, none⟩)
        ∧ (MetaSQLQueryPrivate.mk true
              (some (rootOf (textNode A
                ++ [MetaSQLOutput.comment ('/' :: '*' :: (X0 ++ delimText items) ++ ['*']),
                  MetaSQLOutput.string B]))) d.logger).populate regexec params mif
            = some (trim (A ++ ' ' :: B), mif, d.logger)) := by
  refine ⟨?_, ?_, ?_⟩
  · intro query valid fuel st blocks p e hp hfw hflush hm hlen hf
    exact parseStep_matching query valid fuel st blocks p e hp hfw hflush hm hlen hf
  · intro P X0 R items valid fuel st blocks hp hflush hap hn hlen hf
    exact parseStep_nested P X0 R items valid fuel st blocks hp hflush hap hn hlen hf
  · intro A X0 B items d params mif fuel hA hB hap hn hfuel hlen
    have hr := render_blockComment regexec A ('/' :: '*' :: (X0 ++ delimText items) ++ ['*']) B
      params ⟨mif, d.logger, none, none⟩ rfl
    exact ⟨nested_parse A X0 B items d.valid fuel d.logger hA hB hap hn hfuel hlen, hr,
      populate_root regexec _ d.logger _ params mif hr⟩

/-- C24, witness: `/* a /* b */ c */ d`, `/* 2*3 /* x */ y */ d` and `/* a/b /* x */ y */ d` are
one comment node followed by the text ` d`, and render `d`. In `a/*/b` the `*/` counted behind
the `/*` shares its `*`: the comment node is `/*` and the loop goes on at `b`. In
`ab/* a /* b */ c */<? x` the first iteration appends the text `ab` and the comment
`/* a /* b */ c *`, and goes on at the `<`. -/
theorem C24_nested_comment_witness :
    (MetaSQLQueryPrivate.parse_query 25 MetaSQLQueryPrivate.new "/* a /* b */ c */ d".toList
        = some (ParseResult.returned true
            ⟨true, some (rootOf [MetaSQLOutput.comment "/* a /* b */ c *".toList,
              MetaSQLOutput.string " d".toList]), []⟩)
      ∧ (MetaSQLQueryPrivate.mk true
            (some (rootOf [MetaSQLOutput.comment "/* a /* b */ c *".toList,
              MetaSQLOutput.string " d".toList])) []).populate noRegex [] MetaSQLInfo.new
          = some (['d'], MetaSQLInfo.new, []))
    ∧ (MetaSQLQueryPrivate.parse_query 25 MetaSQLQueryPrivate.new "/* 2*3 /* x */ y */ d".toList
        = some (ParseResult.returned true
            ⟨true, some (rootOf [MetaSQLOutput.comment "/* 2*3 /* x */ y *".toList,
              MetaSQLOutput.string " d".toList]), []⟩)
      ∧ (MetaSQLQueryPrivate.mk true
            (some (rootOf [MetaSQLOutput.comment "/* 2*3 /* x */ y *".toList,
              MetaSQLOutput.string " d".toList])) []).populate noRegex [] MetaSQLInfo.new
          = some (['d'], MetaSQLInfo.new, []))
    ∧ (MetaSQLQueryPrivate.parse_query 25 MetaSQLQueryPrivate.new "/* a/b /* x */ y */ d".toList
        = some (ParseResult.returned true
            ⟨true, some (rootOf [MetaSQLOutput.comment "/* a/b /* x */ y *".toList,
              MetaSQLOutput.string " d".toList]), []⟩)
      ∧ (MetaSQLQueryPrivate.mk true
            (some (rootOf [MetaSQLOutput.comment "/* a/b /* x */ y *".toList,
              MetaSQLOutput.string " d".toList])) []).populate noRegex [] MetaSQLInfo.new
          = some (['d'], MetaSQLInfo.new, []))
    ∧ parseStep "a/*/b".toList true 5 ⟨0, 0, rootBlocks, []⟩
        = some (Step.next ⟨4, 4,
            appendCurrent (appendCurrent rootBlocks (MetaSQLOutput.string ['a']))
              (MetaSQLOutput.comment ['/', '*']), []⟩)
    ∧ parseStep "ab/* a /* b */ c */<? x".toList true 30 ⟨0, 0, rootBlocks, []⟩
        = some (Step.next ⟨19, 19,
            appendCurrent (appendCurrent rootBlocks (MetaSQLOutput.string ['a', 'b']))
              (MetaSQLOutput.comment "/* a /* b */ c *".toList), []⟩) :=
  have h1 := (C24_nested_comment noRegex).2.2 [] " a ".toList " d".toList
    [(true, " b ".toList), (false, " c ".toList)] MetaSQLQueryPrivate.new [] MetaSQLInfo.new 25
    (by unfold Plain; decide) (by unfold Plain; decide)
    (by simp only [delimsApart, Apart]; decide) (by decide) (by decide) (by decide)
  have h2 := (C24_nested_comment noRegex).2.2 [] " 2*3 ".toList " d".toList
    [(true, " x ".toList), (false, " y ".toList)] MetaSQLQueryPrivate.new [] MetaSQLInfo.new 25
    (by unfold Plain; decide) (by unfold Plain; decide)
    (by simp only [delimsApart, Apart]; decide) (by decide) (by decide) (by decide)
  have h3 := (C24_nested_comment noRegex).2.2 [] " a/b ".toList " d".toList
    [(true, " x ".toList), (false, " y ".toList)] MetaSQLQueryPrivate.new [] MetaSQLInfo.new 25
    (by unfold Plain; decide) (by unfold Plain; decide)
    (by simp only [delimsApart, Apart]; decide) (by decide) (by decide) (by decide)
  ⟨⟨h1.1, h1.2.2⟩, ⟨h2.1, h2.2.2⟩, ⟨h3.1, h3.2.2⟩,
    (C24_nested_comment noRegex).1 "a/*/b".toList true 5 ⟨0, 0, rootBlocks, []⟩
      (appendCurrent rootBlocks (MetaSQLOutput.string ['a'])) 1 2 (by decide!) (by decide!)
      (by decide!) (by decide!) (by decide) (by decide),
    (C24_nested_comment noRegex).2.1 ['a', 'b'] " a ".toList "<? x".toList
      [(true, " b ".toList), (false, " c ".toList)] true 30 ⟨0, 0, rootBlocks, []⟩
      (appendCurrent rootBlocks (MetaSQLOutput.string ['a', 'b'])) (by decide!) (by decide!)
      (by simp only [delimsApart, Apart]; decide) (by decide) (by decide) (by decide)⟩

/-- C24, counterexample. In `/* a /* b */*/ d` the inner pair `/* b */` is properly nested and
directly followed by the closing `*/`. The `/` of the inner `*/` and the `*` of the closing `*/`
are found as one more `/*` before the tracked end, the search for the end is extended once more
and finds nothing: the comment node runs to the end of the template and the render is empty, not
`d`. In `/*/* a */*/` the `*/` searched from the outermost `/*` on is found at its second
character, and the render is `* a *`. In both templates a delimiter is formed across the
boundary between two delimiters. -/
theorem C24_adjacent_delimiters_counterexample :
    ¬ delimsApart true " a ".toList [(true, " b ".toList), (false, [])]
    ∧ ¬ delimsApart true [] [(true, " a ".toList), (false, [])]
    ∧ nestedPairs [(true, " b ".toList), (false, [])] 0 = true
    ∧ "/* a /* b */*/ d".toList
        = [] ++ ('/' :: '*' :: (" a ".toList ++ delimText [(true, " b ".toList), (false, [])])
            ++ '*' :: '/' :: " d".toList)
    ∧ MetaSQLQueryPrivate.parse_query 100 MetaSQLQueryPrivate.new "/* a /* b */*/ d".toList
        = some (ParseResult.returned true
            ⟨true, some (rootOf [MetaSQLOutput.comment "/* a /* b */*/ d".toList]), []⟩)
    ∧ (MetaSQLQueryPrivate.mk true
          (some (rootOf [MetaSQLOutput.comment "/* a /* b */*/ d".toList]))
          []).populate noRegex [] MetaSQLInfo.new
        = some ([], MetaSQLInfo.new, [])
    ∧ nestedPairs [(true, " a ".toList), (false, [])] 0 = true
    ∧ "/*/* a */*/".toList
        = [] ++ ('/' :: '*' :: ([] ++ delimText [(true, " a ".toList), (false, [])])
            ++ '*' :: '/' :: [])
    ∧ MetaSQLQueryPrivate.parse_query 100 MetaSQLQueryPrivate.new "/*/* a */*/".toList
        = some (ParseResult.returned true
            ⟨true, some (rootOf [MetaSQLOutput.comment "/*".toList,
              MetaSQLOutput.string "* a *".toList, MetaSQLOutput.comment "/*".toList,
              MetaSQLOutput.string []]), []⟩)
    ∧ (MetaSQLQueryPrivate.mk true
          (some (rootOf [MetaSQLOutput.comment "/*".toList,
            MetaSQLOutput.string "* a *".toList, MetaSQLOutput.comment "/*".toList,
            MetaSQLOutput.string []])) []).populate noRegex [] MetaSQLInfo.new
        = some ("* a *".toList, MetaSQLInfo.new, []) := by
  refine ⟨by simp only [delimsApart, Apart]; decide, by simp only [delimsApart, Apart]; decide,
    by decide, by decide, by decide!, by decide!, by decide, by decide, by decide!, by decide!⟩

end MetaSQL
